import Mathlib

/-!
The conv-tree package: adaptive (ConvTree) and naive (QuadTree) quadrant trees.

A shallow embedding of `conv-tree.go` and `quad-tree.go`.

Conventions of the embedding:

* `float64` is modelled by exact rationals `ℚ`: rounding, infinities and NaN are
  not modelled, and a division by zero yields `0` (Lean's convention) where Go
  yields NaN or an infinity.  The one computation on which rounding decides a
  statement, the clamped cut of `split()`, is modelled a second time with every
  operation rounded to float64 (`roundFloat64`, `clampCut64`, `cutX64`, `cutY64`).
* Go's `int` is modelled by `Int`.  The sums of point weights, whose terms the
  caller chooses, wrap around at 64 bits as Go's do (`wrapInt`); counters, depths
  and indexes, which are bounded by slice lengths, are not wrapped.
* A slice is a `List`; a nil slice and an empty slice are the same list.
* A run-time panic (index out of range, negative `make` length, nil pointer
  dereference) is the `Except.error` of a `Fault`.  The unbounded `for` loop of
  `getSplitPoint` and the recursion of `split` are given an explicit iteration
  budget; running out of it is the fault `outOfFuel`, which `split_noFuel`,
  `NewConvTree_noFuel`, `Insert_noFuel` and `Check_noFuel` show never to occur.
* The `ID` field (a random UUID), the package variables `initXSize`/`initYSize`
  (written, never read), printing and plotting are left out.
-/

namespace ConvTreeModel

/-- Ways in which a run can stop without returning. -/
inductive Fault where
  | indexOutOfRange
  | negativeLen
  | nilDereference
  | outOfFuel
deriving DecidableEq

deriving instance DecidableEq for Except

/-- Modelled from the spec: the `Point` type is declared outside the two source
files; the spec gives it coordinates, an integer weight and an optional tag
payload. `Content` is Go's `interface{}` restricted to the two dynamic types the
code handles: nil and `[]string`. -/
structure Point where
  X : ℚ
  Y : ℚ
  Weight : Int
  Content : Option (List String)
deriving DecidableEq

/-- Modelled from the spec: the `CellStats` type is declared outside the two
source files; its four fields are the ones `getStats` and `getBaseline` write. -/
structure CellStats where
  PointsNumber : Int
  CenterPoint : Point
  AvgDistance : ℚ
  BaselineTags : List String
deriving DecidableEq

/-- Go's zero value `Point{}`. -/
def Point.zero : Point := ⟨0, 0, 0, none⟩

/-- Go's zero value `CellStats{}`. -/
def CellStats.zero : CellStats := ⟨0, Point.zero, 0, []⟩

/-- A two-dimensional slice `[][]float64`. -/
abbrev Grid := List (List ℚ)

/-- Modelled from the spec: `stat.Mean(xs, nil)` of the gonum library, the
arithmetic mean of a sequence of numbers. -/
def Mean (xs : List ℚ) : ℚ := xs.foldl (fun acc v => acc + v) 0 / (xs.length : ℚ)

/-- The constant `math.MaxFloat64`, `(2 - 2^(-52)) * 2^1023`. -/
def MaxFloat64 : ℚ := 2 ^ 1024 - 2 ^ 971

/-- The conversion `int(f)` of a float: truncation toward zero. -/
def truncToInt (q : ℚ) : Int := if 0 ≤ q then ⌊q⌋ else ⌈q⌉

/-! ## Fallible loops and indexing -/

/-- A loop that builds one result per element and stops at the first fault. -/
def mapE {α β : Type} (f : α → Except Fault β) : List α → Except Fault (List β)
  | [] => .ok []
  | a :: as =>
    match f a with
    | .error e => .error e
    | .ok b =>
      match mapE f as with
      | .error e => .error e
      | .ok bs => .ok (b :: bs)

/-- A loop that threads a state through the elements and stops at the first fault. -/
def foldE {σ α : Type} (f : σ → α → Except Fault σ) : σ → List α → Except Fault σ
  | s, [] => .ok s
  | s, a :: as =>
    match f s a with
    | .error e => .error e
    | .ok s' => foldE f s' as

/-- The read `row[j]`. -/
def at1 (row : List ℚ) (j : Int) : Except Fault ℚ :=
  if j < 0 then .error .indexOutOfRange
  else
    match row[j.toNat]? with
    | some v => .ok v
    | none => .error .indexOutOfRange

/-- The read `grid[i][j]`. -/
def at2 (grid : Grid) (i j : Int) : Except Fault ℚ :=
  if i < 0 then .error .indexOutOfRange
  else
    match grid[i.toNat]? with
    | some row => at1 row j
    | none => .error .indexOutOfRange

/-- The integers `lo, lo+1, ..., lo+n-1` a counting `for` loop runs through. -/
def intRange (lo : Int) (n : Nat) : List Int :=
  (List.range n).map (fun (k : Nat) => lo + (k : Int))

/-! ## normalizeGrid (conv-tree.go 719-734) -/

/-- The first `w` cells of a row, which is what the loops `j < len(grid[0])` visit,
and the rest; a row shorter than `w` makes `grid[i][j]` panic. -/
def rowCells (w : Nat) (row : List ℚ) : Except Fault (List ℚ × List ℚ) :=
  if row.length < w then .error .indexOutOfRange else .ok (row.take w, row.drop w)

/-- The maximum search of `normalizeGrid`, started at `-math.MaxFloat64`. -/
def gridMax (rows : List (List ℚ × List ℚ)) : ℚ :=
  rows.foldl (fun maxValue r => r.1.foldl (fun m v => if v > m then v else m) maxValue) (-MaxFloat64)

/-- The function `normalizeGrid`: divide every visited cell by the largest visited cell. -/
def normalizeGrid (grid : Grid) : Except Fault Grid :=
  match grid with
  | [] => .ok []
  | r0 :: _ =>
    match mapE (rowCells r0.length) grid with
    | .error e => .error e
    | .ok rows =>
      let maxValue := gridMax rows
      .ok (rows.map (fun r => r.1.map (fun v => v / maxValue) ++ r.2))

/-! ## convolve (conv-tree.go 647-706) -/

/-- One copied row of `procGrid` (lines 673-678): a zero, the cells
`grid[i-padding][j-padding]` for `j = 1 .. m-2`, a zero. -/
def procRow (grid : Grid) (padding : Int) (m : Nat) (i : Int) : Except Fault (List ℚ) :=
  match mapE (fun j : Int => at2 grid (i - padding) (j - padding)) (intRange 1 (m - 2)) with
  | .error e => .error e
  | .ok cells => .ok ((0 : ℚ) :: cells ++ [0])

/-- The padded grid `procGrid` of `convolve` (lines 665-685), for `padding ≥ 1`.
The three loops are kept apart: the zero rows at the top, the rows `1 .. m-2`
copied from `grid`, the zero rows at the bottom. -/
def procGridOf (grid : Grid) (padding : Int) : Except Fault Grid :=
  let m : Nat := (grid.length + 2 * padding).toNat
  let p : Nat := padding.toNat
  let zeroRow : List ℚ := List.replicate m 0
  let rows1 : Grid := List.replicate p zeroRow ++ List.replicate (m - p) []
  match mapE (procRow grid padding m) (intRange 1 (m - 2)) with
  | .error e => .error e
  | .ok inner =>
    let rows2 : Grid := rows1.take 1 ++ inner ++ rows1.drop (m - 1)
    .ok (rows2.take (m - p) ++ List.replicate p zeroRow)

/-- One kernel tap (lines 695-699): added to `total` when it falls inside `procGrid`. -/
def convTap (procGrid kernel : Grid) (stride i j x : Int) (total : ℚ) (y : Int) :
    Except Fault ℚ :=
  let posX := stride * i + x
  let posY := stride * j + y
  if posX ≥ 0 ∧ posX < (procGrid.length : Int) ∧ posY ≥ 0 ∧
      posY < (((procGrid.head?).getD []).length : Int) then
    match at2 procGrid posX posY with
    | .error e => .error e
    | .ok v =>
      match at2 kernel x y with
      | .error e => .error e
      | .ok k => .ok (total + v * k)
  else .ok total

/-- The inner loop over `y` for one `x` (lines 694-700). -/
def convTaps (procGrid kernel : Grid) (stride : Int) (kernelSize : Nat) (i j : Int)
    (total : ℚ) (x : Int) : Except Fault ℚ :=
  foldE (convTap procGrid kernel stride i j x) total (intRange 0 kernelSize)

/-- One output cell of `convolve` (lines 692-702): the kernel taps that fall
inside `procGrid`, summed in the order of the two loops. -/
def convCell (procGrid kernel : Grid) (stride : Int) (kernelSize : Nat) (i j : Int) :
    Except Fault ℚ :=
  foldE (convTaps procGrid kernel stride kernelSize i j) 0 (intRange 0 kernelSize)

/-- One output row of `convolve` (lines 690-703). -/
def convRow (procGrid kernel : Grid) (stride : Int) (kernelSize resultHeight : Nat) (i : Int) :
    Except Fault (List ℚ) :=
  mapE (convCell procGrid kernel stride kernelSize i) (intRange 0 resultHeight)

/-- Go's `convolve(grid, kernel, stride, padding)`. The outer `Except` is a panic, the
inner one is the Go `error` value returned next to a nil grid. -/
def convolve (grid kernel : Grid) (stride padding : Int) : Except Fault (Except String Grid) :=
  if stride < 1 then .ok (.error "convolutional stride must be larger than 0")
  else if padding < 1 then .ok (.error "convolutional padding must be larger than 0")
  else
    let kernelSize := kernel.length
    if grid.length < kernelSize then
      .ok (.error "grid width is less than convolutional kernel size")
    else
      match grid with
      | [] => .error .indexOutOfRange
      | r0 :: _ =>
        if r0.length < kernelSize then
          .ok (.error "grid height is less than convolutional kernel size")
        else
          match procGridOf grid padding with
          | .error e => .error e
          | .ok procGrid =>
            let resultWidth : Int := ((grid.length : Int) - kernelSize + 2 * padding) / stride + 1
            let resultHeight : Int := ((r0.length : Int) - kernelSize + 2 * padding) / stride + 1
            match mapE (convRow procGrid kernel stride kernelSize resultHeight.toNat)
                (intRange 0 resultWidth.toNat) with
            | .error e => .error e
            | .ok result => .ok (.ok result)

/-! ## getSplitPoint (conv-tree.go 272-371) -/

/-- The comparison of one cell in the search for the largest cell (lines 278-281). -/
def maxStep (grid : Grid) (i : Int) (acc : Int × Int × ℚ) (j : Int) :
    Except Fault (Int × Int × ℚ) :=
  match at2 grid i j with
  | .error e => .error e
  | .ok v => if v > acc.2.2 then .ok (i, j, v) else .ok acc

/-- The inner loop of the search over one row (lines 277-282). -/
def maxRow (grid : Grid) (w : Nat) (acc : Int × Int × ℚ) (i : Int) :
    Except Fault (Int × Int × ℚ) :=
  foldE (maxStep grid i) acc (intRange 0 w)

/-- The search for the largest cell (lines 274-283): `(maxX, maxY, maxValue)`. -/
def scanMax (grid : Grid) (w : Nat) : Except Fault (Int × Int × ℚ) :=
  foldE (maxRow grid w) ((0 : Int), (0 : Int), (0 : ℚ)) (intRange 0 grid.length)

/-- The variables one pass of the ring loop works on (lines 289-291). -/
structure Ring where
  itemFound : Bool
  x : Int
  y : Int
  vals : List ℚ
deriving DecidableEq

/-- One cell of the left ring column (lines 295-301). -/
def leftStep (grid : Grid) (w : Nat) (splitValue : ℚ) (i : Int) (r : Ring) (j : Int) :
    Except Fault Ring :=
  if j ≥ 0 ∧ j < (w : Int) then
    match at2 grid i j with
    | .error e => .error e
    | .ok v =>
      if v > splitValue then .ok { r with itemFound := true, x := i, vals := r.vals ++ [v] }
      else .ok r
  else .ok r

/-- The left ring column (lines 292-303). -/
def scanLeft (grid : Grid) (w : Nat) (maxX maxY : Int) (splitValue : ℚ) (counter : Int)
    (r : Ring) : Except Fault Ring :=
  let i := maxX - counter
  if i ≥ 0 then
    foldE (leftStep grid w splitValue i) r (intRange (maxY - counter) (2 * counter + 1).toNat)
  else .ok r

/-- One cell of the right ring column (lines 307-315). -/
def rightStep (grid : Grid) (w : Nat) (splitValue : ℚ) (i : Int) (r : Ring) (j : Int) :
    Except Fault Ring :=
  if j ≥ 0 ∧ j < (w : Int) then
    match at2 grid i j with
    | .error e => .error e
    | .ok v =>
      if v > splitValue then
        .ok { itemFound := true,
              x := if |((r.x - (grid.length : Int) / 2 : Int) : ℚ)| >
                      |((i - (grid.length : Int) / 2 : Int) : ℚ)| then i else r.x,
              y := r.y,
              vals := r.vals ++ [v] }
      else .ok r
  else .ok r

/-- The right ring column (lines 304-317). -/
def scanRight (grid : Grid) (w : Nat) (maxX maxY : Int) (splitValue : ℚ) (counter : Int)
    (r : Ring) : Except Fault Ring :=
  let i := maxX + counter
  if i < (grid.length : Int) then
    foldE (rightStep grid w splitValue i) r (intRange (maxY - counter) (2 * counter + 1).toNat)
  else .ok r

/-- One cell of the top ring row (lines 321-329). -/
def topStep (grid : Grid) (maxX : Int) (splitValue : ℚ) (counter i : Int) (r : Ring)
    (j : Int) : Except Fault Ring :=
  if j ≥ 0 ∧ j < (grid.length : Int) then
    match at2 grid j i with
    | .error e => .error e
    | .ok v =>
      if v > splitValue then
        .ok { itemFound := true, x := r.x, y := i,
              vals := if j ≠ maxX - counter ∧ j ≠ maxX + counter then r.vals ++ [v]
                      else r.vals }
      else .ok r
  else .ok r

/-- The top ring row (lines 318-331). -/
def scanTop (grid : Grid) (maxX maxY : Int) (splitValue : ℚ) (counter : Int)
    (r : Ring) : Except Fault Ring :=
  let i := maxY - counter
  if i ≥ 0 then
    foldE (topStep grid maxX splitValue counter i) r
      (intRange (maxX - counter) (2 * counter + 1).toNat)
  else .ok r

/-- One cell of the bottom ring row (lines 335-345). -/
def bottomStep (grid : Grid) (w : Nat) (maxX : Int) (splitValue : ℚ) (counter i : Int)
    (r : Ring) (j : Int) : Except Fault Ring :=
  if j ≥ 0 ∧ j < (grid.length : Int) then
    match at2 grid j i with
    | .error e => .error e
    | .ok v =>
      if v > splitValue then
        .ok { itemFound := true, x := r.x,
              y := if |((r.y - (w : Int) / 2 : Int) : ℚ)| > |((i - (w : Int) / 2 : Int) : ℚ)|
                   then i else r.y,
              vals := if j ≠ maxX - counter ∧ j ≠ maxX + counter then r.vals ++ [v]
                      else r.vals }
      else .ok r
  else .ok r

/-- The bottom ring row (lines 332-347). -/
def scanBottom (grid : Grid) (w : Nat) (maxX maxY : Int) (splitValue : ℚ) (counter : Int)
    (r : Ring) : Except Fault Ring :=
  let i := maxY + counter
  if i < (w : Int) then
    foldE (bottomStep grid w maxX splitValue counter i) r
      (intRange (maxX - counter) (2 * counter + 1).toNat)
  else .ok r

/-- One pass over the ring of radius `counter` (lines 289-347). -/
def ringScan (grid : Grid) (w : Nat) (maxX maxY : Int) (splitValue : ℚ) (counter : Int) :
    Except Fault Ring :=
  match scanLeft grid w maxX maxY splitValue counter ⟨false, 0, 0, []⟩ with
  | .error e => .error e
  | .ok r1 =>
    match scanRight grid w maxX maxY splitValue counter r1 with
    | .error e => .error e
    | .ok r2 =>
      match scanTop grid maxX maxY splitValue counter r2 with
      | .error e => .error e
      | .ok r3 => scanBottom grid w maxX maxY splitValue counter r3

/-- The ring-expansion loop `for { ... }` (lines 288-359), with an iteration budget. -/
def ringLoop (grid : Grid) (w : Nat) (maxX maxY : Int) :
    Nat → ℚ → Int → Int → Int → Except Fault (Int × Int)
  | 0, _, _, _, _ => .error .outOfFuel
  | fuel + 1, splitValue, counter, splitX, splitY =>
    match ringScan grid w maxX maxY splitValue counter with
    | .error e => .error e
    | .ok r =>
      if !r.itemFound then .ok (splitX, splitY)
      else
        ringLoop grid w maxX maxY fuel (Mean r.vals * (4 / 5)) (counter + 1)
          (if r.x ≠ 0 then r.x else splitX) (if r.y ≠ 0 then r.y else splitY)

/-- Go's `getSplitPoint(grid)`. On an empty grid the first pass reaches
`len(grid[0])` at line 333 and panics. The loop budget is `rows + columns + 1`. -/
def getSplitPoint (grid : Grid) : Except Fault (Int × Int) :=
  match grid with
  | [] => .error .indexOutOfRange
  | r0 :: _ =>
    let w := r0.length
    match scanMax grid w with
    | .error e => .error e
    | .ok (maxX, maxY, maxValue) =>
      match ringLoop grid w maxX maxY (grid.length + w + 1) (maxValue * (4 / 5)) 1 0 0 with
      | .error e => .error e
      | .ok (splitX, splitY) =>
        .ok (if splitX > maxX then splitX + 1 else splitX - 1,
             if splitY > maxY then splitY + 1 else splitY - 1)

/-! ## The adaptive tree node (conv-tree.go 23-42) -/

/-- The fields of the `ConvTree` struct other than the four child pointers. -/
structure ConvFields where
  IsLeaf : Bool
  MaxPoints : Int
  MaxDepth : Int
  Depth : Int
  GridSize : Int
  ConvNum : Int
  Kernel : Grid
  Points : List Point
  MinXLength : ℚ
  MinYLength : ℚ
  BottomLeft : Point
  TopRight : Point
  Stats : CellStats
deriving DecidableEq

/-- A `*ConvTree`: the nil pointer, or a node with its fields and its four child
pointers `ChildTopLeft`, `ChildTopRight`, `ChildBottomLeft`, `ChildBottomRight`. -/
inductive ConvTree where
  | nil : ConvTree
  | node (tree : ConvFields)
      (ChildTopLeft ChildTopRight ChildBottomLeft ChildBottomRight : ConvTree) : ConvTree
deriving DecidableEq

/-- Go's zero value `ConvTree{}`. -/
def ConvTree.zero : ConvTree :=
  .node ⟨false, 0, 0, 0, 0, 0, [], [], 0, 0, Point.zero, Point.zero, CellStats.zero⟩
    .nil .nil .nil .nil

/-- The kernel `NewConvTree` falls back to (lines 56-60). -/
def defaultKernel : Grid := [[1/2, 1/2, 1/2], [1/2, 1, 1/2], [1/2, 1/2, 1/2]]

/-- Go's `checkKernel(kernel)` (lines 90-107). -/
def checkKernel (kernel : Grid) : Bool :=
  match kernel with
  | [] => false
  | r0 :: _ =>
    if r0.length = 0 then false
    else
      let xSize := r0.length
      let ySize := kernel.length
      if xSize ≠ ySize then false
      else kernel.all (fun row => decide (row.length = xSize))

/-- Go's `int` arithmetic on a 64-bit target: an integer result is reduced modulo
`2^64` into `[-2^63, 2^63)` (two's complement wrap-around on overflow). -/
def wrapInt (z : Int) : Int := (z + 2 ^ 63) % 2 ^ 64 - 2 ^ 63

namespace ConvTree

/-- Go's `checkSplit()` (lines 617-625). -/
def checkSplit (tree : ConvFields) : Bool :=
  let cond1 : Bool := decide (tree.TopRight.X - tree.BottomLeft.X > 2 * tree.MinXLength) &&
    decide (tree.TopRight.Y - tree.BottomLeft.Y > 2 * tree.MinYLength)
  let totalWeight : Int :=
    tree.Points.foldl (fun total point => wrapInt (total + point.Weight)) 0
  let cond2 : Bool := decide (totalWeight > tree.MaxPoints) && decide (tree.Depth < tree.MaxDepth)
  cond1 && cond2

/-- Go's `getNodeWeight(xLeft, xRight, yTop, yBottom)` (lines 627-635). -/
def getNodeWeight (tree : ConvFields) (xLeft xRight yTop yBottom : ℚ) : Int :=
  tree.Points.foldl (fun total point =>
    if point.X ≥ xLeft ∧ point.X ≤ xRight ∧ point.Y ≥ yTop ∧ point.Y ≤ yBottom then
      wrapInt (total + point.Weight)
    else total) 0

/-- Go's `filterSplitPoints(topLeft, bottomRight)` (lines 637-645). -/
def filterSplitPoints (tree : ConvFields) (topLeft bottomRight : Point) : List Point :=
  tree.Points.foldl (fun result point =>
    if point.X ≥ topLeft.X ∧ point.X ≤ bottomRight.X ∧ point.Y ≥ topLeft.Y ∧
        point.Y ≤ bottomRight.Y then
      result ++ [point]
    else result) []

/-- Go's `getStats()` (lines 475-504). -/
def getStats (tree : ConvFields) : ConvFields :=
  if tree.Points.length = 0 then tree
  else
    let pointsNumber : Int :=
      tree.Points.foldl (fun n point => wrapInt (n + point.Weight)) 0
    let totals : ℚ × ℚ × ℚ :=
      tree.Points.enum.foldl (fun (acc : ℚ × ℚ × ℚ) (e1 : Nat × Point) =>
        (acc.1 + e1.2.X, acc.2.1 + e1.2.Y,
          tree.Points.enum.foldl (fun (totalDistance : ℚ) (e2 : Nat × Point) =>
            if e1.1 = e2.1 then totalDistance
            else totalDistance + (|e1.2.X - e2.2.X| + |e1.2.Y - e2.2.Y|)) acc.2.2)) (0, 0, 0)
    { tree with
      Stats :=
        { PointsNumber := pointsNumber
          CenterPoint :=
            { X := totals.1 / (pointsNumber : ℚ), Y := totals.2.1 / (pointsNumber : ℚ),
              Weight := 0, Content := none }
          AvgDistance :=
            if pointsNumber > 1 then
              totals.2.2 / ((pointsNumber : ℚ) ^ 2 - (pointsNumber : ℚ))
            else 0
          BaselineTags := [] } }

/-- The update `tagValues[tag]++` on a map kept as an association list in the
order of first insertion. -/
def bumpTag (tagValues : List (String × Int)) (tag : String) : List (String × Int) :=
  if tagValues.any (fun kv => kv.1 == tag) then
    tagValues.map (fun kv => if kv.1 == tag then (kv.1, kv.2 + 1) else kv)
  else tagValues ++ [(tag, 1)]

/-- Go's `filterTags(tags)` (lines 433-449). Go ranges over the map in an unspecified
order; the model ranges in the order of first insertion. -/
def filterTags (tags : List (String × Int)) : List String :=
  let numbers : List ℚ := tags.map (fun kv => (kv.2 : ℚ))
  let avg := Mean numbers
  let splitValue := truncToInt avg
  tags.foldl (fun result kv => if kv.2 > splitValue then result ++ [kv.1] else result) []

/-- Go's `getBaseline()` (lines 408-431). -/
def getBaseline (tree : ConvFields) : ConvFields :=
  let tagValues : List (String × Int) :=
    tree.Points.foldl (fun tagValues item =>
      match item.Content with
      | none => tagValues
      | some tags => (tags.eraseDups).foldl bumpTag tagValues) []
  if tagValues.length > 0 then
    { tree with Stats := { tree.Stats with BaselineTags := filterTags tagValues } }
  else tree

/-- The density grid of `split()` (lines 110-123). -/
def buildGrid (tree : ConvFields) : Except Fault Grid :=
  if tree.GridSize < 0 then .error .negativeLen
  else
    let xSize := tree.GridSize.toNat
    let ySize := tree.GridSize.toNat
    let xStep := (tree.TopRight.X - tree.BottomLeft.X) / (tree.GridSize : ℚ)
    let yStep := (tree.TopRight.Y - tree.BottomLeft.Y) / (tree.GridSize : ℚ)
    .ok ((intRange 0 xSize).map (fun (i : Int) =>
      (intRange 0 ySize).map (fun (j : Int) =>
        let xLeft := tree.BottomLeft.X + (i : ℚ) * xStep
        let xRight := tree.BottomLeft.X + (Int.cast (i + 1) : ℚ) * xStep
        let yTop := tree.BottomLeft.Y + (j : ℚ) * yStep
        let yBottom := tree.BottomLeft.Y + (Int.cast (j + 1) : ℚ) * yStep
        ((getNodeWeight tree xLeft xRight yTop yBottom : Int) : ℚ))))

/-- The smoothing loop of `split()` (lines 125-132): at most `n` passes, left at
the first pass on which `convolve` returns an error. -/
def convLoop (kernel : Grid) : Nat → Grid → Except Fault Grid
  | 0, convolved => .ok convolved
  | n + 1, convolved =>
    match convolve convolved kernel 1 1 with
    | .error e => .error e
    | .ok (.error _) => .ok convolved
    | .ok (.ok tmpGrid) =>
      match normalizeGrid tmpGrid with
      | .error e => .error e
      | .ok g => convLoop kernel n g

/-- The part of `split()` between the density grid and the cut (lines 124-140):
normalise, smooth, normalise again, search, and replace an index outside
`[1, len-2]` by `len/2`. -/
def smoothIndex (kernel : Grid) (convNum : Int) (grid : Grid) : Except Fault (Int × Int) :=
  match normalizeGrid grid with
  | .error e => .error e
  | .ok convolved =>
    match convLoop kernel convNum.toNat convolved with
    | .error e => .error e
    | .ok convolved =>
      match normalizeGrid convolved with
      | .error e => .error e
      | .ok convolved =>
        match getSplitPoint convolved with
        | .error e => .error e
        | .ok (xMax, yMax) =>
          let len0 : Int := (convolved.length : Int)
          let len1 : Int := (((convolved.head?).getD []).length : Int)
          .ok (if xMax < 1 ∨ xMax ≥ len0 - 1 then len0 / 2 else xMax,
               if yMax < 1 ∨ yMax ≥ len1 - 1 then len1 / 2 else yMax)

/-- The grid indices `(xMax, yMax)` of `split()` after the range guard
(lines 110-140). -/
def splitIndex (tree : ConvFields) : Except Fault (Int × Int) :=
  match buildGrid tree with
  | .error e => .error e
  | .ok grid => smoothIndex tree.Kernel tree.ConvNum grid

/-- The cut coordinate on one axis (lines 144-150 for x, 151-157 for y) in exact
arithmetic: the offset from the low side, pulled to respect the minimum length on both
sides. `clampCut64` is the same computation with float64 rounding. -/
def clampCut (lo hi minLength offset : ℚ) : ℚ :=
  let c := lo + offset
  let c := if c - lo < minLength then lo + minLength else c
  if hi - c < minLength then hi - minLength else c

/-- The cut `xRight` of `split()` for the grid index `xMax` (lines 112, 141-150). -/
def cutX (tree : ConvFields) (xMax : Int) : ℚ :=
  let xStep := (tree.TopRight.X - tree.BottomLeft.X) / (tree.GridSize : ℚ)
  clampCut tree.BottomLeft.X tree.TopRight.X tree.MinXLength ((xMax : ℚ) * xStep)

/-- The cut `yBottom` of `split()` for the grid index `yMax` (lines 113, 142, 151-157). -/
def cutY (tree : ConvFields) (yMax : Int) : ℚ :=
  let yStep := (tree.TopRight.Y - tree.BottomLeft.Y) / (tree.GridSize : ℚ)
  clampCut tree.BottomLeft.Y tree.TopRight.Y tree.MinYLength ((yMax : ℚ) * yStep)

/-- The struct literal of a new child (for instance lines 159-175) together with
the points it is given on the next line. -/
def newChild (tree : ConvFields) (bottomLeft topRight : Point) (points : List Point) :
    ConvFields :=
  { IsLeaf := true
    MaxPoints := tree.MaxPoints
    MaxDepth := tree.MaxDepth
    Depth := tree.Depth + 1
    GridSize := tree.GridSize
    ConvNum := tree.ConvNum
    Kernel := tree.Kernel
    Points := points
    MinXLength := tree.MinXLength
    MinYLength := tree.MinYLength
    BottomLeft := bottomLeft
    TopRight := topRight
    Stats := CellStats.zero }

/-- The child `ChildTopLeft` as `split()` prepares it for the cut `(xRight, yBottom)`
(lines 159-176). -/
def childTopLeft (tree : ConvFields) (xRight yBottom : ℚ) : ConvFields :=
  newChild tree tree.BottomLeft ⟨xRight, yBottom, 0, none⟩
    (filterSplitPoints tree tree.BottomLeft ⟨xRight, yBottom, 0, none⟩)

/-- The child `ChildTopRight` as `split()` prepares it (lines 185-205). -/
def childTopRight (tree : ConvFields) (xRight yBottom : ℚ) : ConvFields :=
  newChild tree ⟨xRight, tree.BottomLeft.Y, 0, none⟩ ⟨tree.TopRight.X, yBottom, 0, none⟩
    (filterSplitPoints tree ⟨xRight, tree.BottomLeft.Y, 0, none⟩
      ⟨tree.TopRight.X, yBottom, 0, none⟩)

/-- The child `ChildBottomLeft` as `split()` prepares it (lines 214-234). -/
def childBottomLeft (tree : ConvFields) (xRight yBottom : ℚ) : ConvFields :=
  newChild tree ⟨tree.BottomLeft.X, yBottom, 0, none⟩ ⟨xRight, tree.TopRight.Y, 0, none⟩
    (filterSplitPoints tree ⟨tree.BottomLeft.X, yBottom, 0, none⟩
      ⟨xRight, tree.TopRight.Y, 0, none⟩)

/-- The child `ChildBottomRight` as `split()` prepares it (lines 243-260). Its rectangle
ends at `tree.TopRight`, but line 260 filters the points with
`tree.ChildBottomLeft.TopRight`, the corner `(xRight, tree.TopRight.Y)`. -/
def childBottomRight (tree : ConvFields) (xRight yBottom : ℚ) : ConvFields :=
  newChild tree ⟨xRight, yBottom, 0, none⟩ tree.TopRight
    (filterSplitPoints tree ⟨xRight, yBottom, 0, none⟩ ⟨xRight, tree.TopRight.Y, 0, none⟩)

/-- The leaf a child of `tree` becomes when it is not split again (for instance
lines 180-181): its statistics are computed and it is handed the parent's
baseline tags. -/
def leafChild (tree child : ConvFields) : ConvTree :=
  .node { getStats child with
          Stats := { (getStats child).Stats with BaselineTags := tree.Stats.BaselineTags } }
    .nil .nil .nil .nil

/-- What `split()` does with a child after giving it its points (for instance
lines 177-182): split it again, or make it a leaf. -/
def finishChild (recur : ConvFields → Except Fault ConvTree) (tree child : ConvFields) :
    Except Fault ConvTree :=
  if checkSplit child then recur child else .ok (leafChild tree child)

/-- One level of `split()` (lines 109-270); `recur` stands for the recursive calls
`tree.Child....split()`. -/
def splitWith (recur : ConvFields → Except Fault ConvTree) (tree : ConvFields) :
    Except Fault ConvTree :=
  match splitIndex tree with
  | .error e => .error e
  | .ok (xMax, yMax) =>
    let xRight := cutX tree xMax
    let yBottom := cutY tree yMax
    match finishChild recur tree (childTopLeft tree xRight yBottom) with
    | .error e => .error e
    | .ok tl =>
      match finishChild recur tree (childTopRight tree xRight yBottom) with
      | .error e => .error e
      | .ok tr =>
        match finishChild recur tree (childBottomLeft tree xRight yBottom) with
        | .error e => .error e
        | .ok bl =>
          match finishChild recur tree (childBottomRight tree xRight yBottom) with
          | .error e => .error e
          | .ok br => .ok (.node { tree with IsLeaf := false, Points := [] } tl tr bl br)

/-- The recursion of `split()` with a budget of nested levels. -/
def splitFuel : Nat → ConvFields → Except Fault ConvTree
  | 0, tree => splitWith (fun _ => .error .outOfFuel) tree
  | fuel + 1, tree => splitWith (splitFuel fuel) tree

/-- Go's `split()` (lines 109-270). A child is split again only when its `checkSplit()`
holds, which needs `Depth < MaxDepth`; `MaxDepth - Depth` nested levels are
therefore enough. The node's previous children are overwritten. -/
def split (tree : ConvFields) : Except Fault ConvTree :=
  splitFuel (tree.MaxDepth - tree.Depth).toNat tree

/-- The inclusive bounds test of `Insert` on a child (lines 375-376). -/
def contains (child : ConvFields) (point : Point) : Bool :=
  decide (point.X ≥ child.BottomLeft.X) && decide (point.X ≤ child.TopRight.X) &&
    decide (point.Y ≥ child.BottomLeft.Y) && decide (point.Y ≤ child.TopRight.Y)

/-- The routing of `Insert` on a node that is not a leaf (lines 375-394): the
children are tried in the order TopLeft, TopRight, BottomLeft, BottomRight, the first
whose rectangle contains the point receives it, and a nil child that is looked at
panics. `rtl`, `rtr`, `rbl`, `rbr` are the outcomes of the recursive calls
`tree.Child....Insert(point, allowSplit)`. -/
def route (tree : ConvFields) (tl tr bl br : ConvTree) (point : Point)
    (rtl rtr rbl rbr : Except Fault ConvTree) : Except Fault ConvTree :=
  match tl with
  | .nil => .error .nilDereference
  | .node ftl _ _ _ _ =>
    if contains ftl point then
      match rtl with
      | .error e => .error e
      | .ok tl' => .ok (.node tree tl' tr bl br)
    else
      match tr with
      | .nil => .error .nilDereference
      | .node ftr _ _ _ _ =>
        if contains ftr point then
          match rtr with
          | .error e => .error e
          | .ok tr' => .ok (.node tree tl tr' bl br)
        else
          match bl with
          | .nil => .error .nilDereference
          | .node fbl _ _ _ _ =>
            if contains fbl point then
              match rbl with
              | .error e => .error e
              | .ok bl' => .ok (.node tree tl tr bl' br)
            else
              match br with
              | .nil => .error .nilDereference
              | .node fbr _ _ _ _ =>
                if contains fbr point then
                  match rbr with
                  | .error e => .error e
                  | .ok br' => .ok (.node tree tl tr bl br')
                else .ok (.node tree tl tr bl br)

/-- What `Insert` does on a leaf (lines 396-404). -/
def insertLeaf (tree : ConvFields) (tl tr bl br : ConvTree) (point : Point)
    (allowSplit : Bool) : Except Fault ConvTree :=
  let tree' := { tree with Points := tree.Points ++ [point] }
  if allowSplit then
    if checkSplit tree' then split tree'
    else .ok (.node (getBaseline (getStats tree')) tl tr bl br)
  else .ok (.node tree' tl tr bl br)

/-- Go's `Insert(point, allowSplit)` (lines 373-406). -/
def Insert : ConvTree → Point → Bool → Except Fault ConvTree
  | .nil, _, _ => .error .nilDereference
  | .node tree tl tr bl br, point, allowSplit =>
    if !tree.IsLeaf then
      route tree tl tr bl br point (Insert tl point allowSplit) (Insert tr point allowSplit)
        (Insert bl point allowSplit) (Insert br point allowSplit)
    else insertLeaf tree tl tr bl br point allowSplit

/-- Go's `Check()` (lines 451-457). -/
def Check : ConvTree → Except Fault ConvTree
  | .nil => .error .nilDereference
  | .node tree tl tr bl br =>
    if checkSplit tree then split tree
    else .ok (.node (getStats tree) tl tr bl br)

/-- The recursion of `Clear()` below a pointer that has passed its nil test. -/
def clearAll : ConvTree → ConvTree
  | .nil => .nil
  | .node tree tl tr bl br =>
    .node { tree with Points := [] } (clearAll tl) (clearAll tr) (clearAll bl) (clearAll br)

/-- Go's `Clear()` (lines 459-473). -/
def Clear : ConvTree → Except Fault ConvTree
  | .nil => .error .nilDereference
  | t => .ok (clearAll t)

end ConvTree

/-- Go's `NewConvTree(...)` (lines 44-88): the returned tree and the returned error.
`initPoints` nil and empty are the same list. -/
def NewConvTree (bottomLeft topRight : Point) (minXLength minYLength : ℚ)
    (maxPoints maxDepth convNumber gridSize : Int) (kernel : Grid) (initPoints : List Point) :
    Except Fault (ConvTree × Option String) :=
  if bottomLeft.X ≥ topRight.X then
    .ok (ConvTree.zero,
      some "X of bottom left point is larger or equal to X of top right point")
  else if bottomLeft.Y ≥ topRight.Y then
    .ok (ConvTree.zero,
      some "Y of bottom left point is larger or equal to Y of top right point")
  else
    let kernel := if !checkKernel kernel then defaultKernel else kernel
    let tree : ConvFields :=
      { IsLeaf := true
        MaxPoints := maxPoints
        MaxDepth := maxDepth
        Depth := 0
        GridSize := gridSize
        ConvNum := convNumber
        Kernel := kernel
        Points := initPoints
        MinXLength := minXLength
        MinYLength := minYLength
        BottomLeft := bottomLeft
        TopRight := topRight
        Stats := CellStats.zero }
    if ConvTree.checkSplit tree then
      match ConvTree.split tree with
      | .error e => .error e
      | .ok t => .ok (t, none)
    else
      .ok (.node (ConvTree.getBaseline (ConvTree.getStats tree)) .nil .nil .nil .nil, none)

/-! ## Reading a tree -/

namespace ConvTree

/-- The fields behind a pointer, if it is not nil. -/
def fields : ConvTree → Option ConvFields
  | .nil => none
  | .node tree _ _ _ _ => some tree

/-- The four child pointers in the order TopLeft, TopRight, BottomLeft, BottomRight. -/
def children : ConvTree → List ConvTree
  | .nil => []
  | .node _ tl tr bl br => [tl, tr, bl, br]

/-- Every node of the tree, the root first. -/
def nodes : ConvTree → List ConvTree
  | .nil => []
  | .node tree tl tr bl br =>
    .node tree tl tr bl br :: (nodes tl ++ nodes tr ++ nodes bl ++ nodes br)

/-- The points held by the leaves, read from left to right. -/
def leafPoints : ConvTree → List Point
  | .nil => []
  | .node tree tl tr bl br =>
    if tree.IsLeaf then tree.Points
    else leafPoints tl ++ leafPoints tr ++ leafPoints bl ++ leafPoints br

/-- The cut point `(xRight, yBottom)` of a split node: the corner its four
children share, read off `ChildTopLeft.TopRight`. -/
def cut : ConvTree → Option (ℚ × ℚ)
  | .node tree (.node tl _ _ _ _) _ _ _ =>
    if tree.IsLeaf then none else some (tl.TopRight.X, tl.TopRight.Y)
  | _ => none

/-- Width of a node's rectangle. -/
def width (tree : ConvFields) : ℚ := tree.TopRight.X - tree.BottomLeft.X

/-- Height of a node's rectangle. -/
def height (tree : ConvFields) : ℚ := tree.TopRight.Y - tree.BottomLeft.Y

/-- Area of a node's rectangle. -/
def area (tree : ConvFields) : ℚ := width tree * height tree

end ConvTree

/-- The trees a caller can hold: returned without error by `NewConvTree`, then
changed by any sequence of `Insert`, `Check` and `Clear` calls that return. -/
inductive Reachable : ConvTree → Prop where
  | new (bottomLeft topRight : Point) (minXLength minYLength : ℚ)
      (maxPoints maxDepth convNumber gridSize : Int) (kernel : Grid) (initPoints : List Point)
      (t : ConvTree)
      (h : NewConvTree bottomLeft topRight minXLength minYLength maxPoints maxDepth convNumber
        gridSize kernel initPoints = .ok (t, none)) : Reachable t
  | insert (t t' : ConvTree) (point : Point) (allowSplit : Bool) (ht : Reachable t)
      (h : ConvTree.Insert t point allowSplit = .ok t') : Reachable t'
  | check (t t' : ConvTree) (ht : Reachable t) (h : ConvTree.Check t = .ok t') : Reachable t'
  | clear (t t' : ConvTree) (ht : Reachable t) (h : ConvTree.Clear t = .ok t') : Reachable t'

/-! ## The naive tree node (quad-tree.go) -/

/-- The fields of the `QuadTree` struct other than the four child pointers. -/
structure QuadFields where
  IsLeaf : Bool
  maxPoints : Int
  maxDepth : Int
  Depth : Int
  splitSteps : Int
  Points : List Point
  TopLeft : Point
  BottomRight : Point
  minXLength : ℚ
  minYLength : ℚ
deriving DecidableEq

/-- A `*QuadTree`: the nil pointer, or a node with its fields and its four child
pointers `ChildTopLeft`, `ChildTopRight`, `ChildBottomLeft`, `ChildBottomRight`. -/
inductive QuadTree where
  | nil : QuadTree
  | node (tree : QuadFields)
      (ChildTopLeft ChildTopRight ChildBottomLeft ChildBottomRight : QuadTree) : QuadTree
deriving DecidableEq

/-- Go's zero value `QuadTree{}`. -/
def QuadTree.zero : QuadTree :=
  .node ⟨false, 0, 0, 0, 0, [], Point.zero, Point.zero, 0, 0⟩ .nil .nil .nil .nil

namespace QuadTree

/-- Go's `checkSplit()` (quad-tree.go 184-192). -/
def checkSplit (tree : QuadFields) : Bool :=
  let cond1 : Bool := decide (tree.BottomRight.X - tree.TopLeft.X > 2 * tree.minXLength) &&
    decide (tree.BottomRight.Y - tree.TopLeft.Y > 2 * tree.minYLength)
  let total : Int :=
    tree.Points.foldl (fun total point => wrapInt (total + point.Weight)) 0
  let cond2 : Bool := decide (total > tree.maxPoints) && decide (tree.Depth < tree.maxDepth)
  cond1 && cond2

/-- Go's `filterSplitPoints(topLeft, bottomRight)` (quad-tree.go 204-212). -/
def filterSplitPoints (tree : QuadFields) (topLeft bottomRight : Point) : List Point :=
  tree.Points.foldl (fun result point =>
    if point.X ≥ topLeft.X ∧ point.X ≤ bottomRight.X ∧ point.Y ≥ topLeft.Y ∧
        point.Y ≤ bottomRight.Y then
      result ++ [point]
    else result) []

/-- The struct literal of a new child (for instance quad-tree.go 218-232) together
with the points it is given on the next line. -/
def newChild (tree : QuadFields) (topLeft bottomRight : Point) (points : List Point) :
    QuadFields :=
  { IsLeaf := true
    maxPoints := tree.maxPoints
    maxDepth := tree.maxDepth
    Depth := tree.Depth + 1
    splitSteps := tree.splitSteps
    Points := points
    TopLeft := topLeft
    BottomRight := bottomRight
    minXLength := tree.minXLength
    minYLength := tree.minYLength }

/-- What `split()` does with a child after giving it its points (for instance
quad-tree.go 234-236). -/
def finishChild (recur : QuadFields → Except Fault QuadTree) (child : QuadFields) :
    Except Fault QuadTree :=
  if checkSplit child then recur child else .ok (.node child .nil .nil .nil .nil)

/-- One level of `split()` (quad-tree.go 214-309); `recur` stands for the recursive
calls `tree.Child....split()`. -/
def splitWith (recur : QuadFields → Except Fault QuadTree) (tree : QuadFields) :
    Except Fault QuadTree :=
  let xRight := tree.TopLeft.X + (tree.BottomRight.X - tree.TopLeft.X) / 2
  let yBottom := tree.TopLeft.Y + (tree.BottomRight.Y - tree.TopLeft.Y) / 2
  let tlTL : Point := tree.TopLeft
  let tlBR : Point := { X := xRight, Y := yBottom, Weight := 0, Content := none }
  match finishChild recur (newChild tree tlTL tlBR (filterSplitPoints tree tlTL tlBR)) with
  | .error e => .error e
  | .ok childTopLeft =>
    let trTL : Point := { X := xRight, Y := tree.TopLeft.Y, Weight := 0, Content := none }
    let trBR : Point := { X := tree.BottomRight.X, Y := yBottom, Weight := 0, Content := none }
    match finishChild recur (newChild tree trTL trBR (filterSplitPoints tree trTL trBR)) with
    | .error e => .error e
    | .ok childTopRight =>
      let blTL : Point := { X := tree.TopLeft.X, Y := yBottom, Weight := 0, Content := none }
      let blBR : Point := { X := xRight, Y := tree.BottomRight.Y, Weight := 0, Content := none }
      match finishChild recur (newChild tree blTL blBR (filterSplitPoints tree blTL blBR)) with
      | .error e => .error e
      | .ok childBottomLeft =>
        let brTL : Point := { X := xRight, Y := yBottom, Weight := 0, Content := none }
        let brBR : Point := tree.BottomRight
        match finishChild recur (newChild tree brTL brBR (filterSplitPoints tree brTL brBR)) with
        | .error e => .error e
        | .ok childBottomRight =>
          .ok (.node { tree with IsLeaf := false, Points := [] }
            childTopLeft childTopRight childBottomLeft childBottomRight)

/-- The recursion of `split()` with a budget of nested levels. -/
def splitFuel : Nat → QuadFields → Except Fault QuadTree
  | 0, tree => splitWith (fun _ => .error .outOfFuel) tree
  | fuel + 1, tree => splitWith (splitFuel fuel) tree

/-- Go's `split()` (quad-tree.go 214-309); `maxDepth - Depth` nested levels are enough,
as for the adaptive tree. -/
def split (tree : QuadFields) : Except Fault QuadTree :=
  splitFuel (tree.maxDepth - tree.Depth).toNat tree

/-- The inclusive bounds test of `Insert` on a child (quad-tree.go 67-68). -/
def contains (child : QuadFields) (point : Point) : Bool :=
  decide (point.X ≥ child.TopLeft.X) && decide (point.X ≤ child.BottomRight.X) &&
    decide (point.Y ≥ child.TopLeft.Y) && decide (point.Y ≤ child.BottomRight.Y)

/-- The routing of `Insert` on a node that is not a leaf (quad-tree.go 67-86), as
for the adaptive tree; `rtl`, `rtr`, `rbl`, `rbr` are the outcomes of the recursive
calls `tree.Child....Insert(point)`. -/
def route (tree : QuadFields) (tl tr bl br : QuadTree) (point : Point)
    (rtl rtr rbl rbr : Except Fault QuadTree) : Except Fault QuadTree :=
  match tl with
  | .nil => .error .nilDereference
  | .node ftl _ _ _ _ =>
    if contains ftl point then
      match rtl with
      | .error e => .error e
      | .ok tl' => .ok (.node tree tl' tr bl br)
    else
      match tr with
      | .nil => .error .nilDereference
      | .node ftr _ _ _ _ =>
        if contains ftr point then
          match rtr with
          | .error e => .error e
          | .ok tr' => .ok (.node tree tl tr' bl br)
        else
          match bl with
          | .nil => .error .nilDereference
          | .node fbl _ _ _ _ =>
            if contains fbl point then
              match rbl with
              | .error e => .error e
              | .ok bl' => .ok (.node tree tl tr bl' br)
            else
              match br with
              | .nil => .error .nilDereference
              | .node fbr _ _ _ _ =>
                if contains fbr point then
                  match rbr with
                  | .error e => .error e
                  | .ok br' => .ok (.node tree tl tr bl br')
                else .ok (.node tree tl tr bl br)

/-- What `Insert` does on a leaf (quad-tree.go 88-91). -/
def insertLeaf (tree : QuadFields) (tl tr bl br : QuadTree) (point : Point) :
    Except Fault QuadTree :=
  let tree' := { tree with Points := tree.Points ++ [point] }
  if checkSplit tree' then split tree' else .ok (.node tree' tl tr bl br)

/-- Go's `Insert(point)` (quad-tree.go 65-93). -/
def Insert : QuadTree → Point → Except Fault QuadTree
  | .nil, _ => .error .nilDereference
  | .node tree tl tr bl br, point =>
    if !tree.IsLeaf then
      route tree tl tr bl br point (Insert tl point) (Insert tr point) (Insert bl point)
        (Insert br point)
    else insertLeaf tree tl tr bl br point

end QuadTree

/-- Go's `NewQuadTree(...)` (quad-tree.go 33-63): the returned tree and the returned
error. The struct literal does not set `IsLeaf`, which is therefore false. -/
def NewQuadTree (topLeft bottomRight : Point) (minXLength minYLength : ℚ)
    (maxPoints maxDepth : Int) (initPoints : List Point) :
    Except Fault (QuadTree × Option String) :=
  if topLeft.X ≥ bottomRight.X then
    .ok (QuadTree.zero,
      some "X of top left point is larger or equal to X of bottom right point")
  else if topLeft.Y ≥ bottomRight.Y then
    .ok (QuadTree.zero,
      some "Y of top left point is larger or equal to Y of bottom right point")
  else
    let tree : QuadFields :=
      { IsLeaf := false
        maxPoints := maxPoints
        maxDepth := maxDepth
        Depth := 0
        splitSteps := 10
        Points := initPoints
        TopLeft := topLeft
        BottomRight := bottomRight
        minXLength := minXLength
        minYLength := minYLength }
    if QuadTree.checkSplit tree then
      match QuadTree.split tree with
      | .error e => .error e
      | .ok t => .ok (t, none)
    else .ok (.node tree .nil .nil .nil .nil, none)


/-! ## Predicates used in the statements -/

open ConvTree

/-- What a finished child keeps of the child `split()` prepared: its rectangle, depth
and configuration; a finished child that is a leaf carries the parent's baseline tags. -/
def Finished (tree child : ConvFields) (t : ConvTree) : Prop :=
  ∃ f a b c d, t = .node f a b c d ∧
    f.BottomLeft = child.BottomLeft ∧ f.TopRight = child.TopRight ∧
    f.Depth = child.Depth ∧ f.MaxDepth = child.MaxDepth ∧
    f.MinXLength = child.MinXLength ∧ f.MinYLength = child.MinYLength ∧
    (f.IsLeaf = true → f.Stats.BaselineTags = tree.Stats.BaselineTags ∧
      checkSplit child = false ∧ f.Points = child.Points) ∧
    (checkSplit child = false → t = leafChild tree child)

/-- The four corners of a node's rectangle: `(BottomLeft.X, BottomLeft.Y, TopRight.X, TopRight.Y)`. -/
def rect (f : ConvFields) : ℚ × ℚ × ℚ × ℚ :=
  (f.BottomLeft.X, f.BottomLeft.Y, f.TopRight.X, f.TopRight.Y)

/-- The depth discipline of a tree whose root is expected at depth `d`. -/
def DepthInv (maxDepth : Int) : Int → ConvTree → Prop
  | _, .nil => False
  | d, .node f tl tr bl br =>
    f.Depth = d ∧ f.MaxDepth = maxDepth ∧
      ((f.IsLeaf = true ∧ tl = .nil ∧ tr = .nil ∧ bl = .nil ∧ br = .nil) ∨
       (f.IsLeaf = false ∧ d < maxDepth ∧ DepthInv maxDepth (d + 1) tl ∧
         DepthInv maxDepth (d + 1) tr ∧ DepthInv maxDepth (d + 1) bl ∧
         DepthInv maxDepth (d + 1) br))

/-- A child prepared by `split()` for `tree`: one level deeper, same configuration. -/
def ChildOf (tree c : ConvFields) : Prop :=
  c.Depth = tree.Depth + 1 ∧ c.MaxDepth = tree.MaxDepth ∧ c.GridSize = tree.GridSize ∧
    c.Kernel = tree.Kernel

/-- Every row of the grid has `w` cells. -/
def Rectangular (g : Grid) (w : Nat) : Prop := ∀ row ∈ g, row.length = w

/-- A grid of `n` rows of `n` cells. -/
def Square (g : Grid) (n : Nat) : Prop := g.length = n ∧ Rectangular g n

/-- Every kernel row reaches the kernel's side, so that `kernel[x][y]` is in range
for `x, y < len(kernel)`. -/
def KernelOK (k : Grid) : Prop := ∀ row ∈ k, k.length ≤ row.length

/-- Where the search for the largest cell can stop: inside the grid, or at its
starting value `(0, 0)`. -/
def PeakInGrid (g : Grid) (w : Nat) (maxX maxY : Int) : Prop :=
  0 ≤ maxX ∧ maxX < (g.length : Int) ∧ 0 ≤ maxY ∧ (maxY < (w : Int) ∨ maxY = 0)


/-- The run did not stop for lack of budget: it returned, or it panicked. -/
def NoFuelFault {α : Type} (r : Except Fault α) : Prop := r ≠ .error .outOfFuel

/-! ## Sample inputs -/

/-- A point of weight 1 without tags. -/
def pt (x y : ℚ) : Point := ⟨x, y, 1, none⟩

/-- A root over `(0,0)-(100,100)` holding the point `(80, 80)`, with point limit 0 and
depth limit 1, which `checkSplit()` accepts. -/
def sampleRoot : ConvFields :=
  { IsLeaf := true, MaxPoints := 0, MaxDepth := 1, Depth := 0, GridSize := 8, ConvNum := 1,
    Kernel := defaultKernel, Points := [pt 80 80], MinXLength := 5, MinYLength := 5,
    BottomLeft := pt 0 0, TopRight := pt 100 100, Stats := CellStats.zero }

/-- An empty leaf at depth 1 of the sample tree. -/
def sampleLeaf (bottomLeft topRight : Point) : ConvTree :=
  .node { IsLeaf := true, MaxPoints := 0, MaxDepth := 1, Depth := 1, GridSize := 8, ConvNum := 1,
          Kernel := defaultKernel, Points := [], MinXLength := 5, MinYLength := 5,
          BottomLeft := bottomLeft, TopRight := topRight, Stats := CellStats.zero }
    .nil .nil .nil .nil

/-- What `split()` makes of `sampleRoot`: the cut falls back to the midpoint `(50, 50)`. -/
def sampleSplit : ConvTree :=
  .node { sampleRoot with IsLeaf := false, Points := [] }
    (sampleLeaf (pt 0 0) ⟨50, 50, 0, none⟩)
    (sampleLeaf ⟨50, 0, 0, none⟩ ⟨100, 50, 0, none⟩)
    (sampleLeaf ⟨0, 50, 0, none⟩ ⟨50, 100, 0, none⟩)
    (sampleLeaf ⟨50, 50, 0, none⟩ (pt 100 100))

/-- A root with negative minimum lengths, a 1x1 kernel, two smoothing passes and a
2x2 grid: each pass grows the grid by two rows and columns. -/
def wideRoot : ConvFields :=
  { IsLeaf := true, MaxPoints := 0, MaxDepth := 1, Depth := 0, GridSize := 2, ConvNum := 2,
    Kernel := [[1]], Points := [pt 10 10], MinXLength := -1000, MinYLength := -1000,
    BottomLeft := pt 0 0, TopRight := pt 100 100, Stats := CellStats.zero }

/-- A root that already carries the baseline tag `red` and holds one point tagged `blue`. -/
def taggedRoot : ConvFields :=
  { IsLeaf := true, MaxPoints := 0, MaxDepth := 1, Depth := 0, GridSize := 8, ConvNum := 1,
    Kernel := defaultKernel, Points := [⟨20, 20, 1, some ["blue"]⟩], MinXLength := 5,
    MinYLength := 5, BottomLeft := pt 0 0, TopRight := pt 100 100,
    Stats := { PointsNumber := 0, CenterPoint := Point.zero, AvgDistance := 0,
               BaselineTags := ["red"] } }

/-- A leaf at depth 1 of the tagged tree. -/
def taggedLeaf (bottomLeft topRight : Point) (points : List Point) (stats : CellStats) :
    ConvTree :=
  .node { IsLeaf := true, MaxPoints := 0, MaxDepth := 1, Depth := 1, GridSize := 8, ConvNum := 1,
          Kernel := defaultKernel, Points := points, MinXLength := 5, MinYLength := 5,
          BottomLeft := bottomLeft, TopRight := topRight, Stats := stats }
    .nil .nil .nil .nil

/-- What `split()` makes of `taggedRoot`. -/
def taggedSplit : ConvTree :=
  .node { taggedRoot with IsLeaf := false, Points := [] }
    (taggedLeaf (pt 0 0) ⟨50, 50, 0, none⟩ [⟨20, 20, 1, some ["blue"]⟩]
      ⟨1, ⟨20, 20, 0, none⟩, 0, ["red"]⟩)
    (taggedLeaf ⟨50, 0, 0, none⟩ ⟨100, 50, 0, none⟩ [] ⟨0, Point.zero, 0, ["red"]⟩)
    (taggedLeaf ⟨0, 50, 0, none⟩ ⟨50, 100, 0, none⟩ [] ⟨0, Point.zero, 0, ["red"]⟩)
    (taggedLeaf ⟨50, 50, 0, none⟩ (pt 100 100) [] ⟨0, Point.zero, 0, ["red"]⟩)

/-! ## The spec's example scenario -/

/-- The open grid cell `(0, 12.5) x (0, 12.5)` of the spec's example scenario. -/
def inCellA (p : Point) : Bool :=
  decide (0 < p.X) && decide (p.X < 25 / 2) && decide (0 < p.Y) && decide (p.Y < 25 / 2)

/-- The open grid cell `(87.5, 100) x (87.5, 100)` of the spec's example scenario. -/
def inCellB (p : Point) : Bool :=
  decide (175 / 2 < p.X) && decide (p.X < 100) && decide (175 / 2 < p.Y) && decide (p.Y < 100)

/-- The root `NewConvTree` builds in the spec's example scenario. -/
def scenarioRoot (pts : List Point) : ConvFields :=
  { IsLeaf := true, MaxPoints := 10, MaxDepth := 3, Depth := 0, GridSize := 8, ConvNum := 1,
    Kernel := defaultKernel, Points := pts, MinXLength := 5, MinYLength := 5,
    BottomLeft := ⟨0, 0, 0, none⟩, TopRight := ⟨100, 100, 0, none⟩, Stats := CellStats.zero }

/-- The density grid of the spec's example scenario: 20 in cell `(0,0)`, 5 in cell
`(7,7)`. -/
def scenarioGrid : Grid :=
  (intRange 0 8).map (fun (i : Int) =>
    (intRange 0 8).map (fun (j : Int) =>
      (((if i = 0 ∧ j = 0 then 20 else if i = 7 ∧ j = 7 then 5 else 0 : Int)) : ℚ)))

/-- Twenty points at `(10, 10)` and five at `(90, 90)`, all of weight 1. -/
def scenarioPoints : List Point :=
  List.replicate 20 (pt 10 10) ++ List.replicate 5 (pt 90 90)


/-! ## Further predicates, reference definitions and sample inputs -/

/-- Two trees with the same nodes in the same places, each pair of nodes agreeing on
every field except possibly `Points`. -/
def SameShape : ConvTree → ConvTree → Prop
  | .nil, .nil => True
  | .node f a b c d, .node g a' b' c' d' =>
    g = { f with Points := g.Points } ∧ SameShape a a' ∧ SameShape b b' ∧ SameShape c c' ∧
      SameShape d d'
  | _, _ => False

/-- The total weight `W` of a point list. -/
def totalWeight (pts : List Point) : Int := (pts.map (fun p => p.Weight)).sum

/-- The weighted centroid of a point list: `(sum of w*x / W, sum of w*y / W)`. -/
def weightedCentroid (pts : List Point) : ℚ × ℚ :=
  ((pts.map (fun p => (p.Weight : ℚ) * p.X)).sum / (totalWeight pts : ℚ),
   (pts.map (fun p => (p.Weight : ℚ) * p.Y)).sum / (totalWeight pts : ℚ))

/-- The mean Manhattan distance over the ordered pairs of distinct points of a list of
`n` points: the sum over `i ≠ j` divided by `n * (n - 1)`, and 0 for fewer than two points. -/
def meanPairDistance (pts : List Point) : ℚ :=
  if pts.length < 2 then 0
  else
    ((pts.enum.map (fun e1 =>
        (pts.enum.map (fun e2 =>
          if e1.1 = e2.1 then (0 : ℚ) else |e1.2.X - e2.2.X| + |e1.2.Y - e2.2.Y|)).sum)).sum) /
      ((pts.length : ℚ) * ((pts.length : ℚ) - 1))

/-- A leaf over `(0,0)-(100,100)` holding the given points, with point limit 10. -/
def statsLeaf (pts : List Point) : ConvFields :=
  { IsLeaf := true, MaxPoints := 10, MaxDepth := 3, Depth := 0, GridSize := 8, ConvNum := 1,
    Kernel := defaultKernel, Points := pts, MinXLength := 5, MinYLength := 5,
    BottomLeft := pt 0 0, TopRight := pt 100 100, Stats := CellStats.zero }

/-- The leaf/internal discipline of a tree: every node is a leaf without children, or a
node that is not a leaf, holds no points and has its four children. -/
def LeafInv : ConvTree → Prop
  | .nil => False
  | .node f tl tr bl br =>
    (f.IsLeaf = true ∧ tl = .nil ∧ tr = .nil ∧ bl = .nil ∧ br = .nil) ∨
    (f.IsLeaf = false ∧ f.Points = [] ∧ LeafInv tl ∧ LeafInv tr ∧ LeafInv bl ∧ LeafInv br)

/-- No leaf of the tree passes `checkSplit()`, and every node has the point limit `M`. -/
def SplitInv (M : Int) : ConvTree → Prop
  | .nil => True
  | .node f tl tr bl br =>
    f.MaxPoints = M ∧ (f.IsLeaf = true → checkSplit f = false) ∧
      SplitInv M tl ∧ SplitInv M tr ∧ SplitInv M bl ∧ SplitInv M br

/-- The trees with point limit `M` a caller can hold who always inserts with
`allowSplit` true and calls `Clear` only when the point limit is not negative: returned
without error by `NewConvTree`, then changed by `Insert(p, true)`, `Check` and `Clear`
calls that return. -/
inductive Settled : Int → ConvTree → Prop where
  | new (bottomLeft topRight : Point) (minXLength minYLength : ℚ)
      (maxPoints maxDepth convNumber gridSize : Int) (kernel : Grid) (initPoints : List Point)
      (t : ConvTree)
      (h : NewConvTree bottomLeft topRight minXLength minYLength maxPoints maxDepth convNumber
        gridSize kernel initPoints = .ok (t, none)) : Settled maxPoints t
  | insert (M : Int) (t t' : ConvTree) (point : Point) (ht : Settled M t)
      (h : ConvTree.Insert t point true = .ok t') : Settled M t'
  | check (M : Int) (t t' : ConvTree) (ht : Settled M t) (h : ConvTree.Check t = .ok t') :
      Settled M t'
  | clear (M : Int) (t t' : ConvTree) (ht : Settled M t) (hM : 0 ≤ M)
      (h : ConvTree.Clear t = .ok t') : Settled M t'

/-- A root over `(0,0)-(100,100)` with point limit -1 and depth limit 1 holding one point
of weight -5, which `checkSplit()` rejects. -/
def debtRoot : ConvFields :=
  { IsLeaf := true, MaxPoints := -1, MaxDepth := 1, Depth := 0, GridSize := 8, ConvNum := 1,
    Kernel := defaultKernel, Points := [⟨10, 10, -5, none⟩], MinXLength := 5, MinYLength := 5,
    BottomLeft := pt 0 0, TopRight := pt 100 100, Stats := CellStats.zero }

/-- A root over `(0,0)-(100,100)` with point limit 0 and depth limit 1 holding two
points whose weights, `2^63 - 1` and `1`, sum to one more than the largest `int`. -/
def heavyRoot : ConvFields :=
  { IsLeaf := true, MaxPoints := 0, MaxDepth := 1, Depth := 0, GridSize := 8, ConvNum := 1,
    Kernel := defaultKernel,
    Points := [⟨20, 20, 9223372036854775807, none⟩, ⟨80, 80, 1, none⟩],
    MinXLength := 5, MinYLength := 5, BottomLeft := pt 0 0, TopRight := pt 100 100,
    Stats := CellStats.zero }

/-- The naive root `NewQuadTree` builds over the rectangle of `heavyRoot` with the same
points and limits. -/
def heavyQuad : QuadFields :=
  { IsLeaf := false, maxPoints := 0, maxDepth := 1, Depth := 0, splitSteps := 10,
    Points := [⟨20, 20, 9223372036854775807, none⟩, ⟨80, 80, 1, none⟩],
    TopLeft := pt 0 0, BottomRight := pt 100 100, minXLength := 5, minYLength := 5 }

/-- The variable `xRight` of the naive `split()` (quad-tree.go 215). -/
def QuadTree.xRight (tree : QuadFields) : ℚ :=
  tree.TopLeft.X + (tree.BottomRight.X - tree.TopLeft.X) / 2

/-- The variable `yBottom` of the naive `split()` (quad-tree.go 216). -/
def QuadTree.yBottom (tree : QuadFields) : ℚ :=
  tree.TopLeft.Y + (tree.BottomRight.Y - tree.TopLeft.Y) / 2

/-- The child `ChildTopLeft` as the naive `split()` prepares it (quad-tree.go 218-233). -/
def QuadTree.childTopLeft (tree : QuadFields) : QuadFields :=
  QuadTree.newChild tree tree.TopLeft
    { X := QuadTree.xRight tree, Y := QuadTree.yBottom tree, Weight := 0, Content := none }
    (QuadTree.filterSplitPoints tree tree.TopLeft
      { X := QuadTree.xRight tree, Y := QuadTree.yBottom tree, Weight := 0, Content := none })

/-- The child `ChildTopRight` as the naive `split()` prepares it (quad-tree.go 239-257). -/
def QuadTree.childTopRight (tree : QuadFields) : QuadFields :=
  QuadTree.newChild tree
    { X := QuadTree.xRight tree, Y := tree.TopLeft.Y, Weight := 0, Content := none }
    { X := tree.BottomRight.X, Y := QuadTree.yBottom tree, Weight := 0, Content := none }
    (QuadTree.filterSplitPoints tree
      { X := QuadTree.xRight tree, Y := tree.TopLeft.Y, Weight := 0, Content := none }
      { X := tree.BottomRight.X, Y := QuadTree.yBottom tree, Weight := 0, Content := none })

/-- The child `ChildBottomLeft` as the naive `split()` prepares it (quad-tree.go 263-281). -/
def QuadTree.childBottomLeft (tree : QuadFields) : QuadFields :=
  QuadTree.newChild tree
    { X := tree.TopLeft.X, Y := QuadTree.yBottom tree, Weight := 0, Content := none }
    { X := QuadTree.xRight tree, Y := tree.BottomRight.Y, Weight := 0, Content := none }
    (QuadTree.filterSplitPoints tree
      { X := tree.TopLeft.X, Y := QuadTree.yBottom tree, Weight := 0, Content := none }
      { X := QuadTree.xRight tree, Y := tree.BottomRight.Y, Weight := 0, Content := none })

/-- The child `ChildBottomRight` as the naive `split()` prepares it (quad-tree.go 287-302). -/
def QuadTree.childBottomRight (tree : QuadFields) : QuadFields :=
  QuadTree.newChild tree
    { X := QuadTree.xRight tree, Y := QuadTree.yBottom tree, Weight := 0, Content := none }
    tree.BottomRight
    (QuadTree.filterSplitPoints tree
      { X := QuadTree.xRight tree, Y := QuadTree.yBottom tree, Weight := 0, Content := none }
      tree.BottomRight)

/-- The four corners of a naive node's rectangle:
`(TopLeft.X, TopLeft.Y, BottomRight.X, BottomRight.Y)`. -/
def qrect (q : QuadFields) : ℚ × ℚ × ℚ × ℚ :=
  (q.TopLeft.X, q.TopLeft.Y, q.BottomRight.X, q.BottomRight.Y)

/-- Area of a naive node's rectangle. -/
def qarea (q : QuadFields) : ℚ :=
  (q.BottomRight.X - q.TopLeft.X) * (q.BottomRight.Y - q.TopLeft.Y)

/-- What the naive `split()` makes of a prepared child: the child itself as a leaf
when its `checkSplit()` is false, and otherwise the child split again, which keeps its
rectangle and hands its points on. -/
def QuadFinished (child : QuadFields) (t : QuadTree) : Prop :=
  (QuadTree.checkSplit child = false ∧ t = .node child .nil .nil .nil .nil) ∨
  (QuadTree.checkSplit child = true ∧
    ∃ a b c d, t = .node { child with IsLeaf := false, Points := [] } a b c d)

/-- A corner cell of the ring of radius `counter` exceeds `splitValue`. -/
def CornerHit (grid : Grid) (maxX maxY : Int) (splitValue : ℚ) (counter : Int) : Prop :=
  ∃ a b v, (a = maxX - counter ∨ a = maxX + counter) ∧
    (b = maxY - counter ∨ b = maxY + counter) ∧ at2 grid a b = .ok v ∧ v > splitValue

/-- The index the right ring column leaves in `x` when it qualifies and `x` holds `l`
(lines 310-312): the new index `i` replaces `l` only when `l` lies farther from the
centre index `c`. -/
def nearer (c l i : Int) : Int :=
  if |((l - c : Int) : ℚ)| > |((i - c : Int) : ℚ)| then i else l

/-- A 7x7 grid whose largest cell is `(2, 3)`, with the cells `(1, 3)` and `(3, 3)` of its
first ring at `0.9` and the cells `(2, 2)` and `(2, 4)` at `0.85`. -/
def ringGrid : Grid :=
  [[0, 0, 0, 0, 0, 0, 0],
   [0, 0, 0, 9/10, 0, 0, 0],
   [0, 0, 17/20, 1, 17/20, 0, 0],
   [0, 0, 0, 9/10, 0, 0, 0],
   [0, 0, 0, 0, 0, 0, 0],
   [0, 0, 0, 0, 0, 0, 0],
   [0, 0, 0, 0, 0, 0, 0]]

/-- The grid `convolved` on which `split()` calls `getSplitPoint` (lines 124-133): the
density grid normalised, smoothed by at most `convNum` passes, and normalised again. -/
def smoothGrid (kernel : Grid) (convNum : Int) (grid : Grid) : Except Fault Grid :=
  match normalizeGrid grid with
  | .error e => .error e
  | .ok convolved =>
    match convLoop kernel convNum.toNat convolved with
    | .error e => .error e
    | .ok convolved => normalizeGrid convolved

/-- A root over `(0,0)-(70,70)` with a 7x7 grid holding the point `(5, 5)`, with point
limit 0 and depth limit 1, which `checkSplit()` accepts. -/
def oddRoot : ConvFields :=
  { IsLeaf := true, MaxPoints := 0, MaxDepth := 1, Depth := 0, GridSize := 7, ConvNum := 1,
    Kernel := defaultKernel, Points := [pt 5 5], MinXLength := 5, MinYLength := 5,
    BottomLeft := pt 0 0, TopRight := pt 70 70, Stats := CellStats.zero }

/-- The cell `g[a][b]` of a grid, 0 outside it. -/
def cellAt (g : Grid) (a b : Nat) : ℚ := (g.getD a []).getD b 0

/-- The grid `P` of the reference definition of the convolution: the `n x n` grid `G`
surrounded by one ring of zeros. -/
def padGrid (G : Grid) (n : Nat) : Grid :=
  List.replicate (n + 2) (0 : ℚ) :: (G.map (fun row => (0 : ℚ) :: row ++ [0])) ++
    [List.replicate (n + 2) (0 : ℚ)]

/-- The reference value of the output cell `(i, j)`: the sum over `0 ≤ x, y < k` of
`P[i+x][j+y] * K[x][y]`. -/
def refCell (G K : Grid) (n k i j : Nat) : ℚ :=
  ((List.range k).map (fun x =>
    ((List.range k).map (fun y =>
      cellAt (padGrid G n) (i + x) (j + y) * cellAt K x y)).sum)).sum

/-- The reference definition of the convolution of an `n x n` grid with a `k x k`
kernel, stride 1 and padding 1: `n - k + 3` rows of `n - k + 3` reference cells. -/
def refConvolve (G K : Grid) (n k : Nat) : Grid :=
  (List.range (n - k + 3)).map (fun i =>
    (List.range (n - k + 3)).map (fun j => refCell G K n k i j))

/-- The body of the loop over the points in `getBaseline()` (lines 410-425): the tags of
one point, each counted once, are added to the counts. -/
def tagStep (tagValues : List (String × Int)) (item : Point) : List (String × Int) :=
  match item.Content with
  | none => tagValues
  | some tags => (tags.eraseDups).foldl bumpTag tagValues

/-- The tag list a point carries: its content when that is a string list, no tag
otherwise. -/
def tagsOf (p : Point) : List String := p.Content.getD []

/-- The occurrence count `c(t)` of a tag in a point list: the number of points whose tag
list contains `t`, so that a tag repeated inside one point counts once. -/
def tagCount (pts : List Point) (t : String) : Nat :=
  pts.countP (fun p => decide (t ∈ tagsOf p))

/-- The distinct tags carried by the points of a list. -/
def distinctTags (pts : List Point) : List String :=
  (pts.foldr (fun p acc => tagsOf p ++ acc) []).dedup

/-- The exact arithmetic mean of the occurrence counts over the distinct tags. -/
def meanTagCount (pts : List Point) : ℚ :=
  ((distinctTags pts).map (fun t => (tagCount pts t : ℚ))).sum /
    ((distinctTags pts).length : ℚ)

/-- The association list `tagValues` holds the counts `c`: its keys are distinct, they
are the tags of positive count, and each carries its count. -/
def TagInv (tagValues : List (String × Int)) (c : String → Int) : Prop :=
  (tagValues.map Prod.fst).Nodup ∧ (∀ kv ∈ tagValues, kv.2 = c kv.1) ∧
    (∀ t, t ∈ tagValues.map Prod.fst ↔ 0 < c t) ∧ ∀ t, 0 ≤ c t

/-- A leaf whose points carry the tags `a` (three times, once repeated inside a point),
`b` (twice), `c` and `d` (once each). -/
def tagLeaf : ConvFields :=
  { IsLeaf := true, MaxPoints := 10, MaxDepth := 3, Depth := 0, GridSize := 8, ConvNum := 1,
    Kernel := defaultKernel,
    Points := [⟨1, 1, 1, some ["a", "b", "a"]⟩, ⟨2, 2, 1, some ["a"]⟩, ⟨3, 3, 1, none⟩,
      ⟨4, 4, 1, some ["b", "a", "c", "d"]⟩],
    MinXLength := 5, MinYLength := 5, BottomLeft := pt 0 0, TopRight := pt 100 100,
    Stats := CellStats.zero }

/-! ## float64 rounding of the cut -/

/-- The integer nearest to a rational; of two equally near integers, the even one. -/
def roundHalfEven (m : ℚ) : Int :=
  let f : Int := ⌊m⌋
  if m - (f : ℚ) < 1 / 2 then f
  else if m - (f : ℚ) > 1 / 2 then f + 1
  else if f % 2 = 0 then f else f + 1

/-- A positive rational `m * 2^e` rewritten as `m' * 2^e'` with the significand `m'` in
`[2^52, 2^53)`, or with `e' = -1074` and `m' < 2^52` (the subnormal range of float64). -/
def scaleFloat64 : Nat → ℚ → Int → ℚ × Int
  | 0, m, e => (m, e)
  | fuel + 1, m, e =>
    if m ≥ 2 ^ 53 then scaleFloat64 fuel (m / 2) (e + 1)
    else if m < 2 ^ 52 ∧ e > -1074 then scaleFloat64 fuel (2 * m) (e - 1)
    else (m, e)

/-- Go's float64 arithmetic (IEEE 754 binary64, round to nearest, ties to even): the
float64 that an operation returns when its exact result is `q`. The significand of `q`
is scaled to 53 bits and rounded to an integer; the budget of 2200 halvings or
doublings is enough for every magnitude below `2^1024`. Overflow to an infinity
(magnitudes of `2^1024` and more) is not modelled. -/
def roundFloat64 (q : ℚ) : ℚ :=
  if q = 0 then 0
  else
    let s := scaleFloat64 2200 |q| 0
    let r : ℚ := (roundHalfEven s.1 : ℚ) * (2 : ℚ) ^ s.2
    if q < 0 then -r else r

/-- The cut coordinate on one axis as Go computes it (lines 144-150 for x, 151-157 for
y): `clampCut` with the result of every float64 addition and subtraction rounded.
`offset` is the float64 `xOffset` or `yOffset`. -/
def clampCut64 (lo hi minLength offset : ℚ) : ℚ :=
  let c := roundFloat64 (lo + offset)
  let c := if roundFloat64 (c - lo) < minLength then roundFloat64 (lo + minLength) else c
  if roundFloat64 (hi - c) < minLength then roundFloat64 (hi - minLength) else c

/-- The cut `xRight` of `split()` for the grid index `xMax` in float64 arithmetic
(lines 112, 141-150), every operation rounded on its own (no fused multiply-add). -/
def cutX64 (tree : ConvFields) (xMax : Int) : ℚ :=
  let xStep := roundFloat64 (roundFloat64 (tree.TopRight.X - tree.BottomLeft.X) /
    roundFloat64 (tree.GridSize : ℚ))
  let xOffset := roundFloat64 (roundFloat64 (xMax : ℚ) * xStep)
  clampCut64 tree.BottomLeft.X tree.TopRight.X tree.MinXLength xOffset

/-- The cut `yBottom` of `split()` for the grid index `yMax` in float64 arithmetic
(lines 113, 142, 151-157). -/
def cutY64 (tree : ConvFields) (yMax : Int) : ℚ :=
  let yStep := roundFloat64 (roundFloat64 (tree.TopRight.Y - tree.BottomLeft.Y) /
    roundFloat64 (tree.GridSize : ℚ))
  let yOffset := roundFloat64 (roundFloat64 (yMax : ℚ) * yStep)
  clampCut64 tree.BottomLeft.Y tree.TopRight.Y tree.MinYLength yOffset

/-- A bound on what the rounding of the float64 cut can take from the minimum length of a
child on one axis: `2^-53` of `|lo| + |hi| + 2 |minLength|`, and `2^-1074`. -/
def roundingSlack (lo hi minLength : ℚ) : ℚ :=
  (|lo| + |hi| + 2 * |minLength|) / 2 ^ 53 + 1 / 2 ^ 1074

/-- A root over `(0.1, 0.1)-(10.1, 10.1)`, the corners being the float64 values of the
Go literals `0.1` and `10.1`, with minimum lengths 4, a 3x3 grid, point limit 0 and
depth limit 1, holding the point `(1, 1)`. -/
def roundedRoot : ConvFields :=
  { IsLeaf := true, MaxPoints := 0, MaxDepth := 1, Depth := 0, GridSize := 3, ConvNum := 1,
    Kernel := defaultKernel, Points := [pt 1 1], MinXLength := 4, MinYLength := 4,
    BottomLeft := pt (3602879701896397 / 36028797018963968)
      (3602879701896397 / 36028797018963968),
    TopRight := pt (5685794529555251 / 562949953421312) (5685794529555251 / 562949953421312),
    Stats := CellStats.zero }

/-! # Theorems -/

/-! ## The shape of a split -/

theorem finishChild_ok {recur : ConvFields → Except Fault ConvTree} {tree child : ConvFields}
    {t : ConvTree} (h : finishChild recur tree child = .ok t) :
    (checkSplit child = true ∧ recur child = .ok t) ∨
      (checkSplit child = false ∧ t = leafChild tree child) := by
  unfold finishChild at h
  by_cases hc : checkSplit child = true
  · left
    simp only [hc, if_true] at h
    exact ⟨hc, h⟩
  · right
    simp only [hc] at h
    simp only [Bool.not_eq_true] at hc
    refine ⟨hc, ?_⟩
    simp only [Bool.false_eq_true, if_false, Except.ok.injEq] at h
    exact h.symm

theorem splitWith_ok {recur : ConvFields → Except Fault ConvTree} {tree : ConvFields}
    {t : ConvTree} (h : splitWith recur tree = .ok t) :
    ∃ xMax yMax c1 c2 c3 c4,
      splitIndex tree = .ok (xMax, yMax) ∧
      finishChild recur tree (childTopLeft tree (cutX tree xMax) (cutY tree yMax)) = .ok c1 ∧
      finishChild recur tree (childTopRight tree (cutX tree xMax) (cutY tree yMax)) = .ok c2 ∧
      finishChild recur tree (childBottomLeft tree (cutX tree xMax) (cutY tree yMax)) = .ok c3 ∧
      finishChild recur tree (childBottomRight tree (cutX tree xMax) (cutY tree yMax)) = .ok c4 ∧
      t = .node { tree with IsLeaf := false, Points := [] } c1 c2 c3 c4 := by
  unfold splitWith at h
  split at h
  · cases h
  · rename_i xMax yMax hidx
    simp only at h
    split at h
    · cases h
    · rename_i c1 h1
      split at h
      · cases h
      · rename_i c2 h2
        split at h
        · cases h
        · rename_i c3 h3
          split at h
          · cases h
          · rename_i c4 h4
            simp only [Except.ok.injEq] at h
            exact ⟨xMax, yMax, c1, c2, c3, c4, hidx, h1, h2, h3, h4, h.symm⟩

theorem splitWith_of_parts {recur : ConvFields → Except Fault ConvTree} {tree : ConvFields}
    {xMax yMax : Int} {c1 c2 c3 c4 : ConvTree}
    (hidx : splitIndex tree = .ok (xMax, yMax))
    (h1 : finishChild recur tree (childTopLeft tree (cutX tree xMax) (cutY tree yMax)) = .ok c1)
    (h2 : finishChild recur tree (childTopRight tree (cutX tree xMax) (cutY tree yMax)) = .ok c2)
    (h3 : finishChild recur tree (childBottomLeft tree (cutX tree xMax) (cutY tree yMax)) = .ok c3)
    (h4 : finishChild recur tree (childBottomRight tree (cutX tree xMax) (cutY tree yMax)) = .ok c4) :
    splitWith recur tree = .ok (.node { tree with IsLeaf := false, Points := [] } c1 c2 c3 c4) := by
  unfold splitWith
  simp only [hidx, h1, h2, h3, h4]

theorem splitFuel_eq (n : Nat) (tree : ConvFields) :
    ∃ recur, splitFuel n tree = splitWith recur tree ∧
      ∀ c t, recur c = .ok t → ∃ m, splitFuel m c = .ok t := by
  cases n with
  | zero => exact ⟨fun _ => .error .outOfFuel, rfl, fun c t h => by cases h⟩
  | succ k => exact ⟨splitFuel k, rfl, fun c t h => ⟨k, h⟩⟩

/-- A node that `split()` has worked on keeps its fields, but for `IsLeaf` and `Points`. -/
theorem splitFuel_root {n : Nat} {tree : ConvFields} {t : ConvTree}
    (h : splitFuel n tree = .ok t) :
    ∃ c1 c2 c3 c4, t = .node { tree with IsLeaf := false, Points := [] } c1 c2 c3 c4 := by
  obtain ⟨recur, he, -⟩ := splitFuel_eq n tree
  rw [he] at h
  obtain ⟨_, _, c1, c2, c3, c4, -, -, -, -, -, ht⟩ := splitWith_ok h
  exact ⟨c1, c2, c3, c4, ht⟩

theorem getStats_frame (c : ConvFields) :
    (getStats c).IsLeaf = c.IsLeaf ∧ (getStats c).MaxPoints = c.MaxPoints ∧
    (getStats c).MaxDepth = c.MaxDepth ∧ (getStats c).Depth = c.Depth ∧
    (getStats c).GridSize = c.GridSize ∧ (getStats c).ConvNum = c.ConvNum ∧
    (getStats c).Kernel = c.Kernel ∧ (getStats c).Points = c.Points ∧
    (getStats c).MinXLength = c.MinXLength ∧ (getStats c).MinYLength = c.MinYLength ∧
    (getStats c).BottomLeft = c.BottomLeft ∧ (getStats c).TopRight = c.TopRight := by
  unfold getStats
  split <;> simp

theorem finishChild_finished {recur : ConvFields → Except Fault ConvTree}
    (hrec : ∀ c t, recur c = .ok t → ∃ m, splitFuel m c = .ok t)
    {tree child : ConvFields} {t : ConvTree} (h : finishChild recur tree child = .ok t) :
    Finished tree child t := by
  rcases finishChild_ok h with ⟨hcs, hr⟩ | ⟨hc, ht⟩
  · obtain ⟨m, hm⟩ := hrec _ _ hr
    obtain ⟨c1, c2, c3, c4, ht⟩ := splitFuel_root hm
    refine ⟨_, c1, c2, c3, c4, ht, rfl, rfl, rfl, rfl, rfl, rfl, ?_, ?_⟩
    · intro hl
      simp at hl
    · intro hf
      rw [hf] at hcs
      cases hcs
  · have hf := getStats_frame child
    refine ⟨_, _, _, _, _, ht, ?_, ?_, ?_, ?_, ?_, ?_, ?_, fun _ => ht⟩
    · exact hf.2.2.2.2.2.2.2.2.2.2.1
    · exact hf.2.2.2.2.2.2.2.2.2.2.2
    · exact hf.2.2.2.1
    · exact hf.2.2.1
    · exact hf.2.2.2.2.2.2.2.2.1
    · exact hf.2.2.2.2.2.2.2.2.2.1
    · intro _
      exact ⟨rfl, hc, hf.2.2.2.2.2.2.2.1⟩

/-- The result of `split()`: the node, no longer a leaf and without points, over four
finished children for the cut found from the grid index. -/
theorem split_children {tree : ConvFields} {t : ConvTree} (h : split tree = .ok t) :
    ∃ xMax yMax c1 c2 c3 c4,
      splitIndex tree = .ok (xMax, yMax) ∧
      t = .node { tree with IsLeaf := false, Points := [] } c1 c2 c3 c4 ∧
      Finished tree (childTopLeft tree (cutX tree xMax) (cutY tree yMax)) c1 ∧
      Finished tree (childTopRight tree (cutX tree xMax) (cutY tree yMax)) c2 ∧
      Finished tree (childBottomLeft tree (cutX tree xMax) (cutY tree yMax)) c3 ∧
      Finished tree (childBottomRight tree (cutX tree xMax) (cutY tree yMax)) c4 := by
  unfold split at h
  obtain ⟨recur, he, hrec⟩ := splitFuel_eq _ tree
  rw [he] at h
  obtain ⟨xMax, yMax, c1, c2, c3, c4, hidx, h1, h2, h3, h4, ht⟩ := splitWith_ok h
  exact ⟨xMax, yMax, c1, c2, c3, c4, hidx, ht, finishChild_finished hrec h1,
    finishChild_finished hrec h2, finishChild_finished hrec h3, finishChild_finished hrec h4⟩

theorem clampCut_bounds (lo hi minLength offset : ℚ) (h : hi - lo > 2 * minLength) :
    lo + minLength ≤ clampCut lo hi minLength offset ∧
      clampCut lo hi minLength offset ≤ hi - minLength := by
  unfold clampCut
  simp only
  split_ifs with h1 h2 h2 <;> constructor <;> linarith

theorem checkSplit_cond1 {tree : ConvFields} (h : checkSplit tree = true) :
    tree.TopRight.X - tree.BottomLeft.X > 2 * tree.MinXLength ∧
      tree.TopRight.Y - tree.BottomLeft.Y > 2 * tree.MinYLength := by
  unfold checkSplit at h
  simp only [Bool.and_eq_true, decide_eq_true_eq] at h
  exact h.1

theorem checkSplit_depth {tree : ConvFields} (h : checkSplit tree = true) :
    tree.Depth < tree.MaxDepth := by
  unfold checkSplit at h
  simp only [Bool.and_eq_true, decide_eq_true_eq] at h
  exact h.2.2

theorem contains_iff (f : ConvFields) (p : Point) :
    contains f p = true ↔
      f.BottomLeft.X ≤ p.X ∧ p.X ≤ f.TopRight.X ∧ f.BottomLeft.Y ≤ p.Y ∧ p.Y ≤ f.TopRight.Y := by
  unfold contains
  simp only [Bool.and_eq_true, decide_eq_true_eq, ge_iff_le]
  tauto

/-! ## Fallible loops -/

theorem mapE_ok {α β : Type} {f : α → Except Fault β} {P : β → Prop} :
    ∀ (l : List α), (∀ a ∈ l, ∃ b, f a = .ok b ∧ P b) →
      ∃ bs, mapE f l = .ok bs ∧ bs.length = l.length ∧ ∀ b ∈ bs, P b := by
  intro l
  induction l with
  | nil => intro _; exact ⟨[], rfl, rfl, by simp⟩
  | cons a as ih =>
    intro h
    obtain ⟨b, hb, hPb⟩ := h a (List.mem_cons_self _ _)
    obtain ⟨bs, hbs, hlen, hP⟩ := ih (fun x hx => h x (List.mem_cons_of_mem _ hx))
    refine ⟨b :: bs, ?_, by simp [hlen], ?_⟩
    · simp only [mapE, hb, hbs]
    · intro x hx
      rcases List.mem_cons.1 hx with rfl | hx
      · exact hPb
      · exact hP x hx

theorem foldE_ok {σ α : Type} {f : σ → α → Except Fault σ} {I : σ → Prop} :
    ∀ (l : List α) (s : σ), I s →
      (∀ s a, I s → a ∈ l → ∃ s', f s a = .ok s' ∧ I s') →
      ∃ s', foldE f s l = .ok s' ∧ I s' := by
  intro l
  induction l with
  | nil => intro s hs _; exact ⟨s, rfl, hs⟩
  | cons a as ih =>
    intro s hs h
    obtain ⟨s1, h1, hI⟩ := h s a hs (List.mem_cons_self _ _)
    obtain ⟨s2, h2, hI2⟩ := ih s1 hI (fun s x hs hx => h s x hs (List.mem_cons_of_mem _ hx))
    exact ⟨s2, by simp only [foldE, h1, h2], hI2⟩

theorem mem_intRange {lo : Int} {n : Nat} {x : Int} :
    x ∈ intRange lo n ↔ lo ≤ x ∧ x < lo + n := by
  unfold intRange
  simp only [List.mem_map, List.mem_range]
  constructor
  · rintro ⟨k, hk, rfl⟩
    omega
  · rintro ⟨h1, h2⟩
    exact ⟨(x - lo).toNat, by omega, by omega⟩

theorem length_intRange (lo : Int) (n : Nat) : (intRange lo n).length = n := by
  simp [intRange]

theorem at1_ok {row : List ℚ} {j : Int} (h0 : 0 ≤ j) (h1 : j < row.length) :
    ∃ v, at1 row j = .ok v := by
  unfold at1
  have hj : j.toNat < row.length := by omega
  simp only [not_lt.2 h0, if_false]
  rw [List.getElem?_eq_getElem hj]
  exact ⟨_, rfl⟩

theorem at2_ok_of_rows {g : Grid} {i j : Int} (hi0 : 0 ≤ i) (hi1 : i < g.length)
    (hj0 : 0 ≤ j) (hj1 : ∀ row ∈ g, j < (row.length : Int)) : ∃ v, at2 g i j = .ok v := by
  unfold at2
  have hi : i.toNat < g.length := by omega
  simp only [not_lt.2 hi0, if_false]
  rw [List.getElem?_eq_getElem hi]
  simp only
  exact at1_ok hj0 (hj1 _ (List.getElem_mem _))

theorem at2_ok {g : Grid} {w : Nat} (hg : Rectangular g w) {i j : Int} (hi0 : 0 ≤ i)
    (hi1 : i < g.length) (hj0 : 0 ≤ j) (hj1 : j < w) : ∃ v, at2 g i j = .ok v :=
  at2_ok_of_rows hi0 hi1 hj0 (fun row hrow => by rw [hg row hrow]; exact hj1)

/-! ## normalizeGrid keeps the shape -/

theorem normalizeGrid_ok {g : Grid} {w : Nat} (hg : Rectangular g w) :
    ∃ g', normalizeGrid g = .ok g' ∧ g'.length = g.length ∧ Rectangular g' w := by
  unfold normalizeGrid
  cases g with
  | nil => exact ⟨[], rfl, rfl, by intro r hr; cases hr⟩
  | cons r0 rest =>
    have hw : r0.length = w := hg r0 (List.mem_cons_self _ _)
    obtain ⟨rows, hrows, hlen, hP⟩ := mapE_ok (f := rowCells r0.length)
      (P := fun r : List ℚ × List ℚ => r.1.length + r.2.length = w) (r0 :: rest) (by
        intro row hrow
        have hr : row.length = w := hg row hrow
        refine ⟨(row.take r0.length, row.drop r0.length), ?_, ?_⟩
        · unfold rowCells
          simp [hr, hw]
        · simp only [List.length_take, List.length_drop]
          omega)
    simp only [hrows]
    refine ⟨_, rfl, by simp [hlen], ?_⟩
    intro row hrow
    simp only [List.mem_map] at hrow
    obtain ⟨r, hr, rfl⟩ := hrow
    simp only [List.length_append, List.length_map]
    exact hP r hr

/-! ## convolve with stride 1 and padding 1 on a square grid -/

theorem procRow_ok {g : Grid} {n : Nat} (hrect : Rectangular g n) (hlen : g.length = n)
    {i : Int} (hi : 1 ≤ i ∧ i < 1 + n) :
    ∃ row, procRow g 1 (n + 2) i = .ok row ∧ row.length = n + 2 := by
  unfold procRow
  simp only [Nat.add_sub_cancel]
  obtain ⟨cells, hcells, hclen, -⟩ := mapE_ok (f := fun j : Int => at2 g (i - 1) (j - 1))
    (P := fun _ => True) (intRange 1 n) (by
      intro j hj
      rw [mem_intRange] at hj
      obtain ⟨v, hv⟩ := at2_ok hrect (i := i - 1) (j := j - 1) (by omega) (by omega)
        (by omega) (by omega)
      exact ⟨v, hv, trivial⟩)
  refine ⟨(0 : ℚ) :: cells ++ [0], ?_, ?_⟩
  · simp only [hcells]
  · simp [hclen, length_intRange]

theorem procGridOf_ok {g : Grid} {n : Nat} (hg : Square g n) :
    ∃ pg, procGridOf g 1 = .ok pg ∧ pg.length = n + 2 ∧ Rectangular pg (n + 2) := by
  obtain ⟨hlen, hrect⟩ := hg
  unfold procGridOf
  have hm : ((g.length : Int) + 2 * 1).toNat = n + 2 := by omega
  have hp : (1 : Int).toNat = 1 := rfl
  dsimp only
  rw [hm, hp]
  have e2 : n + 2 - 2 = n := by omega
  rw [e2]
  obtain ⟨inner, hinner, hilen, hP⟩ := mapE_ok (f := procRow g 1 (n + 2))
    (P := fun row : List ℚ => row.length = n + 2) (intRange 1 n)
    (fun i hi => procRow_ok hrect hlen (mem_intRange.1 hi))
  simp only [hinner]
  rw [length_intRange] at hilen
  have h1 : List.take 1 (List.replicate 1 (List.replicate (n + 2) (0 : ℚ)) ++
      List.replicate (n + 2 - 1) ([] : List ℚ)) = [List.replicate (n + 2) (0 : ℚ)] := by
    simp
  have h2 : (List.take 1 (List.replicate 1 (List.replicate (n + 2) (0 : ℚ)) ++
      List.replicate (n + 2 - 1) ([] : List ℚ)) ++ inner ++
      List.drop (n + 2 - 1) (List.replicate 1 (List.replicate (n + 2) (0 : ℚ)) ++
        List.replicate (n + 2 - 1) ([] : List ℚ))).take (n + 2 - 1) =
      List.replicate (n + 2) (0 : ℚ) :: inner := by
    rw [h1]
    apply List.take_left'
    simp [hilen]
  rw [h2]
  refine ⟨_, rfl, by simp [hilen], ?_⟩
  intro row hrow
  simp only [List.cons_append, List.mem_cons, List.mem_append, List.mem_replicate] at hrow
  rcases hrow with rfl | hrow | ⟨-, rfl⟩
  · simp
  · exact hP row hrow
  · simp

theorem convTap_ok {pg kernel : Grid} {w : Nat} (hpg : Rectangular pg w) (hne : pg ≠ [])
    (hk : KernelOK kernel) (i j : Int) {x y : Int} (hx : 0 ≤ x ∧ x < 0 + kernel.length)
    (hy : 0 ≤ y ∧ y < 0 + kernel.length) (total : ℚ) :
    ∃ v, convTap pg kernel 1 i j x total y = .ok v := by
  have hw : ((pg.head?).getD []).length = w := by
    cases pg with
    | nil => exact absurd rfl hne
    | cons r rs => simpa using hpg r (List.mem_cons_self _ _)
  unfold convTap
  dsimp only
  by_cases hguard : 1 * i + x ≥ 0 ∧ 1 * i + x < (pg.length : Int) ∧ 1 * j + y ≥ 0 ∧
      1 * j + y < (((pg.head?).getD []).length : Int)
  · obtain ⟨v, hv⟩ := at2_ok hpg hguard.1 hguard.2.1 hguard.2.2.1
      (by rw [← hw]; exact hguard.2.2.2)
    obtain ⟨c, hc⟩ := at2_ok_of_rows (g := kernel) (i := x) (j := y) hx.1 (by omega)
      hy.1 (fun row hrow => by have := hk row hrow; omega)
    refine ⟨total + v * c, ?_⟩
    rw [if_pos hguard]
    simp only [hv, hc]
  · exact ⟨total, by rw [if_neg hguard]⟩

theorem convCell_ok {pg kernel : Grid} {w : Nat} (hpg : Rectangular pg w) (hne : pg ≠ [])
    (hk : KernelOK kernel) (i j : Int) : ∃ v, convCell pg kernel 1 kernel.length i j = .ok v := by
  unfold convCell
  obtain ⟨v, hv, -⟩ := foldE_ok (I := fun _ : ℚ => True)
    (f := convTaps pg kernel 1 kernel.length i j) (intRange 0 kernel.length) 0 trivial (by
      intro total x _ hx
      rw [mem_intRange] at hx
      unfold convTaps
      obtain ⟨s, hs, -⟩ := foldE_ok (I := fun _ : ℚ => True)
        (f := convTap pg kernel 1 i j x) (intRange 0 kernel.length) total trivial (by
          intro total y _ hy
          rw [mem_intRange] at hy
          obtain ⟨v, hv⟩ := convTap_ok hpg hne hk i j hx hy total
          exact ⟨v, hv, trivial⟩)
      exact ⟨s, hs, trivial⟩)
  exact ⟨v, hv⟩

/-- On a square grid, with a kernel whose rows reach its side, `convolve(g, k, 1, 1)`
does not panic: it returns an error when the grid is smaller than the kernel and a
square grid of side `n - len(k) + 3` otherwise. -/
theorem convolve_ok {g kernel : Grid} {n : Nat} (hg : Square g n) (hn : 1 ≤ n)
    (hk : KernelOK kernel) :
    (n < kernel.length ∧ ∃ msg, convolve g kernel 1 1 = .ok (.error msg)) ∨
    (kernel.length ≤ n ∧
      ∃ g', convolve g kernel 1 1 = .ok (.ok g') ∧ Square g' (n - kernel.length + 3)) := by
  obtain ⟨hlen, hrect⟩ := hg
  unfold convolve
  simp only [show ¬ ((1 : Int) < 1) by decide, if_false, hlen]
  by_cases hlt : n < kernel.length
  · left
    exact ⟨hlt, "grid width is less than convolutional kernel size",
      by simp only [hlt, if_true]⟩
  · right
    refine ⟨by omega, ?_⟩
    simp only [hlt, if_false]
    cases g with
    | nil => simp at hlen; omega
    | cons r0 rest =>
      have hr0 : r0.length = n := hrect r0 (List.mem_cons_self _ _)
      simp only [hr0, hlt, if_false]
      obtain ⟨pg, hpg, hpglen, hpgrect⟩ := procGridOf_ok (g := r0 :: rest) ⟨hlen, hrect⟩
      simp only [hpg]
      have hside : (((n : Int) - (kernel.length : Int) + 2 * 1) / 1 + 1).toNat =
          n - kernel.length + 3 := by
        rw [Int.ediv_one]; omega
      simp only [hside]
      have hpne : pg ≠ [] := by
        intro h; rw [h] at hpglen; simp at hpglen
      obtain ⟨res, hres, hreslen, hP⟩ := mapE_ok
        (f := convRow pg kernel 1 kernel.length (n - kernel.length + 3))
        (P := fun row : List ℚ => row.length = n - kernel.length + 3)
        (intRange 0 (n - kernel.length + 3)) (by
          intro i _
          unfold convRow
          obtain ⟨row, hrow, hrlen, -⟩ := mapE_ok
            (f := convCell pg kernel 1 kernel.length i) (P := fun _ => True)
            (intRange 0 (n - kernel.length + 3)) (by
              intro j _
              obtain ⟨v, hv⟩ := convCell_ok hpgrect hpne hk i j
              exact ⟨v, hv, trivial⟩)
          exact ⟨row, hrow, by show row.length = _; rw [hrlen, length_intRange]⟩)
      simp only [hres]
      exact ⟨res, rfl, by rw [hreslen, length_intRange], hP⟩

theorem convLoop_ok {kernel : Grid} (hk : KernelOK kernel) :
    ∀ (c : Nat) (g : Grid) (n : Nat), Square g n → 1 ≤ n →
      ∃ g' n', convLoop kernel c g = .ok g' ∧ Square g' n' ∧ 1 ≤ n' := by
  intro c
  induction c with
  | zero => intro g n hg hn; exact ⟨g, n, rfl, hg, hn⟩
  | succ c ih =>
    intro g n hg hn
    unfold convLoop
    rcases convolve_ok hg hn hk with ⟨-, msg, hmsg⟩ | ⟨-, g1, hg1, hsq⟩
    · simp only [hmsg]
      exact ⟨g, n, rfl, hg, hn⟩
    · simp only [hg1]
      obtain ⟨g2, hg2, hlen2, hrect2⟩ := normalizeGrid_ok hsq.2
      simp only [hg2]
      exact ih g2 _ ⟨by rw [hlen2, hsq.1], hrect2⟩ (by omega)

theorem scanMax_ok {g : Grid} {w : Nat} (hg : Rectangular g w) (hne : g ≠ []) :
    ∃ r, scanMax g w = .ok r ∧ PeakInGrid g w r.1 r.2.1 := by
  have hpos : 0 < g.length := List.length_pos.2 hne
  unfold scanMax
  apply foldE_ok (I := fun r : Int × Int × ℚ => PeakInGrid g w r.1 r.2.1)
  · exact ⟨le_rfl, by show (0 : Int) < (g.length : Int); exact_mod_cast hpos, le_rfl, Or.inr rfl⟩
  · intro acc i hacc hi
    rw [mem_intRange] at hi
    unfold maxRow
    apply foldE_ok (I := fun r : Int × Int × ℚ => PeakInGrid g w r.1 r.2.1) _ _ hacc
    intro acc j hacc hj
    rw [mem_intRange] at hj
    obtain ⟨v, hv⟩ := at2_ok hg (i := i) (j := j) hi.1 (by omega) hj.1 (by omega)
    unfold maxStep
    simp only [hv]
    by_cases hgt : v > acc.2.2
    · exact ⟨(i, j, v), by rw [if_pos hgt], hi.1, by show i < _; omega, hj.1,
        Or.inl (by show j < _; omega)⟩
    · exact ⟨acc, by rw [if_neg hgt], hacc⟩

theorem leftStep_ok {g : Grid} {w : Nat} (hg : Rectangular g w) (sv : ℚ) {i : Int}
    (hi0 : 0 ≤ i) (hi1 : i < g.length) (r : Ring) (j : Int) :
    ∃ r', leftStep g w sv i r j = .ok r' := by
  unfold leftStep
  by_cases hguard : j ≥ 0 ∧ j < (w : Int)
  · rw [if_pos hguard]
    obtain ⟨v, hv⟩ := at2_ok hg hi0 hi1 hguard.1 hguard.2
    simp only [hv]
    by_cases hgt : v > sv
    · exact ⟨_, by rw [if_pos hgt]⟩
    · exact ⟨_, by rw [if_neg hgt]⟩
  · exact ⟨r, by rw [if_neg hguard]⟩

theorem rightStep_ok {g : Grid} {w : Nat} (hg : Rectangular g w) (sv : ℚ) {i : Int}
    (hi0 : 0 ≤ i) (hi1 : i < g.length) (r : Ring) (j : Int) :
    ∃ r', rightStep g w sv i r j = .ok r' := by
  unfold rightStep
  by_cases hguard : j ≥ 0 ∧ j < (w : Int)
  · rw [if_pos hguard]
    obtain ⟨v, hv⟩ := at2_ok hg hi0 hi1 hguard.1 hguard.2
    simp only [hv]
    by_cases hgt : v > sv
    · exact ⟨_, by rw [if_pos hgt]⟩
    · exact ⟨_, by rw [if_neg hgt]⟩
  · exact ⟨r, by rw [if_neg hguard]⟩

theorem topStep_ok {g : Grid} {w : Nat} (hg : Rectangular g w) (maxX : Int) (sv : ℚ)
    (counter : Int) {i : Int} (hi0 : 0 ≤ i) (hi1 : i < w) (r : Ring) (j : Int) :
    ∃ r', topStep g maxX sv counter i r j = .ok r' := by
  unfold topStep
  by_cases hguard : j ≥ 0 ∧ j < (g.length : Int)
  · rw [if_pos hguard]
    obtain ⟨v, hv⟩ := at2_ok hg hguard.1 hguard.2 hi0 hi1
    simp only [hv]
    by_cases hgt : v > sv
    · exact ⟨_, by rw [if_pos hgt]⟩
    · exact ⟨_, by rw [if_neg hgt]⟩
  · exact ⟨r, by rw [if_neg hguard]⟩

theorem bottomStep_ok {g : Grid} {w : Nat} (hg : Rectangular g w) (maxX : Int) (sv : ℚ)
    (counter : Int) {i : Int} (hi0 : 0 ≤ i) (hi1 : i < w) (r : Ring) (j : Int) :
    ∃ r', bottomStep g w maxX sv counter i r j = .ok r' := by
  unfold bottomStep
  by_cases hguard : j ≥ 0 ∧ j < (g.length : Int)
  · rw [if_pos hguard]
    obtain ⟨v, hv⟩ := at2_ok hg hguard.1 hguard.2 hi0 hi1
    simp only [hv]
    by_cases hgt : v > sv
    · exact ⟨_, by rw [if_pos hgt]⟩
    · exact ⟨_, by rw [if_neg hgt]⟩
  · exact ⟨r, by rw [if_neg hguard]⟩

theorem foldE_total {σ α : Type} {f : σ → α → Except Fault σ}
    (h : ∀ s a, ∃ s', f s a = .ok s') (l : List α) (s : σ) : ∃ s', foldE f s l = .ok s' := by
  obtain ⟨s', hs', -⟩ := foldE_ok (I := fun _ => True) l s trivial
    (fun s a _ _ => by obtain ⟨s', hs'⟩ := h s a; exact ⟨s', hs', trivial⟩)
  exact ⟨s', hs'⟩

theorem ringScan_ok {g : Grid} {w : Nat} (hg : Rectangular g w) {maxX maxY : Int}
    (hp : PeakInGrid g w maxX maxY) (sv : ℚ) {counter : Int} (hc : 1 ≤ counter) :
    ∃ r, ringScan g w maxX maxY sv counter = .ok r := by
  obtain ⟨hx0, hx1, hy0, hy1⟩ := hp
  unfold ringScan
  have h1 : ∀ r, ∃ r', scanLeft g w maxX maxY sv counter r = .ok r' := by
    intro r
    unfold scanLeft
    dsimp only
    by_cases hi : maxX - counter ≥ 0
    · rw [if_pos hi]
      exact foldE_total (fun s a => leftStep_ok hg sv hi (by omega) s a) _ _
    · exact ⟨r, by rw [if_neg hi]⟩
  have h2 : ∀ r, ∃ r', scanRight g w maxX maxY sv counter r = .ok r' := by
    intro r
    unfold scanRight
    dsimp only
    by_cases hi : maxX + counter < (g.length : Int)
    · rw [if_pos hi]
      exact foldE_total (fun s a => rightStep_ok hg sv (by omega) hi s a) _ _
    · exact ⟨r, by rw [if_neg hi]⟩
  have h3 : ∀ r, ∃ r', scanTop g maxX maxY sv counter r = .ok r' := by
    intro r
    unfold scanTop
    dsimp only
    by_cases hi : maxY - counter ≥ 0
    · rw [if_pos hi]
      exact foldE_total (fun s a => topStep_ok hg maxX sv counter hi (by omega) s a) _ _
    · exact ⟨r, by rw [if_neg hi]⟩
  have h4 : ∀ r, ∃ r', scanBottom g w maxX maxY sv counter r = .ok r' := by
    intro r
    unfold scanBottom
    dsimp only
    by_cases hi : maxY + counter < (w : Int)
    · rw [if_pos hi]
      exact foldE_total (fun s a => bottomStep_ok hg maxX sv counter (by omega) hi s a) _ _
    · exact ⟨r, by rw [if_neg hi]⟩
  obtain ⟨r1, e1⟩ := h1 ⟨false, 0, 0, []⟩
  obtain ⟨r2, e2⟩ := h2 r1
  obtain ⟨r3, e3⟩ := h3 r2
  obtain ⟨r4, e4⟩ := h4 r3
  exact ⟨r4, by simp only [e1, e2, e3, e4]⟩

/-- Once the radius has reached both the number of rows and the number of columns,
all four ring edges lie outside the grid and the pass finds nothing. -/
theorem ringScan_far {g : Grid} {w : Nat} {maxX maxY : Int} (hp : PeakInGrid g w maxX maxY)
    (sv : ℚ) {counter : Int} (hc : 1 ≤ counter) (hr : (g.length : Int) ≤ counter)
    (hw : (w : Int) ≤ counter) :
    ringScan g w maxX maxY sv counter = .ok ⟨false, 0, 0, []⟩ := by
  obtain ⟨hx0, hx1, hy0, hy1⟩ := hp
  unfold ringScan scanLeft scanRight scanTop scanBottom
  dsimp only
  have e1 : ¬ (maxX - counter ≥ 0) := by omega
  have e2 : ¬ (maxX + counter < (g.length : Int)) := by omega
  have e3 : ¬ (maxY - counter ≥ 0) := by omega
  have e4 : ¬ (maxY + counter < (w : Int)) := by omega
  simp only [if_neg e1, if_neg e2, if_neg e3, if_neg e4]

theorem ringLoop_ok {g : Grid} {w : Nat} (hg : Rectangular g w) {maxX maxY : Int}
    (hp : PeakInGrid g w maxX maxY) :
    ∀ (fuel : Nat) (sv : ℚ) (counter splitX splitY : Int), 1 ≤ counter → 1 ≤ fuel →
      (g.length : Int) + w + 1 ≤ counter + fuel →
      ∃ r, ringLoop g w maxX maxY fuel sv counter splitX splitY = .ok r := by
  intro fuel
  induction fuel with
  | zero => intro _ _ _ _ _ h; omega
  | succ f ih =>
    intro sv counter splitX splitY hc _ hb
    unfold ringLoop
    obtain ⟨r, hr⟩ := ringScan_ok hg hp sv hc
    simp only [hr]
    by_cases hfound : r.itemFound = true
    · simp only [hfound, Bool.not_true, Bool.false_eq_true, if_false]
      have hnear : counter < (g.length : Int) ∨ counter < (w : Int) := by
        by_contra hcon
        push_neg at hcon
        have := ringScan_far hp sv hc hcon.1 hcon.2
        rw [hr] at this
        simp only [Except.ok.injEq] at this
        rw [this] at hfound
        cases hfound
      apply ih
      · omega
      · omega
      · push_cast at hb ⊢
        omega
    · simp only [Bool.not_eq_true] at hfound
      simp only [hfound, Bool.not_false, if_true]
      exact ⟨_, rfl⟩

theorem getSplitPoint_ok {g : Grid} {w : Nat} (hg : Rectangular g w) (hne : g ≠ []) :
    ∃ r, getSplitPoint g = .ok r := by
  cases g with
  | nil => exact absurd rfl hne
  | cons r0 rest =>
    have hw : r0.length = w := hg r0 (List.mem_cons_self _ _)
    unfold getSplitPoint
    dsimp only
    rw [hw]
    obtain ⟨⟨mx, my, mv⟩, hm, hpeak⟩ := scanMax_ok hg hne
    simp only [hm]
    obtain ⟨⟨sx, sy⟩, hl⟩ := ringLoop_ok hg hpeak ((r0 :: rest).length + w + 1) (mv * (4 / 5)) 1 0 0
      le_rfl (by omega) (by push_cast; omega)
    simp only [hl]
    exact ⟨_, rfl⟩

theorem smoothIndex_ok {kernel : Grid} (hk : KernelOK kernel) (convNum : Int) {g : Grid}
    {n : Nat} (hg : Square g n) (hn : 1 ≤ n) : ∃ idx, smoothIndex kernel convNum g = .ok idx := by
  unfold smoothIndex
  obtain ⟨g1, e1, hlen1, hrect1⟩ := normalizeGrid_ok hg.2
  simp only [e1]
  obtain ⟨g2, n2, e2, hsq2, hn2⟩ := convLoop_ok hk convNum.toNat g1 n ⟨by rw [hlen1, hg.1], hrect1⟩ hn
  simp only [e2]
  obtain ⟨g3, e3, hlen3, hrect3⟩ := normalizeGrid_ok hsq2.2
  simp only [e3]
  have hne : g3 ≠ [] := by
    intro h
    rw [h] at hlen3
    have := hsq2.1
    simp at hlen3
    omega
  obtain ⟨⟨x, y⟩, e4⟩ := getSplitPoint_ok hrect3 hne
  simp only [e4]
  exact ⟨_, rfl⟩

theorem buildGrid_ok (tree : ConvFields) (h : 0 ≤ tree.GridSize) :
    ∃ g, buildGrid tree = .ok g ∧ Square g tree.GridSize.toNat := by
  unfold buildGrid
  rw [if_neg (not_lt.2 h)]
  refine ⟨_, rfl, ?_, ?_⟩
  · simp [intRange]
  · intro row hrow
    simp only [List.mem_map] at hrow
    obtain ⟨i, -, rfl⟩ := hrow
    simp [intRange]

theorem splitIndex_ok {tree : ConvFields} (hgs : 1 ≤ tree.GridSize) (hk : KernelOK tree.Kernel) :
    ∃ idx, splitIndex tree = .ok idx := by
  unfold splitIndex
  obtain ⟨g, e, hsq⟩ := buildGrid_ok tree (by omega)
  simp only [e]
  exact smoothIndex_ok hk _ hsq (by omega)


theorem childOf_all (tree : ConvFields) (x y : ℚ) :
    ChildOf tree (childTopLeft tree x y) ∧ ChildOf tree (childTopRight tree x y) ∧
      ChildOf tree (childBottomLeft tree x y) ∧ ChildOf tree (childBottomRight tree x y) :=
  ⟨⟨rfl, rfl, rfl, rfl⟩, ⟨rfl, rfl, rfl, rfl⟩, ⟨rfl, rfl, rfl, rfl⟩, ⟨rfl, rfl, rfl, rfl⟩⟩

theorem finishChild_total {recur : ConvFields → Except Fault ConvTree} (tree : ConvFields)
    {child : ConvFields}
    (hrec : checkSplit child = true → ∃ t, recur child = .ok t) :
    ∃ t, finishChild recur tree child = .ok t := by
  unfold finishChild
  by_cases hc : checkSplit child = true
  · rw [if_pos hc]; exact hrec hc
  · rw [if_neg hc]; exact ⟨_, rfl⟩

theorem splitWith_total {recur : ConvFields → Except Fault ConvTree} {tree : ConvFields}
    (hgs : 1 ≤ tree.GridSize) (hk : KernelOK tree.Kernel)
    (hrec : ∀ c, ChildOf tree c → checkSplit c = true → ∃ t, recur c = .ok t) :
    ∃ t, splitWith recur tree = .ok t := by
  obtain ⟨⟨xMax, yMax⟩, hidx⟩ := splitIndex_ok hgs hk
  obtain ⟨k1, k2, k3, k4⟩ := childOf_all tree (cutX tree xMax) (cutY tree yMax)
  obtain ⟨c1, h1⟩ := finishChild_total tree (hrec _ k1)
  obtain ⟨c2, h2⟩ := finishChild_total tree (hrec _ k2)
  obtain ⟨c3, h3⟩ := finishChild_total tree (hrec _ k3)
  obtain ⟨c4, h4⟩ := finishChild_total tree (hrec _ k4)
  unfold splitWith
  simp only [hidx, h1, h2, h3, h4]
  exact ⟨_, rfl⟩

theorem splitFuel_total (n : Nat) : ∀ (tree : ConvFields), 1 ≤ tree.GridSize →
    KernelOK tree.Kernel → (tree.MaxDepth - tree.Depth - 1).toNat ≤ n →
    ∃ t, splitFuel n tree = .ok t := by
  induction n with
  | zero =>
    intro tree hgs hk hb
    apply splitWith_total hgs hk
    intro c hc hcs
    have := checkSplit_depth hcs
    obtain ⟨h1, h2, -, -⟩ := hc
    omega
  | succ k ih =>
    intro tree hgs hk hb
    apply splitWith_total hgs hk
    intro c hc _
    obtain ⟨h1, h2, h3, h4⟩ := hc
    exact ih c (by rw [h3]; exact hgs) (by rw [h4]; exact hk) (by rw [h1, h2]; omega)

/-- Totality: `split()` returns on every node whose grid size is at least 1 and whose kernel
rows reach the kernel's side: the run neither panics nor uses up a budget. -/
theorem split_total (tree : ConvFields) (hgs : 1 ≤ tree.GridSize)
    (hk : KernelOK tree.Kernel) : ∃ t, split tree = .ok t :=
  splitFuel_total _ tree hgs hk (by omega)

theorem finishChild_congr {r1 r2 : ConvFields → Except Fault ConvTree} (tree : ConvFields)
    {child : ConvFields}
    (h : checkSplit child = true → r1 child = r2 child) :
    finishChild r1 tree child = finishChild r2 tree child := by
  unfold finishChild
  by_cases hc : checkSplit child = true
  · rw [if_pos hc, if_pos hc]; exact h hc
  · rw [if_neg hc, if_neg hc]

theorem splitWith_congr {r1 r2 : ConvFields → Except Fault ConvTree} {tree : ConvFields}
    (h : ∀ c, ChildOf tree c → checkSplit c = true → r1 c = r2 c) :
    splitWith r1 tree = splitWith r2 tree := by
  unfold splitWith
  split
  · rfl
  · rename_i xMax yMax _
    obtain ⟨k1, k2, k3, k4⟩ := childOf_all tree (cutX tree xMax) (cutY tree yMax)
    dsimp only
    rw [finishChild_congr tree (h _ k1), finishChild_congr tree (h _ k2),
      finishChild_congr tree (h _ k3), finishChild_congr tree (h _ k4)]

/-- Any two budgets of at least `MaxDepth - Depth - 1` nested levels give the same
result: the recursion of `split()` never runs into its budget. -/
theorem splitFuel_budget (n : Nat) : ∀ (m : Nat) (tree : ConvFields),
    (tree.MaxDepth - tree.Depth - 1).toNat ≤ n → (tree.MaxDepth - tree.Depth - 1).toNat ≤ m →
    splitFuel n tree = splitFuel m tree := by
  induction n with
  | zero =>
    intro m tree hn _
    cases m with
    | zero => rfl
    | succ j =>
      show splitWith _ tree = splitWith _ tree
      apply splitWith_congr
      intro c hc hcs
      have := checkSplit_depth hcs
      obtain ⟨h1, h2, -, -⟩ := hc
      omega
  | succ k ih =>
    intro m tree hn hm
    cases m with
    | zero =>
      show splitWith _ tree = splitWith _ tree
      apply splitWith_congr
      intro c hc hcs
      have := checkSplit_depth hcs
      obtain ⟨h1, h2, -, -⟩ := hc
      omega
    | succ j =>
      show splitWith _ tree = splitWith _ tree
      apply splitWith_congr
      intro c hc _
      obtain ⟨h1, h2, -, -⟩ := hc
      exact ih j c (by rw [h1, h2]; omega) (by rw [h1, h2]; omega)

theorem split_budget (tree : ConvFields) (n : Nat)
    (h : (tree.MaxDepth - tree.Depth).toNat ≤ n) : splitFuel n tree = split tree :=
  splitFuel_budget n _ tree (by omega) (by omega)

/-! ## The depth discipline -/

theorem getBaseline_frame (c : ConvFields) :
    (getBaseline c).IsLeaf = c.IsLeaf ∧ (getBaseline c).MaxPoints = c.MaxPoints ∧
    (getBaseline c).MaxDepth = c.MaxDepth ∧ (getBaseline c).Depth = c.Depth ∧
    (getBaseline c).GridSize = c.GridSize ∧ (getBaseline c).ConvNum = c.ConvNum ∧
    (getBaseline c).Kernel = c.Kernel ∧ (getBaseline c).Points = c.Points ∧
    (getBaseline c).MinXLength = c.MinXLength ∧ (getBaseline c).MinYLength = c.MinYLength ∧
    (getBaseline c).BottomLeft = c.BottomLeft ∧ (getBaseline c).TopRight = c.TopRight := by
  unfold getBaseline
  simp only
  split <;> simp

theorem leafChild_depthInv (tree child : ConvFields) (hl : child.IsLeaf = true) :
    DepthInv child.MaxDepth child.Depth (leafChild tree child) := by
  have hf := getStats_frame child
  unfold leafChild DepthInv
  refine ⟨hf.2.2.2.1, hf.2.2.1, Or.inl ⟨?_, rfl, rfl, rfl, rfl⟩⟩
  simp only [hf.1, hl]

theorem finishChild_depthInv {recur : ConvFields → Except Fault ConvTree}
    (hrec : ∀ c t, c.Depth < c.MaxDepth → recur c = .ok t → DepthInv c.MaxDepth c.Depth t)
    {tree child : ConvFields} {t : ConvTree} (hl : child.IsLeaf = true)
    (h : finishChild recur tree child = .ok t) :
    DepthInv child.MaxDepth child.Depth t := by
  rcases finishChild_ok h with ⟨hcs, hr⟩ | ⟨-, rfl⟩
  · exact hrec _ _ (checkSplit_depth hcs) hr
  · exact leafChild_depthInv tree child hl

theorem splitWith_depthInv {recur : ConvFields → Except Fault ConvTree}
    (hrec : ∀ c t, c.Depth < c.MaxDepth → recur c = .ok t → DepthInv c.MaxDepth c.Depth t)
    {tree : ConvFields} {t : ConvTree} (hd : tree.Depth < tree.MaxDepth)
    (h : splitWith recur tree = .ok t) : DepthInv tree.MaxDepth tree.Depth t := by
  obtain ⟨xMax, yMax, c1, c2, c3, c4, -, h1, h2, h3, h4, rfl⟩ := splitWith_ok h
  unfold DepthInv
  refine ⟨rfl, rfl, Or.inr ⟨rfl, hd, ?_, ?_, ?_, ?_⟩⟩
  · exact finishChild_depthInv hrec rfl h1
  · exact finishChild_depthInv hrec rfl h2
  · exact finishChild_depthInv hrec rfl h3
  · exact finishChild_depthInv hrec rfl h4

theorem splitFuel_depthInv (n : Nat) : ∀ (tree : ConvFields) (t : ConvTree),
    tree.Depth < tree.MaxDepth → splitFuel n tree = .ok t →
      DepthInv tree.MaxDepth tree.Depth t := by
  induction n with
  | zero =>
    intro tree t hd h
    exact splitWith_depthInv (fun c t _ hr => by cases hr) hd h
  | succ k ih =>
    intro tree t hd h
    exact splitWith_depthInv ih hd h

theorem split_depthInv {tree : ConvFields} {t : ConvTree} (hc : checkSplit tree = true)
    (h : split tree = .ok t) : DepthInv tree.MaxDepth tree.Depth t :=
  splitFuel_depthInv _ tree t (checkSplit_depth hc) h

theorem route_ok {tree : ConvFields} {tl tr bl br : ConvTree} {point : Point}
    {rtl rtr rbl rbr : Except Fault ConvTree} {t' : ConvTree}
    (h : route tree tl tr bl br point rtl rtr rbl rbr = .ok t') :
    (∃ x, rtl = .ok x ∧ t' = .node tree x tr bl br) ∨
    (∃ x, rtr = .ok x ∧ t' = .node tree tl x bl br) ∨
    (∃ x, rbl = .ok x ∧ t' = .node tree tl tr x br) ∨
    (∃ x, rbr = .ok x ∧ t' = .node tree tl tr bl x) ∨
    t' = .node tree tl tr bl br := by
  unfold route at h
  split at h
  · cases h
  · split at h
    · split at h
      · cases h
      · rename_i x
        simp only [Except.ok.injEq] at h
        exact Or.inl ⟨x, rfl, h.symm⟩
    · split at h
      · cases h
      · split at h
        · split at h
          · cases h
          · rename_i x
            simp only [Except.ok.injEq] at h
            exact Or.inr (Or.inl ⟨x, rfl, h.symm⟩)
        · split at h
          · cases h
          · split at h
            · split at h
              · cases h
              · rename_i x
                simp only [Except.ok.injEq] at h
                exact Or.inr (Or.inr (Or.inl ⟨x, rfl, h.symm⟩))
            · split at h
              · cases h
              · split at h
                · split at h
                  · cases h
                  · rename_i x
                    simp only [Except.ok.injEq] at h
                    exact Or.inr (Or.inr (Or.inr (Or.inl ⟨x, rfl, h.symm⟩)))
                · simp only [Except.ok.injEq] at h
                  exact Or.inr (Or.inr (Or.inr (Or.inr h.symm)))

theorem insertLeaf_depthInv {M d : Int} {f : ConvFields} {point : Point} {allowSplit : Bool}
    {t' : ConvTree} (hd : f.Depth = d) (hM : f.MaxDepth = M) (hl : f.IsLeaf = true)
    (h : insertLeaf f .nil .nil .nil .nil point allowSplit = .ok t') : DepthInv M d t' := by
  unfold insertLeaf at h
  simp only at h
  split at h
  · split at h
    · rename_i hcs
      have := split_depthInv hcs h
      simpa only [hd, hM] using this
    · simp only [Except.ok.injEq] at h
      subst h
      have h1 := getBaseline_frame (getStats { f with Points := f.Points ++ [point] })
      have h2 := getStats_frame { f with Points := f.Points ++ [point] }
      unfold DepthInv
      refine ⟨?_, ?_, Or.inl ⟨?_, rfl, rfl, rfl, rfl⟩⟩
      · rw [h1.2.2.2.1, h2.2.2.2.1]; exact hd
      · rw [h1.2.2.1, h2.2.2.1]; exact hM
      · rw [h1.1, h2.1]; exact hl
  · simp only [Except.ok.injEq] at h
    subst h
    unfold DepthInv
    exact ⟨hd, hM, Or.inl ⟨hl, rfl, rfl, rfl, rfl⟩⟩

theorem Insert_depthInv (M : Int) (point : Point) (allowSplit : Bool) :
    ∀ (t : ConvTree) (d : Int) (t' : ConvTree), DepthInv M d t →
      ConvTree.Insert t point allowSplit = .ok t' → DepthInv M d t' := by
  intro t
  induction t with
  | nil => intro d t' h; exact absurd h (by simp [DepthInv])
  | node f tl tr bl br ih1 ih2 ih3 ih4 =>
    intro d t' hinv h
    unfold DepthInv at hinv
    obtain ⟨hd, hM, hcase⟩ := hinv
    rw [ConvTree.Insert] at h
    rcases hcase with ⟨hl, rfl, rfl, rfl, rfl⟩ | ⟨hl, hlt, i1, i2, i3, i4⟩
    · simp only [hl, Bool.not_true, Bool.false_eq_true, if_false] at h
      exact insertLeaf_depthInv hd hM hl h
    · simp only [hl, Bool.not_false, if_true] at h
      rcases route_ok h with ⟨x, hx, rfl⟩ | ⟨x, hx, rfl⟩ | ⟨x, hx, rfl⟩ | ⟨x, hx, rfl⟩ | rfl
      · unfold DepthInv
        exact ⟨hd, hM, Or.inr ⟨hl, hlt, ih1 _ _ i1 hx, i2, i3, i4⟩⟩
      · unfold DepthInv
        exact ⟨hd, hM, Or.inr ⟨hl, hlt, i1, ih2 _ _ i2 hx, i3, i4⟩⟩
      · unfold DepthInv
        exact ⟨hd, hM, Or.inr ⟨hl, hlt, i1, i2, ih3 _ _ i3 hx, i4⟩⟩
      · unfold DepthInv
        exact ⟨hd, hM, Or.inr ⟨hl, hlt, i1, i2, i3, ih4 _ _ i4 hx⟩⟩
      · unfold DepthInv
        exact ⟨hd, hM, Or.inr ⟨hl, hlt, i1, i2, i3, i4⟩⟩

theorem Check_depthInv {M d : Int} {t t' : ConvTree} (hinv : DepthInv M d t)
    (h : ConvTree.Check t = .ok t') : DepthInv M d t' := by
  cases t with
  | nil => exact absurd hinv (by simp [DepthInv])
  | node f tl tr bl br =>
    unfold DepthInv at hinv
    obtain ⟨hd, hM, hcase⟩ := hinv
    simp only [ConvTree.Check] at h
    split at h
    · rename_i hcs
      have := split_depthInv hcs h
      simpa only [hd, hM] using this
    · simp only [Except.ok.injEq] at h
      subst h
      have h2 := getStats_frame f
      unfold DepthInv
      refine ⟨by rw [h2.2.2.2.1]; exact hd, by rw [h2.2.2.1]; exact hM, ?_⟩
      rw [h2.1]
      exact hcase

theorem clearAll_depthInv (M : Int) : ∀ (t : ConvTree) (d : Int), DepthInv M d t →
    DepthInv M d (clearAll t) := by
  intro t
  induction t with
  | nil => intro d h; exact h
  | node f tl tr bl br ih1 ih2 ih3 ih4 =>
    intro d hinv
    unfold DepthInv at hinv
    obtain ⟨hd, hM, hcase⟩ := hinv
    unfold clearAll DepthInv
    refine ⟨hd, hM, ?_⟩
    rcases hcase with ⟨hl, rfl, rfl, rfl, rfl⟩ | ⟨hl, hlt, i1, i2, i3, i4⟩
    · exact Or.inl ⟨hl, rfl, rfl, rfl, rfl⟩
    · exact Or.inr ⟨hl, hlt, ih1 _ i1, ih2 _ i2, ih3 _ i3, ih4 _ i4⟩

theorem Clear_depthInv {M d : Int} {t t' : ConvTree} (hinv : DepthInv M d t)
    (h : ConvTree.Clear t = .ok t') : DepthInv M d t' := by
  cases t with
  | nil => exact absurd hinv (by simp [DepthInv])
  | node f tl tr bl br =>
    simp only [ConvTree.Clear, Except.ok.injEq] at h
    subst h
    exact clearAll_depthInv M _ d hinv

/-- The two ways `NewConvTree` returns a tree without an error. -/
theorem NewConvTree_ok {bottomLeft topRight : Point} {minXLength minYLength : ℚ}
    {maxPoints maxDepth convNumber gridSize : Int} {kernel : Grid} {initPoints : List Point}
    {t : ConvTree}
    (h : NewConvTree bottomLeft topRight minXLength minYLength maxPoints maxDepth convNumber
      gridSize kernel initPoints = .ok (t, none)) :
    bottomLeft.X < topRight.X ∧ bottomLeft.Y < topRight.Y ∧
    ∃ tree : ConvFields,
      tree = ⟨true, maxPoints, maxDepth, 0, gridSize, convNumber,
        if checkKernel kernel then kernel else defaultKernel, initPoints, minXLength,
        minYLength, bottomLeft, topRight, CellStats.zero⟩ ∧
      ((checkSplit tree = true ∧ split tree = .ok t) ∨
        (checkSplit tree = false ∧
          t = .node (getBaseline (getStats tree)) .nil .nil .nil .nil)) := by
  unfold NewConvTree at h
  by_cases hx : bottomLeft.X ≥ topRight.X
  · simp [hx] at h
  · by_cases hy : bottomLeft.Y ≥ topRight.Y
    · simp [hx, hy] at h
    · simp only [hx, hy, if_false] at h
      refine ⟨lt_of_not_ge hx, lt_of_not_ge hy, _, rfl, ?_⟩
      have hk : (if (!checkKernel kernel) = true then defaultKernel else kernel) =
          (if checkKernel kernel then kernel else defaultKernel) := by
        cases checkKernel kernel <;> simp
      rw [hk] at h
      generalize (if checkKernel kernel = true then kernel else defaultKernel) = k at h ⊢
      split at h
      · rename_i hcs
        left
        refine ⟨hcs, ?_⟩
        split at h
        · cases h
        · rename_i t0 hs
          simp only [Except.ok.injEq, Prod.mk.injEq, and_true] at h
          rw [hs, h]
      · rename_i hcs
        right
        simp only [Except.ok.injEq, Prod.mk.injEq, and_true] at h
        exact ⟨by simpa using hcs, h.symm⟩

theorem NewConvTree_depthInv {bottomLeft topRight : Point} {minXLength minYLength : ℚ}
    {maxPoints maxDepth convNumber gridSize : Int} {kernel : Grid} {initPoints : List Point}
    {t : ConvTree}
    (h : NewConvTree bottomLeft topRight minXLength minYLength maxPoints maxDepth convNumber
      gridSize kernel initPoints = .ok (t, none)) : DepthInv maxDepth 0 t := by
  obtain ⟨-, -, tree, rfl, ⟨hcs, hs⟩ | ⟨-, rfl⟩⟩ := NewConvTree_ok h
  · exact split_depthInv hcs hs
  · unfold DepthInv
    refine ⟨?_, ?_, Or.inl ⟨?_, rfl, rfl, rfl, rfl⟩⟩
    · rw [(getBaseline_frame _).2.2.2.1, (getStats_frame _).2.2.2.1]
    · rw [(getBaseline_frame _).2.2.1, (getStats_frame _).2.2.1]
    · rw [(getBaseline_frame _).1, (getStats_frame _).1]

theorem Reachable_depthInv {t : ConvTree} (h : Reachable t) : ∃ M, DepthInv M 0 t := by
  induction h with
  | new bl tr mx my mp md cn gs k pts t h => exact ⟨md, NewConvTree_depthInv h⟩
  | insert t t' p b _ h ih =>
    obtain ⟨M, hM⟩ := ih
    exact ⟨M, Insert_depthInv M p b t 0 t' hM h⟩
  | check t t' _ h ih =>
    obtain ⟨M, hM⟩ := ih
    exact ⟨M, Check_depthInv hM h⟩
  | clear t t' _ h ih =>
    obtain ⟨M, hM⟩ := ih
    exact ⟨M, Clear_depthInv hM h⟩

/-- What the depth discipline says of each node of the tree. -/
theorem DepthInv_nodes (M : Int) : ∀ (t : ConvTree) (d : Int), 0 ≤ d → DepthInv M d t →
    ∀ n ∈ nodes t, ∀ f tl tr bl br, n = .node f tl tr bl br →
      (∀ c ∈ [tl, tr, bl, br], ∀ fc, fields c = some fc → fc.Depth = f.Depth + 1) ∧
      (f.Depth ≥ f.MaxDepth → f.IsLeaf = true ∧ tl = .nil ∧ tr = .nil ∧ bl = .nil ∧ br = .nil) ∧
      (f.IsLeaf = false → fields tl ≠ none ∧ fields tr ≠ none ∧ fields bl ≠ none ∧
        fields br ≠ none) ∧
      d ≤ f.Depth ∧ f.Depth ≤ max M d ∧ f.MaxDepth = M := by
  intro t
  induction t with
  | nil => intro d _ h; exact absurd h (by simp [DepthInv])
  | node g a b c e ih1 ih2 ih3 ih4 =>
    intro d hd0 hinv n hn f tl tr bl br hnode
    unfold DepthInv at hinv
    obtain ⟨hd, hM, hcase⟩ := hinv
    simp only [nodes, List.mem_cons, List.mem_append] at hn
    rcases hcase with ⟨hl, rfl, rfl, rfl, rfl⟩ | ⟨hl, hlt, i1, i2, i3, i4⟩
    · simp only [nodes, List.not_mem_nil, or_false] at hn
      subst hn
      cases hnode
      refine ⟨?_, fun _ => ⟨hl, rfl, rfl, rfl, rfl⟩, ?_, by omega, ?_, hM⟩
      · intro c hc fc hfc
        simp only [List.mem_cons, List.mem_singleton, List.not_mem_nil, or_false, or_self] at hc
        subst hc
        simp [fields] at hfc
      · intro hf; rw [hl] at hf; cases hf
      · rw [hd]; exact le_max_right _ _
    · have hsub : ∀ x, DepthInv M (d + 1) x → ∀ fx, fields x = some fx → fx.Depth = d + 1 := by
        intro x hx fx hfx
        cases x with
        | nil => exact absurd hx (by simp [DepthInv])
        | node y _ _ _ _ =>
          simp only [fields, Option.some.injEq] at hfx
          subst hfx
          unfold DepthInv at hx
          exact hx.1
      have hne : ∀ x, DepthInv M (d + 1) x → fields x ≠ none := by
        intro x hx
        cases x with
        | nil => exact absurd hx (by simp [DepthInv])
        | node y _ _ _ _ => simp [fields]
      have hmax : max M (d + 1) = M := max_eq_left (by omega)
      have hle : M ≤ max M d := le_max_left _ _
      rcases hn with rfl | ((hn | hn) | hn) | hn
      · cases hnode
        refine ⟨?_, ?_, fun _ => ⟨hne _ i1, hne _ i2, hne _ i3, hne _ i4⟩, by omega, ?_, hM⟩
        · intro c hc fc hfc
          simp only [List.mem_cons, List.mem_singleton, List.not_mem_nil, or_false] at hc
          rw [hd]
          rcases hc with rfl | rfl | rfl | rfl
          · exact hsub _ i1 _ hfc
          · exact hsub _ i2 _ hfc
          · exact hsub _ i3 _ hfc
          · exact hsub _ i4 _ hfc
        · intro hge; omega
        · rw [hd]; exact le_max_right _ _
      · obtain ⟨p1, p2, p3, p4, p5, p6⟩ := ih1 (d + 1) (by omega) i1 n hn f tl tr bl br hnode
        exact ⟨p1, p2, p3, by omega, by rw [hmax] at p5; omega, p6⟩
      · obtain ⟨p1, p2, p3, p4, p5, p6⟩ := ih2 (d + 1) (by omega) i2 n hn f tl tr bl br hnode
        exact ⟨p1, p2, p3, by omega, by rw [hmax] at p5; omega, p6⟩
      · obtain ⟨p1, p2, p3, p4, p5, p6⟩ := ih3 (d + 1) (by omega) i3 n hn f tl tr bl br hnode
        exact ⟨p1, p2, p3, by omega, by rw [hmax] at p5; omega, p6⟩
      · obtain ⟨p1, p2, p3, p4, p5, p6⟩ := ih4 (d + 1) (by omega) i4 n hn f tl tr bl br hnode
        exact ⟨p1, p2, p3, by omega, by rw [hmax] at p5; omega, p6⟩

/-! ## The naive tree: split() returns -/

theorem wrapInt_of_range {z : Int} (h1 : -2 ^ 63 ≤ z) (h2 : z < 2 ^ 63) : wrapInt z = z := by
  unfold wrapInt
  omega

theorem wrapInt_range (z : Int) : -2 ^ 63 ≤ wrapInt z ∧ wrapInt z < 2 ^ 63 := by
  unfold wrapInt
  omega

theorem wrapInt_add_wrap (a b : Int) : wrapInt (wrapInt a + b) = wrapInt (a + b) := by
  unfold wrapInt
  omega

theorem wrapInt_congruent (z : Int) : (wrapInt z - z) % 2 ^ 64 = 0 := by
  unfold wrapInt
  omega

theorem foldl_weight_from (pts : List Point) (a : Int) :
    pts.foldl (fun total point => wrapInt (total + point.Weight)) (wrapInt a) =
      wrapInt (a + (pts.map Point.Weight).sum) := by
  induction pts generalizing a with
  | nil => simp
  | cons p ps ih =>
    rw [List.foldl_cons, wrapInt_add_wrap, ih, List.map_cons, List.sum_cons, add_assoc]

theorem foldl_weight (pts : List Point) :
    pts.foldl (fun total point => wrapInt (total + point.Weight)) 0 =
      wrapInt ((pts.map Point.Weight).sum) := by
  have h := foldl_weight_from pts 0
  rw [zero_add, show wrapInt 0 = 0 from rfl] at h
  exact h

theorem quad_checkSplit_depth {tree : QuadFields} (h : QuadTree.checkSplit tree = true) :
    tree.Depth < tree.maxDepth := by
  unfold QuadTree.checkSplit at h
  simp only [Bool.and_eq_true, decide_eq_true_eq] at h
  exact h.2.2

theorem quad_finishChild_total {recur : QuadFields → Except Fault QuadTree} {child : QuadFields}
    (hrec : QuadTree.checkSplit child = true → ∃ t, recur child = .ok t) :
    ∃ t, QuadTree.finishChild recur child = .ok t := by
  unfold QuadTree.finishChild
  by_cases hc : QuadTree.checkSplit child = true
  · rw [if_pos hc]; exact hrec hc
  · rw [if_neg hc]; exact ⟨_, rfl⟩

theorem quad_splitWith_total {recur : QuadFields → Except Fault QuadTree} {tree : QuadFields}
    (hrec : ∀ c, c.Depth = tree.Depth + 1 → c.maxDepth = tree.maxDepth →
      QuadTree.checkSplit c = true → ∃ t, recur c = .ok t) :
    ∃ c1 c2 c3 c4, QuadTree.splitWith recur tree =
      .ok (.node { tree with IsLeaf := false, Points := [] } c1 c2 c3 c4) := by
  unfold QuadTree.splitWith
  dsimp only
  have key : ∀ a b pts, ∃ t,
      QuadTree.finishChild recur (QuadTree.newChild tree a b pts) = .ok t :=
    fun a b pts => quad_finishChild_total (hrec (QuadTree.newChild tree a b pts) rfl rfl)
  obtain ⟨c1, h1⟩ := key tree.TopLeft
    ⟨tree.TopLeft.X + (tree.BottomRight.X - tree.TopLeft.X) / 2,
      tree.TopLeft.Y + (tree.BottomRight.Y - tree.TopLeft.Y) / 2, 0, none⟩
    (QuadTree.filterSplitPoints tree tree.TopLeft
      ⟨tree.TopLeft.X + (tree.BottomRight.X - tree.TopLeft.X) / 2,
        tree.TopLeft.Y + (tree.BottomRight.Y - tree.TopLeft.Y) / 2, 0, none⟩)
  rw [h1]
  dsimp only
  obtain ⟨c2, h2⟩ := key
    ⟨tree.TopLeft.X + (tree.BottomRight.X - tree.TopLeft.X) / 2, tree.TopLeft.Y, 0, none⟩
    ⟨tree.BottomRight.X, tree.TopLeft.Y + (tree.BottomRight.Y - tree.TopLeft.Y) / 2, 0, none⟩
    (QuadTree.filterSplitPoints tree
      ⟨tree.TopLeft.X + (tree.BottomRight.X - tree.TopLeft.X) / 2, tree.TopLeft.Y, 0, none⟩
      ⟨tree.BottomRight.X, tree.TopLeft.Y + (tree.BottomRight.Y - tree.TopLeft.Y) / 2, 0, none⟩)
  rw [h2]
  dsimp only
  obtain ⟨c3, h3⟩ := key
    ⟨tree.TopLeft.X, tree.TopLeft.Y + (tree.BottomRight.Y - tree.TopLeft.Y) / 2, 0, none⟩
    ⟨tree.TopLeft.X + (tree.BottomRight.X - tree.TopLeft.X) / 2, tree.BottomRight.Y, 0, none⟩
    (QuadTree.filterSplitPoints tree
      ⟨tree.TopLeft.X, tree.TopLeft.Y + (tree.BottomRight.Y - tree.TopLeft.Y) / 2, 0, none⟩
      ⟨tree.TopLeft.X + (tree.BottomRight.X - tree.TopLeft.X) / 2, tree.BottomRight.Y, 0, none⟩)
  rw [h3]
  dsimp only
  obtain ⟨c4, h4⟩ := key
    ⟨tree.TopLeft.X + (tree.BottomRight.X - tree.TopLeft.X) / 2,
      tree.TopLeft.Y + (tree.BottomRight.Y - tree.TopLeft.Y) / 2, 0, none⟩
    tree.BottomRight
    (QuadTree.filterSplitPoints tree
      ⟨tree.TopLeft.X + (tree.BottomRight.X - tree.TopLeft.X) / 2,
        tree.TopLeft.Y + (tree.BottomRight.Y - tree.TopLeft.Y) / 2, 0, none⟩
      tree.BottomRight)
  rw [h4]
  exact ⟨c1, c2, c3, c4, rfl⟩

theorem quad_splitFuel_total (n : Nat) : ∀ (tree : QuadFields),
    (tree.maxDepth - tree.Depth - 1).toNat ≤ n →
    ∃ c1 c2 c3 c4, QuadTree.splitFuel n tree =
      .ok (.node { tree with IsLeaf := false, Points := [] } c1 c2 c3 c4) := by
  induction n with
  | zero =>
    intro tree hb
    apply quad_splitWith_total
    intro c h1 h2 hcs
    have := quad_checkSplit_depth hcs
    omega
  | succ k ih =>
    intro tree hb
    apply quad_splitWith_total
    intro c h1 h2 _
    obtain ⟨c1, c2, c3, c4, h⟩ := ih c (by rw [h1, h2]; omega)
    exact ⟨_, h⟩

/-- The naive `split()` always returns: the node, no longer a leaf and without points,
over four children. -/
theorem quad_split_total (tree : QuadFields) :
    ∃ c1 c2 c3 c4, QuadTree.split tree =
      .ok (.node { tree with IsLeaf := false, Points := [] } c1 c2 c3 c4) :=
  quad_splitFuel_total _ tree (by omega)

theorem checkKernel_kernelOK {k : Grid} (h : checkKernel k = true) : KernelOK k := by
  unfold checkKernel at h
  cases k with
  | nil => simp at h
  | cons r0 rest =>
    simp only at h
    split at h
    · cases h
    · split at h
      · cases h
      · rename_i h1 h2
        simp only [ne_eq, Decidable.not_not] at h2
        rw [List.all_eq_true] at h
        intro row hrow
        have := h row hrow
        simp only [decide_eq_true_eq] at this
        rw [this, h2]

theorem defaultKernel_ok : KernelOK defaultKernel := checkKernel_kernelOK (by decide)

theorem chosenKernel_ok (k : Grid) :
    KernelOK (if checkKernel k = true then k else defaultKernel) := by
  by_cases h : checkKernel k = true
  · rw [if_pos h]; exact checkKernel_kernelOK h
  · rw [if_neg h]; exact defaultKernel_ok

/-! ## The spec's example scenario -/

theorem getNodeWeight_countP (tree : ConvFields) (hw : ∀ p ∈ tree.Points, p.Weight = 1)
    (hlen : (tree.Points.length : Int) < 2 ^ 63) (xLeft xRight yTop yBottom : ℚ) :
    getNodeWeight tree xLeft xRight yTop yBottom =
      (tree.Points.countP (fun p => decide (p.X ≥ xLeft ∧ p.X ≤ xRight ∧ p.Y ≥ yTop ∧
        p.Y ≤ yBottom)) : Int) := by
  unfold getNodeWeight
  have key : ∀ (pts : List Point) (a : Int), (∀ p ∈ pts, p.Weight = 1) → 0 ≤ a →
      a + (pts.length : Int) < 2 ^ 63 →
      pts.foldl (fun total point =>
        if point.X ≥ xLeft ∧ point.X ≤ xRight ∧ point.Y ≥ yTop ∧ point.Y ≤ yBottom then
          wrapInt (total + point.Weight)
        else total) a =
      a + (pts.countP (fun p => decide (p.X ≥ xLeft ∧ p.X ≤ xRight ∧ p.Y ≥ yTop ∧
        p.Y ≤ yBottom)) : Int) := by
    intro pts
    induction pts with
    | nil => intro a _ _ _; simp
    | cons p ps ih =>
      intro a h ha hb
      have hp : p.Weight = 1 := h p (List.mem_cons_self _ _)
      have hps : ∀ q ∈ ps, q.Weight = 1 := fun q hq => h q (List.mem_cons_of_mem _ hq)
      have hl : ((p :: ps).length : Int) = (ps.length : Int) + 1 := by
        rw [List.length_cons]; push_cast; rfl
      rw [hl] at hb
      rw [List.foldl_cons, List.countP_cons]
      by_cases hc : p.X ≥ xLeft ∧ p.X ≤ xRight ∧ p.Y ≥ yTop ∧ p.Y ≤ yBottom
      · rw [if_pos hc, hp, wrapInt_of_range (by omega) (by omega),
          ih (a + 1) hps (by omega) (by omega)]
        simp only [hc, and_self, decide_True, if_true]
        push_cast
        ring
      · rw [if_neg hc, ih a hps ha (by omega)]
        simp only [hc, decide_False, Bool.false_eq_true, if_false]
        push_cast
        ring
  rw [key _ _ hw (le_refl 0) (by omega), zero_add]

theorem cell_of_A {p : Point} (ha : inCellA p = true) {i j : Int} (hi : 0 ≤ i) (hj : 0 ≤ j) :
    (p.X ≥ 25 / 2 * (i : ℚ) ∧ p.X ≤ 25 / 2 * ((i : ℚ) + 1) ∧ p.Y ≥ 25 / 2 * (j : ℚ) ∧
      p.Y ≤ 25 / 2 * ((j : ℚ) + 1)) ↔ (i = 0 ∧ j = 0) := by
  simp only [inCellA, Bool.and_eq_true, decide_eq_true_eq] at ha
  obtain ⟨⟨⟨a1, a2⟩, a3⟩, a4⟩ := ha
  constructor
  · rintro ⟨b1, -, b3, -⟩
    have hi1 : (i : ℚ) < 1 := by linarith
    have hj1 : (j : ℚ) < 1 := by linarith
    have hi2 : i < 1 := by exact_mod_cast hi1
    have hj2 : j < 1 := by exact_mod_cast hj1
    omega
  · rintro ⟨rfl, rfl⟩
    norm_num
    exact ⟨by linarith, by linarith, by linarith, by linarith⟩

theorem cell_of_B {p : Point} (hb : inCellB p = true) {i j : Int} (hi : i ≤ 7) (hj : j ≤ 7) :
    (p.X ≥ 25 / 2 * (i : ℚ) ∧ p.X ≤ 25 / 2 * ((i : ℚ) + 1) ∧ p.Y ≥ 25 / 2 * (j : ℚ) ∧
      p.Y ≤ 25 / 2 * ((j : ℚ) + 1)) ↔ (i = 7 ∧ j = 7) := by
  simp only [inCellB, Bool.and_eq_true, decide_eq_true_eq] at hb
  obtain ⟨⟨⟨a1, a2⟩, a3⟩, a4⟩ := hb
  constructor
  · rintro ⟨-, b2, -, b4⟩
    have hi1 : (6 : ℚ) < (i : ℚ) := by linarith
    have hj1 : (6 : ℚ) < (j : ℚ) := by linarith
    have hi2 : (6 : Int) < i := by exact_mod_cast hi1
    have hj2 : (6 : Int) < j := by exact_mod_cast hj1
    omega
  · rintro ⟨rfl, rfl⟩
    norm_num
    exact ⟨by linarith, by linarith, by linarith, by linarith⟩

theorem not_A_and_B {p : Point} (ha : inCellA p = true) : inCellB p = false := by
  simp only [inCellA, Bool.and_eq_true, decide_eq_true_eq] at ha
  obtain ⟨⟨⟨a1, a2⟩, a3⟩, a4⟩ := ha
  simp only [inCellB, Bool.and_eq_false_iff, decide_eq_false_iff_not, not_lt]
  left; left; left
  linarith

theorem scenario_length (pts : List Point)
    (hcell : ∀ p ∈ pts, inCellA p = true ∨ inCellB p = true)
    (hA : pts.countP inCellA = 20) (hB : pts.countP inCellB = 5) : pts.length = 25 := by
  have h := List.length_eq_countP_add_countP inCellA pts
  have hB' : pts.countP (fun a => decide ¬ (inCellA a = true)) = pts.countP inCellB := by
    apply List.countP_congr
    intro p hp
    rcases hcell p hp with ha | hb
    · simp [ha, not_A_and_B ha]
    · have hna : inCellA p = false := by
        cases hpa : inCellA p with
        | false => rfl
        | true => rw [not_A_and_B hpa] at hb; cases hb
      simp [hna, hb]
  rw [hB', hA, hB] at h
  exact h

theorem scenario_cell (pts : List Point) (hw : ∀ p ∈ pts, p.Weight = 1)
    (hcell : ∀ p ∈ pts, inCellA p = true ∨ inCellB p = true)
    (hA : pts.countP inCellA = 20) (hB : pts.countP inCellB = 5) (i j : Int)
    (hi : 0 ≤ i ∧ i < 0 + ((8 : Nat) : Int)) (hj : 0 ≤ j ∧ j < 0 + ((8 : Nat) : Int)) :
    getNodeWeight (scenarioRoot pts) (25 / 2 * (i : ℚ)) (25 / 2 * ((i : ℚ) + 1))
        (25 / 2 * (j : ℚ)) (25 / 2 * ((j : ℚ) + 1)) =
      if i = 0 ∧ j = 0 then 20 else if i = 7 ∧ j = 7 then 5 else 0 := by
  have hlen : (((scenarioRoot pts).Points.length : Nat) : Int) < 2 ^ 63 := by
    show ((pts.length : Nat) : Int) < 2 ^ 63
    rw [scenario_length pts hcell hA hB]
    decide
  rw [getNodeWeight_countP _ hw hlen]
  show ((pts.countP _ : Nat) : Int) = _
  have hi7 : i ≤ 7 := by omega
  have hj7 : j ≤ 7 := by omega
  by_cases h00 : i = 0 ∧ j = 0
  · rw [if_pos h00, show (20 : Int) = ((20 : Nat) : Int) from rfl, ← hA]
    congr 1
    apply List.countP_congr
    intro p hp
    rcases hcell p hp with ha | hb
    · rw [decide_eq_true_eq, cell_of_A ha hi.1 hj.1]
      exact ⟨fun _ => ha, fun _ => h00⟩
    · have hna : inCellA p = false := by
        cases hpa : inCellA p with
        | false => rfl
        | true => rw [not_A_and_B hpa] at hb; cases hb
      simp only [decide_eq_true_eq, cell_of_B hb hi7 hj7, hna, Bool.false_eq_true, iff_false]
      omega
  · rw [if_neg h00]
    by_cases h77 : i = 7 ∧ j = 7
    · rw [if_pos h77, show (5 : Int) = ((5 : Nat) : Int) from rfl, ← hB]
      congr 1
      apply List.countP_congr
      intro p hp
      rcases hcell p hp with ha | hb
      · simp only [decide_eq_true_eq, cell_of_A ha hi.1 hj.1, not_A_and_B ha,
          Bool.false_eq_true, iff_false]
        exact h00
      · rw [decide_eq_true_eq, cell_of_B hb hi7 hj7]
        exact ⟨fun _ => hb, fun _ => h77⟩
    · rw [if_neg h77]
      rw [Int.natCast_eq_zero, List.countP_eq_zero]
      intro p hp
      rcases hcell p hp with ha | hb
      · simp only [decide_eq_true_eq, cell_of_A ha hi.1 hj.1]
        exact h00
      · simp only [decide_eq_true_eq, cell_of_B hb hi7 hj7]
        exact h77

theorem scenario_grid (pts : List Point) (hw : ∀ p ∈ pts, p.Weight = 1)
    (hcell : ∀ p ∈ pts, inCellA p = true ∨ inCellB p = true)
    (hA : pts.countP inCellA = 20) (hB : pts.countP inCellB = 5) :
    buildGrid (scenarioRoot pts) = .ok scenarioGrid := by
  unfold buildGrid
  have hgs : (scenarioRoot pts).GridSize = 8 := rfl
  have hn : ((8 : Int)).toNat = 8 := rfl
  rw [hgs, if_neg (by decide), hn]
  simp only [Except.ok.injEq]
  unfold scenarioGrid
  apply List.map_congr_left
  intro i hi
  apply List.map_congr_left
  intro j hj
  rw [mem_intRange] at hi hj
  have e1 : (scenarioRoot pts).BottomLeft.X +
      (i : ℚ) * (((scenarioRoot pts).TopRight.X - (scenarioRoot pts).BottomLeft.X) /
        ((8 : Int) : ℚ)) = 25 / 2 * (i : ℚ) := by
    simp only [scenarioRoot]; push_cast; ring
  have e2 : (scenarioRoot pts).BottomLeft.X +
      (Int.cast (i + 1) : ℚ) * (((scenarioRoot pts).TopRight.X -
        (scenarioRoot pts).BottomLeft.X) / ((8 : Int) : ℚ)) = 25 / 2 * ((i : ℚ) + 1) := by
    simp only [scenarioRoot]; push_cast; ring
  have e3 : (scenarioRoot pts).BottomLeft.Y +
      (j : ℚ) * (((scenarioRoot pts).TopRight.Y - (scenarioRoot pts).BottomLeft.Y) /
        ((8 : Int) : ℚ)) = 25 / 2 * (j : ℚ) := by
    simp only [scenarioRoot]; push_cast; ring
  have e4 : (scenarioRoot pts).BottomLeft.Y +
      (Int.cast (j + 1) : ℚ) * (((scenarioRoot pts).TopRight.Y -
        (scenarioRoot pts).BottomLeft.Y) / ((8 : Int) : ℚ)) = 25 / 2 * ((j : ℚ) + 1) := by
    simp only [scenarioRoot]; push_cast; ring
  rw [e1, e2, e3, e4, scenario_cell pts hw hcell hA hB i j hi hj]

theorem sum_weight_one (pts : List Point) (hw : ∀ p ∈ pts, p.Weight = 1) :
    (pts.map Point.Weight).sum = (pts.length : Int) := by
  induction pts with
  | nil => rfl
  | cons p ps ih =>
    rw [List.map_cons, List.sum_cons, hw p (List.mem_cons_self _ _),
      ih (fun q hq => hw q (List.mem_cons_of_mem _ hq))]
    simp only [List.length_cons]
    push_cast
    ring

theorem scenario_checkSplit (pts : List Point) (hw : ∀ p ∈ pts, p.Weight = 1)
    (hcell : ∀ p ∈ pts, inCellA p = true ∨ inCellB p = true)
    (hA : pts.countP inCellA = 20) (hB : pts.countP inCellB = 5) :
    checkSplit (scenarioRoot pts) = true := by
  unfold checkSplit
  simp only [foldl_weight, Bool.and_eq_true, decide_eq_true_eq]
  have hsum : wrapInt (((scenarioRoot pts).Points.map Point.Weight).sum) = 25 := by
    show wrapInt ((pts.map Point.Weight).sum) = 25
    rw [sum_weight_one pts hw, scenario_length pts hcell hA hB]
    rfl
  rw [hsum]
  simp only [scenarioRoot]
  norm_num

theorem scenario_index : smoothIndex defaultKernel 1 scenarioGrid = .ok (4, 4) := by decide!

theorem scenario_cut_coords (pts : List Point) :
    cutX (scenarioRoot pts) 4 = 50 ∧ cutY (scenarioRoot pts) 4 = 50 := by
  unfold cutX cutY clampCut
  simp only [scenarioRoot]
  norm_num

/-! ## An empty leaf -/

theorem checkSplit_empty (tree : ConvFields) (hp : tree.Points = []) (hm : 0 ≤ tree.MaxPoints) :
    checkSplit tree = false := by
  unfold checkSplit
  rw [hp]
  simp only [List.foldl_nil, Bool.and_eq_false_iff, decide_eq_false_iff_not, not_lt]
  right; left
  exact hm

theorem getStats_empty (tree : ConvFields) (hp : tree.Points = []) : getStats tree = tree := by
  unfold getStats
  rw [hp]
  simp

theorem getBaseline_empty (tree : ConvFields) (hp : tree.Points = []) :
    getBaseline tree = tree := by
  unfold getBaseline
  rw [hp]
  simp

/-! ## The budgets are never used up -/

theorem noFuel_ok {α : Type} (a : α) : NoFuelFault (Except.ok a : Except Fault α) := by
  intro h; cases h

theorem noFuel_index {α : Type} :
    NoFuelFault (Except.error Fault.indexOutOfRange : Except Fault α) := by
  intro h; cases h

theorem noFuel_cast {α β : Type} {e : Fault}
    (h : NoFuelFault (Except.error e : Except Fault α)) :
    NoFuelFault (Except.error e : Except Fault β) := by
  intro hb
  apply h
  cases hb
  rfl

theorem mapE_noFuel {α β : Type} {f : α → Except Fault β} :
    ∀ (l : List α), (∀ a ∈ l, NoFuelFault (f a)) → NoFuelFault (mapE f l) := by
  intro l
  induction l with
  | nil => intro _; exact noFuel_ok _
  | cons a as ih =>
    intro h
    have ha := h a (List.mem_cons_self _ _)
    have has := ih (fun x hx => h x (List.mem_cons_of_mem _ hx))
    unfold mapE
    cases hfa : f a with
    | error e => exact noFuel_cast (by simpa only [hfa] using ha)
    | ok b =>
      simp only
      cases hm : mapE f as with
      | error e => simpa only [hm] using has
      | ok bs => exact noFuel_ok _

theorem foldE_noFuel {σ α : Type} {f : σ → α → Except Fault σ} {I : σ → Prop} :
    ∀ (l : List α) (s : σ), I s →
      (∀ s a, I s → a ∈ l → NoFuelFault (f s a) ∧ ∀ s', f s a = .ok s' → I s') →
      NoFuelFault (foldE f s l) ∧ ∀ s', foldE f s l = .ok s' → I s' := by
  intro l
  induction l with
  | nil =>
    intro s hs _
    refine ⟨noFuel_ok _, ?_⟩
    intro s' h
    simp only [foldE, Except.ok.injEq] at h
    exact h ▸ hs
  | cons a as ih =>
    intro s hs h
    obtain ⟨h1, h2⟩ := h s a hs (List.mem_cons_self _ _)
    unfold foldE
    cases hfa : f s a with
    | error e =>
      refine ⟨by simpa only [hfa] using h1, ?_⟩
      intro s' hs'
      cases hs'
    | ok s1 =>
      simp only
      exact ih s1 (h2 s1 hfa) (fun s x hs hx => h s x hs (List.mem_cons_of_mem _ hx))

theorem foldE_noFuel_of_steps {σ α : Type} {f : σ → α → Except Fault σ}
    (h : ∀ s a, NoFuelFault (f s a)) (l : List α) (s : σ) : NoFuelFault (foldE f s l) :=
  (foldE_noFuel (I := fun _ => True) l s trivial (fun s a _ _ => ⟨h s a, fun _ _ => trivial⟩)).1

theorem at1_noFuel (row : List ℚ) (j : Int) : NoFuelFault (at1 row j) := by
  unfold at1
  split
  · exact noFuel_index
  · split
    · exact noFuel_ok _
    · exact noFuel_index

theorem at2_noFuel (g : Grid) (i j : Int) : NoFuelFault (at2 g i j) := by
  unfold at2
  split
  · exact noFuel_index
  · split
    · exact at1_noFuel _ _
    · exact noFuel_index

theorem normalizeGrid_noFuel (g : Grid) : NoFuelFault (normalizeGrid g) := by
  unfold normalizeGrid
  cases g with
  | nil => exact noFuel_ok _
  | cons r0 rest =>
    simp only
    have := mapE_noFuel (f := rowCells r0.length) (r0 :: rest) (by
      intro row _
      unfold rowCells
      split
      · exact noFuel_index
      · exact noFuel_ok _)
    cases hm : mapE (rowCells r0.length) (r0 :: rest) with
    | error e => exact noFuel_cast (by simpa only [hm] using this)
    | ok rows => exact noFuel_ok _

theorem procRow_noFuel (g : Grid) (padding : Int) (m : Nat) (i : Int) :
    NoFuelFault (procRow g padding m i) := by
  unfold procRow
  have := mapE_noFuel (f := fun j : Int => at2 g (i - padding) (j - padding))
    (intRange 1 (m - 2)) (fun j _ => at2_noFuel _ _ _)
  cases hm : mapE (fun j : Int => at2 g (i - padding) (j - padding)) (intRange 1 (m - 2)) with
  | error e => exact noFuel_cast (by simpa only [hm] using this)
  | ok cells => exact noFuel_ok _

theorem procGridOf_noFuel (g : Grid) (padding : Int) : NoFuelFault (procGridOf g padding) := by
  unfold procGridOf
  dsimp only
  have := mapE_noFuel (f := procRow g padding ((g.length : Int) + 2 * padding).toNat)
    (intRange 1 (((g.length : Int) + 2 * padding).toNat - 2)) (fun i _ => procRow_noFuel _ _ _ _)
  cases hm : mapE (procRow g padding ((g.length : Int) + 2 * padding).toNat)
      (intRange 1 (((g.length : Int) + 2 * padding).toNat - 2)) with
  | error e => exact noFuel_cast (by simpa only [hm] using this)
  | ok inner => exact noFuel_ok _

theorem convTap_noFuel (pg kernel : Grid) (stride i j x : Int) (total : ℚ) (y : Int) :
    NoFuelFault (convTap pg kernel stride i j x total y) := by
  unfold convTap
  dsimp only
  split
  · cases h1 : at2 pg (stride * i + x) (stride * j + y) with
    | error e => simpa only [h1] using at2_noFuel pg (stride * i + x) (stride * j + y)
    | ok v =>
      simp only
      cases h2 : at2 kernel x y with
      | error e => simpa only [h2] using at2_noFuel kernel x y
      | ok k => exact noFuel_ok _
  · exact noFuel_ok _

theorem convCell_noFuel (pg kernel : Grid) (stride : Int) (kernelSize : Nat) (i j : Int) :
    NoFuelFault (convCell pg kernel stride kernelSize i j) := by
  unfold convCell
  apply foldE_noFuel_of_steps
  intro total x
  unfold convTaps
  apply foldE_noFuel_of_steps
  intro total y
  exact convTap_noFuel _ _ _ _ _ _ _ _

theorem convolve_noFuel (g kernel : Grid) (stride padding : Int) :
    NoFuelFault (convolve g kernel stride padding) := by
  unfold convolve
  split
  · exact noFuel_ok _
  · split
    · exact noFuel_ok _
    · dsimp only
      split
      · exact noFuel_ok _
      · cases g with
        | nil => exact noFuel_index
        | cons r0 rest =>
          dsimp only
          split
          · exact noFuel_ok _
          · cases hp : procGridOf (r0 :: rest) padding with
            | error e =>
              exact noFuel_cast (by simpa only [hp] using procGridOf_noFuel (r0 :: rest) padding)
            | ok pg =>
              dsimp only
              have := mapE_noFuel
                (f := convRow pg kernel stride kernel.length
                  ((((r0.length : Int) - (kernel.length : Int) + 2 * padding) / stride + 1).toNat))
                (intRange 0 (((((r0 :: rest).length : Int) - (kernel.length : Int) +
                  2 * padding) / stride + 1).toNat)) (by
                  intro i _
                  unfold convRow
                  exact mapE_noFuel _ (fun j _ => convCell_noFuel _ _ _ _ _ _))
              cases hm : mapE (convRow pg kernel stride kernel.length
                  ((((r0.length : Int) - (kernel.length : Int) + 2 * padding) / stride + 1).toNat))
                  (intRange 0 (((((r0 :: rest).length : Int) - (kernel.length : Int) +
                    2 * padding) / stride + 1).toNat)) with
              | error e => exact noFuel_cast (by simpa only [hm] using this)
              | ok res => exact noFuel_ok _

theorem convLoop_noFuel (kernel : Grid) : ∀ (c : Nat) (g : Grid),
    NoFuelFault (convLoop kernel c g) := by
  intro c
  induction c with
  | zero => intro g; exact noFuel_ok _
  | succ c ih =>
    intro g
    unfold convLoop
    cases hc : convolve g kernel 1 1 with
    | error e => exact noFuel_cast (by simpa only [hc] using convolve_noFuel g kernel 1 1)
    | ok r =>
      cases r with
      | error msg => exact noFuel_ok _
      | ok tmp =>
        simp only
        cases hn : normalizeGrid tmp with
        | error e => simpa only [hn] using normalizeGrid_noFuel tmp
        | ok g2 => exact ih g2

theorem maxStep_noFuel (g : Grid) (i : Int) (acc : Int × Int × ℚ) (j : Int) :
    NoFuelFault (maxStep g i acc j) := by
  unfold maxStep
  cases h : at2 g i j with
  | error e => exact noFuel_cast (by simpa only [h] using at2_noFuel g i j)
  | ok v =>
    dsimp only
    split
    · exact noFuel_ok _
    · exact noFuel_ok _

theorem maxStep_peak {g : Grid} {w : Nat} {i j : Int} (hi : 0 ≤ i ∧ i < 0 + (g.length : Int))
    (hj : 0 ≤ j ∧ j < 0 + (w : Int)) {acc r : Int × Int × ℚ}
    (hacc : PeakInGrid g w acc.1 acc.2.1) (h : maxStep g i acc j = .ok r) :
    PeakInGrid g w r.1 r.2.1 := by
  unfold maxStep at h
  cases hv : at2 g i j with
  | error e => rw [hv] at h; cases h
  | ok v =>
    rw [hv] at h
    dsimp only at h
    split at h
    · simp only [Except.ok.injEq] at h
      subst h
      exact ⟨hi.1, by show i < _; omega, hj.1, Or.inl (by show j < _; omega)⟩
    · simp only [Except.ok.injEq] at h
      subst h
      exact hacc

theorem scanMax_noFuel {g : Grid} (w : Nat) (hne : g ≠ []) :
    NoFuelFault (scanMax g w) ∧ ∀ r, scanMax g w = .ok r → PeakInGrid g w r.1 r.2.1 := by
  have hpos : 0 < g.length := List.length_pos.2 hne
  unfold scanMax
  apply foldE_noFuel (I := fun r : Int × Int × ℚ => PeakInGrid g w r.1 r.2.1)
  · exact ⟨le_rfl, by show (0 : Int) < (g.length : Int); exact_mod_cast hpos, le_rfl,
      Or.inr rfl⟩
  · intro acc i hacc hi
    rw [mem_intRange] at hi
    unfold maxRow
    apply foldE_noFuel (I := fun r : Int × Int × ℚ => PeakInGrid g w r.1 r.2.1) _ _ hacc
    intro acc j hacc hj
    rw [mem_intRange] at hj
    exact ⟨maxStep_noFuel g i acc j, fun r hr => maxStep_peak hi hj hacc hr⟩

theorem leftStep_noFuel (g : Grid) (w : Nat) (sv : ℚ) (i : Int) (r : Ring) (j : Int) :
    NoFuelFault (leftStep g w sv i r j) := by
  unfold leftStep
  split
  · cases h : at2 g i j with
    | error e => exact noFuel_cast (by simpa only [h] using at2_noFuel g i j)
    | ok v =>
      dsimp only
      split
      · exact noFuel_ok _
      · exact noFuel_ok _
  · exact noFuel_ok _

theorem rightStep_noFuel (g : Grid) (w : Nat) (sv : ℚ) (i : Int) (r : Ring) (j : Int) :
    NoFuelFault (rightStep g w sv i r j) := by
  unfold rightStep
  split
  · cases h : at2 g i j with
    | error e => exact noFuel_cast (by simpa only [h] using at2_noFuel g i j)
    | ok v =>
      dsimp only
      split
      · exact noFuel_ok _
      · exact noFuel_ok _
  · exact noFuel_ok _

theorem topStep_noFuel (g : Grid) (maxX : Int) (sv : ℚ) (counter i : Int) (r : Ring)
    (j : Int) : NoFuelFault (topStep g maxX sv counter i r j) := by
  unfold topStep
  split
  · cases h : at2 g j i with
    | error e => exact noFuel_cast (by simpa only [h] using at2_noFuel g j i)
    | ok v =>
      dsimp only
      split
      · exact noFuel_ok _
      · exact noFuel_ok _
  · exact noFuel_ok _

theorem bottomStep_noFuel (g : Grid) (w : Nat) (maxX : Int) (sv : ℚ) (counter i : Int)
    (r : Ring) (j : Int) : NoFuelFault (bottomStep g w maxX sv counter i r j) := by
  unfold bottomStep
  split
  · cases h : at2 g j i with
    | error e => exact noFuel_cast (by simpa only [h] using at2_noFuel g j i)
    | ok v =>
      dsimp only
      split
      · exact noFuel_ok _
      · exact noFuel_ok _
  · exact noFuel_ok _

theorem ringScan_noFuel (g : Grid) (w : Nat) (maxX maxY : Int) (sv : ℚ) (counter : Int) :
    NoFuelFault (ringScan g w maxX maxY sv counter) := by
  have h1 : ∀ r, NoFuelFault (scanLeft g w maxX maxY sv counter r) := by
    intro r
    unfold scanLeft
    dsimp only
    split
    · exact foldE_noFuel_of_steps (fun s a => leftStep_noFuel g w sv _ s a) _ _
    · exact noFuel_ok _
  have h2 : ∀ r, NoFuelFault (scanRight g w maxX maxY sv counter r) := by
    intro r
    unfold scanRight
    dsimp only
    split
    · exact foldE_noFuel_of_steps (fun s a => rightStep_noFuel g w sv _ s a) _ _
    · exact noFuel_ok _
  have h3 : ∀ r, NoFuelFault (scanTop g maxX maxY sv counter r) := by
    intro r
    unfold scanTop
    dsimp only
    split
    · exact foldE_noFuel_of_steps (fun s a => topStep_noFuel g maxX sv counter _ s a) _ _
    · exact noFuel_ok _
  have h4 : ∀ r, NoFuelFault (scanBottom g w maxX maxY sv counter r) := by
    intro r
    unfold scanBottom
    dsimp only
    split
    · exact foldE_noFuel_of_steps (fun s a => bottomStep_noFuel g w maxX sv counter _ s a) _ _
    · exact noFuel_ok _
  unfold ringScan
  cases e1 : scanLeft g w maxX maxY sv counter ⟨false, 0, 0, []⟩ with
  | error e => exact noFuel_cast (by simpa only [e1] using h1 ⟨false, 0, 0, []⟩)
  | ok r1 =>
    dsimp only
    cases e2 : scanRight g w maxX maxY sv counter r1 with
    | error e => exact noFuel_cast (by simpa only [e2] using h2 r1)
    | ok r2 =>
      dsimp only
      cases e3 : scanTop g maxX maxY sv counter r2 with
      | error e => exact noFuel_cast (by simpa only [e3] using h3 r2)
      | ok r3 => exact h4 r3

theorem ringLoop_noFuel {g : Grid} {w : Nat} {maxX maxY : Int}
    (hp : PeakInGrid g w maxX maxY) :
    ∀ (fuel : Nat) (sv : ℚ) (counter splitX splitY : Int), 1 ≤ counter → 1 ≤ fuel →
      (g.length : Int) + w + 1 ≤ counter + fuel →
      NoFuelFault (ringLoop g w maxX maxY fuel sv counter splitX splitY) := by
  intro fuel
  induction fuel with
  | zero => intro _ _ _ _ _ h; omega
  | succ f ih =>
    intro sv counter splitX splitY hc _ hb
    unfold ringLoop
    cases hr : ringScan g w maxX maxY sv counter with
    | error e => exact noFuel_cast (by simpa only [hr] using ringScan_noFuel g w maxX maxY sv counter)
    | ok r =>
      dsimp only
      by_cases hfound : r.itemFound = true
      · simp only [hfound, Bool.not_true, Bool.false_eq_true, if_false]
        have hnear : counter < (g.length : Int) ∨ counter < (w : Int) := by
          by_contra hcon
          push_neg at hcon
          have := ringScan_far hp sv hc hcon.1 hcon.2
          rw [hr] at this
          simp only [Except.ok.injEq] at this
          rw [this] at hfound
          cases hfound
        apply ih
        · omega
        · omega
        · push_cast at hb ⊢
          omega
      · simp only [Bool.not_eq_true] at hfound
        simp only [hfound, Bool.not_false, if_true]
        exact noFuel_ok _

/-- The ring loop of `getSplitPoint` never uses up its budget, whatever the grid. -/
theorem getSplitPoint_noFuel (g : Grid) : NoFuelFault (getSplitPoint g) := by
  cases g with
  | nil => exact noFuel_index
  | cons r0 rest =>
    unfold getSplitPoint
    dsimp only
    obtain ⟨hm1, hm2⟩ := scanMax_noFuel (g := r0 :: rest) r0.length (by simp)
    cases hm : scanMax (r0 :: rest) r0.length with
    | error e => exact noFuel_cast (by simpa only [hm] using hm1)
    | ok r =>
      obtain ⟨mx, my, mv⟩ := r
      dsimp only
      have hpeak := hm2 _ hm
      have hl := ringLoop_noFuel hpeak ((r0 :: rest).length + r0.length + 1) (mv * (4 / 5)) 1 0 0
        le_rfl (by omega) (by push_cast; omega)
      cases hr : ringLoop (r0 :: rest) r0.length mx my ((r0 :: rest).length + r0.length + 1)
          (mv * (4 / 5)) 1 0 0 with
      | error e => exact noFuel_cast (by simpa only [hr] using hl)
      | ok r =>
        obtain ⟨sx, sy⟩ := r
        exact noFuel_ok _

theorem smoothIndex_noFuel (kernel : Grid) (convNum : Int) (g : Grid) :
    NoFuelFault (smoothIndex kernel convNum g) := by
  unfold smoothIndex
  cases e1 : normalizeGrid g with
  | error e => exact noFuel_cast (by simpa only [e1] using normalizeGrid_noFuel g)
  | ok g1 =>
    dsimp only
    cases e2 : convLoop kernel convNum.toNat g1 with
    | error e => exact noFuel_cast (by simpa only [e2] using convLoop_noFuel kernel convNum.toNat g1)
    | ok g2 =>
      dsimp only
      cases e3 : normalizeGrid g2 with
      | error e => exact noFuel_cast (by simpa only [e3] using normalizeGrid_noFuel g2)
      | ok g3 =>
        dsimp only
        cases e4 : getSplitPoint g3 with
        | error e => exact noFuel_cast (by simpa only [e4] using getSplitPoint_noFuel g3)
        | ok r =>
          obtain ⟨x, y⟩ := r
          exact noFuel_ok _

theorem splitIndex_noFuel (tree : ConvFields) : NoFuelFault (splitIndex tree) := by
  unfold splitIndex
  cases e : buildGrid tree with
  | error f =>
    unfold buildGrid at e
    split at e
    · cases e
      intro h
      cases h
    · cases e
  | ok g => exact smoothIndex_noFuel _ _ g

theorem finishChild_noFuel {recur : ConvFields → Except Fault ConvTree} (tree : ConvFields)
    {child : ConvFields} (h : checkSplit child = true → NoFuelFault (recur child)) :
    NoFuelFault (finishChild recur tree child) := by
  unfold finishChild
  by_cases hc : checkSplit child = true
  · rw [if_pos hc]; exact h hc
  · rw [if_neg hc]; exact noFuel_ok _

theorem splitWith_noFuel {recur : ConvFields → Except Fault ConvTree} {tree : ConvFields}
    (hrec : ∀ c, ChildOf tree c → checkSplit c = true → NoFuelFault (recur c)) :
    NoFuelFault (splitWith recur tree) := by
  unfold splitWith
  cases e : splitIndex tree with
  | error f => exact noFuel_cast (by simpa only [e] using splitIndex_noFuel tree)
  | ok idx =>
    obtain ⟨xMax, yMax⟩ := idx
    dsimp only
    obtain ⟨k1, k2, k3, k4⟩ := childOf_all tree (cutX tree xMax) (cutY tree yMax)
    cases e1 : finishChild recur tree (childTopLeft tree (cutX tree xMax) (cutY tree yMax)) with
    | error f => simpa only [e1] using finishChild_noFuel tree (hrec _ k1)
    | ok c1 =>
      dsimp only
      cases e2 : finishChild recur tree
          (childTopRight tree (cutX tree xMax) (cutY tree yMax)) with
      | error f => simpa only [e2] using finishChild_noFuel tree (hrec _ k2)
      | ok c2 =>
        dsimp only
        cases e3 : finishChild recur tree
            (childBottomLeft tree (cutX tree xMax) (cutY tree yMax)) with
        | error f => simpa only [e3] using finishChild_noFuel tree (hrec _ k3)
        | ok c3 =>
          dsimp only
          cases e4 : finishChild recur tree
              (childBottomRight tree (cutX tree xMax) (cutY tree yMax)) with
          | error f => simpa only [e4] using finishChild_noFuel tree (hrec _ k4)
          | ok c4 => exact noFuel_ok _

theorem splitFuel_noFuel (n : Nat) : ∀ (tree : ConvFields),
    (tree.MaxDepth - tree.Depth - 1).toNat ≤ n → NoFuelFault (splitFuel n tree) := by
  induction n with
  | zero =>
    intro tree hb
    apply splitWith_noFuel
    intro c hc hcs
    have := checkSplit_depth hcs
    obtain ⟨h1, h2, -, -⟩ := hc
    omega
  | succ k ih =>
    intro tree hb
    apply splitWith_noFuel
    intro c hc _
    obtain ⟨h1, h2, -, -⟩ := hc
    exact ih c (by rw [h1, h2]; omega)

/-- The budgets of the model are never the reason `split()` stops: it returns or it
panics, as the Go code does. -/
theorem split_noFuel (tree : ConvFields) : NoFuelFault (split tree) :=
  splitFuel_noFuel _ tree (by omega)

/-- The budgets of the model are never the reason `NewConvTree` stops. -/
theorem NewConvTree_noFuel (bottomLeft topRight : Point) (minXLength minYLength : ℚ)
    (maxPoints maxDepth convNumber gridSize : Int) (kernel : Grid) (initPoints : List Point) :
    NoFuelFault (NewConvTree bottomLeft topRight minXLength minYLength maxPoints maxDepth
      convNumber gridSize kernel initPoints) := by
  unfold NewConvTree
  split
  · exact noFuel_ok _
  · split
    · exact noFuel_ok _
    · dsimp only
      generalize (if (!checkKernel kernel) = true then defaultKernel else kernel) = k
      split
      · cases e : split
            { IsLeaf := true, MaxPoints := maxPoints, MaxDepth := maxDepth, Depth := 0,
              GridSize := gridSize, ConvNum := convNumber, Kernel := k, Points := initPoints,
              MinXLength := minXLength, MinYLength := minYLength, BottomLeft := bottomLeft,
              TopRight := topRight, Stats := CellStats.zero } with
        | error f =>
          exact noFuel_cast (by
            simpa only [e] using split_noFuel
              { IsLeaf := true, MaxPoints := maxPoints, MaxDepth := maxDepth, Depth := 0,
                GridSize := gridSize, ConvNum := convNumber, Kernel := k, Points := initPoints,
                MinXLength := minXLength, MinYLength := minYLength, BottomLeft := bottomLeft,
                TopRight := topRight, Stats := CellStats.zero })
        | ok t => exact noFuel_ok _
      · exact noFuel_ok _

/-- The budgets of the model are never the reason `Insert` stops. -/
theorem Insert_noFuel (point : Point) (allowSplit : Bool) :
    ∀ t : ConvTree, NoFuelFault (ConvTree.Insert t point allowSplit) := by
  intro t
  induction t with
  | nil => intro h; cases h
  | node f tl tr bl br ih1 ih2 ih3 ih4 =>
    rw [ConvTree.Insert]
    split
    · intro h
      unfold route at h
      split at h
      · cases h
      · split at h
        · split at h
          · rename_i heq
            simp only [Except.error.injEq] at h
            subst h
            exact ih1 heq
          · cases h
        · split at h
          · cases h
          · split at h
            · split at h
              · rename_i heq
                simp only [Except.error.injEq] at h
                subst h
                exact ih2 heq
              · cases h
            · split at h
              · cases h
              · split at h
                · split at h
                  · rename_i heq
                    simp only [Except.error.injEq] at h
                    subst h
                    exact ih3 heq
                  · cases h
                · split at h
                  · cases h
                  · split at h
                    · split at h
                      · rename_i heq
                        simp only [Except.error.injEq] at h
                        subst h
                        exact ih4 heq
                      · cases h
                    · cases h
    · unfold insertLeaf
      dsimp only
      split
      · split
        · exact split_noFuel _
        · exact noFuel_ok _
      · exact noFuel_ok _

/-- The budgets of the model are never the reason `Check` stops. -/
theorem Check_noFuel (t : ConvTree) : NoFuelFault (ConvTree.Check t) := by
  cases t with
  | nil => intro h; cases h
  | node f tl tr bl br =>
    simp only [ConvTree.Check]
    split
    · exact split_noFuel _
    · exact noFuel_ok _


/-! ## Further lemmas: clearing, kernels, node invariants, the ring search, convolution -/

theorem clearAll_points : ∀ (t : ConvTree), ∀ n ∈ nodes (clearAll t), ∀ f,
    fields n = some f → f.Points = [] := by
  intro t
  induction t with
  | nil => intro n hn; simp [clearAll, nodes] at hn
  | node g a b c d ih1 ih2 ih3 ih4 =>
    intro n hn f hf
    simp only [clearAll, nodes, List.mem_cons, List.mem_append] at hn
    rcases hn with rfl | ((hn | hn) | hn) | hn
    · simp only [fields, Option.some.injEq] at hf
      subst hf
      rfl
    · exact ih1 n hn f hf
    · exact ih2 n hn f hf
    · exact ih3 n hn f hf
    · exact ih4 n hn f hf

theorem clearAll_sameShape : ∀ (t : ConvTree), SameShape t (clearAll t) := by
  intro t
  induction t with
  | nil => simp [clearAll, SameShape]
  | node g a b c d ih1 ih2 ih3 ih4 =>
    rw [clearAll, SameShape]
    exact ⟨rfl, ih1, ih2, ih3, ih4⟩

theorem checkKernel_iff (kernel : Grid) :
    checkKernel kernel = true ↔ kernel ≠ [] ∧ ∀ row ∈ kernel, row.length = kernel.length := by
  cases kernel with
  | nil => simp [checkKernel]
  | cons r0 rest =>
    unfold checkKernel
    simp only
    constructor
    · intro h
      split at h
      · cases h
      · split at h
        · cases h
        · rename_i h0 h1
          refine ⟨by simp, ?_⟩
          rw [List.all_eq_true] at h
          intro row hrow
          have := h row hrow
          simp only [decide_eq_true_eq] at this
          rw [this]
          simpa using h1
    · rintro ⟨-, h⟩
      have h0 : r0.length = (r0 :: rest).length := h r0 (by simp)
      have hne : ¬ r0.length = 0 := by rw [h0]; simp
      rw [if_neg hne, if_neg (by simpa using h0)]
      rw [List.all_eq_true]
      intro row hrow
      simp only [decide_eq_true_eq]
      rw [h row hrow, h0]

theorem NewConvTree_err {bottomLeft topRight : Point} {minXLength minYLength : ℚ}
    {maxPoints maxDepth convNumber gridSize : Int} {kernel : Grid} {initPoints : List Point}
    {t : ConvTree} {msg : String}
    (h : NewConvTree bottomLeft topRight minXLength minYLength maxPoints maxDepth convNumber
      gridSize kernel initPoints = .ok (t, some msg)) :
    bottomLeft.X ≥ topRight.X ∨ bottomLeft.Y ≥ topRight.Y := by
  by_contra hcon
  push_neg at hcon
  unfold NewConvTree at h
  simp only [not_le.2 hcon.1, not_le.2 hcon.2, ge_iff_le, if_false] at h
  generalize (if (!checkKernel kernel) = true then defaultKernel else kernel) = k at h
  split at h
  · split at h
    · cases h
    · simp at h
  · simp at h

theorem NewConvTree_total (bottomLeft topRight : Point) (minXLength minYLength : ℚ)
    (maxPoints maxDepth convNumber gridSize : Int) (kernel : Grid) (initPoints : List Point)
    (hgs : 1 ≤ gridSize) :
    ∃ t e, NewConvTree bottomLeft topRight minXLength minYLength maxPoints maxDepth convNumber
      gridSize kernel initPoints = .ok (t, e) := by
  unfold NewConvTree
  split
  · exact ⟨_, _, rfl⟩
  · split
    · exact ⟨_, _, rfl⟩
    · have hk : (if (!checkKernel kernel) = true then defaultKernel else kernel) =
          (if checkKernel kernel = true then kernel else defaultKernel) := by
        cases checkKernel kernel <;> simp
      simp only [hk]
      have hok := chosenKernel_ok kernel
      generalize (if checkKernel kernel = true then kernel else defaultKernel) = k at hok ⊢
      split
      · obtain ⟨t, ht⟩ := split_total
          { IsLeaf := true, MaxPoints := maxPoints, MaxDepth := maxDepth, Depth := 0,
            GridSize := gridSize, ConvNum := convNumber, Kernel := k,
            Points := initPoints, MinXLength := minXLength, MinYLength := minYLength,
            BottomLeft := bottomLeft, TopRight := topRight, Stats := CellStats.zero }
          hgs hok
        rw [ht]
        exact ⟨t, _, rfl⟩
      · exact ⟨_, _, rfl⟩

/-! ### The leaf/internal discipline -/

theorem leafChild_leafInv (tree child : ConvFields) (hl : child.IsLeaf = true) :
    LeafInv (leafChild tree child) := by
  have hf := getStats_frame child
  unfold leafChild LeafInv
  refine Or.inl ⟨?_, rfl, rfl, rfl, rfl⟩
  simp only [hf.1, hl]

theorem finishChild_leafInv {recur : ConvFields → Except Fault ConvTree}
    (hrec : ∀ c t, recur c = .ok t → LeafInv t)
    {tree child : ConvFields} {t : ConvTree} (hl : child.IsLeaf = true)
    (h : finishChild recur tree child = .ok t) : LeafInv t := by
  rcases finishChild_ok h with ⟨-, hr⟩ | ⟨-, rfl⟩
  · exact hrec _ _ hr
  · exact leafChild_leafInv tree child hl

theorem splitWith_leafInv {recur : ConvFields → Except Fault ConvTree}
    (hrec : ∀ c t, recur c = .ok t → LeafInv t)
    {tree : ConvFields} {t : ConvTree} (h : splitWith recur tree = .ok t) : LeafInv t := by
  obtain ⟨xMax, yMax, c1, c2, c3, c4, -, h1, h2, h3, h4, rfl⟩ := splitWith_ok h
  unfold LeafInv
  refine Or.inr ⟨rfl, rfl, ?_, ?_, ?_, ?_⟩
  · exact finishChild_leafInv hrec rfl h1
  · exact finishChild_leafInv hrec rfl h2
  · exact finishChild_leafInv hrec rfl h3
  · exact finishChild_leafInv hrec rfl h4

theorem splitFuel_leafInv (n : Nat) : ∀ (tree : ConvFields) (t : ConvTree),
    splitFuel n tree = .ok t → LeafInv t := by
  induction n with
  | zero =>
    intro tree t h
    exact splitWith_leafInv (fun c t hr => by cases hr) h
  | succ k ih =>
    intro tree t h
    exact splitWith_leafInv ih h

theorem insertLeaf_leafInv {f : ConvFields} {point : Point} {allowSplit : Bool}
    {t' : ConvTree} (hl : f.IsLeaf = true)
    (h : insertLeaf f .nil .nil .nil .nil point allowSplit = .ok t') : LeafInv t' := by
  unfold insertLeaf at h
  simp only at h
  split at h
  · split at h
    · exact splitFuel_leafInv _ _ _ h
    · simp only [Except.ok.injEq] at h
      subst h
      have h1 := getBaseline_frame (getStats { f with Points := f.Points ++ [point] })
      have h2 := getStats_frame { f with Points := f.Points ++ [point] }
      unfold LeafInv
      refine Or.inl ⟨?_, rfl, rfl, rfl, rfl⟩
      rw [h1.1, h2.1]; exact hl
  · simp only [Except.ok.injEq] at h
    subst h
    unfold LeafInv
    exact Or.inl ⟨hl, rfl, rfl, rfl, rfl⟩

theorem Insert_leafInv (point : Point) (allowSplit : Bool) :
    ∀ (t t' : ConvTree), LeafInv t → ConvTree.Insert t point allowSplit = .ok t' →
      LeafInv t' := by
  intro t
  induction t with
  | nil => intro t' h; exact absurd h (by simp [LeafInv])
  | node f tl tr bl br ih1 ih2 ih3 ih4 =>
    intro t' hinv h
    unfold LeafInv at hinv
    rw [ConvTree.Insert] at h
    rcases hinv with ⟨hl, rfl, rfl, rfl, rfl⟩ | ⟨hl, hp, i1, i2, i3, i4⟩
    · simp only [hl, Bool.not_true, Bool.false_eq_true, if_false] at h
      exact insertLeaf_leafInv hl h
    · simp only [hl, Bool.not_false, if_true] at h
      rcases route_ok h with ⟨x, hx, rfl⟩ | ⟨x, hx, rfl⟩ | ⟨x, hx, rfl⟩ | ⟨x, hx, rfl⟩ | rfl
      · unfold LeafInv
        exact Or.inr ⟨hl, hp, ih1 _ i1 hx, i2, i3, i4⟩
      · unfold LeafInv
        exact Or.inr ⟨hl, hp, i1, ih2 _ i2 hx, i3, i4⟩
      · unfold LeafInv
        exact Or.inr ⟨hl, hp, i1, i2, ih3 _ i3 hx, i4⟩
      · unfold LeafInv
        exact Or.inr ⟨hl, hp, i1, i2, i3, ih4 _ i4 hx⟩
      · unfold LeafInv
        exact Or.inr ⟨hl, hp, i1, i2, i3, i4⟩

theorem Check_leafInv {t t' : ConvTree} (hinv : LeafInv t)
    (h : ConvTree.Check t = .ok t') : LeafInv t' := by
  cases t with
  | nil => exact absurd hinv (by simp [LeafInv])
  | node f tl tr bl br =>
    unfold LeafInv at hinv
    simp only [ConvTree.Check] at h
    split at h
    · exact splitFuel_leafInv _ _ _ h
    · simp only [Except.ok.injEq] at h
      subst h
      have h2 := getStats_frame f
      unfold LeafInv
      rw [h2.1, h2.2.2.2.2.2.2.2.1]
      exact hinv

theorem clearAll_leafInv : ∀ (t : ConvTree), LeafInv t → LeafInv (clearAll t) := by
  intro t
  induction t with
  | nil => intro h; exact h
  | node f tl tr bl br ih1 ih2 ih3 ih4 =>
    intro hinv
    unfold LeafInv at hinv
    unfold clearAll LeafInv
    rcases hinv with ⟨hl, rfl, rfl, rfl, rfl⟩ | ⟨hl, -, i1, i2, i3, i4⟩
    · exact Or.inl ⟨hl, rfl, rfl, rfl, rfl⟩
    · exact Or.inr ⟨hl, rfl, ih1 i1, ih2 i2, ih3 i3, ih4 i4⟩

theorem Clear_leafInv {t t' : ConvTree} (hinv : LeafInv t)
    (h : ConvTree.Clear t = .ok t') : LeafInv t' := by
  cases t with
  | nil => exact absurd hinv (by simp [LeafInv])
  | node f tl tr bl br =>
    simp only [ConvTree.Clear, Except.ok.injEq] at h
    subst h
    exact clearAll_leafInv _ hinv

theorem NewConvTree_leafInv {bottomLeft topRight : Point} {minXLength minYLength : ℚ}
    {maxPoints maxDepth convNumber gridSize : Int} {kernel : Grid} {initPoints : List Point}
    {t : ConvTree}
    (h : NewConvTree bottomLeft topRight minXLength minYLength maxPoints maxDepth convNumber
      gridSize kernel initPoints = .ok (t, none)) : LeafInv t := by
  obtain ⟨-, -, tree, rfl, ⟨-, hs⟩ | ⟨-, rfl⟩⟩ := NewConvTree_ok h
  · exact splitFuel_leafInv _ _ _ hs
  · unfold LeafInv
    refine Or.inl ⟨?_, rfl, rfl, rfl, rfl⟩
    rw [(getBaseline_frame _).1, (getStats_frame _).1]

theorem Reachable_leafInv {t : ConvTree} (h : Reachable t) : LeafInv t := by
  induction h with
  | new bl tr mx my mp md cn gs k pts t h => exact NewConvTree_leafInv h
  | insert t t' p b _ h ih => exact Insert_leafInv p b t t' ih h
  | check t t' _ h ih => exact Check_leafInv ih h
  | clear t t' _ h ih => exact Clear_leafInv ih h

theorem LeafInv_ne_nil {t : ConvTree} (h : LeafInv t) : t ≠ .nil := by
  intro hn
  subst hn
  exact absurd h (by simp [LeafInv])

/-- What the leaf/internal discipline says of each node of the tree. -/
theorem LeafInv_nodes : ∀ (t : ConvTree), LeafInv t →
    ∀ n ∈ nodes t, ∀ f tl tr bl br, n = .node f tl tr bl br →
      (f.IsLeaf = true ∧ tl = .nil ∧ tr = .nil ∧ bl = .nil ∧ br = .nil) ∨
      (f.IsLeaf = false ∧ f.Points = [] ∧ tl ≠ .nil ∧ tr ≠ .nil ∧ bl ≠ .nil ∧ br ≠ .nil) := by
  intro t
  induction t with
  | nil => intro h; exact absurd h (by simp [LeafInv])
  | node g a b c e ih1 ih2 ih3 ih4 =>
    intro hinv n hn f tl tr bl br hnode
    unfold LeafInv at hinv
    simp only [nodes, List.mem_cons, List.mem_append] at hn
    rcases hinv with ⟨hl, rfl, rfl, rfl, rfl⟩ | ⟨hl, hp, i1, i2, i3, i4⟩
    · simp only [nodes, List.not_mem_nil, or_false] at hn
      subst hn
      cases hnode
      exact Or.inl ⟨hl, rfl, rfl, rfl, rfl⟩
    · rcases hn with rfl | ((hn | hn) | hn) | hn
      · cases hnode
        exact Or.inr ⟨hl, hp, LeafInv_ne_nil i1, LeafInv_ne_nil i2, LeafInv_ne_nil i3,
          LeafInv_ne_nil i4⟩
      · exact ih1 i1 n hn f tl tr bl br hnode
      · exact ih2 i2 n hn f tl tr bl br hnode
      · exact ih3 i3 n hn f tl tr bl br hnode
      · exact ih4 i4 n hn f tl tr bl br hnode

/-! ### No splittable leaf -/

theorem checkSplit_congr {a b : ConvFields} (h1 : a.TopRight = b.TopRight)
    (h2 : a.BottomLeft = b.BottomLeft) (h3 : a.MinXLength = b.MinXLength)
    (h4 : a.MinYLength = b.MinYLength) (h5 : a.Points = b.Points)
    (h6 : a.MaxPoints = b.MaxPoints) (h7 : a.Depth = b.Depth) (h8 : a.MaxDepth = b.MaxDepth) :
    checkSplit a = checkSplit b := by
  unfold checkSplit
  rw [h1, h2, h3, h4, h5, h6, h7, h8]

theorem checkSplit_getStats (c : ConvFields) : checkSplit (getStats c) = checkSplit c := by
  obtain ⟨-, a2, a3, a4, -, -, -, a8, a9, a10, a11, a12⟩ := getStats_frame c
  exact checkSplit_congr a12 a11 a9 a10 a8 a2 a4 a3

theorem checkSplit_getBaseline (c : ConvFields) : checkSplit (getBaseline c) = checkSplit c := by
  obtain ⟨-, a2, a3, a4, -, -, -, a8, a9, a10, a11, a12⟩ := getBaseline_frame c
  exact checkSplit_congr a12 a11 a9 a10 a8 a2 a4 a3

theorem leafChild_splitInv (tree child : ConvFields) (hc : checkSplit child = false) :
    SplitInv child.MaxPoints (leafChild tree child) := by
  obtain ⟨-, a2, a3, a4, -, -, -, a8, a9, a10, a11, a12⟩ := getStats_frame child
  unfold leafChild SplitInv
  refine ⟨a2, fun _ => ?_, ?_, ?_, ?_, ?_⟩
  · rw [← hc]
    exact checkSplit_congr a12 a11 a9 a10 a8 a2 a4 a3
  all_goals simp [SplitInv]

theorem finishChild_splitInv {recur : ConvFields → Except Fault ConvTree}
    (hrec : ∀ c t, recur c = .ok t → SplitInv c.MaxPoints t)
    {tree child : ConvFields} {t : ConvTree}
    (h : finishChild recur tree child = .ok t) : SplitInv child.MaxPoints t := by
  rcases finishChild_ok h with ⟨-, hr⟩ | ⟨hc, rfl⟩
  · exact hrec _ _ hr
  · exact leafChild_splitInv tree child hc

theorem splitWith_splitInv {recur : ConvFields → Except Fault ConvTree}
    (hrec : ∀ c t, recur c = .ok t → SplitInv c.MaxPoints t)
    {tree : ConvFields} {t : ConvTree} (h : splitWith recur tree = .ok t) :
    SplitInv tree.MaxPoints t := by
  obtain ⟨xMax, yMax, c1, c2, c3, c4, -, h1, h2, h3, h4, rfl⟩ := splitWith_ok h
  unfold SplitInv
  refine ⟨rfl, ?_, ?_, ?_, ?_, ?_⟩
  · intro hl
    cases hl
  · have hc1 := finishChild_splitInv hrec h1
    exact hc1
  · have hc2 := finishChild_splitInv hrec h2
    exact hc2
  · have hc3 := finishChild_splitInv hrec h3
    exact hc3
  · have hc4 := finishChild_splitInv hrec h4
    exact hc4

theorem splitFuel_splitInv (n : Nat) : ∀ (tree : ConvFields) (t : ConvTree),
    splitFuel n tree = .ok t → SplitInv tree.MaxPoints t := by
  induction n with
  | zero =>
    intro tree t h
    exact splitWith_splitInv (fun c t hr => by cases hr) h
  | succ k ih =>
    intro tree t h
    exact splitWith_splitInv ih h

theorem Insert_splitInv (M : Int) (point : Point) :
    ∀ (t t' : ConvTree), SplitInv M t → ConvTree.Insert t point true = .ok t' →
      SplitInv M t' := by
  intro t
  induction t with
  | nil => intro t' _ h; simp [ConvTree.Insert] at h
  | node f tl tr bl br ih1 ih2 ih3 ih4 =>
    intro t' hinv h
    unfold SplitInv at hinv
    obtain ⟨hM, hleaf, i1, i2, i3, i4⟩ := hinv
    rw [ConvTree.Insert] at h
    split at h
    · rcases route_ok h with ⟨x, hx, rfl⟩ | ⟨x, hx, rfl⟩ | ⟨x, hx, rfl⟩ | ⟨x, hx, rfl⟩ | rfl
      · unfold SplitInv
        exact ⟨hM, hleaf, ih1 _ i1 hx, i2, i3, i4⟩
      · unfold SplitInv
        exact ⟨hM, hleaf, i1, ih2 _ i2 hx, i3, i4⟩
      · unfold SplitInv
        exact ⟨hM, hleaf, i1, i2, ih3 _ i3 hx, i4⟩
      · unfold SplitInv
        exact ⟨hM, hleaf, i1, i2, i3, ih4 _ i4 hx⟩
      · unfold SplitInv
        exact ⟨hM, hleaf, i1, i2, i3, i4⟩
    · unfold insertLeaf at h
      simp only [if_true] at h
      split at h
      · have := splitFuel_splitInv _ _ _ h
        simpa only [hM] using this
      · rename_i hcs
        simp only [Except.ok.injEq] at h
        subst h
        unfold SplitInv
        refine ⟨?_, fun _ => ?_, i1, i2, i3, i4⟩
        · rw [(getBaseline_frame _).2.1, (getStats_frame _).2.1]
          exact hM
        · rw [checkSplit_getBaseline, checkSplit_getStats]
          simpa using hcs

theorem Check_splitInv {M : Int} {t t' : ConvTree} (hinv : SplitInv M t)
    (h : ConvTree.Check t = .ok t') : SplitInv M t' := by
  cases t with
  | nil => simp [ConvTree.Check] at h
  | node f tl tr bl br =>
    unfold SplitInv at hinv
    obtain ⟨hM, -, i1, i2, i3, i4⟩ := hinv
    simp only [ConvTree.Check] at h
    split at h
    · have := splitFuel_splitInv _ _ _ h
      simpa only [hM] using this
    · rename_i hcs
      simp only [Except.ok.injEq] at h
      subst h
      unfold SplitInv
      refine ⟨?_, fun _ => ?_, i1, i2, i3, i4⟩
      · rw [(getStats_frame _).2.1]
        exact hM
      · rw [checkSplit_getStats]
        simpa using hcs

theorem clearAll_splitInv {M : Int} (hM0 : 0 ≤ M) : ∀ (t : ConvTree), SplitInv M t →
    SplitInv M (clearAll t) := by
  intro t
  induction t with
  | nil => intro h; exact h
  | node f tl tr bl br ih1 ih2 ih3 ih4 =>
    intro hinv
    unfold SplitInv at hinv
    obtain ⟨hM, -, i1, i2, i3, i4⟩ := hinv
    unfold clearAll SplitInv
    refine ⟨hM, fun _ => ?_, ih1 i1, ih2 i2, ih3 i3, ih4 i4⟩
    exact checkSplit_empty _ rfl (by rw [← hM] at hM0; exact hM0)

theorem Clear_splitInv {M : Int} (hM0 : 0 ≤ M) {t t' : ConvTree} (hinv : SplitInv M t)
    (h : ConvTree.Clear t = .ok t') : SplitInv M t' := by
  cases t with
  | nil => simp [ConvTree.Clear] at h
  | node f tl tr bl br =>
    simp only [ConvTree.Clear, Except.ok.injEq] at h
    subst h
    exact clearAll_splitInv hM0 _ hinv

theorem NewConvTree_splitInv {bottomLeft topRight : Point} {minXLength minYLength : ℚ}
    {maxPoints maxDepth convNumber gridSize : Int} {kernel : Grid} {initPoints : List Point}
    {t : ConvTree}
    (h : NewConvTree bottomLeft topRight minXLength minYLength maxPoints maxDepth convNumber
      gridSize kernel initPoints = .ok (t, none)) : SplitInv maxPoints t := by
  obtain ⟨-, -, tree, rfl, ⟨-, hs⟩ | ⟨hcs, rfl⟩⟩ := NewConvTree_ok h
  · exact splitFuel_splitInv _ _ _ hs
  · unfold SplitInv
    refine ⟨?_, fun _ => ?_, ?_, ?_, ?_, ?_⟩
    · rw [(getBaseline_frame _).2.1, (getStats_frame _).2.1]
    · rw [checkSplit_getBaseline, checkSplit_getStats]
      exact hcs
    all_goals simp [SplitInv]

theorem Settled_splitInv {M : Int} {t : ConvTree} (h : Settled M t) : SplitInv M t := by
  induction h with
  | new bl tr mx my mp md cn gs k pts t h => exact NewConvTree_splitInv h
  | insert M t t' p _ h ih => exact Insert_splitInv M p t t' ih h
  | check M t t' _ h ih => exact Check_splitInv ih h
  | clear M t t' _ hM h ih => exact Clear_splitInv hM ih h

/-- What the invariant says of each leaf of the tree. -/
theorem SplitInv_nodes (M : Int) : ∀ (t : ConvTree), SplitInv M t →
    ∀ n ∈ nodes t, ∀ f, fields n = some f → f.IsLeaf = true → checkSplit f = false := by
  intro t
  induction t with
  | nil => intro _ n hn; simp [nodes] at hn
  | node g a b c e ih1 ih2 ih3 ih4 =>
    intro hinv n hn f hf hl
    unfold SplitInv at hinv
    obtain ⟨-, hleaf, i1, i2, i3, i4⟩ := hinv
    simp only [nodes, List.mem_cons, List.mem_append] at hn
    rcases hn with rfl | ((hn | hn) | hn) | hn
    · simp only [fields, Option.some.injEq] at hf
      subst hf
      exact hleaf hl
    · exact ih1 i1 n hn f hf hl
    · exact ih2 i2 n hn f hf hl
    · exact ih3 i3 n hn f hf hl
    · exact ih4 i4 n hn f hf hl

theorem idle_new : NewConvTree (pt 0 0) (pt 100 100) 5 5 0 1 1 8 [] [] =
    .ok (.node { sampleRoot with Points := [] } .nil .nil .nil .nil, none) := by decide!

theorem debt_new : NewConvTree (pt 0 0) (pt 100 100) 5 5 (-1) 1 1 8 [] [⟨10, 10, -5, none⟩] =
    .ok (.node (getStats debtRoot) .nil .nil .nil .nil, none) := by decide!

theorem heavy_new : NewConvTree (pt 0 0) (pt 100 100) 5 5 0 1 1 8 []
      [⟨20, 20, 9223372036854775807, none⟩, ⟨80, 80, 1, none⟩] =
    .ok (.node (getStats heavyRoot) .nil .nil .nil .nil, none) := by decide!

/-! ### The naive split -/

theorem quad_finishChild_ok {recur : QuadFields → Except Fault QuadTree} {child : QuadFields}
    {t : QuadTree} (h : QuadTree.finishChild recur child = .ok t) :
    (QuadTree.checkSplit child = true ∧ recur child = .ok t) ∨
      (QuadTree.checkSplit child = false ∧ t = .node child .nil .nil .nil .nil) := by
  unfold QuadTree.finishChild at h
  by_cases hc : QuadTree.checkSplit child = true
  · left
    simp only [hc, if_true] at h
    exact ⟨hc, h⟩
  · right
    simp only [hc] at h
    simp only [Bool.not_eq_true] at hc
    refine ⟨hc, ?_⟩
    simp only [Bool.false_eq_true, if_false, Except.ok.injEq] at h
    exact h.symm

theorem quad_splitWith_ok {recur : QuadFields → Except Fault QuadTree} {tree : QuadFields}
    {t : QuadTree} (h : QuadTree.splitWith recur tree = .ok t) :
    ∃ c1 c2 c3 c4,
      QuadTree.finishChild recur (QuadTree.childTopLeft tree) = .ok c1 ∧
      QuadTree.finishChild recur (QuadTree.childTopRight tree) = .ok c2 ∧
      QuadTree.finishChild recur (QuadTree.childBottomLeft tree) = .ok c3 ∧
      QuadTree.finishChild recur (QuadTree.childBottomRight tree) = .ok c4 ∧
      t = .node { tree with IsLeaf := false, Points := [] } c1 c2 c3 c4 := by
  unfold QuadTree.splitWith at h
  dsimp only at h
  split at h
  · cases h
  · rename_i c1 h1
    split at h
    · cases h
    · rename_i c2 h2
      split at h
      · cases h
      · rename_i c3 h3
        split at h
        · cases h
        · rename_i c4 h4
          simp only [Except.ok.injEq] at h
          exact ⟨c1, c2, c3, c4, h1, h2, h3, h4, h.symm⟩

theorem quad_splitFuel_root {n : Nat} {tree : QuadFields} {t : QuadTree}
    (h : QuadTree.splitFuel n tree = .ok t) :
    ∃ a b c d, t = .node { tree with IsLeaf := false, Points := [] } a b c d := by
  cases n with
  | zero =>
    rw [QuadTree.splitFuel] at h
    obtain ⟨c1, c2, c3, c4, -, -, -, -, ht⟩ := quad_splitWith_ok h
    exact ⟨c1, c2, c3, c4, ht⟩
  | succ k =>
    rw [QuadTree.splitFuel] at h
    obtain ⟨c1, c2, c3, c4, -, -, -, -, ht⟩ := quad_splitWith_ok h
    exact ⟨c1, c2, c3, c4, ht⟩

theorem quad_finishChild_finished {recur : QuadFields → Except Fault QuadTree}
    (hrec : ∀ c t, recur c = .ok t → ∃ m, QuadTree.splitFuel m c = .ok t)
    {child : QuadFields} {t : QuadTree} (h : QuadTree.finishChild recur child = .ok t) :
    QuadFinished child t := by
  rcases quad_finishChild_ok h with ⟨hc, hr⟩ | ⟨hc, rfl⟩
  · obtain ⟨m, hm⟩ := hrec _ _ hr
    exact Or.inr ⟨hc, quad_splitFuel_root hm⟩
  · exact Or.inl ⟨hc, rfl⟩

theorem quad_split_children {tree : QuadFields} {t : QuadTree}
    (h : QuadTree.split tree = .ok t) :
    ∃ c1 c2 c3 c4, t = .node { tree with IsLeaf := false, Points := [] } c1 c2 c3 c4 ∧
      QuadFinished (QuadTree.childTopLeft tree) c1 ∧
      QuadFinished (QuadTree.childTopRight tree) c2 ∧
      QuadFinished (QuadTree.childBottomLeft tree) c3 ∧
      QuadFinished (QuadTree.childBottomRight tree) c4 := by
  unfold QuadTree.split at h
  generalize (tree.maxDepth - tree.Depth).toNat = n at h
  cases n with
  | zero =>
    rw [QuadTree.splitFuel] at h
    obtain ⟨c1, c2, c3, c4, h1, h2, h3, h4, ht⟩ := quad_splitWith_ok h
    have hrec : ∀ (c : QuadFields) (t : QuadTree),
        (fun _ => (Except.error Fault.outOfFuel : Except Fault QuadTree)) c = .ok t →
        ∃ m, QuadTree.splitFuel m c = .ok t := fun c t hr => by cases hr
    exact ⟨c1, c2, c3, c4, ht, quad_finishChild_finished hrec h1,
      quad_finishChild_finished hrec h2, quad_finishChild_finished hrec h3,
      quad_finishChild_finished hrec h4⟩
  | succ k =>
    rw [QuadTree.splitFuel] at h
    obtain ⟨c1, c2, c3, c4, h1, h2, h3, h4, ht⟩ := quad_splitWith_ok h
    have hrec : ∀ (c : QuadFields) (t : QuadTree), QuadTree.splitFuel k c = .ok t →
        ∃ m, QuadTree.splitFuel m c = .ok t := fun c t hr => ⟨k, hr⟩
    exact ⟨c1, c2, c3, c4, ht, quad_finishChild_finished hrec h1,
      quad_finishChild_finished hrec h2, quad_finishChild_finished hrec h3,
      quad_finishChild_finished hrec h4⟩

theorem foldl_append_filter {α : Type} (p : α → Prop) [DecidablePred p] (l : List α)
    (acc : List α) :
    l.foldl (fun result x => if p x then result ++ [x] else result) acc =
      acc ++ l.filter (fun x => decide (p x)) := by
  induction l generalizing acc with
  | nil => simp
  | cons a as ih =>
    rw [List.foldl_cons, ih]
    by_cases ha : p a
    · simp [ha, List.filter_cons]
    · simp [ha, List.filter_cons]

theorem quad_contains_iff (c : QuadFields) (p : Point) :
    QuadTree.contains c p = true ↔
      c.TopLeft.X ≤ p.X ∧ p.X ≤ c.BottomRight.X ∧ c.TopLeft.Y ≤ p.Y ∧ p.Y ≤ c.BottomRight.Y := by
  unfold QuadTree.contains
  simp only [Bool.and_eq_true, decide_eq_true_eq, ge_iff_le, and_assoc]

theorem quad_filterSplitPoints_eq (tree : QuadFields) (a b : Point) (c : QuadFields)
    (ha : c.TopLeft = a) (hb : c.BottomRight = b) :
    QuadTree.filterSplitPoints tree a b =
      tree.Points.filter (fun p => QuadTree.contains c p) := by
  unfold QuadTree.filterSplitPoints
  rw [foldl_append_filter (fun (point : Point) =>
    point.X ≥ a.X ∧ point.X ≤ b.X ∧ point.Y ≥ a.Y ∧ point.Y ≤ b.Y), List.nil_append]
  apply List.filter_congr
  intro p _
  rw [Bool.eq_iff_iff, decide_eq_true_eq, quad_contains_iff, ha, hb]

theorem quad_children_points (tree : QuadFields) :
    ∀ c ∈ [QuadTree.childTopLeft tree, QuadTree.childTopRight tree,
        QuadTree.childBottomLeft tree, QuadTree.childBottomRight tree],
      c.Points = tree.Points.filter (fun p => QuadTree.contains c p) := by
  intro c hc
  simp only [List.mem_cons, List.mem_singleton, List.not_mem_nil, or_false] at hc
  rcases hc with rfl | rfl | rfl | rfl
  · exact quad_filterSplitPoints_eq tree _ _ _ rfl rfl
  · exact quad_filterSplitPoints_eq tree _ _ _ rfl rfl
  · exact quad_filterSplitPoints_eq tree _ _ _ rfl rfl
  · exact quad_filterSplitPoints_eq tree _ _ _ rfl rfl

theorem quad_children_rect (tree : QuadFields) :
    qrect (QuadTree.childTopLeft tree) =
      (tree.TopLeft.X, tree.TopLeft.Y, (tree.TopLeft.X + tree.BottomRight.X) / 2,
        (tree.TopLeft.Y + tree.BottomRight.Y) / 2) ∧
    qrect (QuadTree.childTopRight tree) =
      ((tree.TopLeft.X + tree.BottomRight.X) / 2, tree.TopLeft.Y, tree.BottomRight.X,
        (tree.TopLeft.Y + tree.BottomRight.Y) / 2) ∧
    qrect (QuadTree.childBottomLeft tree) =
      (tree.TopLeft.X, (tree.TopLeft.Y + tree.BottomRight.Y) / 2,
        (tree.TopLeft.X + tree.BottomRight.X) / 2, tree.BottomRight.Y) ∧
    qrect (QuadTree.childBottomRight tree) =
      ((tree.TopLeft.X + tree.BottomRight.X) / 2, (tree.TopLeft.Y + tree.BottomRight.Y) / 2,
        tree.BottomRight.X, tree.BottomRight.Y) := by
  have hx : QuadTree.xRight tree = (tree.TopLeft.X + tree.BottomRight.X) / 2 := by
    unfold QuadTree.xRight; ring
  have hy : QuadTree.yBottom tree = (tree.TopLeft.Y + tree.BottomRight.Y) / 2 := by
    unfold QuadTree.yBottom; ring
  simp only [qrect, QuadTree.childTopLeft, QuadTree.childTopRight, QuadTree.childBottomLeft,
    QuadTree.childBottomRight, QuadTree.newChild, hx, hy, and_self]

/-! ### Invariants of a fallible loop -/

theorem foldE_inv {σ α : Type} {f : σ → α → Except Fault σ} {I : σ → Prop} :
    ∀ (l : List α) (s s' : σ), I s →
      (∀ s a s'', I s → a ∈ l → f s a = .ok s'' → I s'') →
      foldE f s l = .ok s' → I s' := by
  intro l
  induction l with
  | nil =>
    intro s s' hs _ h
    simp only [foldE, Except.ok.injEq] at h
    rw [← h]; exact hs
  | cons a as ih =>
    intro s s' hs hstep h
    rw [foldE] at h
    cases h1 : f s a with
    | error e => rw [h1] at h; cases h
    | ok s1 =>
      rw [h1] at h
      exact ih s1 s' (hstep s a s1 hs (List.mem_cons_self _ _) h1)
        (fun s x s'' hI hx hf => hstep s x s'' hI (List.mem_cons_of_mem _ hx) hf) h

theorem foldE_hit {σ α : Type} {f : σ → α → Except Fault σ} {I P : σ → Prop} :
    ∀ (l : List α) (s s' : σ), I s →
      (∀ s a s'', I s → a ∈ l → f s a = .ok s'' → I s'') →
      (∀ s a s'', I s → P s → a ∈ l → f s a = .ok s'' → P s'') →
      (∃ a ∈ l, ∀ s s'', I s → f s a = .ok s'' → P s'') →
      foldE f s l = .ok s' → P s' := by
  intro l
  induction l with
  | nil =>
    intro s s' _ _ _ hhit _
    obtain ⟨a, ha, -⟩ := hhit
    cases ha
  | cons a as ih =>
    intro s s' hs hI hP hhit h
    rw [foldE] at h
    cases h1 : f s a with
    | error e => rw [h1] at h; cases h
    | ok s1 =>
      rw [h1] at h
      have hI1 : I s1 := hI s a s1 hs (List.mem_cons_self _ _) h1
      have hI' : ∀ s x s'', I s → x ∈ as → f s x = .ok s'' → I s'' :=
        fun s x s'' hi hx hf => hI s x s'' hi (List.mem_cons_of_mem _ hx) hf
      have hP' : ∀ s x s'', I s → P s → x ∈ as → f s x = .ok s'' → P s'' :=
        fun s x s'' hi hp hx hf => hP s x s'' hi hp (List.mem_cons_of_mem _ hx) hf
      obtain ⟨x, hx, hfire⟩ := hhit
      rcases List.mem_cons.1 hx with rfl | hx
      · have hP1 : P s1 := hfire s s1 hs h1
        have := foldE_inv (I := fun s => I s ∧ P s) as s1 s' ⟨hI1, hP1⟩
          (fun s x s'' hi hx hf => ⟨hI' s x s'' hi.1 hx hf, hP' s x s'' hi.1 hi.2 hx hf⟩) h
        exact this.2
      · exact ih s1 s' hI1 hI' hP' ⟨x, hx, hfire⟩ h

/-! ### What one step of the ring scan does -/

theorem at2_bounds {g : Grid} {i j : Int} {v : ℚ} (h : at2 g i j = .ok v) :
    0 ≤ i ∧ i < (g.length : Int) ∧ 0 ≤ j ∧ ∃ row ∈ g, j < (row.length : Int) := by
  unfold at2 at h
  by_cases hi : i < 0
  · rw [if_pos hi] at h; cases h
  · rw [if_neg hi] at h
    cases hrow : g[i.toNat]? with
    | none => rw [hrow] at h; cases h
    | some row =>
      rw [hrow] at h
      dsimp only at h
      unfold at1 at h
      by_cases hj : j < 0
      · rw [if_pos hj] at h; cases h
      · rw [if_neg hj] at h
        cases hv : row[j.toNat]? with
        | none => rw [hv] at h; cases h
        | some x =>
          obtain ⟨hlt, hget⟩ := List.getElem?_eq_some.1 hrow
          obtain ⟨hlt2, -⟩ := List.getElem?_eq_some.1 hv
          refine ⟨by omega, by omega, by omega, row, ?_, by omega⟩
          rw [← hget]
          exact List.getElem_mem _

theorem at2_bounds_rect {g : Grid} {w : Nat} (hg : Rectangular g w) {i j : Int} {v : ℚ}
    (h : at2 g i j = .ok v) : 0 ≤ i ∧ i < (g.length : Int) ∧ 0 ≤ j ∧ j < (w : Int) := by
  obtain ⟨h1, h2, h3, row, hrow, h4⟩ := at2_bounds h
  rw [hg row hrow] at h4
  exact ⟨h1, h2, h3, h4⟩

theorem leftStep_cases {g : Grid} {w : Nat} {sv : ℚ} {i : Int} {r r' : Ring} {j : Int}
    (h : leftStep g w sv i r j = .ok r') :
    r' = r ∨ ∃ v, at2 g i j = .ok v ∧ v > sv ∧
      r' = { r with itemFound := true, x := i, vals := r.vals ++ [v] } := by
  unfold leftStep at h
  split at h
  · split at h
    · cases h
    · rename_i v hv
      split at h
      · rename_i hgt
        simp only [Except.ok.injEq] at h
        exact Or.inr ⟨v, hv, hgt, h.symm⟩
      · simp only [Except.ok.injEq] at h
        exact Or.inl h.symm
  · simp only [Except.ok.injEq] at h
    exact Or.inl h.symm

theorem rightStep_cases {g : Grid} {w : Nat} {sv : ℚ} {i : Int} {r r' : Ring} {j : Int}
    (h : rightStep g w sv i r j = .ok r') :
    r' = r ∨ ∃ v, at2 g i j = .ok v ∧ v > sv ∧
      r' = ⟨true, nearer ((g.length : Int) / 2) r.x i, r.y, r.vals ++ [v]⟩ := by
  unfold rightStep at h
  split at h
  · split at h
    · cases h
    · rename_i v hv
      split at h
      · rename_i hgt
        simp only [Except.ok.injEq] at h
        exact Or.inr ⟨v, hv, hgt, h.symm⟩
      · simp only [Except.ok.injEq] at h
        exact Or.inl h.symm
  · simp only [Except.ok.injEq] at h
    exact Or.inl h.symm

theorem topStep_cases {g : Grid} {maxX : Int} {sv : ℚ} {counter i : Int} {r r' : Ring}
    {j : Int} (h : topStep g maxX sv counter i r j = .ok r') :
    r' = r ∨ ∃ v, at2 g j i = .ok v ∧ v > sv ∧
      r' = ⟨true, r.x, i,
        if j ≠ maxX - counter ∧ j ≠ maxX + counter then r.vals ++ [v] else r.vals⟩ := by
  unfold topStep at h
  split at h
  · split at h
    · cases h
    · rename_i v hv
      split at h
      · rename_i hgt
        simp only [Except.ok.injEq] at h
        exact Or.inr ⟨v, hv, hgt, h.symm⟩
      · simp only [Except.ok.injEq] at h
        exact Or.inl h.symm
  · simp only [Except.ok.injEq] at h
    exact Or.inl h.symm

theorem bottomStep_cases {g : Grid} {w : Nat} {maxX : Int} {sv : ℚ} {counter i : Int}
    {r r' : Ring} {j : Int} (h : bottomStep g w maxX sv counter i r j = .ok r') :
    r' = r ∨ ∃ v, at2 g j i = .ok v ∧ v > sv ∧
      r' = ⟨true, r.x, nearer ((w : Int) / 2) r.y i,
        if j ≠ maxX - counter ∧ j ≠ maxX + counter then r.vals ++ [v] else r.vals⟩ := by
  unfold bottomStep at h
  split at h
  · split at h
    · cases h
    · rename_i v hv
      split at h
      · rename_i hgt
        simp only [Except.ok.injEq] at h
        exact Or.inr ⟨v, hv, hgt, h.symm⟩
      · simp only [Except.ok.injEq] at h
        exact Or.inl h.symm
  · simp only [Except.ok.injEq] at h
    exact Or.inl h.symm

theorem leftStep_hit {g : Grid} {w : Nat} {sv : ℚ} {i : Int} {r r' : Ring} {j : Int} {v : ℚ}
    (hj : j ≥ 0 ∧ j < (w : Int)) (hv : at2 g i j = .ok v) (hgt : v > sv)
    (h : leftStep g w sv i r j = .ok r') :
    r' = { r with itemFound := true, x := i, vals := r.vals ++ [v] } := by
  unfold leftStep at h
  rw [if_pos hj, hv] at h
  dsimp only at h
  rw [if_pos hgt] at h
  simp only [Except.ok.injEq] at h
  exact h.symm

theorem rightStep_hit {g : Grid} {w : Nat} {sv : ℚ} {i : Int} {r r' : Ring} {j : Int} {v : ℚ}
    (hj : j ≥ 0 ∧ j < (w : Int)) (hv : at2 g i j = .ok v) (hgt : v > sv)
    (h : rightStep g w sv i r j = .ok r') :
    r' = ⟨true, nearer ((g.length : Int) / 2) r.x i, r.y, r.vals ++ [v]⟩ := by
  unfold rightStep at h
  rw [if_pos hj, hv] at h
  dsimp only at h
  rw [if_pos hgt] at h
  simp only [Except.ok.injEq] at h
  exact h.symm

theorem topStep_hit {g : Grid} {maxX : Int} {sv : ℚ} {counter i : Int} {r r' : Ring}
    {j : Int} {v : ℚ} (hj : j ≥ 0 ∧ j < (g.length : Int)) (hv : at2 g j i = .ok v)
    (hgt : v > sv) (h : topStep g maxX sv counter i r j = .ok r') :
    r' = ⟨true, r.x, i,
      if j ≠ maxX - counter ∧ j ≠ maxX + counter then r.vals ++ [v] else r.vals⟩ := by
  unfold topStep at h
  rw [if_pos hj, hv] at h
  dsimp only at h
  rw [if_pos hgt] at h
  simp only [Except.ok.injEq] at h
  exact h.symm

theorem bottomStep_hit {g : Grid} {w : Nat} {maxX : Int} {sv : ℚ} {counter i : Int}
    {r r' : Ring} {j : Int} {v : ℚ} (hj : j ≥ 0 ∧ j < (g.length : Int))
    (hv : at2 g j i = .ok v) (hgt : v > sv)
    (h : bottomStep g w maxX sv counter i r j = .ok r') :
    r' = ⟨true, r.x, nearer ((w : Int) / 2) r.y i,
      if j ≠ maxX - counter ∧ j ≠ maxX + counter then r.vals ++ [v] else r.vals⟩ := by
  unfold bottomStep at h
  rw [if_pos hj, hv] at h
  dsimp only at h
  rw [if_pos hgt] at h
  simp only [Except.ok.injEq] at h
  exact h.symm

theorem nearer_idem (c l i : Int) : nearer c (nearer c l i) i = nearer c l i := by
  unfold nearer
  by_cases h : |((l - c : Int) : ℚ)| > |((i - c : Int) : ℚ)|
  · rw [if_pos h, if_neg (lt_irrefl _)]
  · rw [if_neg h, if_neg h]

/-! ### Invariants of the four scans of one ring -/

theorem mem_ringRange {lo counter j : Int} (hc : 0 ≤ counter) :
    j ∈ intRange (lo - counter) (2 * counter + 1).toNat ↔ lo - counter ≤ j ∧ j ≤ lo + counter := by
  rw [mem_intRange]
  have : (((2 * counter + 1).toNat : Nat) : Int) = 2 * counter + 1 := Int.toNat_of_nonneg (by omega)
  constructor
  · rintro ⟨h1, h2⟩; exact ⟨h1, by omega⟩
  · rintro ⟨h1, h2⟩; exact ⟨h1, by omega⟩

theorem scanLeft_inv {g : Grid} {w : Nat} {maxX maxY : Int} {sv : ℚ} {counter : Int}
    {I : Ring → Prop} {r r1 : Ring}
    (hstep : ∀ s j s', I s → 0 ≤ maxX - counter →
      leftStep g w sv (maxX - counter) s j = .ok s' → I s')
    (hr : I r) (h : scanLeft g w maxX maxY sv counter r = .ok r1) : I r1 := by
  unfold scanLeft at h
  dsimp only at h
  split at h
  · rename_i hi
    exact foldE_inv _ r r1 hr (fun s a s'' hs _ hf => hstep s a s'' hs hi hf) h
  · simp only [Except.ok.injEq] at h
    rw [← h]; exact hr

theorem scanRight_inv {g : Grid} {w : Nat} {maxX maxY : Int} {sv : ℚ} {counter : Int}
    {I : Ring → Prop} {r r1 : Ring}
    (hstep : ∀ s j s', I s → maxX + counter < (g.length : Int) →
      rightStep g w sv (maxX + counter) s j = .ok s' → I s')
    (hr : I r) (h : scanRight g w maxX maxY sv counter r = .ok r1) : I r1 := by
  unfold scanRight at h
  dsimp only at h
  split at h
  · rename_i hi
    exact foldE_inv _ r r1 hr (fun s a s'' hs _ hf => hstep s a s'' hs hi hf) h
  · simp only [Except.ok.injEq] at h
    rw [← h]; exact hr

theorem scanTop_inv {g : Grid} {maxX maxY : Int} {sv : ℚ} {counter : Int}
    {I : Ring → Prop} {r r1 : Ring}
    (hstep : ∀ s j s', I s → 0 ≤ maxY - counter →
      topStep g maxX sv counter (maxY - counter) s j = .ok s' → I s')
    (hr : I r) (h : scanTop g maxX maxY sv counter r = .ok r1) : I r1 := by
  unfold scanTop at h
  dsimp only at h
  split at h
  · rename_i hi
    exact foldE_inv _ r r1 hr (fun s a s'' hs _ hf => hstep s a s'' hs hi hf) h
  · simp only [Except.ok.injEq] at h
    rw [← h]; exact hr

theorem scanBottom_inv {g : Grid} {w : Nat} {maxX maxY : Int} {sv : ℚ} {counter : Int}
    {I : Ring → Prop} {r r1 : Ring}
    (hstep : ∀ s j s', I s → maxY + counter < (w : Int) →
      bottomStep g w maxX sv counter (maxY + counter) s j = .ok s' → I s')
    (hr : I r) (h : scanBottom g w maxX maxY sv counter r = .ok r1) : I r1 := by
  unfold scanBottom at h
  dsimp only at h
  split at h
  · rename_i hi
    exact foldE_inv _ r r1 hr (fun s a s'' hs _ hf => hstep s a s'' hs hi hf) h
  · simp only [Except.ok.injEq] at h
    rw [← h]; exact hr

theorem scanLeft_hit {g : Grid} {w : Nat} {maxX maxY : Int} {sv : ℚ} {counter : Int}
    {I P : Ring → Prop} {r r1 : Ring} (hc : 0 ≤ counter) (h0 : 0 ≤ maxX - counter)
    (hI : ∀ s j s', I s → leftStep g w sv (maxX - counter) s j = .ok s' → I s')
    (hP : ∀ s j s', I s → P s → leftStep g w sv (maxX - counter) s j = .ok s' → P s')
    {j0 : Int} (hj0 : maxY - counter ≤ j0 ∧ j0 ≤ maxY + counter)
    (hfire : ∀ s s', I s → leftStep g w sv (maxX - counter) s j0 = .ok s' → P s')
    (hr : I r) (h : scanLeft g w maxX maxY sv counter r = .ok r1) : P r1 := by
  unfold scanLeft at h
  dsimp only at h
  rw [if_pos h0] at h
  exact foldE_hit _ r r1 hr (fun s a s'' hs _ hf => hI s a s'' hs hf)
    (fun s a s'' hs hp _ hf => hP s a s'' hs hp hf)
    ⟨j0, (mem_ringRange hc).2 hj0, hfire⟩ h

theorem scanRight_hit {g : Grid} {w : Nat} {maxX maxY : Int} {sv : ℚ} {counter : Int}
    {I P : Ring → Prop} {r r1 : Ring} (hc : 0 ≤ counter)
    (h0 : maxX + counter < (g.length : Int))
    (hI : ∀ s j s', I s → rightStep g w sv (maxX + counter) s j = .ok s' → I s')
    (hP : ∀ s j s', I s → P s → rightStep g w sv (maxX + counter) s j = .ok s' → P s')
    {j0 : Int} (hj0 : maxY - counter ≤ j0 ∧ j0 ≤ maxY + counter)
    (hfire : ∀ s s', I s → rightStep g w sv (maxX + counter) s j0 = .ok s' → P s')
    (hr : I r) (h : scanRight g w maxX maxY sv counter r = .ok r1) : P r1 := by
  unfold scanRight at h
  dsimp only at h
  rw [if_pos h0] at h
  exact foldE_hit _ r r1 hr (fun s a s'' hs _ hf => hI s a s'' hs hf)
    (fun s a s'' hs hp _ hf => hP s a s'' hs hp hf)
    ⟨j0, (mem_ringRange hc).2 hj0, hfire⟩ h

theorem scanTop_hit {g : Grid} {maxX maxY : Int} {sv : ℚ} {counter : Int}
    {I P : Ring → Prop} {r r1 : Ring} (hc : 0 ≤ counter) (h0 : 0 ≤ maxY - counter)
    (hI : ∀ s j s', I s → topStep g maxX sv counter (maxY - counter) s j = .ok s' → I s')
    (hP : ∀ s j s', I s → P s →
      topStep g maxX sv counter (maxY - counter) s j = .ok s' → P s')
    {j0 : Int} (hj0 : maxX - counter ≤ j0 ∧ j0 ≤ maxX + counter)
    (hfire : ∀ s s', I s → topStep g maxX sv counter (maxY - counter) s j0 = .ok s' → P s')
    (hr : I r) (h : scanTop g maxX maxY sv counter r = .ok r1) : P r1 := by
  unfold scanTop at h
  dsimp only at h
  rw [if_pos h0] at h
  exact foldE_hit _ r r1 hr (fun s a s'' hs _ hf => hI s a s'' hs hf)
    (fun s a s'' hs hp _ hf => hP s a s'' hs hp hf)
    ⟨j0, (mem_ringRange hc).2 hj0, hfire⟩ h

theorem scanBottom_hit {g : Grid} {w : Nat} {maxX maxY : Int} {sv : ℚ} {counter : Int}
    {I P : Ring → Prop} {r r1 : Ring} (hc : 0 ≤ counter) (h0 : maxY + counter < (w : Int))
    (hI : ∀ s j s', I s →
      bottomStep g w maxX sv counter (maxY + counter) s j = .ok s' → I s')
    (hP : ∀ s j s', I s → P s →
      bottomStep g w maxX sv counter (maxY + counter) s j = .ok s' → P s')
    {j0 : Int} (hj0 : maxX - counter ≤ j0 ∧ j0 ≤ maxX + counter)
    (hfire : ∀ s s', I s →
      bottomStep g w maxX sv counter (maxY + counter) s j0 = .ok s' → P s')
    (hr : I r) (h : scanBottom g w maxX maxY sv counter r = .ok r1) : P r1 := by
  unfold scanBottom at h
  dsimp only at h
  rw [if_pos h0] at h
  exact foldE_hit _ r r1 hr (fun s a s'' hs _ hf => hI s a s'' hs hf)
    (fun s a s'' hs hp _ hf => hP s a s'' hs hp hf)
    ⟨j0, (mem_ringRange hc).2 hj0, hfire⟩ h

theorem ringScan_parts {g : Grid} {w : Nat} {maxX maxY : Int} {sv : ℚ} {counter : Int}
    {r : Ring} (h : ringScan g w maxX maxY sv counter = .ok r) :
    ∃ r1 r2 r3, scanLeft g w maxX maxY sv counter ⟨false, 0, 0, []⟩ = .ok r1 ∧
      scanRight g w maxX maxY sv counter r1 = .ok r2 ∧
      scanTop g maxX maxY sv counter r2 = .ok r3 ∧
      scanBottom g w maxX maxY sv counter r3 = .ok r := by
  unfold ringScan at h
  split at h
  · cases h
  · rename_i r1 h1
    split at h
    · cases h
    · rename_i r2 h2
      split at h
      · cases h
      · rename_i r3 h3
        exact ⟨r1, r2, r3, h1, h2, h3, h⟩

/-! ### The index one ring records -/

theorem nearer_cases (c l i : Int) : nearer c l i = i ∨ nearer c l i = l := by
  unfold nearer
  split
  · exact Or.inl rfl
  · exact Or.inr rfl

theorem ringScan_x {g : Grid} {w : Nat} {maxX maxY : Int} {sv : ℚ} {counter : Int} {r : Ring}
    (hc : 0 ≤ counter) (h : ringScan g w maxX maxY sv counter = .ok r)
    {jl jr : Int} {vl vr : ℚ}
    (hjl : maxY - counter ≤ jl ∧ jl ≤ maxY + counter) (hwl : jl < (w : Int))
    (hl : at2 g (maxX - counter) jl = .ok vl) (hvl : vl > sv)
    (hjr : maxY - counter ≤ jr ∧ jr ≤ maxY + counter) (hwr : jr < (w : Int))
    (hr : at2 g (maxX + counter) jr = .ok vr) (hvr : vr > sv) :
    r.x = nearer ((g.length : Int) / 2) (maxX - counter) (maxX + counter) := by
  obtain ⟨r1, r2, r3, h1, h2, h3, h4⟩ := ringScan_parts h
  obtain ⟨bl1, -, bl3, -⟩ := at2_bounds hl
  obtain ⟨-, br2, br3, -⟩ := at2_bounds hr
  have e1 : r1.x = maxX - counter := by
    refine scanLeft_hit (I := fun _ => True) (P := fun s => s.x = maxX - counter) hc bl1
      (fun _ _ _ _ _ => trivial) ?_ hjl ?_ trivial h1
    · intro s j s' _ hp hs
      rcases leftStep_cases hs with rfl | ⟨v, -, -, rfl⟩
      · exact hp
      · rfl
    · intro s s' _ hs
      rw [leftStep_hit ⟨bl3, hwl⟩ hl hvl hs]
  have e2 : r2.x = nearer ((g.length : Int) / 2) (maxX - counter) (maxX + counter) := by
    refine scanRight_hit
      (I := fun s => s.x = maxX - counter ∨
        s.x = nearer ((g.length : Int) / 2) (maxX - counter) (maxX + counter))
      (P := fun s => s.x = nearer ((g.length : Int) / 2) (maxX - counter) (maxX + counter))
      hc br2 ?_ ?_ hjr ?_ (Or.inl e1) h2
    · intro s j s' hi hs
      rcases rightStep_cases hs with rfl | ⟨v, -, -, rfl⟩
      · exact hi
      · rcases hi with hi | hi
        · right; show nearer _ s.x _ = _; rw [hi]
        · right; show nearer _ s.x _ = _; rw [hi, nearer_idem]
    · intro s j s' _ hp hs
      rcases rightStep_cases hs with rfl | ⟨v, -, -, rfl⟩
      · exact hp
      · show nearer _ s.x _ = _; rw [hp, nearer_idem]
    · intro s s' hi hs
      rw [rightStep_hit ⟨br3, hwr⟩ hr hvr hs]
      rcases hi with hi | hi
      · show nearer _ s.x _ = _; rw [hi]
      · show nearer _ s.x _ = _; rw [hi, nearer_idem]
  have e3 : r3.x = r2.x := by
    refine scanTop_inv (I := fun s => s.x = r2.x) ?_ rfl h3
    intro s j s' hi _ hs
    rcases topStep_cases hs with rfl | ⟨v, -, -, rfl⟩
    · exact hi
    · exact hi
  have e4 : r.x = r3.x := by
    refine scanBottom_inv (I := fun s => s.x = r3.x) ?_ rfl h4
    intro s j s' hi _ hs
    rcases bottomStep_cases hs with rfl | ⟨v, -, -, rfl⟩
    · exact hi
    · exact hi
  rw [e4, e3, e2]

theorem ringScan_y {g : Grid} {w : Nat} {maxX maxY : Int} {sv : ℚ} {counter : Int} {r : Ring}
    (hc : 0 ≤ counter) (h : ringScan g w maxX maxY sv counter = .ok r)
    {jt jb : Int} {vt vb : ℚ}
    (hjt : maxX - counter ≤ jt ∧ jt ≤ maxX + counter)
    (ht : at2 g jt (maxY - counter) = .ok vt) (hvt : vt > sv)
    (hjb : maxX - counter ≤ jb ∧ jb ≤ maxX + counter) (hwb : maxY + counter < (w : Int))
    (hb : at2 g jb (maxY + counter) = .ok vb) (hvb : vb > sv) :
    r.y = nearer ((w : Int) / 2) (maxY - counter) (maxY + counter) := by
  obtain ⟨r1, r2, r3, h1, h2, h3, h4⟩ := ringScan_parts h
  obtain ⟨bt1, bt2, bt3, -⟩ := at2_bounds ht
  obtain ⟨bb1, bb2, -, -⟩ := at2_bounds hb
  have e1 : r1.y = 0 := by
    refine scanLeft_inv (I := fun s => s.y = 0) ?_ rfl h1
    intro s j s' hi _ hs
    rcases leftStep_cases hs with rfl | ⟨v, -, -, rfl⟩
    · exact hi
    · exact hi
  have e2 : r2.y = 0 := by
    refine scanRight_inv (I := fun s => s.y = 0) ?_ e1 h2
    intro s j s' hi _ hs
    rcases rightStep_cases hs with rfl | ⟨v, -, -, rfl⟩
    · exact hi
    · exact hi
  have e3 : r3.y = maxY - counter := by
    refine scanTop_hit (I := fun _ => True) (P := fun s => s.y = maxY - counter) hc bt3
      (fun _ _ _ _ _ => trivial) ?_ hjt ?_ trivial h3
    · intro s j s' _ hp hs
      rcases topStep_cases hs with rfl | ⟨v, -, -, rfl⟩
      · exact hp
      · rfl
    · intro s s' _ hs
      rw [topStep_hit ⟨bt1, bt2⟩ ht hvt hs]
  refine scanBottom_hit
    (I := fun s => s.y = maxY - counter ∨
      s.y = nearer ((w : Int) / 2) (maxY - counter) (maxY + counter))
    (P := fun s => s.y = nearer ((w : Int) / 2) (maxY - counter) (maxY + counter))
    hc hwb ?_ ?_ hjb ?_ (Or.inl e3) h4
  · intro s j s' hi hs
    rcases bottomStep_cases hs with rfl | ⟨v, -, -, rfl⟩
    · exact hi
    · rcases hi with hi | hi
      · right; show nearer _ s.y _ = _; rw [hi]
      · right; show nearer _ s.y _ = _; rw [hi, nearer_idem]
  · intro s j s' _ hp hs
    rcases bottomStep_cases hs with rfl | ⟨v, -, -, rfl⟩
    · exact hp
    · show nearer _ s.y _ = _; rw [hp, nearer_idem]
  · intro s s' hi hs
    rw [bottomStep_hit ⟨bb1, bb2⟩ hb hvb hs]
    rcases hi with hi | hi
    · show nearer _ s.y _ = _; rw [hi]
    · show nearer _ s.y _ = _; rw [hi, nearer_idem]

theorem ringGrid_scan : ringScan ringGrid 7 2 3 (1 * (4 / 5)) 1 =
    .ok ⟨true, 3, 2, [9/10, 9/10, 17/20, 17/20]⟩ := by decide!

/-! ### The values one ring averages, and the range of its indices -/

theorem ringScan_vals {g : Grid} {w : Nat} (hg : Rectangular g w) {maxX maxY : Int} {sv : ℚ}
    {counter : Int} {r : Ring} (hc : 0 ≤ counter)
    (h : ringScan g w maxX maxY sv counter = .ok r) (hf : r.itemFound = true) :
    r.vals ≠ [] := by
  obtain ⟨r1, r2, r3, h1, h2, h3, h4⟩ := ringScan_parts h
  have hleftJ : ∀ (s : Ring) (j : Int) (s' : Ring), (s.itemFound = true → s.vals ≠ []) →
      leftStep g w sv (maxX - counter) s j = .ok s' → (s'.itemFound = true → s'.vals ≠ []) := by
    intro s j s' hi hs
    rcases leftStep_cases hs with rfl | ⟨v, -, -, rfl⟩
    · exact hi
    · intro _; simp
  have hleftN : ∀ (s : Ring) (j : Int) (s' : Ring), s.vals ≠ [] →
      leftStep g w sv (maxX - counter) s j = .ok s' → s'.vals ≠ [] := by
    intro s j s' hi hs
    rcases leftStep_cases hs with rfl | ⟨v, -, -, rfl⟩
    · exact hi
    · simp
  have hrightJ : ∀ (s : Ring) (j : Int) (s' : Ring), (s.itemFound = true → s.vals ≠ []) →
      rightStep g w sv (maxX + counter) s j = .ok s' → (s'.itemFound = true → s'.vals ≠ []) := by
    intro s j s' hi hs
    rcases rightStep_cases hs with rfl | ⟨v, -, -, rfl⟩
    · exact hi
    · intro _; simp
  have hrightN : ∀ (s : Ring) (j : Int) (s' : Ring), s.vals ≠ [] →
      rightStep g w sv (maxX + counter) s j = .ok s' → s'.vals ≠ [] := by
    intro s j s' hi hs
    rcases rightStep_cases hs with rfl | ⟨v, -, -, rfl⟩
    · exact hi
    · simp
  have j1 : r1.itemFound = true → r1.vals ≠ [] :=
    scanLeft_inv (I := fun s => s.itemFound = true → s.vals ≠ [])
      (fun s j s' hi _ hs => hleftJ s j s' hi hs) (by intro hh; cases hh) h1
  have j2 : r2.itemFound = true → r2.vals ≠ [] :=
    scanRight_inv (I := fun s => s.itemFound = true → s.vals ≠ [])
      (fun s j s' hi _ hs => hrightJ s j s' hi hs) j1 h2
  have n12 : r1.vals ≠ [] → r2.vals ≠ [] := fun hn =>
    scanRight_inv (I := fun s => s.vals ≠ [])
      (fun s j s' hi _ hs => hrightN s j s' hi hs) hn h2
  have hcorner : CornerHit g maxX maxY sv counter → r2.vals ≠ [] := by
    rintro ⟨a, b, v, ha, hb, hv, hgt⟩
    obtain ⟨b1, b2, b3, b4⟩ := at2_bounds_rect hg hv
    have hbr : maxY - counter ≤ b ∧ b ≤ maxY + counter := by
      rcases hb with rfl | rfl <;> constructor <;> omega
    rcases ha with rfl | rfl
    · apply n12
      refine scanLeft_hit (I := fun _ => True) (P := fun s => s.vals ≠ []) hc b1
        (fun _ _ _ _ _ => trivial) (fun s j s' _ hp hs => hleftN s j s' hp hs) hbr ?_ trivial h1
      intro s s' _ hs
      rw [leftStep_hit ⟨b3, b4⟩ hv hgt hs]
      simp
    · refine scanRight_hit (I := fun _ => True) (P := fun s => s.vals ≠ []) hc b2
        (fun _ _ _ _ _ => trivial) (fun s j s' _ hp hs => hrightN s j s' hp hs) hbr ?_ trivial h2
      intro s s' _ hs
      rw [rightStep_hit ⟨b3, b4⟩ hv hgt hs]
      simp
  have hI2 : (r2.itemFound = true → r2.vals ≠ []) ∧
      (CornerHit g maxX maxY sv counter → r2.vals ≠ []) := ⟨j2, hcorner⟩
  have hI3 : (r3.itemFound = true → r3.vals ≠ []) ∧
      (CornerHit g maxX maxY sv counter → r3.vals ≠ []) := by
    refine scanTop_inv (I := fun s => (s.itemFound = true → s.vals ≠ []) ∧
      (CornerHit g maxX maxY sv counter → s.vals ≠ [])) ?_ hI2 h3
    intro s j s' hi _ hs
    rcases topStep_cases hs with rfl | ⟨v, hv, hgt, rfl⟩
    · exact hi
    · have hne : (if j ≠ maxX - counter ∧ j ≠ maxX + counter then s.vals ++ [v]
          else s.vals) ≠ [] := by
        by_cases hj : j ≠ maxX - counter ∧ j ≠ maxX + counter
        · rw [if_pos hj]; simp
        · rw [if_neg hj]
          apply hi.2
          refine ⟨j, maxY - counter, v, ?_, Or.inl rfl, hv, hgt⟩
          by_contra hcon
          push_neg at hcon
          exact hj ⟨hcon.1, hcon.2⟩
      exact ⟨fun _ => hne, fun _ => hne⟩
  have hI4 : (r.itemFound = true → r.vals ≠ []) ∧
      (CornerHit g maxX maxY sv counter → r.vals ≠ []) := by
    refine scanBottom_inv (I := fun s => (s.itemFound = true → s.vals ≠ []) ∧
      (CornerHit g maxX maxY sv counter → s.vals ≠ [])) ?_ hI3 h4
    intro s j s' hi _ hs
    rcases bottomStep_cases hs with rfl | ⟨v, hv, hgt, rfl⟩
    · exact hi
    · have hne : (if j ≠ maxX - counter ∧ j ≠ maxX + counter then s.vals ++ [v]
          else s.vals) ≠ [] := by
        by_cases hj : j ≠ maxX - counter ∧ j ≠ maxX + counter
        · rw [if_pos hj]; simp
        · rw [if_neg hj]
          apply hi.2
          refine ⟨j, maxY + counter, v, ?_, Or.inr rfl, hv, hgt⟩
          by_contra hcon
          push_neg at hcon
          exact hj ⟨hcon.1, hcon.2⟩
      exact ⟨fun _ => hne, fun _ => hne⟩
  exact hI4.1 hf

theorem ringScan_bounds {g : Grid} {w : Nat} (hg : Rectangular g w) {maxX maxY : Int} {sv : ℚ}
    {counter : Int} {r : Ring} (h : ringScan g w maxX maxY sv counter = .ok r) :
    0 ≤ r.x ∧ r.x < max (g.length : Int) 1 ∧ 0 ≤ r.y ∧ r.y < max (w : Int) 1 := by
  obtain ⟨r1, r2, r3, h1, h2, h3, h4⟩ := ringScan_parts h
  have b0 : (0 : Int) ≤ 0 ∧ (0 : Int) < max (g.length : Int) 1 ∧ (0 : Int) ≤ 0 ∧
      (0 : Int) < max (w : Int) 1 :=
    ⟨le_rfl, lt_of_lt_of_le one_pos (le_max_right _ _), le_rfl,
      lt_of_lt_of_le one_pos (le_max_right _ _)⟩
  have b1 : 0 ≤ r1.x ∧ r1.x < max (g.length : Int) 1 ∧ 0 ≤ r1.y ∧ r1.y < max (w : Int) 1 := by
    refine scanLeft_inv (I := fun s => 0 ≤ s.x ∧ s.x < max (g.length : Int) 1 ∧ 0 ≤ s.y ∧
      s.y < max (w : Int) 1) ?_ b0 h1
    intro s j s' hi _ hs
    rcases leftStep_cases hs with rfl | ⟨v, hv, -, rfl⟩
    · exact hi
    · obtain ⟨c1, c2, -, -⟩ := at2_bounds hv
      exact ⟨c1, lt_of_lt_of_le c2 (le_max_left _ _), hi.2.2.1, hi.2.2.2⟩
  have b2 : 0 ≤ r2.x ∧ r2.x < max (g.length : Int) 1 ∧ 0 ≤ r2.y ∧ r2.y < max (w : Int) 1 := by
    refine scanRight_inv (I := fun s => 0 ≤ s.x ∧ s.x < max (g.length : Int) 1 ∧ 0 ≤ s.y ∧
      s.y < max (w : Int) 1) ?_ b1 h2
    intro s j s' hi _ hs
    rcases rightStep_cases hs with rfl | ⟨v, hv, -, rfl⟩
    · exact hi
    · obtain ⟨c1, c2, -, -⟩ := at2_bounds hv
      refine ⟨?_, ?_, hi.2.2.1, hi.2.2.2⟩
      · show 0 ≤ nearer _ s.x _
        rcases nearer_cases ((g.length : Int) / 2) s.x (maxX + counter) with e | e
        · rw [e]; exact c1
        · rw [e]; exact hi.1
      · show nearer _ s.x _ < _
        rcases nearer_cases ((g.length : Int) / 2) s.x (maxX + counter) with e | e
        · rw [e]; exact lt_of_lt_of_le c2 (le_max_left _ _)
        · rw [e]; exact hi.2.1
  have b3 : 0 ≤ r3.x ∧ r3.x < max (g.length : Int) 1 ∧ 0 ≤ r3.y ∧ r3.y < max (w : Int) 1 := by
    refine scanTop_inv (I := fun s => 0 ≤ s.x ∧ s.x < max (g.length : Int) 1 ∧ 0 ≤ s.y ∧
      s.y < max (w : Int) 1) ?_ b2 h3
    intro s j s' hi _ hs
    rcases topStep_cases hs with rfl | ⟨v, hv, -, rfl⟩
    · exact hi
    · obtain ⟨-, -, c3, c4⟩ := at2_bounds_rect hg hv
      exact ⟨hi.1, hi.2.1, c3, lt_of_lt_of_le c4 (le_max_left _ _)⟩
  refine scanBottom_inv (I := fun s => 0 ≤ s.x ∧ s.x < max (g.length : Int) 1 ∧ 0 ≤ s.y ∧
    s.y < max (w : Int) 1) ?_ b3 h4
  intro s j s' hi _ hs
  rcases bottomStep_cases hs with rfl | ⟨v, hv, -, rfl⟩
  · exact hi
  · obtain ⟨-, -, c3, c4⟩ := at2_bounds_rect hg hv
    refine ⟨hi.1, hi.2.1, ?_, ?_⟩
    · show 0 ≤ nearer _ s.y _
      rcases nearer_cases ((w : Int) / 2) s.y (maxY + counter) with e | e
      · rw [e]; exact c3
      · rw [e]; exact hi.2.2.1
    · show nearer _ s.y _ < _
      rcases nearer_cases ((w : Int) / 2) s.y (maxY + counter) with e | e
      · rw [e]; exact lt_of_lt_of_le c4 (le_max_left _ _)
      · rw [e]; exact hi.2.2.2

/-! ### The ring loop: iterations, budget, range of the result -/

theorem ringScan_past {g : Grid} {w : Nat} {maxX maxY : Int} (hp : PeakInGrid g w maxX maxY)
    (sv : ℚ) {counter : Int} (hc : 1 ≤ counter)
    (hm : ((max g.length w : Nat) : Int) ≤ counter) :
    ringScan g w maxX maxY sv counter = .ok ⟨false, 0, 0, []⟩ := by
  have h1 : ((g.length : Nat) : Int) ≤ ((max g.length w : Nat) : Int) := by
    exact_mod_cast le_max_left _ _
  have h2 : ((w : Nat) : Int) ≤ ((max g.length w : Nat) : Int) := by
    exact_mod_cast le_max_right _ _
  exact ringScan_far hp sv hc (by omega) (by omega)

theorem ringLoop_ok_max {g : Grid} {w : Nat} (hg : Rectangular g w) {maxX maxY : Int}
    (hp : PeakInGrid g w maxX maxY) :
    ∀ (fuel : Nat) (sv : ℚ) (counter splitX splitY : Int), 1 ≤ counter → 1 ≤ fuel →
      ((max g.length w : Nat) : Int) + 1 ≤ counter + fuel →
      ∃ r, ringLoop g w maxX maxY fuel sv counter splitX splitY = .ok r := by
  intro fuel
  induction fuel with
  | zero => intro _ _ _ _ _ h; omega
  | succ f ih =>
    intro sv counter splitX splitY hc _ hb
    unfold ringLoop
    obtain ⟨r, hr⟩ := ringScan_ok hg hp sv hc
    simp only [hr]
    by_cases hfound : r.itemFound = true
    · simp only [hfound, Bool.not_true, Bool.false_eq_true, if_false]
      have hnear : counter < ((max g.length w : Nat) : Int) := by
        by_contra hcon
        push_neg at hcon
        have := ringScan_past hp sv hc hcon
        rw [hr] at this
        simp only [Except.ok.injEq] at this
        rw [this] at hfound
        cases hfound
      apply ih
      · omega
      · omega
      · push_cast at hb ⊢
        omega
    · simp only [Bool.not_eq_true] at hfound
      simp only [hfound, Bool.not_false, if_true]
      exact ⟨_, rfl⟩

theorem ringLoop_budget {g : Grid} {w : Nat} {maxX maxY : Int}
    (hp : PeakInGrid g w maxX maxY) :
    ∀ (f1 f2 : Nat) (sv : ℚ) (counter splitX splitY : Int), 1 ≤ counter → 1 ≤ f1 → 1 ≤ f2 →
      ((max g.length w : Nat) : Int) + 1 ≤ counter + f1 →
      ((max g.length w : Nat) : Int) + 1 ≤ counter + f2 →
      ringLoop g w maxX maxY f1 sv counter splitX splitY =
        ringLoop g w maxX maxY f2 sv counter splitX splitY := by
  intro f1
  induction f1 with
  | zero => intro _ _ _ _ _ _ h; omega
  | succ a ih =>
    intro f2 sv counter splitX splitY hc _ h2 hb1 hb2
    cases f2 with
    | zero => omega
    | succ b =>
      rw [ringLoop, ringLoop]
      cases hr : ringScan g w maxX maxY sv counter with
      | error e => rfl
      | ok r =>
        dsimp only
        by_cases hfound : r.itemFound = true
        · simp only [hfound, Bool.not_true, Bool.false_eq_true, if_false]
          have hnear : counter < ((max g.length w : Nat) : Int) := by
            by_contra hcon
            push_neg at hcon
            have := ringScan_past hp sv hc hcon
            rw [hr] at this
            simp only [Except.ok.injEq] at this
            rw [this] at hfound
            cases hfound
          apply ih
          · omega
          · omega
          · omega
          · push_cast at hb1 ⊢
            omega
          · push_cast at hb2 ⊢
            omega
        · simp only [Bool.not_eq_true] at hfound
          simp only [hfound, Bool.not_false, if_true]

theorem ringLoop_bounds {g : Grid} {w : Nat} (hg : Rectangular g w) {maxX maxY : Int} :
    ∀ (fuel : Nat) (sv : ℚ) (counter splitX splitY : Int) (x y : Int),
      (0 ≤ splitX ∧ splitX < max (g.length : Int) 1 ∧ 0 ≤ splitY ∧ splitY < max (w : Int) 1) →
      ringLoop g w maxX maxY fuel sv counter splitX splitY = .ok (x, y) →
      0 ≤ x ∧ x < max (g.length : Int) 1 ∧ 0 ≤ y ∧ y < max (w : Int) 1 := by
  intro fuel
  induction fuel with
  | zero =>
    intro sv counter splitX splitY x y _ h
    rw [ringLoop] at h
    cases h
  | succ f ih =>
    intro sv counter splitX splitY x y hb h
    rw [ringLoop] at h
    cases hr : ringScan g w maxX maxY sv counter with
    | error e => rw [hr] at h; cases h
    | ok r =>
      rw [hr] at h
      dsimp only at h
      have hrb := ringScan_bounds hg hr
      split at h
      · simp only [Except.ok.injEq, Prod.mk.injEq] at h
        obtain ⟨rfl, rfl⟩ := h
        exact hb
      · refine ih _ _ _ _ x y ?_ h
        refine ⟨?_, ?_, ?_, ?_⟩
        · split
          · exact hrb.1
          · exact hb.1
        · split
          · exact hrb.2.1
          · exact hb.2.1
        · split
          · exact hrb.2.2.1
          · exact hb.2.2.1
        · split
          · exact hrb.2.2.2
          · exact hb.2.2.2

theorem getSplitPoint_parts {r0 : List ℚ} {rest : Grid} {x y : Int}
    (h : getSplitPoint (r0 :: rest) = .ok (x, y)) :
    ∃ maxX maxY maxValue splitX splitY,
      scanMax (r0 :: rest) r0.length = .ok (maxX, maxY, maxValue) ∧
      ringLoop (r0 :: rest) r0.length maxX maxY ((r0 :: rest).length + r0.length + 1)
        (maxValue * (4 / 5)) 1 0 0 = .ok (splitX, splitY) ∧
      x = (if splitX > maxX then splitX + 1 else splitX - 1) ∧
      y = (if splitY > maxY then splitY + 1 else splitY - 1) := by
  unfold getSplitPoint at h
  dsimp only at h
  split at h
  · cases h
  · rename_i maxX maxY maxValue hm
    split at h
    · cases h
    · rename_i splitX splitY hl
      simp only [Except.ok.injEq, Prod.mk.injEq] at h
      exact ⟨maxX, maxY, maxValue, splitX, splitY, hm, hl, h.1.symm, h.2.symm⟩

theorem getSplitPoint_of_parts {r0 : List ℚ} {rest : Grid} {maxX maxY : Int} {maxValue : ℚ}
    {splitX splitY : Int}
    (hm : scanMax (r0 :: rest) r0.length = .ok (maxX, maxY, maxValue))
    (hl : ringLoop (r0 :: rest) r0.length maxX maxY ((r0 :: rest).length + r0.length + 1)
        (maxValue * (4 / 5)) 1 0 0 = .ok (splitX, splitY)) :
    getSplitPoint (r0 :: rest) =
      .ok (if splitX > maxX then splitX + 1 else splitX - 1,
           if splitY > maxY then splitY + 1 else splitY - 1) := by
  unfold getSplitPoint
  simp only [hm, hl]

theorem scanMax_peak {g : Grid} {w : Nat} (hg : Rectangular g w) (hne : g ≠ [])
    {maxX maxY : Int} {maxValue : ℚ} (h : scanMax g w = .ok (maxX, maxY, maxValue)) :
    PeakInGrid g w maxX maxY := by
  obtain ⟨r, hr, hp⟩ := scanMax_ok hg hne
  rw [h] at hr
  simp only [Except.ok.injEq] at hr
  rw [← hr] at hp
  exact hp

/-! ### The fallback index of split() -/

theorem smoothIndex_of_grid {kernel : Grid} {convNum : Int} {grid convolved : Grid}
    {xr yr : Int} (hs : smoothGrid kernel convNum grid = .ok convolved)
    (hp : getSplitPoint convolved = .ok (xr, yr)) :
    smoothIndex kernel convNum grid =
      .ok (if xr < 1 ∨ xr ≥ (convolved.length : Int) - 1 then (convolved.length : Int) / 2
           else xr,
           if yr < 1 ∨ yr ≥ (((convolved.head?).getD []).length : Int) - 1 then
             (((convolved.head?).getD []).length : Int) / 2
           else yr) := by
  unfold smoothGrid at hs
  unfold smoothIndex
  cases h1 : normalizeGrid grid with
  | error e => rw [h1] at hs; cases hs
  | ok g1 =>
    rw [h1] at hs
    dsimp only at hs ⊢
    cases h2 : convLoop kernel convNum.toNat g1 with
    | error e => rw [h2] at hs; cases hs
    | ok g2 =>
      rw [h2] at hs
      dsimp only at hs ⊢
      rw [hs]
      dsimp only
      rw [hp]

theorem convLoop_ok3 {kernel : Grid} (hk : KernelOK kernel) (h3 : kernel.length = 3) :
    ∀ (c : Nat) (g : Grid) (n : Nat), Square g n → 1 ≤ n →
      ∃ g', convLoop kernel c g = .ok g' ∧ Square g' n := by
  intro c
  induction c with
  | zero => intro g n hg _; exact ⟨g, rfl, hg⟩
  | succ c ih =>
    intro g n hg hn
    unfold convLoop
    rcases convolve_ok hg hn hk with ⟨-, msg, hmsg⟩ | ⟨hle, g1, hg1, hsq⟩
    · simp only [hmsg]
      exact ⟨g, rfl, hg⟩
    · simp only [hg1]
      obtain ⟨g2, hg2, hlen2, hrect2⟩ := normalizeGrid_ok hsq.2
      simp only [hg2]
      have hside : n - kernel.length + 3 = n := by omega
      rw [hside] at hsq hrect2
      exact ih g2 n ⟨by rw [hlen2, hsq.1], hrect2⟩ hn

theorem smoothGrid_ok {kernel : Grid} (hk : KernelOK kernel) (convNum : Int) {g : Grid}
    {n : Nat} (hg : Square g n) (hn : 1 ≤ n) :
    ∃ c n', smoothGrid kernel convNum g = .ok c ∧ Square c n' ∧ 1 ≤ n' ∧
      (kernel.length = 3 → n' = n) := by
  unfold smoothGrid
  obtain ⟨g1, e1, hlen1, hrect1⟩ := normalizeGrid_ok hg.2
  simp only [e1]
  have hsq1 : Square g1 n := ⟨by rw [hlen1, hg.1], hrect1⟩
  by_cases h3 : kernel.length = 3
  · obtain ⟨g2, e2, hsq2⟩ := convLoop_ok3 hk h3 convNum.toNat g1 n hsq1 hn
    simp only [e2]
    obtain ⟨g3, e3, hlen3, hrect3⟩ := normalizeGrid_ok hsq2.2
    exact ⟨g3, n, e3, ⟨by rw [hlen3, hsq2.1], hrect3⟩, hn, fun _ => rfl⟩
  · obtain ⟨g2, n2, e2, hsq2, hn2⟩ := convLoop_ok hk convNum.toNat g1 n hsq1 hn
    simp only [e2]
    obtain ⟨g3, e3, hlen3, hrect3⟩ := normalizeGrid_ok hsq2.2
    exact ⟨g3, n2, e3, ⟨by rw [hlen3, hsq2.1], hrect3⟩, hn2, fun h => absurd h h3⟩

theorem split_cut {tree : ConvFields} {t : ConvTree} {xMax yMax : Int}
    (hs : split tree = .ok t) (hidx : splitIndex tree = .ok (xMax, yMax)) :
    cut t = some (cutX tree xMax, cutY tree yMax) := by
  obtain ⟨xMax', yMax', c1, c2, c3, c4, hidx', hnode, h1, -, -, -⟩ := split_children hs
  rw [hidx] at hidx'
  simp only [Except.ok.injEq, Prod.mk.injEq] at hidx'
  obtain ⟨rfl, rfl⟩ := hidx'
  obtain ⟨f1, a, b, c, d, rfl, -, htr, -⟩ := h1
  rw [hnode]
  simp only [cut, Bool.false_eq_true, if_false, htr]
  rfl

theorem clampCut_half {lo hi minLength : ℚ} (h : hi - lo > 2 * minLength) :
    clampCut lo hi minLength ((hi - lo) / 2) = (lo + hi) / 2 := by
  unfold clampCut
  dsimp only
  have h1 : ¬ (lo + (hi - lo) / 2 - lo < minLength) := by
    rw [not_lt]; linarith
  rw [if_neg h1]
  have h2 : ¬ (hi - (lo + (hi - lo) / 2) < minLength) := by
    rw [not_lt]; linarith
  rw [if_neg h2]
  ring

theorem half_offset {gs : Int} (hgs : 1 ≤ gs) (heven : 2 ∣ gs) (width : ℚ) :
    ((gs / 2 : Int) : ℚ) * (width / (gs : ℚ)) = width / 2 := by
  obtain ⟨k, rfl⟩ := heven
  have hk : (k : ℚ) ≠ 0 := by
    have : k ≠ 0 := by omega
    exact_mod_cast this
  rw [Int.mul_ediv_cancel_left k (by decide : (2 : Int) ≠ 0)]
  push_cast
  field_simp
  ring

/-! ### The convolution against its reference definition -/

theorem mapE_eq_map {α β : Type} {f : α → Except Fault β} {h : α → β} :
    ∀ (l : List α), (∀ a ∈ l, f a = .ok (h a)) → mapE f l = .ok (l.map h) := by
  intro l
  induction l with
  | nil => intro _; rfl
  | cons a as ih =>
    intro hf
    simp only [mapE, hf a (List.mem_cons_self _ _),
      ih (fun x hx => hf x (List.mem_cons_of_mem _ hx)), List.map_cons]

theorem foldE_sum {α : Type} {f : ℚ → α → Except Fault ℚ} {h : α → ℚ} :
    ∀ (l : List α) (s : ℚ), (∀ a ∈ l, ∀ s, f s a = .ok (s + h a)) →
      foldE f s l = .ok (s + (l.map h).sum) := by
  intro l
  induction l with
  | nil => intro s _; simp [foldE]
  | cons a as ih =>
    intro s hf
    rw [foldE, hf a (List.mem_cons_self _ _) s]
    dsimp only
    rw [ih _ (fun x hx => hf x (List.mem_cons_of_mem _ hx))]
    simp only [List.map_cons, List.sum_cons, add_assoc]

theorem intRange_eq (lo : Int) (n : Nat) :
    intRange lo n = (List.range n).map (fun (t : Nat) => lo + (t : Int)) := rfl

theorem at2_eq_cellAt {g : Grid} {w : Nat} (hg : Rectangular g w) {a b : Nat}
    (ha : a < g.length) (hb : b < w) : at2 g (a : Int) (b : Int) = .ok (cellAt g a b) := by
  have hrow : (g[a]).length = w := hg _ (List.getElem_mem _)
  have e1 : ((a : Int)).toNat = a := by omega
  have e2 : ((b : Int)).toNat = b := by omega
  have hb' : b < (g[a]).length := by rw [hrow]; exact hb
  unfold at2 at1 cellAt
  rw [if_neg (by omega), e1, List.getElem?_eq_getElem ha]
  dsimp only
  rw [if_neg (by omega), e2, List.getElem?_eq_getElem hb']
  simp only [List.getD_eq_getElem?_getD, List.getElem?_eq_getElem ha, Option.getD_some,
    List.getElem?_eq_getElem hb']

theorem row_of_cells (row : List ℚ) :
    (intRange 1 row.length).map (fun (j : Int) => row.getD (j - 1).toNat 0) = row := by
  apply List.ext_getElem
  · simp [intRange]
  · intro t h1 h2
    simp only [intRange, List.getElem_map, List.getElem_range]
    have : ((1 : Int) + (t : Int) - 1).toNat = t := by omega
    rw [this, List.getD_eq_getElem?_getD, List.getElem?_eq_getElem h2, Option.getD_some]

theorem rows_of_grid (G : Grid) (F : List ℚ → List ℚ) :
    (intRange 1 G.length).map (fun (i : Int) => F (G.getD (i - 1).toNat [])) = G.map F := by
  apply List.ext_getElem
  · simp [intRange]
  · intro t h1 h2
    simp only [intRange, List.getElem_map, List.getElem_range]
    have : ((1 : Int) + (t : Int) - 1).toNat = t := by omega
    have ht : t < G.length := by simpa using h2
    rw [this, List.getD_eq_getElem?_getD, List.getElem?_eq_getElem ht, Option.getD_some]

theorem procRow_eq {G : Grid} {n : Nat} (hG : Square G n) {i : Int}
    (hi : 1 ≤ i ∧ i < 1 + (n : Int)) :
    procRow G 1 (n + 2) i = .ok ((0 : ℚ) :: G.getD (i - 1).toNat [] ++ [0]) := by
  obtain ⟨hlen, hrect⟩ := hG
  unfold procRow
  have hrowlen : (G.getD (i - 1).toNat []).length = n := by
    have hlt : (i - 1).toNat < G.length := by omega
    rw [List.getD_eq_getElem?_getD, List.getElem?_eq_getElem hlt, Option.getD_some]
    exact hrect _ (List.getElem_mem _)
  have hcells : mapE (fun j : Int => at2 G (i - 1) (j - 1)) (intRange 1 (n + 2 - 2)) =
      .ok ((intRange 1 (n + 2 - 2)).map
        (fun (j : Int) => (G.getD (i - 1).toNat []).getD (j - 1).toNat 0)) := by
    apply mapE_eq_map
    intro j hj
    rw [mem_intRange] at hj
    have h1 : i - 1 = (((i - 1).toNat : Nat) : Int) := by omega
    have h2 : j - 1 = (((j - 1).toNat : Nat) : Int) := by omega
    rw [h1, h2, at2_eq_cellAt hrect (by omega) (by omega)]
    simp only [cellAt, Int.toNat_ofNat]
  rw [hcells]
  dsimp only
  have hn : n + 2 - 2 = (G.getD (i - 1).toNat []).length := by rw [hrowlen]; omega
  rw [hn, row_of_cells]

theorem procGridOf_eq {G : Grid} {n : Nat} (hG : Square G n) :
    procGridOf G 1 = .ok (padGrid G n) := by
  have hlen := hG.1
  unfold procGridOf
  have hm : ((G.length : Int) + 2 * 1).toNat = n + 2 := by omega
  simp only [hm, show (1 : Int).toNat = 1 from rfl]
  have hinner : mapE (procRow G 1 (n + 2)) (intRange 1 (n + 2 - 2)) =
      .ok (G.map (fun row => (0 : ℚ) :: row ++ [0])) := by
    have hn : n + 2 - 2 = G.length := by omega
    rw [← rows_of_grid G (fun row => (0 : ℚ) :: row ++ [0]), hn]
    apply mapE_eq_map
    intro i hi
    rw [mem_intRange] at hi
    exact procRow_eq hG (by omega)
  rw [hinner]
  dsimp only
  unfold padGrid
  have h1 : (List.replicate 1 (List.replicate (n + 2) (0 : ℚ)) ++
      List.replicate (n + 2 - 1) ([] : List ℚ)).take 1 =
      [List.replicate (n + 2) (0 : ℚ)] := by
    simp [List.replicate]
  have h2 : (List.replicate 1 (List.replicate (n + 2) (0 : ℚ)) ++
      List.replicate (n + 2 - 1) ([] : List ℚ)).drop (n + 2 - 1) = [[]] := by
    have : n + 2 - 1 = n + 1 := by omega
    rw [this]
    simp only [List.replicate_one, List.singleton_append, List.drop_succ_cons,
      List.drop_replicate]
    have e : n + 1 - n = 1 := by omega
    rw [e]
    rfl
  rw [h1, h2]
  have h3 : ([List.replicate (n + 2) (0 : ℚ)] ++ G.map (fun row => (0 : ℚ) :: row ++ [0]) ++
      [[]]).take (n + 2 - 1) =
      [List.replicate (n + 2) (0 : ℚ)] ++ G.map (fun row => (0 : ℚ) :: row ++ [0]) := by
    apply List.take_left'
    simp [hlen]
  rw [h3]
  simp [List.replicate]

theorem padGrid_square {G : Grid} {n : Nat} (hG : Square G n) :
    (padGrid G n).length = n + 2 ∧ Rectangular (padGrid G n) (n + 2) ∧
      (((padGrid G n).head?).getD []).length = n + 2 := by
  obtain ⟨hlen, hrect⟩ := hG
  refine ⟨by simp [padGrid, hlen], ?_, by simp [padGrid]⟩
  intro row hrow
  simp only [padGrid, List.cons_append, List.mem_cons, List.mem_append, List.mem_map,
    List.not_mem_nil, or_false] at hrow
  rcases hrow with rfl | ⟨r, hr, rfl⟩ | rfl
  · simp
  · simp [hrect r hr]
  · simp

theorem map_intRange {β : Type} (k : Nat) (F : Nat → β) :
    (intRange 0 k).map (fun (y : Int) => F y.toNat) = (List.range k).map F := by
  rw [intRange_eq, List.map_map]
  apply List.map_congr_left
  intro t _
  simp

theorem convTap_eq {G K : Grid} {n k : Nat} (hG : Square G n) (hK : Square K k)
    {a b c d : Nat} (hac : a + c < n + 2) (hbd : b + d < n + 2) (hc : c < k) (hd : d < k)
    (total : ℚ) :
    convTap (padGrid G n) K 1 (a : Int) (b : Int) (c : Int) total (d : Int) =
      .ok (total + cellAt (padGrid G n) (a + c) (b + d) * cellAt K c d) := by
  obtain ⟨hplen, hprect, hphead⟩ := padGrid_square hG
  unfold convTap
  dsimp only
  have ex : (1 : Int) * (a : Int) + (c : Int) = ((a + c : Nat) : Int) := by push_cast; ring
  have ey : (1 : Int) * (b : Int) + (d : Int) = ((b + d : Nat) : Int) := by push_cast; ring
  rw [ex, ey, hplen, hphead]
  have hcond : ((a + c : Nat) : Int) ≥ 0 ∧ ((a + c : Nat) : Int) < ((n + 2 : Nat) : Int) ∧
      ((b + d : Nat) : Int) ≥ 0 ∧ ((b + d : Nat) : Int) < ((n + 2 : Nat) : Int) := by
    refine ⟨by omega, by omega, by omega, by omega⟩
  rw [if_pos hcond, at2_eq_cellAt hprect (by rw [hplen]; exact hac) hbd,
    at2_eq_cellAt hK.2 (by rw [hK.1]; exact hc) hd]

theorem convCell_eq {G K : Grid} {n k : Nat} (hG : Square G n) (hK : Square K k)
    {a b : Nat} (ha : a + k < n + 3) (hb : b + k < n + 3) :
    convCell (padGrid G n) K 1 k (a : Int) (b : Int) = .ok (refCell G K n k a b) := by
  unfold convCell
  rw [foldE_sum (h := fun (x : Int) =>
    ((List.range k).map (fun d =>
      cellAt (padGrid G n) (a + x.toNat) (b + d) * cellAt K x.toNat d)).sum)]
  · rw [zero_add, map_intRange k (fun c =>
      ((List.range k).map (fun d =>
        cellAt (padGrid G n) (a + c) (b + d) * cellAt K c d)).sum)]
    rfl
  · intro x hx total
    rw [mem_intRange] at hx
    have hxc : x = ((x.toNat : Nat) : Int) := by omega
    unfold convTaps
    rw [foldE_sum (h := fun (y : Int) =>
      cellAt (padGrid G n) (a + x.toNat) (b + y.toNat) * cellAt K x.toNat y.toNat)]
    · rw [map_intRange k (fun d =>
        cellAt (padGrid G n) (a + x.toNat) (b + d) * cellAt K x.toNat d)]
    · intro y hy s
      rw [mem_intRange] at hy
      have hyc : y = ((y.toNat : Nat) : Int) := by omega
      rw [hxc, hyc, convTap_eq hG hK (by omega) (by omega) (by omega) (by omega)]
      simp only [Int.toNat_ofNat]

theorem convolve_eq {G K : Grid} {n k : Nat} (hG : Square G n) (hK : Square K k)
    (hn : 1 ≤ n) (hk : k ≤ n) : convolve G K 1 1 = .ok (.ok (refConvolve G K n k)) := by
  obtain ⟨hlen, hrect⟩ := hG
  unfold convolve
  simp only [show ¬ ((1 : Int) < 1) by decide, if_false, hlen, hK.1]
  rw [if_neg (by omega)]
  cases G with
  | nil => simp at hlen; omega
  | cons r0 rest =>
    have hr0 : r0.length = n := hrect r0 (List.mem_cons_self _ _)
    simp only [hr0]
    rw [if_neg (by omega), procGridOf_eq ⟨hlen, hrect⟩]
    dsimp only
    have hside : (((n : Int) - (k : Int) + 2 * 1) / 1 + 1).toNat = n - k + 3 := by
      rw [Int.ediv_one]; omega
    rw [hside]
    have hrows : mapE (convRow (padGrid (r0 :: rest) n) K 1 k (n - k + 3))
        (intRange 0 (n - k + 3)) =
        .ok ((intRange 0 (n - k + 3)).map (fun (i : Int) =>
          (List.range (n - k + 3)).map (fun j => refCell (r0 :: rest) K n k i.toNat j))) := by
      apply mapE_eq_map
      intro i hi
      rw [mem_intRange] at hi
      have hic : i = ((i.toNat : Nat) : Int) := by omega
      unfold convRow
      rw [← map_intRange (n - k + 3) (fun j => refCell (r0 :: rest) K n k i.toNat j)]
      apply mapE_eq_map
      intro j hj
      rw [mem_intRange] at hj
      have hjc : j = ((j.toNat : Nat) : Int) := by omega
      rw [hic, hjc, convCell_eq ⟨hlen, hrect⟩ hK (by omega) (by omega)]
      simp only [Int.toNat_ofNat]
    rw [hrows]
    dsimp only
    rw [map_intRange (n - k + 3) (fun i =>
      (List.range (n - k + 3)).map (fun j => refCell (r0 :: rest) K n k i j))]
    rfl

theorem cellAt_table (F : Nat → Nat → ℚ) (m : Nat) {i j : Nat} (hi : i < m) (hj : j < m) :
    cellAt ((List.range m).map (fun i => (List.range m).map (fun j => F i j))) i j = F i j := by
  unfold cellAt
  have h1 : ((List.range m).map (fun i => (List.range m).map (fun j => F i j)))[i]? =
      some ((List.range m).map (fun j => F i j)) := by
    rw [List.getElem?_map, List.getElem?_range hi]
    rfl
  have h2 : ((List.range m).map (fun j => F i j))[j]? = some (F i j) := by
    rw [List.getElem?_map, List.getElem?_range hj]
    rfl
  simp only [List.getD_eq_getElem?_getD, h1, h2, Option.getD_some]

theorem getD_zero (l : List ℚ) (h : ∀ v ∈ l, v = 0) (b : Nat) : l.getD b 0 = 0 := by
  rw [List.getD_eq_getElem?_getD]
  cases hb : l[b]? with
  | none => rfl
  | some v =>
    obtain ⟨hlt, hv⟩ := List.getElem?_eq_some.1 hb
    rw [Option.getD_some, ← hv]
    exact h _ (List.getElem_mem _)

theorem padGrid_zero {G : Grid} (n : Nat) (hz : ∀ row ∈ G, ∀ v ∈ row, v = 0) (a b : Nat) :
    cellAt (padGrid G n) a b = 0 := by
  unfold cellAt
  apply getD_zero
  intro v hv
  rw [List.getD_eq_getElem?_getD] at hv
  cases ha : (padGrid G n)[a]? with
  | none => rw [ha] at hv; simp at hv
  | some row =>
    rw [ha, Option.getD_some] at hv
    obtain ⟨hlt, hrow⟩ := List.getElem?_eq_some.1 ha
    have hmem : row ∈ padGrid G n := by rw [← hrow]; exact List.getElem_mem _
    simp only [padGrid, List.cons_append, List.mem_cons, List.mem_append, List.mem_map,
      List.not_mem_nil, or_false] at hmem
    rcases hmem with rfl | ⟨r, hr, rfl⟩ | rfl
    · exact (List.mem_replicate.1 hv).2
    · simp only [List.cons_append, List.mem_cons, List.mem_append, List.not_mem_nil,
        or_false] at hv
      rcases hv with rfl | hv | rfl
      · rfl
      · exact hz r hr v hv
      · rfl
    · exact (List.mem_replicate.1 hv).2

theorem refCell_zero {G : Grid} (K : Grid) (n k i j : Nat)
    (hz : ∀ row ∈ G, ∀ v ∈ row, v = 0) : refCell G K n k i j = 0 := by
  unfold refCell
  apply List.sum_eq_zero
  intro s hs
  simp only [List.mem_map, List.mem_range] at hs
  obtain ⟨x, -, rfl⟩ := hs
  apply List.sum_eq_zero
  intro t ht
  simp only [List.mem_map, List.mem_range] at ht
  obtain ⟨y, -, rfl⟩ := ht
  rw [padGrid_zero n hz, zero_mul]

/-! ### The tag counts of getBaseline() -/

theorem getBaseline_eq (tree : ConvFields) :
    getBaseline tree =
      if (tree.Points.foldl tagStep []).length > 0 then
        { tree with Stats := { tree.Stats with
            BaselineTags := filterTags (tree.Points.foldl tagStep []) } }
      else tree := rfl

theorem eraseDups_loop_mem (t : String) : ∀ (as bs : List String),
    t ∈ List.eraseDups.loop as bs ↔ t ∈ as ∨ t ∈ bs := by
  intro as
  induction as with
  | nil => intro bs; simp [List.eraseDups.loop]
  | cons a as ih =>
    intro bs
    rw [List.eraseDups.loop]
    cases h : List.elem a bs with
    | true =>
      dsimp only
      rw [ih bs]
      have ha : a ∈ bs := List.elem_iff.1 h
      constructor
      · rintro (h1 | h1)
        · exact Or.inl (List.mem_cons_of_mem _ h1)
        · exact Or.inr h1
      · rintro (h1 | h1)
        · rcases List.mem_cons.1 h1 with rfl | h1
          · exact Or.inr ha
          · exact Or.inl h1
        · exact Or.inr h1
    | false =>
      dsimp only
      rw [ih (a :: bs)]
      simp only [List.mem_cons]
      tauto

theorem eraseDups_loop_nodup : ∀ (as bs : List String), bs.Nodup →
    (List.eraseDups.loop as bs).Nodup := by
  intro as
  induction as with
  | nil => intro bs h; simpa [List.eraseDups.loop] using h
  | cons a as ih =>
    intro bs hbs
    rw [List.eraseDups.loop]
    cases h : List.elem a bs with
    | true => exact ih bs hbs
    | false =>
      dsimp only
      apply ih
      have ha : ¬ a ∈ bs := fun hm => by
        have := List.elem_iff.2 hm
        rw [h] at this
        cases this
      exact List.nodup_cons.2 ⟨ha, hbs⟩

theorem count_eraseDups (tags : List String) (t : String) :
    (((tags.eraseDups).count t : Nat) : Int) = if t ∈ tags then 1 else 0 := by
  have hmem : t ∈ tags.eraseDups ↔ t ∈ tags := by
    unfold List.eraseDups
    rw [eraseDups_loop_mem]
    simp
  have hnd : (tags.eraseDups).Nodup := by
    unfold List.eraseDups
    exact eraseDups_loop_nodup tags [] List.nodup_nil
  by_cases h : t ∈ tags
  · rw [if_pos h, List.count_eq_one_of_mem hnd (hmem.2 h)]
    rfl
  · rw [if_neg h, List.count_eq_zero_of_not_mem (fun hm => h (hmem.1 hm))]
    rfl

theorem TagInv_congr {tv : List (String × Int)} {c c' : String → Int}
    (h : ∀ s, c s = c' s) (hI : TagInv tv c) : TagInv tv c' := by
  have : c = c' := funext h
  rw [← this]
  exact hI

theorem bumpTag_inv {tv : List (String × Int)} {c : String → Int} (h : TagInv tv c)
    (t : String) : TagInv (bumpTag tv t) (fun s => c s + if s = t then 1 else 0) := by
  obtain ⟨hnd, hval, hmem, hpos⟩ := h
  have hany : (tv.any (fun kv => kv.1 == t)) = true ↔ t ∈ tv.map Prod.fst := by
    simp only [List.any_eq_true, beq_iff_eq, List.mem_map]
  unfold bumpTag
  by_cases hp : (tv.any (fun kv => kv.1 == t)) = true
  · rw [if_pos hp]
    have hin : t ∈ tv.map Prod.fst := hany.1 hp
    have hkeys : (tv.map (fun kv => if kv.1 == t then (kv.1, kv.2 + 1) else kv)).map Prod.fst =
        tv.map Prod.fst := by
      rw [List.map_map]
      apply List.map_congr_left
      intro kv _
      by_cases hk : kv.1 = t <;> simp [hk]
    refine ⟨by rw [hkeys]; exact hnd, ?_, ?_, ?_⟩
    · intro kv' hkv'
      rw [List.mem_map] at hkv'
      obtain ⟨kv, hkv, rfl⟩ := hkv'
      by_cases hk : kv.1 = t
      · have : (kv.1 == t) = true := by simpa using hk
        rw [if_pos this]
        simp only [hk, if_true]
        rw [hval kv hkv, hk]
      · have : ¬ ((kv.1 == t) = true) := by simpa using hk
        rw [if_neg this]
        simp only [hk, if_false, add_zero]
        exact hval kv hkv
    · intro s
      rw [hkeys]
      by_cases hs : s = t
      · subst hs
        simp only [if_true]
        constructor
        · intro _; have := hpos s; omega
        · intro _; exact hin
      · simp only [hs, if_false, add_zero]
        exact hmem s
    · intro s
      have := hpos s
      show 0 ≤ c s + if s = t then 1 else 0
      split <;> omega
  · rw [if_neg hp]
    have hnin : ¬ t ∈ tv.map Prod.fst := fun hin => hp (hany.2 hin)
    have hct : c t = 0 := by
      have h1 := hpos t
      have h2 : ¬ 0 < c t := fun h0 => hnin ((hmem t).2 h0)
      omega
    refine ⟨?_, ?_, ?_, ?_⟩
    · rw [List.map_append, List.map_cons, List.map_nil]
      apply List.Nodup.append hnd (List.nodup_singleton _)
      intro s hs1 hs2
      rw [List.mem_singleton] at hs2
      subst hs2
      exact hnin hs1
    · intro kv hkv
      rw [List.mem_append, List.mem_singleton] at hkv
      rcases hkv with hkv | rfl
      · have hk : kv.1 ≠ t := by
          intro hk
          apply hnin
          rw [← hk]
          exact List.mem_map_of_mem _ hkv
        simp only [hk, if_false, add_zero]
        exact hval kv hkv
      · simp only [if_true, hct, zero_add]
    · intro s
      rw [List.map_append, List.map_cons, List.map_nil, List.mem_append, List.mem_singleton]
      by_cases hs : s = t
      · subst hs
        simp only [if_true, or_true, true_iff]
        omega
      · simp only [hs, if_false, add_zero, or_false]
        exact hmem s
    · intro s
      have := hpos s
      show 0 ≤ c s + if s = t then 1 else 0
      split <;> omega

theorem bumpAll_inv : ∀ (ds : List String) (tv : List (String × Int)) (c : String → Int),
    TagInv tv c → TagInv (ds.foldl bumpTag tv) (fun s => c s + ((ds.count s : Nat) : Int)) := by
  intro ds
  induction ds with
  | nil =>
    intro tv c h
    exact TagInv_congr (fun s => by simp) h
  | cons d ds ih =>
    intro tv c h
    rw [List.foldl_cons]
    refine TagInv_congr ?_ (ih _ _ (bumpTag_inv h d))
    intro s
    rw [List.count_cons]
    by_cases hs : s = d
    · subst hs
      simp only [if_true, beq_self_eq_true]
      push_cast
      ring
    · have : ¬ ((d == s) = true) := by
        simp only [beq_iff_eq]
        exact fun h => hs h.symm
      simp [hs, this]

theorem tagStep_inv {tv : List (String × Int)} {c : String → Int} (h : TagInv tv c)
    (p : Point) : TagInv (tagStep tv p) (fun s => c s + if s ∈ tagsOf p then 1 else 0) := by
  unfold tagStep tagsOf
  cases hc : p.Content with
  | none =>
    dsimp only
    exact TagInv_congr (fun s => by simp) h
  | some tags =>
    dsimp only
    refine TagInv_congr ?_ (bumpAll_inv _ _ _ h)
    intro s
    rw [count_eraseDups]
    simp only [Option.getD_some]

theorem tagFold_inv : ∀ (rest : List Point) (tv : List (String × Int)) (c : String → Int),
    TagInv tv c →
      TagInv (rest.foldl tagStep tv) (fun s => c s + ((tagCount rest s : Nat) : Int)) := by
  intro rest
  induction rest with
  | nil =>
    intro tv c h
    exact TagInv_congr (fun s => by simp [tagCount]) h
  | cons p rest ih =>
    intro tv c h
    rw [List.foldl_cons]
    refine TagInv_congr ?_ (ih _ _ (tagStep_inv h p))
    intro s
    unfold tagCount
    rw [List.countP_cons]
    by_cases hs : s ∈ tagsOf p
    · simp only [hs, if_true, decide_True]
      push_cast
      ring
    · simp only [hs, if_false, decide_False, add_zero, Bool.false_eq_true]

theorem tagValues_inv (pts : List Point) :
    TagInv (pts.foldl tagStep []) (fun s => ((tagCount pts s : Nat) : Int)) := by
  have h0 : TagInv [] (fun _ => (0 : Int)) := by
    unfold TagInv
    refine ⟨List.nodup_nil, ?_, ?_, ?_⟩
    · intro kv hkv; cases hkv
    · intro t; simp
    · intro _; exact le_rfl
  exact TagInv_congr (fun s => by simp) (tagFold_inv pts [] _ h0)

theorem foldl_append_filter_map {α β : Type} (p : α → Prop) [DecidablePred p] (f : α → β)
    (l : List α) (acc : List β) :
    l.foldl (fun result x => if p x then result ++ [f x] else result) acc =
      acc ++ (l.filter (fun x => decide (p x))).map f := by
  induction l generalizing acc with
  | nil => simp
  | cons a as ih =>
    rw [List.foldl_cons, ih]
    by_cases ha : p a
    · simp [ha, List.filter_cons]
    · simp [ha, List.filter_cons]

theorem mem_filterTags (tags : List (String × Int)) (t : String) :
    t ∈ filterTags tags ↔
      ∃ kv ∈ tags, kv.2 > truncToInt (Mean (tags.map (fun kv => (kv.2 : ℚ)))) ∧ kv.1 = t := by
  unfold filterTags
  dsimp only
  rw [foldl_append_filter_map (fun (kv : String × Int) =>
    kv.2 > truncToInt (Mean (tags.map (fun kv => (kv.2 : ℚ))))) (fun kv => kv.1),
    List.nil_append, List.mem_map]
  constructor
  · rintro ⟨kv, hkv, rfl⟩
    rw [List.mem_filter, decide_eq_true_eq] at hkv
    exact ⟨kv, hkv.1, hkv.2, rfl⟩
  · rintro ⟨kv, hkv, hgt, rfl⟩
    exact ⟨kv, by rw [List.mem_filter, decide_eq_true_eq]; exact ⟨hkv, hgt⟩, rfl⟩

theorem foldl_add_eq_sum (xs : List ℚ) (a : ℚ) :
    xs.foldl (fun acc v => acc + v) a = a + xs.sum := by
  induction xs generalizing a with
  | nil => simp
  | cons x xs ih => rw [List.foldl_cons, ih, List.sum_cons, add_assoc]

theorem Mean_eq (xs : List ℚ) : Mean xs = xs.sum / (xs.length : ℚ) := by
  unfold Mean
  rw [foldl_add_eq_sum, zero_add]

theorem mem_allTags (pts : List Point) (t : String) :
    t ∈ pts.foldr (fun p acc => tagsOf p ++ acc) [] ↔ ∃ p ∈ pts, t ∈ tagsOf p := by
  induction pts with
  | nil => simp
  | cons p ps ih =>
    rw [List.foldr_cons, List.mem_append, ih]
    simp only [List.mem_cons, exists_eq_or_imp]

theorem mem_distinctTags (pts : List Point) (t : String) :
    t ∈ distinctTags pts ↔ 0 < tagCount pts t := by
  unfold distinctTags tagCount
  rw [List.mem_dedup, mem_allTags, List.countP_pos_iff]
  simp only [decide_eq_true_eq]

theorem tagValues_mean (pts : List Point) :
    Mean ((pts.foldl tagStep []).map (fun kv => (kv.2 : ℚ))) = meanTagCount pts := by
  obtain ⟨hnd, hval, hmem, -⟩ := tagValues_inv pts
  have hperm : List.Perm ((pts.foldl tagStep []).map Prod.fst) (distinctTags pts) := by
    have hnd2 : (distinctTags pts).Nodup := by
      unfold distinctTags
      exact List.nodup_dedup _
    rw [List.perm_ext_iff_of_nodup hnd hnd2]
    intro t
    rw [hmem t, mem_distinctTags]
    exact Int.natCast_pos
  have hvals : (pts.foldl tagStep []).map (fun kv => (kv.2 : ℚ)) =
      ((pts.foldl tagStep []).map Prod.fst).map (fun t => (tagCount pts t : ℚ)) := by
    rw [List.map_map]
    apply List.map_congr_left
    intro kv hkv
    simp only [Function.comp, hval kv hkv, Int.cast_natCast]
  rw [Mean_eq, hvals, List.length_map]
  unfold meanTagCount
  rw [(hperm.map _).sum_eq, ← hperm.length_eq, List.length_map]

theorem truncToInt_nonneg {q : ℚ} (h : 0 ≤ q) : truncToInt q = ⌊q⌋ := by
  unfold truncToInt
  rw [if_pos h]

theorem meanTagCount_nonneg (pts : List Point) : 0 ≤ meanTagCount pts := by
  unfold meanTagCount
  apply div_nonneg
  · apply List.sum_nonneg
    intro x hx
    rw [List.mem_map] at hx
    obtain ⟨t, -, rfl⟩ := hx
    exact Nat.cast_nonneg _
  · exact Nat.cast_nonneg _

theorem tagLeaf_baseline :
    (getBaseline tagLeaf).Stats.BaselineTags = ["a", "b"] ∧
    meanTagCount tagLeaf.Points = 7 / 4 ∧ tagCount tagLeaf.Points "a" = 3 ∧
    tagCount tagLeaf.Points "b" = 2 := by
  refine ⟨by decide!, by decide!, by decide!, by decide!⟩

/-! ### float64 rounding of the cut -/

theorem roundHalfEven_error (m : ℚ) : |(roundHalfEven m : ℚ) - m| ≤ 1 / 2 := by
  have h1 : ((⌊m⌋ : Int) : ℚ) ≤ m := Int.floor_le m
  have h2 : m < ((⌊m⌋ : Int) : ℚ) + 1 := Int.lt_floor_add_one m
  unfold roundHalfEven
  simp only
  rw [abs_le]
  split_ifs with a b c
  · constructor <;> linarith
  · push_cast; constructor <;> linarith
  · push_neg at a b; constructor <;> linarith
  · push_neg at a b; push_cast; constructor <;> linarith

theorem scaleFloat64_spec (fuel : Nat) : ∀ (m : ℚ) (e : Int), 0 < m →
    (2 ^ 52 ≤ m ∨ (-1074 ≤ e ∧ e + 1074 ≤ (fuel : Int))) →
    (scaleFloat64 fuel m e).1 * (2 : ℚ) ^ (scaleFloat64 fuel m e).2 = m * (2 : ℚ) ^ e ∧
      (2 ^ 52 ≤ (scaleFloat64 fuel m e).1 ∨ (scaleFloat64 fuel m e).2 = -1074) := by
  induction fuel with
  | zero =>
    intro m e _ h
    refine ⟨rfl, ?_⟩
    rcases h with h | ⟨h1, h2⟩
    · exact Or.inl h
    · right
      show e = -1074
      have : ((0 : Nat) : Int) = 0 := rfl
      omega
  | succ fuel ih =>
    intro m e hm h
    unfold scaleFloat64
    by_cases h53 : m ≥ 2 ^ 53
    · rw [if_pos h53]
      have hm2 : (2 : ℚ) ^ 52 ≤ m / 2 := by
        have : (2 : ℚ) ^ 53 = 2 * 2 ^ 52 := by norm_num
        rw [this] at h53
        linarith
      obtain ⟨k1, k2⟩ := ih (m / 2) (e + 1) (by positivity) (Or.inl hm2)
      refine ⟨?_, k2⟩
      rw [k1, zpow_add_one₀ (by norm_num : (2 : ℚ) ≠ 0)]
      ring
    · rw [if_neg h53]
      by_cases hlo : m < 2 ^ 52 ∧ e > -1074
      · rw [if_pos hlo]
        have h' : -1074 ≤ e - 1 ∧ e - 1 + 1074 ≤ (fuel : Int) := by
          rcases h with h | ⟨h1, h2⟩
          · exact absurd h (not_le.2 hlo.1)
          · have : ((fuel + 1 : Nat) : Int) = (fuel : Int) + 1 := by push_cast; rfl
            omega
        obtain ⟨k1, k2⟩ := ih (2 * m) (e - 1) (by positivity) (Or.inr h')
        refine ⟨?_, k2⟩
        rw [k1, zpow_sub_one₀ (by norm_num : (2 : ℚ) ≠ 0)]
        ring
      · rw [if_neg hlo]
        refine ⟨rfl, ?_⟩
        show 2 ^ 52 ≤ m ∨ e = -1074
        rcases h with h | ⟨h1, h2⟩
        · exact Or.inl h
        · by_cases hm52 : (2 : ℚ) ^ 52 ≤ m
          · exact Or.inl hm52
          · right
            have : ¬ e > -1074 := fun he => hlo ⟨not_le.1 hm52, he⟩
            omega

/-- The rounding error of one float64 operation: half a unit in the last place, which is
at most `2^-53` of the magnitude, or `2^-1075` in the subnormal range. -/
theorem roundFloat64_error (q : ℚ) :
    |roundFloat64 q - q| ≤ |q| / 2 ^ 53 + 1 / 2 ^ 1075 := by
  unfold roundFloat64
  by_cases h0 : q = 0
  · rw [if_pos h0, h0]; norm_num
  rw [if_neg h0]
  have ha : 0 < |q| := abs_pos.2 h0
  obtain ⟨k1, k2⟩ := scaleFloat64_spec 2200 |q| 0 ha (Or.inr ⟨by decide, by decide⟩)
  rw [zpow_zero, mul_one] at k1
  have hq : q = |q| ∨ q = -|q| := by
    rcases le_total 0 q with h | h
    · exact Or.inl (abs_of_nonneg h).symm
    · right; rw [abs_of_nonpos h]; ring
  generalize |q| = a at ha k1 k2 hq ⊢
  generalize scaleFloat64 2200 a 0 = s at k1 k2 ⊢
  have hp : (0 : ℚ) < (2 : ℚ) ^ s.2 := zpow_pos (by norm_num) _
  have herr := roundHalfEven_error s.1
  have key : |(roundHalfEven s.1 : ℚ) * (2 : ℚ) ^ s.2 - a| ≤ a / 2 ^ 53 + 1 / 2 ^ 1075 := by
    have e1 : (roundHalfEven s.1 : ℚ) * (2 : ℚ) ^ s.2 - a =
        ((roundHalfEven s.1 : ℚ) - s.1) * (2 : ℚ) ^ s.2 := by rw [← k1]; ring
    rw [e1, abs_mul, abs_of_pos hp]
    have h1 : |(roundHalfEven s.1 : ℚ) - s.1| * (2 : ℚ) ^ s.2 ≤ 1 / 2 * (2 : ℚ) ^ s.2 :=
      mul_le_mul_of_nonneg_right herr hp.le
    rcases k2 with k2 | k2
    · have h2 : (2 : ℚ) ^ 52 * (2 : ℚ) ^ s.2 ≤ a := by
        rw [← k1]; exact mul_le_mul_of_nonneg_right k2 hp.le
      have h3 : (0 : ℚ) < 1 / 2 ^ 1075 := by positivity
      have h4 : (2 : ℚ) ^ s.2 ≤ a / 2 ^ 52 := by
        rw [le_div_iff₀ (by positivity)]; linarith
      have h5 : a / 2 ^ 53 = 1 / 2 * (a / 2 ^ 52) := by
        rw [show (2 : ℚ) ^ 53 = 2 * 2 ^ 52 by norm_num]; field_simp
      rw [h5]
      linarith
    · rw [k2] at h1
      have h3 : (1 : ℚ) / 2 * (2 : ℚ) ^ (-1074 : Int) = 1 / 2 ^ 1075 := by
        rw [zpow_neg, show ((1074 : Int)) = ((1074 : Nat) : Int) from rfl, zpow_natCast,
          show (2 : ℚ) ^ 1075 = 2 * 2 ^ 1074 by norm_num]
        field_simp
      rw [h3] at h1
      have h4 : (0 : ℚ) ≤ a / 2 ^ 53 := by positivity
      rw [k2]
      linarith
  simp only
  by_cases hneg : q < 0
  · rw [if_pos hneg]
    rcases hq with hq | hq
    · rw [hq] at hneg; exact absurd hneg (not_lt.2 ha.le)
    · have e2 : -((roundHalfEven s.1 : ℚ) * (2 : ℚ) ^ s.2) - q =
          -((roundHalfEven s.1 : ℚ) * (2 : ℚ) ^ s.2 - a) := by rw [hq]; ring
      rw [e2, abs_neg]
      exact key
  · rw [if_neg hneg]
    rcases hq with hq | hq
    · rw [hq]; exact key
    · exfalso; apply hneg; rw [hq]; linarith

/-- The budget of `scaleFloat64` is enough below `2^53 * 2^fuel`: the significand it
returns is less than `2^53`. -/
theorem scaleFloat64_lt (fuel : Nat) : ∀ (m : ℚ) (e : Int), 0 < m →
    m < 2 ^ 53 * 2 ^ fuel → (scaleFloat64 fuel m e).1 < 2 ^ 53 := by
  induction fuel with
  | zero =>
    intro m e _ h
    rw [pow_zero, mul_one] at h
    exact h
  | succ fuel ih =>
    intro m e hm h
    unfold scaleFloat64
    by_cases h53 : m ≥ 2 ^ 53
    · rw [if_pos h53]
      apply ih (m / 2) (e + 1) (by positivity)
      have h2 : (2 : ℚ) ^ (fuel + 1) = 2 ^ fuel * 2 := pow_succ 2 fuel
      rw [h2] at h
      have h3 : (2 : ℚ) ^ 53 * (2 ^ fuel * 2) = 2 * (2 ^ 53 * 2 ^ fuel) := by ring
      rw [h3] at h
      linarith
    · rw [if_neg h53]
      by_cases hlo : m < 2 ^ 52 ∧ e > -1074
      · rw [if_pos hlo]
        apply ih (2 * m) (e - 1) (by positivity)
        have h1 : (1 : ℚ) ≤ 2 ^ fuel := one_le_pow₀ (by norm_num)
        have h2 : (2 : ℚ) * m < 2 ^ 53 := by
          have := hlo.1
          rw [show (2 : ℚ) ^ 53 = 2 * 2 ^ 52 by norm_num]
          linarith
        have h3 : (2 : ℚ) ^ 53 * 1 ≤ 2 ^ 53 * 2 ^ fuel :=
          mul_le_mul_of_nonneg_left h1 (by positivity)
        linarith
      · rw [if_neg hlo]
        exact not_le.1 h53

theorem scaleFloat64_budget (a : ℚ) (ha : 0 < a) (hb : a < 2 ^ 1024) :
    (scaleFloat64 2200 a 0).1 < 2 ^ 53 := by
  apply scaleFloat64_lt 2200 a 0 ha
  have h1 : (2 : ℚ) ^ 1024 ≤ 2 ^ 53 * 2 ^ 2200 := by
    rw [← pow_add]
    exact pow_le_pow_right₀ (by norm_num) (by norm_num)
  linarith

/-- What `roundFloat64` computes below the overflow threshold: the magnitude is written
`m * 2^e` with a significand `m` in `[2^52, 2^53)`, or with `e = -1074` and `m < 2^52`,
and `m` is rounded to the nearest integer, a tie going to the even one. -/
theorem roundFloat64_spec (q : ℚ) (h0 : q ≠ 0) (hb : |q| < 2 ^ 1024) :
    ∃ (m : ℚ) (e : Int), m * (2 : ℚ) ^ e = |q| ∧ m < 2 ^ 53 ∧ (2 ^ 52 ≤ m ∨ e = -1074) ∧
      roundFloat64 q = (if q < 0 then -1 else 1) * ((roundHalfEven m : ℚ) * (2 : ℚ) ^ e) := by
  have ha : 0 < |q| := abs_pos.2 h0
  obtain ⟨k1, k2⟩ := scaleFloat64_spec 2200 |q| 0 ha (Or.inr ⟨by decide, by decide⟩)
  rw [zpow_zero, mul_one] at k1
  refine ⟨(scaleFloat64 2200 |q| 0).1, (scaleFloat64 2200 |q| 0).2, k1,
    scaleFloat64_budget _ ha hb, k2, ?_⟩
  unfold roundFloat64
  rw [if_neg h0]
  simp only
  by_cases hneg : q < 0
  · rw [if_pos hneg, if_pos hneg]; ring
  · rw [if_neg hneg, if_neg hneg]; ring

theorem round_ge_abs (u η y m Fy : ℚ) (hu0 : 0 ≤ u) (hu : u ≤ 1 / 2) (hη : 0 ≤ η)
    (E : |Fy - y| ≤ |y| * u + η) (h : Fy ≥ m) : y ≥ m - 2 * u * |m| - 2 * η := by
  rw [abs_le] at E
  have hm : 0 ≤ |m| := abs_nonneg m
  have hle : m ≤ |m| := le_abs_self m
  have hge : -|m| ≤ m := neg_abs_le m
  have hum : 0 ≤ u * |m| := mul_nonneg hu0 hm
  by_cases h1 : m ≤ y
  · linarith
  · push_neg at h1
    rcases le_total 0 y with hy | hy
    · rw [abs_of_nonneg hy] at E
      have : y * u ≤ |m| * u := mul_le_mul_of_nonneg_right (by linarith) hu0
      linarith [E.2]
    · rw [abs_of_nonpos hy] at E
      have k1 : m - η ≤ y * (1 - u) := by linarith [E.2]
      have k2 : (m - η) * (1 + 2 * u) ≤ y * (1 - u) * (1 + 2 * u) :=
        mul_le_mul_of_nonneg_right k1 (by linarith)
      have k3 : y * (u * (1 - 2 * u)) ≤ 0 :=
        mul_nonpos_of_nonpos_of_nonneg hy (mul_nonneg hu0 (by linarith))
      have k4 : 0 ≤ η * u := mul_nonneg hη hu0
      have k5 : η * u ≤ η * (1 / 2) := mul_le_mul_of_nonneg_left hu hη
      have k6 : -(u * |m|) ≤ u * m := by
        have := mul_le_mul_of_nonneg_left hge hu0
        linarith
      nlinarith [k2, k3, k4, k5, k6]

theorem clamp_abs (F : ℚ → ℚ) (u η : ℚ) (hu0 : 0 ≤ u) (hu : u ≤ 1 / 2) (hη : 0 ≤ η)
    (hF : ∀ q, |F q - q| ≤ |q| * u + η) (lo hi m c0 : ℚ) (h : hi - lo > 2 * m) :
    (if F (hi - (if F (c0 - lo) < m then F (lo + m) else c0)) < m then F (hi - m)
      else (if F (c0 - lo) < m then F (lo + m) else c0)) - lo ≥
        m - (u * (|lo| + |hi| + 2 * |m|) + 2 * η) ∧
    hi - (if F (hi - (if F (c0 - lo) < m then F (lo + m) else c0)) < m then F (hi - m)
      else (if F (c0 - lo) < m then F (lo + m) else c0)) ≥
        m - (u * (|lo| + |hi| + 2 * |m|) + 2 * η) := by
  have hlo : 0 ≤ |lo| := abs_nonneg lo
  have hhi : 0 ≤ |hi| := abs_nonneg hi
  have hm : 0 ≤ |m| := abs_nonneg m
  have a1 : 0 ≤ u * |lo| := mul_nonneg hu0 hlo
  have a2 : 0 ≤ u * |hi| := mul_nonneg hu0 hhi
  have a3 : 0 ≤ u * |m| := mul_nonneg hu0 hm
  by_cases T2 : F (hi - (if F (c0 - lo) < m then F (lo + m) else c0)) < m
  · rw [if_pos T2]
    have E := hF (hi - m)
    rw [abs_le] at E
    have b1 : |hi - m| ≤ |hi| + |m| := abs_sub hi m
    have b2 : |hi - m| * u ≤ (|hi| + |m|) * u := mul_le_mul_of_nonneg_right b1 hu0
    constructor <;> linarith [E.1, E.2]
  · rw [if_neg T2]
    push_neg at T2
    by_cases T1 : F (c0 - lo) < m
    · rw [if_pos T1] at T2 ⊢
      have E := hF (lo + m)
      rw [abs_le] at E
      have b1 : |lo + m| ≤ |lo| + |m| := abs_add lo m
      have b2 : |lo + m| * u ≤ (|lo| + |m|) * u := mul_le_mul_of_nonneg_right b1 hu0
      have g := round_ge_abs u η _ m _ hu0 hu hη (hF _) T2
      constructor <;> linarith [E.1, E.2]
    · rw [if_neg T1] at T2 ⊢
      push_neg at T1
      have g1 := round_ge_abs u η _ m _ hu0 hu hη (hF _) T1
      have g2 := round_ge_abs u η _ m _ hu0 hu hη (hF _) T2
      constructor <;> linarith

theorem clampCut64_bounds (lo hi minLength offset : ℚ) (h : hi - lo > 2 * minLength) :
    clampCut64 lo hi minLength offset - lo ≥ minLength - roundingSlack lo hi minLength ∧
      hi - clampCut64 lo hi minLength offset ≥ minLength - roundingSlack lo hi minLength := by
  have hF : ∀ q, |roundFloat64 q - q| ≤ |q| * (1 / 2 ^ 53) + 1 / 2 ^ 1075 := by
    intro q
    have := roundFloat64_error q
    rwa [div_eq_mul_one_div] at this
  have key := clamp_abs roundFloat64 (1 / 2 ^ 53) (1 / 2 ^ 1075) (by positivity)
    (by norm_num) (by positivity) hF lo hi minLength (roundFloat64 (lo + offset)) h
  have e : (1 : ℚ) / 2 ^ 53 * (|lo| + |hi| + 2 * |minLength|) + 2 * (1 / 2 ^ 1075) =
      roundingSlack lo hi minLength := by
    unfold roundingSlack
    have h2 : (2 : ℚ) * (1 / 2 ^ 1075) = 1 / 2 ^ 1074 := by
      rw [pow_succ (2 : ℚ) 1074]
      generalize (2 : ℚ) ^ 1074 = B
      rcases eq_or_ne B 0 with hB | hB
      · rw [hB]; simp
      · field_simp
        ring
    rw [h2]
    ring
  rw [e] at key
  unfold clampCut64
  exact key
/-! # The claims -/

/-! ## Evaluations of the sample inputs -/

theorem sampleRoot_checkSplit : checkSplit sampleRoot = true := by decide!

theorem sampleRoot_split : split sampleRoot = .ok sampleSplit := by decide!

theorem sample_new : NewConvTree (pt 0 0) (pt 100 100) 5 5 0 1 1 8 [] [pt 80 80] =
    .ok (sampleSplit, none) := by decide!

theorem taggedRoot_split : split taggedRoot = .ok taggedSplit := by decide!

/-! ## C1: round trip -/

/-- C1 (round trip), evaluation at the failing input. The point `(80, 80)` lies strictly
inside the bottom-right child `(50,50)-(100,100)` of the root and on no cut line, yet
after construction no leaf of the tree holds it; the same happens when it is inserted
with `allowSplit` into a tree built without points. Line 260 filters the bottom-right
child's points with `tree.ChildBottomLeft.TopRight`, whose `X` is the cut, where the
other three children, and the naive tree, use the child's own far corner. -/
theorem roundtrip_loses_point :
    (NewConvTree (pt 0 0) (pt 100 100) 5 5 0 1 1 8 [] [pt 80 80]).toOption.map
        (fun r => (r.2, cut r.1, leafPoints r.1)) = some (none, some (50, 50), []) ∧
    ((NewConvTree (pt 0 0) (pt 100 100) 5 5 0 1 1 8 [] []).toOption.bind
        (fun r => ((ConvTree.Insert r.1 (pt 80 80) true).toOption.map
          (fun t => (cut t, leafPoints t))))) = some (some (50, 50), []) := by
  constructor <;> decide!

/-! ## C2: tiling -/

/-- C2 (tiling), counterexample. `wideRoot` passes `checkSplit()`, and `split()` puts its
cut at `(150, 150)`, outside its rectangle `(0,0)-(100,100)`: the smoothed grid has grown
to 6x6, its midpoint index 3 is scaled by the step `100/2` of the 2x2 grid, and the
negative minimum lengths switch the clamping off. -/
theorem cut_outside_rectangle :
    checkSplit wideRoot = true ∧
    (split wideRoot).toOption.bind cut = some (150, 150) ∧
    ¬ ((150 : ℚ) ≤ wideRoot.TopRight.X) := by
  refine ⟨by decide!, by decide!, by decide!⟩

/-- C2 (tiling), amended. For every node on which `split()` runs after `checkSplit()`
returned true and whose minimum lengths are not negative, the cut `(xR, yB)` lies in the
node's rectangle, the four children are exactly the rectangles `[BottomLeft,(xR,yB)]`,
`[(xR,BottomLeft.Y),(TopRight.X,yB)]`, `[(BottomLeft.X,yB),(xR,TopRight.Y)]` and
`[(xR,yB),TopRight]`, their areas sum to the node's area, a point lies in the node's
rectangle exactly when it lies in one of the children's, and two children with different
rectangles meet only on the cut lines `x = xR` and `y = yB`. -/
theorem tiling (tree : ConvFields) (t : ConvTree) (hc : checkSplit tree = true)
    (hx : 0 ≤ tree.MinXLength) (hy : 0 ≤ tree.MinYLength) (hs : split tree = .ok t) :
    ∃ xR yB f tl tr bl br ftl ftr fbl fbr,
      t = .node f tl tr bl br ∧
      fields tl = some ftl ∧ fields tr = some ftr ∧ fields bl = some fbl ∧ fields br = some fbr ∧
      (tree.BottomLeft.X ≤ xR ∧ xR ≤ tree.TopRight.X ∧
        tree.BottomLeft.Y ≤ yB ∧ yB ≤ tree.TopRight.Y) ∧
      rect ftl = (tree.BottomLeft.X, tree.BottomLeft.Y, xR, yB) ∧
      rect ftr = (xR, tree.BottomLeft.Y, tree.TopRight.X, yB) ∧
      rect fbl = (tree.BottomLeft.X, yB, xR, tree.TopRight.Y) ∧
      rect fbr = (xR, yB, tree.TopRight.X, tree.TopRight.Y) ∧
      area ftl + area ftr + area fbl + area fbr = area tree ∧
      (∀ p : Point, contains tree p = true ↔
        (contains ftl p = true ∨ contains ftr p = true ∨ contains fbl p = true ∨
          contains fbr p = true)) ∧
      (∀ p : Point, ∀ a ∈ [ftl, ftr, fbl, fbr], ∀ b ∈ [ftl, ftr, fbl, fbr],
        rect a ≠ rect b → contains a p = true → contains b p = true → p.X = xR ∨ p.Y = yB) := by
  obtain ⟨hw, hh⟩ := checkSplit_cond1 hc
  obtain ⟨xMax, yMax, c1, c2, c3, c4, -, ht, h1, h2, h3, h4⟩ := split_children hs
  have bx := clampCut_bounds tree.BottomLeft.X tree.TopRight.X tree.MinXLength
    ((xMax : ℚ) * ((tree.TopRight.X - tree.BottomLeft.X) / (tree.GridSize : ℚ))) hw
  have by' := clampCut_bounds tree.BottomLeft.Y tree.TopRight.Y tree.MinYLength
    ((yMax : ℚ) * ((tree.TopRight.Y - tree.BottomLeft.Y) / (tree.GridSize : ℚ))) hh
  obtain ⟨f1, _, _, _, _, rfl, hbl1, htr1, -⟩ := h1
  obtain ⟨f2, _, _, _, _, rfl, hbl2, htr2, -⟩ := h2
  obtain ⟨f3, _, _, _, _, rfl, hbl3, htr3, -⟩ := h3
  obtain ⟨f4, _, _, _, _, rfl, hbl4, htr4, -⟩ := h4
  simp only [childTopLeft, childTopRight, childBottomLeft, childBottomRight, newChild, cutX, cutY]
    at hbl1 htr1 hbl2 htr2 hbl3 htr3 hbl4 htr4
  set xR := clampCut tree.BottomLeft.X tree.TopRight.X tree.MinXLength
    ((xMax : ℚ) * ((tree.TopRight.X - tree.BottomLeft.X) / (tree.GridSize : ℚ))) with hxR
  set yB := clampCut tree.BottomLeft.Y tree.TopRight.Y tree.MinYLength
    ((yMax : ℚ) * ((tree.TopRight.Y - tree.BottomLeft.Y) / (tree.GridSize : ℚ))) with hyB
  have r1 : rect f1 = (tree.BottomLeft.X, tree.BottomLeft.Y, xR, yB) := by
    simp only [rect, hbl1, htr1]
  have r2 : rect f2 = (xR, tree.BottomLeft.Y, tree.TopRight.X, yB) := by
    simp only [rect, hbl2, htr2]
  have r3 : rect f3 = (tree.BottomLeft.X, yB, xR, tree.TopRight.Y) := by
    simp only [rect, hbl3, htr3]
  have r4 : rect f4 = (xR, yB, tree.TopRight.X, tree.TopRight.Y) := by
    simp only [rect, hbl4, htr4]
  have hin : tree.BottomLeft.X ≤ xR ∧ xR ≤ tree.TopRight.X ∧
      tree.BottomLeft.Y ≤ yB ∧ yB ≤ tree.TopRight.Y :=
    ⟨by linarith [bx.1], by linarith [bx.2], by linarith [by'.1], by linarith [by'.2]⟩
  refine ⟨xR, yB, _, _, _, _, _, f1, f2, f3, f4, ht, rfl, rfl, rfl, rfl, hin, r1, r2, r3, r4,
    ?_, ?_, ?_⟩
  · simp only [area, width, height, hbl1, htr1, hbl2, htr2, hbl3, htr3, hbl4, htr4]
    ring
  · intro p
    simp only [contains_iff, hbl1, htr1, hbl2, htr2, hbl3, htr3, hbl4, htr4]
    constructor
    · rintro ⟨a1, a2, a3, a4⟩
      rcases le_total p.X xR with hpx | hpx <;> rcases le_total p.Y yB with hpy | hpy
      · exact Or.inl ⟨a1, hpx, a3, hpy⟩
      · exact Or.inr (Or.inr (Or.inl ⟨a1, hpx, hpy, a4⟩))
      · exact Or.inr (Or.inl ⟨hpx, a2, a3, hpy⟩)
      · exact Or.inr (Or.inr (Or.inr ⟨hpx, a2, hpy, a4⟩))
    · rintro (⟨a1, a2, a3, a4⟩ | ⟨a1, a2, a3, a4⟩ | ⟨a1, a2, a3, a4⟩ | ⟨a1, a2, a3, a4⟩) <;>
        refine ⟨?_, ?_, ?_, ?_⟩ <;> linarith [hin.1, hin.2.1, hin.2.2.1, hin.2.2.2]
  · intro p a ha b hb hne hpa hpb
    simp only [List.mem_cons, List.mem_singleton, List.not_mem_nil, or_false] at ha hb
    rw [contains_iff] at hpa hpb
    by_contra hcon
    push_neg at hcon
    obtain ⟨hnx, hny⟩ := hcon
    rcases ha with rfl | rfl | rfl | rfl <;> rcases hb with rfl | rfl | rfl | rfl <;>
      first
      | exact hne rfl
      | (simp only [hbl1, htr1, hbl2, htr2, hbl3, htr3, hbl4, htr4] at hpa hpb
         first
         | exact hnx (le_antisymm (by linarith [hpa.2.1, hpb.2.1]) (by linarith [hpa.1, hpb.1]))
         | exact hny (le_antisymm (by linarith [hpa.2.2.2, hpb.2.2.2]) (by linarith [hpa.2.2.1, hpb.2.2.1])))

/-- Witness for C2: the amended tiling statement at `sampleRoot`. -/
theorem tiling_witness :
    checkSplit sampleRoot = true ∧ 0 ≤ sampleRoot.MinXLength ∧ 0 ≤ sampleRoot.MinYLength ∧
    split sampleRoot = .ok sampleSplit ∧
    ∃ xR yB f tl tr bl br ftl ftr fbl fbr,
      sampleSplit = .node f tl tr bl br ∧
      fields tl = some ftl ∧ fields tr = some ftr ∧ fields bl = some fbl ∧ fields br = some fbr ∧
      (sampleRoot.BottomLeft.X ≤ xR ∧ xR ≤ sampleRoot.TopRight.X ∧
        sampleRoot.BottomLeft.Y ≤ yB ∧ yB ≤ sampleRoot.TopRight.Y) ∧
      rect ftl = (sampleRoot.BottomLeft.X, sampleRoot.BottomLeft.Y, xR, yB) ∧
      rect ftr = (xR, sampleRoot.BottomLeft.Y, sampleRoot.TopRight.X, yB) ∧
      rect fbl = (sampleRoot.BottomLeft.X, yB, xR, sampleRoot.TopRight.Y) ∧
      rect fbr = (xR, yB, sampleRoot.TopRight.X, sampleRoot.TopRight.Y) ∧
      area ftl + area ftr + area fbl + area fbr = area sampleRoot ∧
      (∀ p : Point, contains sampleRoot p = true ↔
        (contains ftl p = true ∨ contains ftr p = true ∨ contains fbl p = true ∨
          contains fbr p = true)) ∧
      (∀ p : Point, ∀ a ∈ [ftl, ftr, fbl, fbr], ∀ b ∈ [ftl, ftr, fbl, fbr],
        rect a ≠ rect b → contains a p = true → contains b p = true → p.X = xR ∨ p.Y = yB) :=
  ⟨sampleRoot_checkSplit, by decide!, by decide!, sampleRoot_split,
    tiling sampleRoot sampleSplit sampleRoot_checkSplit (by decide!) (by decide!)
      sampleRoot_split⟩

/-! ## C3: minimum cell size -/

/-- C3 (minimum cell size), counterexample. The node over `(0.1, 0.1)-(10.1, 10.1)`, the
corners being the float64 values of the Go literals, with minimum lengths 4, a 3x3 grid
and the point `(1, 1)` passes `checkSplit()`, and the split-point search yields the grid
index `(1, 1)`. On both axes the first clamp fires and stores the float64 sum `0.1 + 4`,
the float64 `4.1`, which is less than the exact sum: the child `ChildTopLeft` that
`split()` prepares is less than 4 wide and less than 4 high, and its width as float64
subtraction computes it is `3.9999999999999996`, that is `4 - 2^-51`. In exact arithmetic
the same cut leaves the child exactly 4 wide. -/
theorem clamp_rounds_below_minimum :
    (roundedRoot.BottomLeft.X = roundFloat64 (1 / 10) ∧
      roundedRoot.BottomLeft.Y = roundFloat64 (1 / 10) ∧
      roundedRoot.TopRight.X = roundFloat64 (101 / 10) ∧
      roundedRoot.TopRight.Y = roundFloat64 (101 / 10)) ∧
    checkSplit roundedRoot = true ∧
    splitIndex roundedRoot = .ok (1, 1) ∧
    cutX64 roundedRoot 1 = roundFloat64 (41 / 10) ∧
    cutY64 roundedRoot 1 = roundFloat64 (41 / 10) ∧
    width (childTopLeft roundedRoot (cutX64 roundedRoot 1) (cutY64 roundedRoot 1)) <
      roundedRoot.MinXLength ∧
    height (childTopLeft roundedRoot (cutX64 roundedRoot 1) (cutY64 roundedRoot 1)) <
      roundedRoot.MinYLength ∧
    roundFloat64 (width (childTopLeft roundedRoot (cutX64 roundedRoot 1)
      (cutY64 roundedRoot 1))) = 4 - 1 / 2 ^ 51 ∧
    width (childTopLeft roundedRoot (cutX roundedRoot 1) (cutY roundedRoot 1)) = 4 := by
  refine ⟨⟨by decide!, by decide!, by decide!, by decide!⟩, by decide!, by decide!,
    by decide!, by decide!, by decide!, by decide!, by decide!, by decide!⟩

/-- C3 (minimum cell size), amended. For every node for which `checkSplit()` is true,
whatever grid index the split-point search produces, each of the four children `split()`
prepares with the cut computed in float64 carries the parent's minimum lengths and is at
least `MinXLength - roundingSlack` wide and `MinYLength - roundingSlack` high, the slack
on an axis being `2^-53` of `|BottomLeft| + |TopRight| + 2 |MinLength|` and `2^-1074`. -/
theorem min_cell_size_rounded (tree : ConvFields) (hc : checkSplit tree = true)
    (xMax yMax : Int) :
    ∀ c ∈ [childTopLeft tree (cutX64 tree xMax) (cutY64 tree yMax),
           childTopRight tree (cutX64 tree xMax) (cutY64 tree yMax),
           childBottomLeft tree (cutX64 tree xMax) (cutY64 tree yMax),
           childBottomRight tree (cutX64 tree xMax) (cutY64 tree yMax)],
      c.MinXLength = tree.MinXLength ∧ c.MinYLength = tree.MinYLength ∧
      width c ≥ tree.MinXLength -
        roundingSlack tree.BottomLeft.X tree.TopRight.X tree.MinXLength ∧
      height c ≥ tree.MinYLength -
        roundingSlack tree.BottomLeft.Y tree.TopRight.Y tree.MinYLength := by
  obtain ⟨hw, hh⟩ := checkSplit_cond1 hc
  intro c hcm
  have hx := clampCut64_bounds tree.BottomLeft.X tree.TopRight.X tree.MinXLength
    (roundFloat64 (roundFloat64 (xMax : ℚ) *
      roundFloat64 (roundFloat64 (tree.TopRight.X - tree.BottomLeft.X) /
        roundFloat64 (tree.GridSize : ℚ)))) hw
  have hy := clampCut64_bounds tree.BottomLeft.Y tree.TopRight.Y tree.MinYLength
    (roundFloat64 (roundFloat64 (yMax : ℚ) *
      roundFloat64 (roundFloat64 (tree.TopRight.Y - tree.BottomLeft.Y) /
        roundFloat64 (tree.GridSize : ℚ)))) hh
  simp only [List.mem_cons, List.mem_singleton, List.not_mem_nil, or_false] at hcm
  rcases hcm with rfl | rfl | rfl | rfl <;>
    simp only [width, height, childTopLeft, childTopRight, childBottomLeft, childBottomRight,
      newChild, cutX64, cutY64] <;>
    exact ⟨trivial, trivial, by linarith [hx.1, hx.2], by linarith [hy.1, hy.2]⟩

/-- Witness for C3: the amended minimum cell size at `roundedRoot` and the grid index
`(1, 1)`, where the first clamp fires on both axes. -/
theorem min_cell_size_rounded_witness :
    checkSplit roundedRoot = true ∧
    ∀ c ∈ [childTopLeft roundedRoot (cutX64 roundedRoot 1) (cutY64 roundedRoot 1),
           childTopRight roundedRoot (cutX64 roundedRoot 1) (cutY64 roundedRoot 1),
           childBottomLeft roundedRoot (cutX64 roundedRoot 1) (cutY64 roundedRoot 1),
           childBottomRight roundedRoot (cutX64 roundedRoot 1) (cutY64 roundedRoot 1)],
      c.MinXLength = roundedRoot.MinXLength ∧ c.MinYLength = roundedRoot.MinYLength ∧
      width c ≥ roundedRoot.MinXLength -
        roundingSlack roundedRoot.BottomLeft.X roundedRoot.TopRight.X
          roundedRoot.MinXLength ∧
      height c ≥ roundedRoot.MinYLength -
        roundingSlack roundedRoot.BottomLeft.Y roundedRoot.TopRight.Y
          roundedRoot.MinYLength :=
  ⟨by decide!, min_cell_size_rounded roundedRoot (by decide!) 1 1⟩

/-- The minimum cell size in exact arithmetic. With the cut computed without rounding
(`cutX`, `cutY`), for every node for which `checkSplit()` is true and every grid index,
each of the four children `split()` prepares has width at least `MinXLength` and height
at least `MinYLength`, and so has each child of the node `split()` returns. The float64
cut is the subject of `clampCut64_bounds`. -/
theorem min_cell_size_exact (tree : ConvFields) (t : ConvTree)
    (hc : checkSplit tree = true) (hs : split tree = .ok t) :
    (∀ xMax yMax : Int,
      ∀ c ∈ [childTopLeft tree (cutX tree xMax) (cutY tree yMax),
             childTopRight tree (cutX tree xMax) (cutY tree yMax),
             childBottomLeft tree (cutX tree xMax) (cutY tree yMax),
             childBottomRight tree (cutX tree xMax) (cutY tree yMax)],
        width c ≥ tree.MinXLength ∧ height c ≥ tree.MinYLength) ∧
    (children t).length = 4 ∧
    ∀ c ∈ children t, ∃ f, fields c = some f ∧
      f.MinXLength = tree.MinXLength ∧ f.MinYLength = tree.MinYLength ∧
      width f ≥ f.MinXLength ∧ height f ≥ f.MinYLength := by
  obtain ⟨hw, hh⟩ := checkSplit_cond1 hc
  have key : ∀ xMax yMax : Int,
      ∀ c ∈ [childTopLeft tree (cutX tree xMax) (cutY tree yMax),
             childTopRight tree (cutX tree xMax) (cutY tree yMax),
             childBottomLeft tree (cutX tree xMax) (cutY tree yMax),
             childBottomRight tree (cutX tree xMax) (cutY tree yMax)],
        width c ≥ tree.MinXLength ∧ height c ≥ tree.MinYLength := by
    intro xMax yMax c hcm
    have hx := clampCut_bounds tree.BottomLeft.X tree.TopRight.X tree.MinXLength
      ((xMax : ℚ) * ((tree.TopRight.X - tree.BottomLeft.X) / (tree.GridSize : ℚ))) hw
    have hy := clampCut_bounds tree.BottomLeft.Y tree.TopRight.Y tree.MinYLength
      ((yMax : ℚ) * ((tree.TopRight.Y - tree.BottomLeft.Y) / (tree.GridSize : ℚ))) hh
    simp only [List.mem_cons, List.mem_singleton, List.not_mem_nil, or_false] at hcm
    rcases hcm with rfl | rfl | rfl | rfl <;>
      simp only [width, height, childTopLeft, childTopRight, childBottomLeft, childBottomRight,
        newChild, cutX, cutY] <;>
      constructor <;> linarith [hx.1, hx.2, hy.1, hy.2]
  refine ⟨key, ?_⟩
  obtain ⟨xMax, yMax, c1, c2, c3, c4, -, ht, h1, h2, h3, h4⟩ := split_children hs
  subst ht
  refine ⟨rfl, ?_⟩
  have hk := key xMax yMax
  simp only [List.mem_cons, List.mem_singleton, List.not_mem_nil, or_false, forall_eq_or_imp,
    forall_eq] at hk
  obtain ⟨k1, k2, k3, k4⟩ := hk
  intro c hcm
  simp only [children, List.mem_cons, List.mem_singleton, List.not_mem_nil, or_false] at hcm
  rcases hcm with rfl | rfl | rfl | rfl
  · obtain ⟨f, a, b, c', d, rfl, hbl, htr, -, -, hmx, hmy, -⟩ := h1
    refine ⟨f, rfl, hmx, hmy, ?_, ?_⟩
    · rw [hmx]; simpa only [width, hbl, htr] using k1.1
    · rw [hmy]; simpa only [height, hbl, htr] using k1.2
  · obtain ⟨f, a, b, c', d, rfl, hbl, htr, -, -, hmx, hmy, -⟩ := h2
    refine ⟨f, rfl, hmx, hmy, ?_, ?_⟩
    · rw [hmx]; simpa only [width, hbl, htr] using k2.1
    · rw [hmy]; simpa only [height, hbl, htr] using k2.2
  · obtain ⟨f, a, b, c', d, rfl, hbl, htr, -, -, hmx, hmy, -⟩ := h3
    refine ⟨f, rfl, hmx, hmy, ?_, ?_⟩
    · rw [hmx]; simpa only [width, hbl, htr] using k3.1
    · rw [hmy]; simpa only [height, hbl, htr] using k3.2
  · obtain ⟨f, a, b, c', d, rfl, hbl, htr, -, -, hmx, hmy, -⟩ := h4
    refine ⟨f, rfl, hmx, hmy, ?_, ?_⟩
    · rw [hmx]; simpa only [width, hbl, htr] using k4.1
    · rw [hmy]; simpa only [height, hbl, htr] using k4.2

/-! ## C4: checkSplit -/

/-- C4 (checkSplit), counterexample. On a node over `(0,0)-(100,100)` with minimum
lengths 5, point limit 0, depth 0 and depth limit 1 that holds two points of weights
`2^63 - 1` and `1`, every condition of the claim holds (the weights sum to `2^63`, which
is more than 0), yet `checkSplit()` is false, in the adaptive and in the naive tree
alike: Go's `int` sum wraps around to `-2^63`. Both constructors therefore return the
root unsplit. -/
theorem checkSplit_overflow :
    (ConvTree.checkSplit heavyRoot = false ∧
      ((heavyRoot.TopRight.X - heavyRoot.BottomLeft.X > 2 * heavyRoot.MinXLength ∧
          heavyRoot.TopRight.Y - heavyRoot.BottomLeft.Y > 2 * heavyRoot.MinYLength) ∧
        ((heavyRoot.Points.map Point.Weight).sum > heavyRoot.MaxPoints ∧
          heavyRoot.Depth < heavyRoot.MaxDepth))) ∧
    (QuadTree.checkSplit heavyQuad = false ∧
      ((heavyQuad.BottomRight.X - heavyQuad.TopLeft.X > 2 * heavyQuad.minXLength ∧
          heavyQuad.BottomRight.Y - heavyQuad.TopLeft.Y > 2 * heavyQuad.minYLength) ∧
        ((heavyQuad.Points.map Point.Weight).sum > heavyQuad.maxPoints ∧
          heavyQuad.Depth < heavyQuad.maxDepth))) ∧
    (heavyRoot.Points.map Point.Weight).sum = 2 ^ 63 ∧
    wrapInt ((heavyRoot.Points.map Point.Weight).sum) = -2 ^ 63 ∧
    NewConvTree (pt 0 0) (pt 100 100) 5 5 0 1 1 8 [] heavyRoot.Points =
      .ok (.node (getStats heavyRoot) .nil .nil .nil .nil, none) ∧
    NewQuadTree (pt 0 0) (pt 100 100) 5 5 0 1 heavyQuad.Points =
      .ok (.node heavyQuad .nil .nil .nil .nil, none) := by
  refine ⟨⟨by decide!, ⟨by decide!, by decide!⟩, by decide!, by decide!⟩,
    ⟨by decide!, ⟨by decide!, by decide!⟩, by decide!, by decide!⟩, by decide!, by decide!,
    by decide!, by decide!⟩

/-- C4 (checkSplit), amended. `checkSplit()` is true exactly when the rectangle is more
than twice the minimum length on both axes, the weights of the node's points, summed as
Go's `int` sums them (the sum reduced modulo `2^64` into `[-2^63, 2^63)`), come to more
than the point limit, and the depth is below the depth limit; the adaptive and the naive
tree decide it alike on corresponding nodes. The reduced sum is the sum itself whenever
that lies in `[-2^63, 2^63)`, and then `checkSplit()` is true exactly when the conditions
hold of the sum itself. -/
theorem checkSplit_iff (tree : ConvFields) (quad : QuadFields) :
    (ConvTree.checkSplit tree = true ↔
      ((tree.TopRight.X - tree.BottomLeft.X > 2 * tree.MinXLength ∧
          tree.TopRight.Y - tree.BottomLeft.Y > 2 * tree.MinYLength) ∧
        (wrapInt ((tree.Points.map Point.Weight).sum) > tree.MaxPoints ∧
          tree.Depth < tree.MaxDepth))) ∧
    (QuadTree.checkSplit quad = true ↔
      ((quad.BottomRight.X - quad.TopLeft.X > 2 * quad.minXLength ∧
          quad.BottomRight.Y - quad.TopLeft.Y > 2 * quad.minYLength) ∧
        (wrapInt ((quad.Points.map Point.Weight).sum) > quad.maxPoints ∧
          quad.Depth < quad.maxDepth))) ∧
    (quad.TopLeft = tree.BottomLeft → quad.BottomRight = tree.TopRight →
      quad.minXLength = tree.MinXLength → quad.minYLength = tree.MinYLength →
      quad.Points = tree.Points → quad.maxPoints = tree.MaxPoints →
      quad.Depth = tree.Depth → quad.maxDepth = tree.MaxDepth →
      QuadTree.checkSplit quad = ConvTree.checkSplit tree) ∧
    (∀ z : Int, (-2 ^ 63 ≤ wrapInt z ∧ wrapInt z < 2 ^ 63 ∧ (wrapInt z - z) % 2 ^ 64 = 0) ∧
      (-2 ^ 63 ≤ z → z < 2 ^ 63 → wrapInt z = z)) ∧
    (-2 ^ 63 ≤ (tree.Points.map Point.Weight).sum →
      (tree.Points.map Point.Weight).sum < 2 ^ 63 →
      (ConvTree.checkSplit tree = true ↔
        ((tree.TopRight.X - tree.BottomLeft.X > 2 * tree.MinXLength ∧
            tree.TopRight.Y - tree.BottomLeft.Y > 2 * tree.MinYLength) ∧
          ((tree.Points.map Point.Weight).sum > tree.MaxPoints ∧
            tree.Depth < tree.MaxDepth)))) ∧
    (-2 ^ 63 ≤ (quad.Points.map Point.Weight).sum →
      (quad.Points.map Point.Weight).sum < 2 ^ 63 →
      (QuadTree.checkSplit quad = true ↔
        ((quad.BottomRight.X - quad.TopLeft.X > 2 * quad.minXLength ∧
            quad.BottomRight.Y - quad.TopLeft.Y > 2 * quad.minYLength) ∧
          ((quad.Points.map Point.Weight).sum > quad.maxPoints ∧
            quad.Depth < quad.maxDepth)))) := by
  have hc : ConvTree.checkSplit tree = true ↔
      ((tree.TopRight.X - tree.BottomLeft.X > 2 * tree.MinXLength ∧
          tree.TopRight.Y - tree.BottomLeft.Y > 2 * tree.MinYLength) ∧
        (wrapInt ((tree.Points.map Point.Weight).sum) > tree.MaxPoints ∧
          tree.Depth < tree.MaxDepth)) := by
    unfold ConvTree.checkSplit
    simp only [foldl_weight, Bool.and_eq_true, decide_eq_true_eq]
  have hq : QuadTree.checkSplit quad = true ↔
      ((quad.BottomRight.X - quad.TopLeft.X > 2 * quad.minXLength ∧
          quad.BottomRight.Y - quad.TopLeft.Y > 2 * quad.minYLength) ∧
        (wrapInt ((quad.Points.map Point.Weight).sum) > quad.maxPoints ∧
          quad.Depth < quad.maxDepth)) := by
    unfold QuadTree.checkSplit
    simp only [foldl_weight, Bool.and_eq_true, decide_eq_true_eq]
  refine ⟨hc, hq, ?_, ?_, ?_, ?_⟩
  · intro h1 h2 h3 h4 h5 h6 h7 h8
    unfold QuadTree.checkSplit ConvTree.checkSplit
    rw [h1, h2, h3, h4, h5, h6, h7, h8]
  · intro z
    exact ⟨⟨(wrapInt_range z).1, (wrapInt_range z).2, wrapInt_congruent z⟩,
      fun h1 h2 => wrapInt_of_range h1 h2⟩
  · intro h1 h2
    rw [hc, wrapInt_of_range h1 h2]
  · intro h1 h2
    rw [hq, wrapInt_of_range h1 h2]

/-! ## C5: depth limit -/

/-- C5 (depth limit). In every tree returned without error by `NewConvTree` and then
changed by any sequence of `Insert`, `Check` (and `Clear`) calls, the root has depth 0,
every child of a node has the node's depth plus 1, every node whose depth has reached
`MaxDepth` is a leaf without children, whatever its points, and no node is deeper than
`max(MaxDepth, 0)`. -/
theorem depth_limit (t : ConvTree) (h : Reachable t) :
    (∃ f, fields t = some f ∧ f.Depth = 0) ∧
    ∀ n ∈ nodes t, ∀ f tl tr bl br, n = .node f tl tr bl br →
      (∀ c ∈ [tl, tr, bl, br], ∀ fc, fields c = some fc → fc.Depth = f.Depth + 1) ∧
      (f.Depth ≥ f.MaxDepth → f.IsLeaf = true ∧ tl = .nil ∧ tr = .nil ∧ bl = .nil ∧ br = .nil) ∧
      f.Depth ≤ max f.MaxDepth 0 := by
  obtain ⟨M, hM⟩ := Reachable_depthInv h
  constructor
  · cases t with
    | nil => exact absurd hM (by simp [DepthInv])
    | node f _ _ _ _ =>
      unfold DepthInv at hM
      exact ⟨f, rfl, hM.1⟩
  · intro n hn f tl tr bl br hnode
    obtain ⟨p1, p2, -, -, p5, p6⟩ := DepthInv_nodes M t 0 le_rfl hM n hn f tl tr bl br hnode
    exact ⟨p1, p2, by rw [p6]; exact p5⟩

/-- Witness for C5: the depth limit in the tree `NewConvTree` builds from `sampleRoot`. -/
theorem depth_limit_witness :
    Reachable sampleSplit ∧
    (∃ f, fields sampleSplit = some f ∧ f.Depth = 0) ∧
    ∀ n ∈ nodes sampleSplit, ∀ f tl tr bl br, n = .node f tl tr bl br →
      (∀ c ∈ [tl, tr, bl, br], ∀ fc, fields c = some fc → fc.Depth = f.Depth + 1) ∧
      (f.Depth ≥ f.MaxDepth → f.IsLeaf = true ∧ tl = .nil ∧ tr = .nil ∧ bl = .nil ∧ br = .nil) ∧
      f.Depth ≤ max f.MaxDepth 0 :=
  ⟨Reachable.new _ _ _ _ _ _ _ _ _ _ _ sample_new,
    depth_limit sampleSplit (Reachable.new _ _ _ _ _ _ _ _ _ _ _ sample_new)⟩

/-! ## C6: constructor validation -/

/-- What `NewConvTree` stores as kernel when it is given a nil kernel. -/
theorem kernel_fallback_eval :
    ((NewConvTree ⟨0, 0, 0, none⟩ ⟨1, 1, 0, none⟩ 0 0 0 0 0 1 [] []).toOption.bind
      (fun r => (fields r.1).map (fun f => (r.2, f.Kernel)))) = some (none, defaultKernel) := by
  decide!

/-- C6 (constructor validation), counterexample. `NewConvTree` over the valid rectangle
`(0,0)-(1,1)` with a nil kernel returns without error a tree whose `Kernel` is not the
argument but the default kernel. -/
theorem constructor_kernel_differs :
    ¬ (∀ t f, NewConvTree ⟨0, 0, 0, none⟩ ⟨1, 1, 0, none⟩ 0 0 0 0 0 1 [] [] = .ok (t, none) →
      fields t = some f → f.Kernel = []) := by
  intro h
  have he := kernel_fallback_eval
  cases hr : NewConvTree ⟨0, 0, 0, none⟩ ⟨1, 1, 0, none⟩ 0 0 0 0 0 1 [] [] with
  | error e => rw [hr] at he; simp [Except.toOption] at he
  | ok r =>
    obtain ⟨t, e⟩ := r
    rw [hr] at he
    simp only [Except.toOption, Option.some_bind, Option.map_eq_some', Prod.mk.injEq] at he
    obtain ⟨f, hf, rfl, hk⟩ := he
    have := h t f hr hf
    rw [this] at hk
    exact absurd hk (by decide)

/-- C6 (constructor validation), amended. `NewConvTree` and `NewQuadTree` return an
error, next to the zero tree, when the first corner's X is at least the second corner's
X or the first corner's Y is at least the second corner's Y. Otherwise whatever
`NewConvTree` returns comes without error and is a tree over exactly the two corners
whose minimum lengths, point limit, depth limit, pass count and grid size are the
arguments and whose kernel is the argument when `checkKernel` accepts it and the default
kernel when it does not; it does return when the grid size is at least 1; and
`NewQuadTree` returns without error a tree over the two corners with the arguments as
minimum lengths, point limit and depth limit. -/
theorem constructor_validation (bottomLeft topRight : Point) (minXLength minYLength : ℚ)
    (maxPoints maxDepth convNumber gridSize : Int) (kernel : Grid) (initPoints : List Point) :
    (bottomLeft.X ≥ topRight.X ∨ bottomLeft.Y ≥ topRight.Y →
      (∃ msg, NewConvTree bottomLeft topRight minXLength minYLength maxPoints maxDepth
          convNumber gridSize kernel initPoints = .ok (ConvTree.zero, some msg)) ∧
      (∃ msg, NewQuadTree bottomLeft topRight minXLength minYLength maxPoints maxDepth
          initPoints = .ok (QuadTree.zero, some msg))) ∧
    (¬ (bottomLeft.X ≥ topRight.X ∨ bottomLeft.Y ≥ topRight.Y) →
      (∀ t e, NewConvTree bottomLeft topRight minXLength minYLength maxPoints maxDepth
          convNumber gridSize kernel initPoints = .ok (t, e) →
        e = none ∧ ∃ f, fields t = some f ∧
          f.BottomLeft = bottomLeft ∧ f.TopRight = topRight ∧
          f.MinXLength = minXLength ∧ f.MinYLength = minYLength ∧
          f.MaxPoints = maxPoints ∧ f.MaxDepth = maxDepth ∧
          f.ConvNum = convNumber ∧ f.GridSize = gridSize ∧
          f.Kernel = (if checkKernel kernel = true then kernel else defaultKernel)) ∧
      (1 ≤ gridSize → ∃ t, NewConvTree bottomLeft topRight minXLength minYLength maxPoints
          maxDepth convNumber gridSize kernel initPoints = .ok (t, none)) ∧
      (∃ q c1 c2 c3 c4, NewQuadTree bottomLeft topRight minXLength minYLength maxPoints
          maxDepth initPoints = .ok (.node q c1 c2 c3 c4, none) ∧
        q.TopLeft = bottomLeft ∧ q.BottomRight = topRight ∧
        q.minXLength = minXLength ∧ q.minYLength = minYLength ∧
        q.maxPoints = maxPoints ∧ q.maxDepth = maxDepth)) := by
  constructor
  · intro h
    unfold NewConvTree NewQuadTree
    by_cases hx : bottomLeft.X ≥ topRight.X
    · simp only [hx, if_true]
      exact ⟨⟨_, rfl⟩, ⟨_, rfl⟩⟩
    · have hy : bottomLeft.Y ≥ topRight.Y := h.resolve_left hx
      simp only [hx, hy, if_true, if_false]
      exact ⟨⟨_, rfl⟩, ⟨_, rfl⟩⟩
  · intro h
    push_neg at h
    obtain ⟨hx, hy⟩ := h
    have hk : (if (!checkKernel kernel) = true then defaultKernel else kernel) =
        (if checkKernel kernel = true then kernel else defaultKernel) := by
      cases checkKernel kernel <;> simp
    refine ⟨?_, ?_, ?_⟩
    · intro t e he
      unfold NewConvTree at he
      simp only [not_le.2 hx, not_le.2 hy, ge_iff_le, if_false, hk] at he
      generalize (if checkKernel kernel = true then kernel else defaultKernel) = k at he ⊢
      split at he
      · split at he
        · cases he
        · rename_i t0 hs
          simp only [Except.ok.injEq, Prod.mk.injEq] at he
          obtain ⟨rfl, rfl⟩ := he
          refine ⟨rfl, ?_⟩
          obtain ⟨_, _, c1, c2, c3, c4, -, ht, -⟩ := split_children hs
          subst ht
          exact ⟨_, rfl, rfl, rfl, rfl, rfl, rfl, rfl, rfl, rfl, rfl⟩
      · simp only [Except.ok.injEq, Prod.mk.injEq] at he
        obtain ⟨rfl, rfl⟩ := he
        refine ⟨rfl, _, rfl, ?_⟩
        have h1 := getBaseline_frame (getStats
          { IsLeaf := true, MaxPoints := maxPoints, MaxDepth := maxDepth, Depth := 0,
            GridSize := gridSize, ConvNum := convNumber, Kernel := k,
            Points := initPoints, MinXLength := minXLength, MinYLength := minYLength,
            BottomLeft := bottomLeft, TopRight := topRight, Stats := CellStats.zero })
        have h2 := getStats_frame
          { IsLeaf := true, MaxPoints := maxPoints, MaxDepth := maxDepth, Depth := 0,
            GridSize := gridSize, ConvNum := convNumber, Kernel := k,
            Points := initPoints, MinXLength := minXLength, MinYLength := minYLength,
            BottomLeft := bottomLeft, TopRight := topRight, Stats := CellStats.zero }
        obtain ⟨-, a2, a3, -, a5, a6, a7, -, a9, a10, a11, a12⟩ := h1
        obtain ⟨-, b2, b3, -, b5, b6, b7, -, b9, b10, b11, b12⟩ := h2
        exact ⟨a11.trans b11, a12.trans b12, a9.trans b9, a10.trans b10, a2.trans b2,
          a3.trans b3, a6.trans b6, a5.trans b5, a7.trans b7⟩
    · intro hgs
      unfold NewConvTree
      simp only [not_le.2 hx, not_le.2 hy, ge_iff_le, if_false, hk]
      have hok := chosenKernel_ok kernel
      generalize (if checkKernel kernel = true then kernel else defaultKernel) = k at hok ⊢
      split
      · obtain ⟨t, ht⟩ := split_total
          { IsLeaf := true, MaxPoints := maxPoints, MaxDepth := maxDepth, Depth := 0,
            GridSize := gridSize, ConvNum := convNumber, Kernel := k,
            Points := initPoints, MinXLength := minXLength, MinYLength := minYLength,
            BottomLeft := bottomLeft, TopRight := topRight, Stats := CellStats.zero }
          hgs hok
        rw [ht]
        exact ⟨t, rfl⟩
      · exact ⟨_, rfl⟩
    · unfold NewQuadTree
      simp only [not_le.2 hx, not_le.2 hy, ge_iff_le, if_false]
      split
      · obtain ⟨c1, c2, c3, c4, ht⟩ := quad_split_total
          { IsLeaf := false, maxPoints := maxPoints, maxDepth := maxDepth, Depth := 0,
            splitSteps := 10, Points := initPoints, TopLeft := bottomLeft,
            BottomRight := topRight, minXLength := minXLength, minYLength := minYLength }
        rw [ht]
        exact ⟨_, c1, c2, c3, c4, rfl, rfl, rfl, rfl, rfl, rfl, rfl⟩
      · exact ⟨_, _, _, _, _, rfl, rfl, rfl, rfl, rfl, rfl, rfl⟩


/-! ## C7: baseline-tag inheritance -/

/-- C7 (baseline-tag inheritance). After `split()`, every child that is a leaf carries
the baseline tags the parent had before the split, and a child is such a leaf, holding
the points it was given, whenever its own `checkSplit()` is false; the parent's own
statistics are not touched by the split. -/
theorem baseline_inherited (tree : ConvFields) (t : ConvTree) (hs : split tree = .ok t) :
    ∃ xR yB f tl tr bl br,
      t = .node f tl tr bl br ∧ f.Stats = tree.Stats ∧
      (∀ c ∈ [tl, tr, bl, br], ∀ fc, fields c = some fc → fc.IsLeaf = true →
        fc.Stats.BaselineTags = tree.Stats.BaselineTags) ∧
      (∀ pc ∈ [(childTopLeft tree xR yB, tl), (childTopRight tree xR yB, tr),
                (childBottomLeft tree xR yB, bl), (childBottomRight tree xR yB, br)],
        checkSplit pc.1 = false →
          ∃ fc, fields pc.2 = some fc ∧ fc.IsLeaf = true ∧ fc.Points = pc.1.Points ∧
            fc.Stats.BaselineTags = tree.Stats.BaselineTags) := by
  obtain ⟨xMax, yMax, c1, c2, c3, c4, -, ht, h1, h2, h3, h4⟩ := split_children hs
  refine ⟨cutX tree xMax, cutY tree yMax, _, c1, c2, c3, c4, ht, rfl, ?_, ?_⟩
  · intro c hc fc hfc hleaf
    simp only [List.mem_cons, List.mem_singleton, List.not_mem_nil, or_false] at hc
    have key : ∀ child x, Finished tree child x → fields x = some fc →
        fc.Stats.BaselineTags = tree.Stats.BaselineTags := by
      intro child x hx hfx
      obtain ⟨f, _, _, _, _, rfl, -, -, -, -, -, -, hl, -⟩ := hx
      simp only [fields, Option.some.injEq] at hfx
      subst hfx
      exact (hl hleaf).1
    rcases hc with rfl | rfl | rfl | rfl
    · exact key _ _ h1 hfc
    · exact key _ _ h2 hfc
    · exact key _ _ h3 hfc
    · exact key _ _ h4 hfc
  · intro pc hpc hcs
    have key : ∀ child x, Finished tree child x → checkSplit child = false →
        child.IsLeaf = true →
        ∃ fc, fields x = some fc ∧ fc.IsLeaf = true ∧ fc.Points = child.Points ∧
          fc.Stats.BaselineTags = tree.Stats.BaselineTags := by
      intro child x hx hc hl
      obtain ⟨f, _, _, _, _, rfl, -, -, -, -, -, -, -, hleaf⟩ := hx
      have := hleaf hc
      unfold leafChild at this
      simp only [ConvTree.node.injEq] at this
      obtain ⟨rfl, -⟩ := this
      have hf := getStats_frame child
      exact ⟨_, rfl, by simpa only [hf.1] using hl, hf.2.2.2.2.2.2.2.1, rfl⟩
    simp only [List.mem_cons, List.mem_singleton, List.not_mem_nil, or_false] at hpc
    rcases hpc with rfl | rfl | rfl | rfl
    · exact key _ _ h1 hcs rfl
    · exact key _ _ h2 hcs rfl
    · exact key _ _ h3 hcs rfl
    · exact key _ _ h4 hcs rfl

/-- Witness for C7: the top-left child of `taggedRoot` receives a point tagged `blue`
and is a leaf with the root's baseline tag `red`. -/
theorem baseline_inherited_witness :
    split taggedRoot = .ok taggedSplit ∧
    ∃ xR yB f tl tr bl br,
      taggedSplit = .node f tl tr bl br ∧ f.Stats = taggedRoot.Stats ∧
      (∀ c ∈ [tl, tr, bl, br], ∀ fc, fields c = some fc → fc.IsLeaf = true →
        fc.Stats.BaselineTags = taggedRoot.Stats.BaselineTags) ∧
      (∀ pc ∈ [(childTopLeft taggedRoot xR yB, tl), (childTopRight taggedRoot xR yB, tr),
                (childBottomLeft taggedRoot xR yB, bl), (childBottomRight taggedRoot xR yB, br)],
        checkSplit pc.1 = false →
          ∃ fc, fields pc.2 = some fc ∧ fc.IsLeaf = true ∧ fc.Points = pc.1.Points ∧
            fc.Stats.BaselineTags = taggedRoot.Stats.BaselineTags) :=
  ⟨taggedRoot_split, baseline_inherited taggedRoot taggedSplit taggedRoot_split⟩

/-! ## C8: the spec's example scenario -/

/-- C8 (spec example scenario), counterexample. With twenty points at `(10, 10)` and
five at `(90, 90)` the root is split and its cut is `(50, 50)`: no cell of the first ring
around the peak exceeds 0.8 of the peak, the search returns `(-1, -1)` and `split()`
falls back to the grid midpoint, so the x coordinate of the cut is equal to 50. -/
theorem scenario_cut_is_midpoint :
    (NewConvTree ⟨0, 0, 0, none⟩ ⟨100, 100, 0, none⟩ 5 5 10 3 1 8 defaultKernel
        scenarioPoints).toOption.bind (fun r => cut r.1) = some (50, 50) ∧
    ¬ ((50 : ℚ) ≠ 50) := by
  refine ⟨by decide!, by decide!⟩

/-- C8 (spec example scenario), amended. For `NewConvTree` over `(0,0)-(100,100)` with
minimum lengths 5, point limit 10, depth limit 3, grid size 8, the default kernel and one
smoothing pass, and initial points of weight 1 of which twenty lie strictly inside the
grid cell `(0,12.5) x (0,12.5)` and five strictly inside `(87.5,100) x (87.5,100)`, the
constructor returns without error a root that is split, and the cut is exactly
`(50, 50)`, the grid midpoint, whose x coordinate lies strictly between 10 and 90. -/
theorem scenario_cut (pts : List Point) (hw : ∀ p ∈ pts, p.Weight = 1)
    (hcell : ∀ p ∈ pts, inCellA p = true ∨ inCellB p = true)
    (hA : pts.countP inCellA = 20) (hB : pts.countP inCellB = 5) :
    ∃ t f, NewConvTree ⟨0, 0, 0, none⟩ ⟨100, 100, 0, none⟩ 5 5 10 3 1 8 defaultKernel pts =
        .ok (t, none) ∧
      fields t = some f ∧ f.IsLeaf = false ∧ cut t = some (50, 50) ∧
      (10 : ℚ) < 50 ∧ (50 : ℚ) < 90 := by
  have hcs := scenario_checkSplit pts hw hcell hA hB
  have hidx : splitIndex (scenarioRoot pts) = .ok (4, 4) := by
    unfold splitIndex
    rw [scenario_grid pts hw hcell hA hB]
    exact scenario_index
  obtain ⟨t, ht⟩ := split_total (scenarioRoot pts) (show (1 : Int) ≤ 8 by decide) defaultKernel_ok
  obtain ⟨xMax, yMax, c1, c2, c3, c4, hidx', hnode, h1, -, -, -⟩ := split_children ht
  rw [hidx] at hidx'
  simp only [Except.ok.injEq, Prod.mk.injEq] at hidx'
  obtain ⟨rfl, rfl⟩ := hidx'
  obtain ⟨e1, e2⟩ := scenario_cut_coords pts
  rw [e1, e2] at h1
  obtain ⟨f1, a, b, c, d, rfl, -, htr, -⟩ := h1
  refine ⟨t, _, ?_, by rw [hnode]; rfl, rfl, ?_, by norm_num, by norm_num⟩
  · unfold NewConvTree
    rw [if_neg (show ¬ ((⟨0, 0, 0, none⟩ : Point).X ≥ (⟨100, 100, 0, none⟩ : Point).X) by
        norm_num),
      if_neg (show ¬ ((⟨0, 0, 0, none⟩ : Point).Y ≥ (⟨100, 100, 0, none⟩ : Point).Y) by
        norm_num)]
    have hk : (if (!checkKernel defaultKernel) = true then defaultKernel else defaultKernel) =
        defaultKernel := by simp
    unfold scenarioRoot at hcs ht
    simp only [hk, hcs, if_true, ht]
  · rw [hnode]
    simp only [cut, Bool.false_eq_true, if_false, htr]
    rfl


/-- Witness for C8: the amended scenario statement at `scenarioPoints`. -/
theorem scenario_cut_witness :
    (∀ p ∈ scenarioPoints, p.Weight = 1) ∧
    (∀ p ∈ scenarioPoints, inCellA p = true ∨ inCellB p = true) ∧
    scenarioPoints.countP inCellA = 20 ∧ scenarioPoints.countP inCellB = 5 ∧
    ∃ t f, NewConvTree ⟨0, 0, 0, none⟩ ⟨100, 100, 0, none⟩ 5 5 10 3 1 8 defaultKernel
          scenarioPoints = .ok (t, none) ∧
      fields t = some f ∧ f.IsLeaf = false ∧ cut t = some (50, 50) ∧
      (10 : ℚ) < 50 ∧ (50 : ℚ) < 90 :=
  ⟨by decide!, by decide!, by decide!, by decide!,
    scenario_cut scenarioPoints (by decide!) (by decide!) (by decide!) (by decide!)⟩

/-! ## C9: insert without split -/

/-- C9 (insert without split), counterexample. A tree constructed with nil initial
points and `maxPoints = -1` is split at construction, its total weight 0 exceeding the
point limit; after `Insert(p, false)` the root is not a leaf and its children are not all
absent, so the tree is not a single leaf. -/
theorem insert_after_empty_split :
    ((NewConvTree (pt 0 0) (pt 100 100) 5 5 (-1) 1 1 8 [] []).toOption.bind
      (fun r => (ConvTree.Insert r.1 (pt 10 10) false).toOption.bind
        (fun t => (fields t).map (fun f => (r.2, f.IsLeaf, (children t).map fields == [none, none, none, none]))))) =
      some (none, false, false) := by
  decide!

/-- C9 (insert without split), amended. On every leaf `Insert(p, false)` appends `p` to
the leaf's points and changes nothing else: rectangle, depth, configuration, children
and statistics stay. In particular a tree constructed over a valid rectangle with nil
initial points and a point limit that is not negative, so that the empty root is not
split, is after one such insert a single leaf with exactly that point and zero-valued
statistics. -/
theorem insert_without_split (tree : ConvFields) (tl tr bl br : ConvTree) (point : Point)
    (bottomLeft topRight : Point) (minXLength minYLength : ℚ)
    (maxPoints maxDepth convNumber gridSize : Int) (kernel : Grid)
    (hleaf : tree.IsLeaf = true) (hx : bottomLeft.X < topRight.X)
    (hy : bottomLeft.Y < topRight.Y) (hmp : 0 ≤ maxPoints) :
    ConvTree.Insert (.node tree tl tr bl br) point false =
        .ok (.node { tree with Points := tree.Points ++ [point] } tl tr bl br) ∧
    ∃ t0, NewConvTree bottomLeft topRight minXLength minYLength maxPoints maxDepth convNumber
          gridSize kernel [] = .ok (t0, none) ∧
      ConvTree.Insert t0 point false =
        .ok (.node
          { IsLeaf := true, MaxPoints := maxPoints, MaxDepth := maxDepth, Depth := 0,
            GridSize := gridSize, ConvNum := convNumber,
            Kernel := if checkKernel kernel = true then kernel else defaultKernel,
            Points := [point], MinXLength := minXLength, MinYLength := minYLength,
            BottomLeft := bottomLeft, TopRight := topRight, Stats := CellStats.zero }
          .nil .nil .nil .nil) := by
  have hins : ∀ (f : ConvFields) (a b c d : ConvTree), f.IsLeaf = true →
      ConvTree.Insert (.node f a b c d) point false =
        .ok (.node { f with Points := f.Points ++ [point] } a b c d) := by
    intro f a b c d hf
    rw [ConvTree.Insert]
    simp only [hf, Bool.not_true, Bool.false_eq_true, if_false, insertLeaf]
  refine ⟨hins tree tl tr bl br hleaf, ?_⟩
  have hk : (if (!checkKernel kernel) = true then defaultKernel else kernel) =
      (if checkKernel kernel = true then kernel else defaultKernel) := by
    cases checkKernel kernel <;> simp
  refine ⟨.node
      { IsLeaf := true, MaxPoints := maxPoints, MaxDepth := maxDepth, Depth := 0,
        GridSize := gridSize, ConvNum := convNumber,
        Kernel := if checkKernel kernel = true then kernel else defaultKernel,
        Points := [], MinXLength := minXLength, MinYLength := minYLength,
        BottomLeft := bottomLeft, TopRight := topRight, Stats := CellStats.zero }
      .nil .nil .nil .nil, ?_, ?_⟩
  · unfold NewConvTree
    rw [if_neg (not_le.2 hx), if_neg (not_le.2 hy)]
    simp only [hk]
    rw [if_neg (by rw [checkSplit_empty _ rfl hmp]; simp), getStats_empty _ rfl,
      getBaseline_empty _ rfl]
  · rw [hins _ _ _ _ _ rfl]
    rfl


/-- Witness for C9: the amended statement at the leaf of `sampleLeaf` and at a
constructor call with point limit 0. -/
theorem insert_without_split_witness :
    (10 : ℚ) < 20 ∧ (0 : Int) ≤ 0 ∧
    ConvTree.Insert (sampleLeaf (pt 0 0) (pt 50 50)) (pt 10 10) false =
        .ok (.node
          { IsLeaf := true, MaxPoints := 0, MaxDepth := 1, Depth := 1, GridSize := 8,
            ConvNum := 1, Kernel := defaultKernel, Points := [] ++ [pt 10 10],
            MinXLength := 5, MinYLength := 5, BottomLeft := pt 0 0, TopRight := pt 50 50,
            Stats := CellStats.zero } .nil .nil .nil .nil) ∧
    ∃ t0, NewConvTree (pt 10 10) (pt 20 20) 1 1 0 3 1 8 [] [] = .ok (t0, none) ∧
      ConvTree.Insert t0 (pt 10 10) false =
        .ok (.node
          { IsLeaf := true, MaxPoints := 0, MaxDepth := 3, Depth := 0, GridSize := 8,
            ConvNum := 1, Kernel := if checkKernel [] = true then [] else defaultKernel,
            Points := [pt 10 10], MinXLength := 1, MinYLength := 1, BottomLeft := pt 10 10,
            TopRight := pt 20 20, Stats := CellStats.zero } .nil .nil .nil .nil) :=
  ⟨by decide!, by decide!,
    insert_without_split
      { IsLeaf := true, MaxPoints := 0, MaxDepth := 1, Depth := 1, GridSize := 8,
        ConvNum := 1, Kernel := defaultKernel, Points := [], MinXLength := 5,
        MinYLength := 5, BottomLeft := pt 0 0, TopRight := pt 50 50,
        Stats := CellStats.zero }
      .nil .nil .nil .nil (pt 10 10) (pt 10 10) (pt 20 20) 1 1 0 3 1 8 [] rfl (by decide!)
      (by decide!) (by decide!)⟩

/-! ## C10: insert routing -/

/-- C10 (insert routing). On a node that is not a leaf and has its four children,
`Insert(p, allowSplit)` hands the point to exactly one child, the first in the order
TopLeft, TopRight, BottomLeft, BottomRight whose rectangle contains `p` under inclusive
bounds on all four sides, and returns the node with that child replaced by the outcome
and its fields and the other three children as they were; when no child's rectangle
contains `p` the tree is unchanged. -/
theorem insert_routing (tree : ConvFields) (tl tr bl br : ConvTree)
    (ftl ftr fbl fbr : ConvFields) (point : Point) (allowSplit : Bool)
    (hleaf : tree.IsLeaf = false) (h1 : fields tl = some ftl) (h2 : fields tr = some ftr)
    (h3 : fields bl = some fbl) (h4 : fields br = some fbr) :
    (contains ftl point = true →
      ConvTree.Insert (.node tree tl tr bl br) point allowSplit =
        (ConvTree.Insert tl point allowSplit).map (fun x => .node tree x tr bl br)) ∧
    (contains ftl point = false → contains ftr point = true →
      ConvTree.Insert (.node tree tl tr bl br) point allowSplit =
        (ConvTree.Insert tr point allowSplit).map (fun x => .node tree tl x bl br)) ∧
    (contains ftl point = false → contains ftr point = false → contains fbl point = true →
      ConvTree.Insert (.node tree tl tr bl br) point allowSplit =
        (ConvTree.Insert bl point allowSplit).map (fun x => .node tree tl tr x br)) ∧
    (contains ftl point = false → contains ftr point = false → contains fbl point = false →
      contains fbr point = true →
      ConvTree.Insert (.node tree tl tr bl br) point allowSplit =
        (ConvTree.Insert br point allowSplit).map (fun x => .node tree tl tr bl x)) ∧
    (contains ftl point = false → contains ftr point = false → contains fbl point = false →
      contains fbr point = false →
      ConvTree.Insert (.node tree tl tr bl br) point allowSplit =
        .ok (.node tree tl tr bl br)) := by
  cases tl with
  | nil => simp [fields] at h1
  | node f1 a1 a2 a3 a4 =>
  cases tr with
  | nil => simp [fields] at h2
  | node f2 b1 b2 b3 b4 =>
  cases bl with
  | nil => simp [fields] at h3
  | node f3 c1 c2 c3 c4 =>
  cases br with
  | nil => simp [fields] at h4
  | node f4 d1 d2 d3 d4 =>
  simp only [fields, Option.some.injEq] at h1 h2 h3 h4
  subst h1 h2 h3 h4
  have hI : ConvTree.Insert (.node tree (.node f1 a1 a2 a3 a4) (.node f2 b1 b2 b3 b4)
        (.node f3 c1 c2 c3 c4) (.node f4 d1 d2 d3 d4)) point allowSplit =
      route tree (.node f1 a1 a2 a3 a4) (.node f2 b1 b2 b3 b4) (.node f3 c1 c2 c3 c4)
        (.node f4 d1 d2 d3 d4) point
        (ConvTree.Insert (.node f1 a1 a2 a3 a4) point allowSplit)
        (ConvTree.Insert (.node f2 b1 b2 b3 b4) point allowSplit)
        (ConvTree.Insert (.node f3 c1 c2 c3 c4) point allowSplit)
        (ConvTree.Insert (.node f4 d1 d2 d3 d4) point allowSplit) := by
    rw [ConvTree.Insert]
    simp only [hleaf, Bool.not_false, if_true]
  rw [hI]
  refine ⟨?_, ?_, ?_, ?_, ?_⟩
  · intro h1
    simp only [route, h1, if_true]
    cases ConvTree.Insert (.node f1 a1 a2 a3 a4) point allowSplit <;> rfl
  · intro h1 h2
    simp only [route, h1, h2, if_true, Bool.false_eq_true, if_false]
    cases ConvTree.Insert (.node f2 b1 b2 b3 b4) point allowSplit <;> rfl
  · intro h1 h2 h3
    simp only [route, h1, h2, h3, if_true, Bool.false_eq_true, if_false]
    cases ConvTree.Insert (.node f3 c1 c2 c3 c4) point allowSplit <;> rfl
  · intro h1 h2 h3 h4
    simp only [route, h1, h2, h3, h4, if_true, Bool.false_eq_true, if_false]
    cases ConvTree.Insert (.node f4 d1 d2 d3 d4) point allowSplit <;> rfl
  · intro h1 h2 h3 h4
    simp only [route, h1, h2, h3, h4, Bool.false_eq_true, if_false]

/-- Witness for C10: routing the point `(70, 20)` at the root of `sampleSplit`, whose
top-left child does not contain it and whose top-right child does. -/
theorem insert_routing_witness :
    ({ sampleRoot with IsLeaf := false, Points := [] } : ConvFields).IsLeaf = false ∧
    contains
      { IsLeaf := true, MaxPoints := 0, MaxDepth := 1, Depth := 1, GridSize := 8, ConvNum := 1,
        Kernel := defaultKernel, Points := [], MinXLength := 5, MinYLength := 5,
        BottomLeft := pt 0 0, TopRight := ⟨50, 50, 0, none⟩, Stats := CellStats.zero }
      (pt 70 20) = false ∧
    contains
      { IsLeaf := true, MaxPoints := 0, MaxDepth := 1, Depth := 1, GridSize := 8, ConvNum := 1,
        Kernel := defaultKernel, Points := [], MinXLength := 5, MinYLength := 5,
        BottomLeft := ⟨50, 0, 0, none⟩, TopRight := ⟨100, 50, 0, none⟩,
        Stats := CellStats.zero }
      (pt 70 20) = true ∧
    ConvTree.Insert sampleSplit (pt 70 20) true =
      (ConvTree.Insert (sampleLeaf ⟨50, 0, 0, none⟩ ⟨100, 50, 0, none⟩) (pt 70 20) true).map
        (fun x => .node { sampleRoot with IsLeaf := false, Points := [] }
          (sampleLeaf (pt 0 0) ⟨50, 50, 0, none⟩) x
          (sampleLeaf ⟨0, 50, 0, none⟩ ⟨50, 100, 0, none⟩)
          (sampleLeaf ⟨50, 50, 0, none⟩ (pt 100 100))) :=
  ⟨rfl, by decide!, by decide!,
    (insert_routing { sampleRoot with IsLeaf := false, Points := [] }
      (sampleLeaf (pt 0 0) ⟨50, 50, 0, none⟩) (sampleLeaf ⟨50, 0, 0, none⟩ ⟨100, 50, 0, none⟩)
      (sampleLeaf ⟨0, 50, 0, none⟩ ⟨50, 100, 0, none⟩)
      (sampleLeaf ⟨50, 50, 0, none⟩ (pt 100 100)) _ _ _ _ (pt 70 20) true rfl rfl rfl rfl
      rfl).2.1 (by decide!) (by decide!)⟩

/-! ## The claims C11 to C24 -/

/-- C11 (Clear). On every tree node `Clear()` returns; afterwards every node of the tree,
leaf or not, has an empty point list, and the tree has the same nodes in the same places
with every other field (leaf flag, rectangle, depth, configuration, statistics and
baseline tags) unchanged. -/
theorem clear_keeps_shape (f : ConvFields) (tl tr bl br : ConvTree) :
    ∃ t', ConvTree.Clear (.node f tl tr bl br) = .ok t' ∧
      (∀ n ∈ nodes t', ∀ g, fields n = some g → g.Points = []) ∧
      SameShape (.node f tl tr bl br) t' ∧
      (nodes t').length = (nodes (.node f tl tr bl br)).length := by
  refine ⟨clearAll (.node f tl tr bl br), rfl, clearAll_points _, clearAll_sameShape _, ?_⟩
  have hlen : ∀ t : ConvTree, (nodes (clearAll t)).length = (nodes t).length := by
    intro t
    induction t with
    | nil => rfl
    | node g a b c d ih1 ih2 ih3 ih4 =>
      simp only [clearAll, nodes, List.length_cons, List.length_append, ih1, ih2, ih3, ih4]
  exact hlen _

/-- C12 (convolution configuration errors). On a non-empty grid `convolve` returns an
error value exactly when the stride is below 1, or the padding is below 1, or the grid
has fewer rows than the kernel, or the grid's first row is shorter than the kernel has
rows; in every other case it returns a grid or panics, never an error value. -/
theorem convolve_error_iff (r0 : List ℚ) (rest : Grid) (kernel : Grid) (stride padding : Int) :
    (∃ msg, convolve (r0 :: rest) kernel stride padding = .ok (.error msg)) ↔
      (stride < 1 ∨ padding < 1 ∨ (r0 :: rest).length < kernel.length ∨
        r0.length < kernel.length) := by
  unfold convolve
  by_cases hs : stride < 1
  · simp only [hs, if_true, true_or, iff_true]
    exact ⟨_, rfl⟩
  · by_cases hp : padding < 1
    · simp only [hs, hp, if_true, if_false, true_or, or_true, iff_true]
      exact ⟨_, rfl⟩
    · by_cases hr : (r0 :: rest).length < kernel.length
      · simp only [hs, hp, hr, if_true, if_false, true_or, or_true, iff_true]
        exact ⟨_, rfl⟩
      · by_cases hc : r0.length < kernel.length
        · simp only [hs, hp, hr, hc, if_true, if_false, or_true, iff_true]
          exact ⟨_, rfl⟩
        · simp only [hs, hp, hr, hc, if_false, or_self, iff_false]
          rintro ⟨msg, h⟩
          split at h
          · cases h
          · split at h
            · cases h
            · cases h

/-- C14 (kernel fallback). The function `checkKernel` accepts exactly the non-empty
kernels whose rows all have as many cells as the kernel has rows. Whatever `NewConvTree`
returns, an error comes only from the rectangle, never from the kernel, and a tree
returned without error stores the caller's kernel unchanged when `checkKernel` accepts
it and the default kernel `[[0.5,0.5,0.5],[0.5,1,0.5],[0.5,0.5,0.5]]` otherwise;
`NewConvTree` does return when the grid size is at least 1. -/
theorem kernel_fallback (bottomLeft topRight : Point) (minXLength minYLength : ℚ)
    (maxPoints maxDepth convNumber gridSize : Int) (kernel : Grid) (initPoints : List Point) :
    (checkKernel kernel = true ↔
      kernel ≠ [] ∧ ∀ row ∈ kernel, row.length = kernel.length) ∧
    defaultKernel = [[1/2, 1/2, 1/2], [1/2, 1, 1/2], [1/2, 1/2, 1/2]] ∧
    (∀ t e, NewConvTree bottomLeft topRight minXLength minYLength maxPoints maxDepth
        convNumber gridSize kernel initPoints = .ok (t, e) →
      (∀ msg, e = some msg → bottomLeft.X ≥ topRight.X ∨ bottomLeft.Y ≥ topRight.Y) ∧
      (e = none → ∃ f, fields t = some f ∧
        (checkKernel kernel = true → f.Kernel = kernel) ∧
        (checkKernel kernel = false → f.Kernel = defaultKernel))) ∧
    (1 ≤ gridSize → ∃ t e, NewConvTree bottomLeft topRight minXLength minYLength maxPoints
        maxDepth convNumber gridSize kernel initPoints = .ok (t, e)) := by
  refine ⟨checkKernel_iff kernel, rfl, ?_, NewConvTree_total _ _ _ _ _ _ _ _ _ _⟩
  intro t e h
  constructor
  · intro msg hm
    subst hm
    exact NewConvTree_err h
  · intro he
    subst he
    obtain ⟨-, -, tree, rfl, ⟨-, hs⟩ | ⟨-, rfl⟩⟩ := NewConvTree_ok h
    · obtain ⟨c1, c2, c3, c4, rfl⟩ := splitFuel_root hs
      refine ⟨_, rfl, ?_, ?_⟩
      · intro hk; simp only [hk, if_true]
      · intro hk; simp [hk]
    · refine ⟨_, rfl, ?_, ?_⟩
      · intro hk
        rw [(getBaseline_frame _).2.2.2.2.2.2.1, (getStats_frame _).2.2.2.2.2.2.1]
        simp only [hk, if_true]
      · intro hk
        rw [(getBaseline_frame _).2.2.2.2.2.2.1, (getStats_frame _).2.2.2.2.2.2.1]
        simp [hk]

/-- C16 (naive tree constructed without a split), evaluation at the failing input.
`NewQuadTree` over `(0,0)-(100,100)` with nil initial points returns without error a
node that holds no points and has no children but whose `IsLeaf` is false, and the
following `Insert` of the point `(10, 10)` stops with a nil pointer dereference. -/
theorem quad_root_not_leaf :
    NewQuadTree (pt 0 0) (pt 100 100) 5 5 10 3 [] =
      .ok (.node ⟨false, 10, 3, 0, 10, [], pt 0 0, pt 100 100, 5, 5⟩ .nil .nil .nil .nil, none) ∧
    QuadTree.checkSplit ⟨false, 10, 3, 0, 10, [], pt 0 0, pt 100 100, 5, 5⟩ = false ∧
    QuadTree.Insert (.node ⟨false, 10, 3, 0, 10, [], pt 0 0, pt 100 100, 5, 5⟩ .nil .nil .nil .nil)
      (pt 10 10) = .error .nilDereference := by
  decide!

/-- C18 (weighted centroid), evaluation at the failing input. For the leaf holding
`(0, 0)` with weight 1 and `(10, 0)` with weight 3, `getStats()` sets `PointsNumber` to
the total weight 4 but `CenterPoint.X` to `10 / 4`, the unweighted coordinate sum over the
total weight, where the weighted centroid has X `30 / 4`. -/
theorem centroid_ignores_weights :
    (getStats (statsLeaf [⟨0, 0, 1, none⟩, ⟨10, 0, 3, none⟩])).Stats.PointsNumber = 4 ∧
    (getStats (statsLeaf [⟨0, 0, 1, none⟩, ⟨10, 0, 3, none⟩])).Stats.CenterPoint.X = 5 / 2 ∧
    (weightedCentroid [⟨0, 0, 1, none⟩, ⟨10, 0, 3, none⟩]).1 = 15 / 2 ∧
    (getStats (statsLeaf [⟨0, 0, 1, none⟩, ⟨10, 0, 3, none⟩])).Stats.CenterPoint.X ≠
      (weightedCentroid [⟨0, 0, 1, none⟩, ⟨10, 0, 3, none⟩]).1 := by
  decide!

/-- C19 (mean pairwise distance), evaluation at the failing input. For the leaf holding
`(0, 0)` and `(10, 0)`, both of weight 2, the mean Manhattan distance over the two
ordered pairs is 10, but `getStats()` divides the distance sum 20 by `4 * 4 - 4`, taking
the total weight 4 for the number of points, and sets `AvgDistance` to `5 / 3`. -/
theorem avgDistance_uses_weight :
    meanPairDistance [⟨0, 0, 2, none⟩, ⟨10, 0, 2, none⟩] = 10 ∧
    (getStats (statsLeaf [⟨0, 0, 2, none⟩, ⟨10, 0, 2, none⟩])).Stats.AvgDistance = 5 / 3 ∧
    (getStats (statsLeaf [⟨0, 0, 2, none⟩, ⟨10, 0, 2, none⟩])).Stats.AvgDistance ≠
      meanPairDistance [⟨0, 0, 2, none⟩, ⟨10, 0, 2, none⟩] := by
  decide!

/-! ## C15: leaf/internal invariant -/

/-- C15 (leaf/internal invariant). Every tree returned without error by `NewConvTree`
and then changed by any sequence of `Insert`, `Check` and `Clear` calls is not nil, and
each of its nodes is either a leaf with its four child pointers nil, or a node that is
not a leaf, has its four children and holds no points. -/
theorem leaf_or_internal (t : ConvTree) (h : Reachable t) :
    t ≠ .nil ∧
    ∀ n ∈ nodes t, ∀ f tl tr bl br, n = .node f tl tr bl br →
      (f.IsLeaf = true ∧ tl = .nil ∧ tr = .nil ∧ bl = .nil ∧ br = .nil) ∨
      (f.IsLeaf = false ∧ f.Points = [] ∧ tl ≠ .nil ∧ tr ≠ .nil ∧ bl ≠ .nil ∧ br ≠ .nil) :=
  ⟨LeafInv_ne_nil (Reachable_leafInv h), LeafInv_nodes t (Reachable_leafInv h)⟩

/-- Witness for C15: the invariant in the tree `NewConvTree` builds from `sampleRoot`. -/
theorem leaf_or_internal_witness :
    Reachable sampleSplit ∧ sampleSplit ≠ .nil ∧
    ∀ n ∈ nodes sampleSplit, ∀ f tl tr bl br, n = .node f tl tr bl br →
      (f.IsLeaf = true ∧ tl = .nil ∧ tr = .nil ∧ bl = .nil ∧ br = .nil) ∨
      (f.IsLeaf = false ∧ f.Points = [] ∧ tl ≠ .nil ∧ tr ≠ .nil ∧ bl ≠ .nil ∧ br ≠ .nil) :=
  ⟨Reachable.new _ _ _ _ _ _ _ _ _ _ _ sample_new,
    leaf_or_internal sampleSplit (Reachable.new _ _ _ _ _ _ _ _ _ _ _ sample_new)⟩

/-! ## C21: no splittable leaf -/

/-- C21 (no splittable leaf), counterexample. The tree built over `(0,0)-(100,100)`
with point limit 0, depth limit 1 and no points, and then given the point `(80, 80)` by
`Insert` with `allowSplit` false, is a single leaf that passes `checkSplit()`; and the
tree built with point limit -1 around one point of weight -5 is a single leaf that passes
`checkSplit()` once `Clear` has emptied it. And the tree built with point limit 0 around
two points of weights `2^63 - 1` and `1` is a single leaf that `checkSplit()` rejects,
Go's `int` sum of the weights having wrapped around, although it is more than twice the
minimum lengths wide and high, heavier than `MaxPoints` and above `MaxDepth`. -/
theorem splittable_leaf_reached :
    (Reachable (.node sampleRoot .nil .nil .nil .nil) ∧ sampleRoot.IsLeaf = true ∧
      checkSplit sampleRoot = true) ∧
    (Reachable (.node { getStats debtRoot with Points := [] } .nil .nil .nil .nil) ∧
      ({ getStats debtRoot with Points := [] } : ConvFields).IsLeaf = true ∧
      checkSplit { getStats debtRoot with Points := [] } = true) ∧
    (Reachable (.node (getStats heavyRoot) .nil .nil .nil .nil) ∧
      (getStats heavyRoot).IsLeaf = true ∧ checkSplit (getStats heavyRoot) = false ∧
      (getStats heavyRoot).TopRight.X - (getStats heavyRoot).BottomLeft.X >
        2 * (getStats heavyRoot).MinXLength ∧
      (getStats heavyRoot).TopRight.Y - (getStats heavyRoot).BottomLeft.Y >
        2 * (getStats heavyRoot).MinYLength ∧
      ((getStats heavyRoot).Points.map (fun p => p.Weight)).sum >
        (getStats heavyRoot).MaxPoints ∧
      (getStats heavyRoot).Depth < (getStats heavyRoot).MaxDepth) := by
  refine ⟨⟨?_, rfl, by decide!⟩, ⟨?_, by decide!, by decide!⟩,
    ⟨Reachable.new _ _ _ _ _ _ _ _ _ _ _ heavy_new, by decide!, by decide!, by decide!,
      by decide!, by decide!, by decide!⟩⟩
  · exact Reachable.insert _ _ (pt 80 80) false (Reachable.new _ _ _ _ _ _ _ _ _ _ _ idle_new)
      (by decide!)
  · exact Reachable.clear _ _ (Reachable.new _ _ _ _ _ _ _ _ _ _ _ debt_new) (by decide!)

/-- C21 (no splittable leaf), amended. In every tree returned without error by
`NewConvTree` and then changed by any sequence of `Insert` calls with `allowSplit` true,
`Check` calls and, when the point limit is not negative, `Clear` calls, no leaf passes
`checkSplit()`: no leaf is more than twice the minimum lengths wide and high, heavier
than `MaxPoints` by Go's `int` sum of its weights (the sum reduced modulo `2^64` into
`[-2^63, 2^63)`) and above `MaxDepth` at the same time; and when the weights of a leaf
sum to a value in `[-2^63, 2^63)`, the same holds of the sum itself. -/
theorem no_splittable_leaf (M : Int) (t : ConvTree) (h : Settled M t) :
    ∀ n ∈ nodes t, ∀ f, fields n = some f → f.IsLeaf = true →
      checkSplit f = false ∧
      ¬ (f.TopRight.X - f.BottomLeft.X > 2 * f.MinXLength ∧
         f.TopRight.Y - f.BottomLeft.Y > 2 * f.MinYLength ∧
         wrapInt ((f.Points.map (fun p => p.Weight)).sum) > f.MaxPoints ∧
         f.Depth < f.MaxDepth) ∧
      (-2 ^ 63 ≤ (f.Points.map (fun p => p.Weight)).sum →
        (f.Points.map (fun p => p.Weight)).sum < 2 ^ 63 →
        ¬ (f.TopRight.X - f.BottomLeft.X > 2 * f.MinXLength ∧
           f.TopRight.Y - f.BottomLeft.Y > 2 * f.MinYLength ∧
           (f.Points.map (fun p => p.Weight)).sum > f.MaxPoints ∧
           f.Depth < f.MaxDepth)) := by
  intro n hn f hf hl
  have hcs := SplitInv_nodes M t (Settled_splitInv h) n hn f hf hl
  have hno : ¬ (f.TopRight.X - f.BottomLeft.X > 2 * f.MinXLength ∧
      f.TopRight.Y - f.BottomLeft.Y > 2 * f.MinYLength ∧
      wrapInt ((f.Points.map (fun p => p.Weight)).sum) > f.MaxPoints ∧
      f.Depth < f.MaxDepth) := by
    rintro ⟨h1, h2, h3, h4⟩
    have : checkSplit f = true := by
      unfold checkSplit
      simp only [foldl_weight, Bool.and_eq_true, decide_eq_true_eq]
      exact ⟨⟨h1, h2⟩, h3, h4⟩
    rw [hcs] at this
    cases this
  refine ⟨hcs, hno, ?_⟩
  intro r1 r2
  rw [wrapInt_of_range r1 r2] at hno
  exact hno

/-- Witness for C21: no leaf of the tree `NewConvTree` builds from `sampleRoot` passes
`checkSplit()`. -/
theorem no_splittable_leaf_witness :
    Settled 0 sampleSplit ∧
    ∀ n ∈ nodes sampleSplit, ∀ f, fields n = some f → f.IsLeaf = true →
      checkSplit f = false ∧
      ¬ (f.TopRight.X - f.BottomLeft.X > 2 * f.MinXLength ∧
         f.TopRight.Y - f.BottomLeft.Y > 2 * f.MinYLength ∧
         wrapInt ((f.Points.map (fun p => p.Weight)).sum) > f.MaxPoints ∧
         f.Depth < f.MaxDepth) ∧
      (-2 ^ 63 ≤ (f.Points.map (fun p => p.Weight)).sum →
        (f.Points.map (fun p => p.Weight)).sum < 2 ^ 63 →
        ¬ (f.TopRight.X - f.BottomLeft.X > 2 * f.MinXLength ∧
           f.TopRight.Y - f.BottomLeft.Y > 2 * f.MinYLength ∧
           (f.Points.map (fun p => p.Weight)).sum > f.MaxPoints ∧
           f.Depth < f.MaxDepth)) :=
  ⟨Settled.new _ _ _ _ _ _ _ _ _ _ _ sample_new,
    no_splittable_leaf 0 sampleSplit (Settled.new _ _ _ _ _ _ _ _ _ _ _ sample_new)⟩

/-! ## C17: naive midpoint split -/

/-- C17 (naive midpoint split). On every naive node `split()` returns a node with four
children. The children are prepared over the rectangles that share the corner
`((TopLeft.X+BottomRight.X)/2, (TopLeft.Y+BottomRight.Y)/2)`, each half as wide and half
as high as the parent, and each is given exactly the parent's points that lie in its own
rectangle under inclusive bounds; a prepared child stays as it is when its `checkSplit()`
is false and is otherwise split again over the same rectangle. The four areas sum to the
parent's, every point of the parent's rectangle lies in a child's, the children lie in
the parent's rectangle when it is not inverted, two children with different rectangles
meet only on the two cut lines, and every parent point inside the parent's rectangle is
given to at least one child. -/
theorem quad_midpoint_split (tree : QuadFields) :
    ∃ t1 t2 t3 t4,
      QuadTree.split tree =
        .ok (.node { tree with IsLeaf := false, Points := [] } t1 t2 t3 t4) ∧
      QuadFinished (QuadTree.childTopLeft tree) t1 ∧
      QuadFinished (QuadTree.childTopRight tree) t2 ∧
      QuadFinished (QuadTree.childBottomLeft tree) t3 ∧
      QuadFinished (QuadTree.childBottomRight tree) t4 ∧
      qrect (QuadTree.childTopLeft tree) =
        (tree.TopLeft.X, tree.TopLeft.Y, (tree.TopLeft.X + tree.BottomRight.X) / 2,
          (tree.TopLeft.Y + tree.BottomRight.Y) / 2) ∧
      qrect (QuadTree.childTopRight tree) =
        ((tree.TopLeft.X + tree.BottomRight.X) / 2, tree.TopLeft.Y, tree.BottomRight.X,
          (tree.TopLeft.Y + tree.BottomRight.Y) / 2) ∧
      qrect (QuadTree.childBottomLeft tree) =
        (tree.TopLeft.X, (tree.TopLeft.Y + tree.BottomRight.Y) / 2,
          (tree.TopLeft.X + tree.BottomRight.X) / 2, tree.BottomRight.Y) ∧
      qrect (QuadTree.childBottomRight tree) =
        ((tree.TopLeft.X + tree.BottomRight.X) / 2, (tree.TopLeft.Y + tree.BottomRight.Y) / 2,
          tree.BottomRight.X, tree.BottomRight.Y) ∧
      (∀ c ∈ [QuadTree.childTopLeft tree, QuadTree.childTopRight tree,
          QuadTree.childBottomLeft tree, QuadTree.childBottomRight tree],
        c.BottomRight.X - c.TopLeft.X = (tree.BottomRight.X - tree.TopLeft.X) / 2 ∧
        c.BottomRight.Y - c.TopLeft.Y = (tree.BottomRight.Y - tree.TopLeft.Y) / 2 ∧
        c.Points = tree.Points.filter (fun p => QuadTree.contains c p)) ∧
      qarea (QuadTree.childTopLeft tree) + qarea (QuadTree.childTopRight tree) +
        qarea (QuadTree.childBottomLeft tree) + qarea (QuadTree.childBottomRight tree) =
          qarea tree ∧
      (∀ p : Point, QuadTree.contains tree p = true →
        ∃ c ∈ [QuadTree.childTopLeft tree, QuadTree.childTopRight tree,
          QuadTree.childBottomLeft tree, QuadTree.childBottomRight tree],
          QuadTree.contains c p = true) ∧
      (tree.TopLeft.X ≤ tree.BottomRight.X → tree.TopLeft.Y ≤ tree.BottomRight.Y →
        ∀ p : Point, ∀ c ∈ [QuadTree.childTopLeft tree, QuadTree.childTopRight tree,
          QuadTree.childBottomLeft tree, QuadTree.childBottomRight tree],
          QuadTree.contains c p = true → QuadTree.contains tree p = true) ∧
      (∀ p : Point,
        ∀ a ∈ [QuadTree.childTopLeft tree, QuadTree.childTopRight tree,
          QuadTree.childBottomLeft tree, QuadTree.childBottomRight tree],
        ∀ b ∈ [QuadTree.childTopLeft tree, QuadTree.childTopRight tree,
          QuadTree.childBottomLeft tree, QuadTree.childBottomRight tree],
        qrect a ≠ qrect b → QuadTree.contains a p = true → QuadTree.contains b p = true →
          p.X = (tree.TopLeft.X + tree.BottomRight.X) / 2 ∨
          p.Y = (tree.TopLeft.Y + tree.BottomRight.Y) / 2) ∧
      (∀ p ∈ tree.Points, QuadTree.contains tree p = true →
        ∃ c ∈ [QuadTree.childTopLeft tree, QuadTree.childTopRight tree,
          QuadTree.childBottomLeft tree, QuadTree.childBottomRight tree], p ∈ c.Points) := by
  obtain ⟨t1, t2, t3, t4, hs⟩ := quad_split_total tree
  obtain ⟨c1, c2, c3, c4, ht, f1, f2, f3, f4⟩ := quad_split_children hs
  simp only [QuadTree.node.injEq, true_and] at ht
  obtain ⟨rfl, rfl, rfl, rfl⟩ := ht
  obtain ⟨r1, r2, r3, r4⟩ := quad_children_rect tree
  have hpts := quad_children_points tree
  have e1 := r1
  have e2 := r2
  have e3 := r3
  have e4 := r4
  simp only [qrect, Prod.mk.injEq] at e1 e2 e3 e4
  obtain ⟨a1, a2, a3, a4⟩ := e1
  obtain ⟨b1, b2, b3, b4⟩ := e2
  obtain ⟨d1, d2, d3, d4⟩ := e3
  obtain ⟨g1, g2, g3, g4⟩ := e4
  have hcover : ∀ p : Point, QuadTree.contains tree p = true →
      ∃ c ∈ [QuadTree.childTopLeft tree, QuadTree.childTopRight tree,
        QuadTree.childBottomLeft tree, QuadTree.childBottomRight tree],
        QuadTree.contains c p = true := by
    intro p hp
    rw [quad_contains_iff] at hp
    obtain ⟨p1, p2, p3, p4⟩ := hp
    rcases le_total p.X ((tree.TopLeft.X + tree.BottomRight.X) / 2) with hpx | hpx <;>
      rcases le_total p.Y ((tree.TopLeft.Y + tree.BottomRight.Y) / 2) with hpy | hpy
    · refine ⟨_, List.mem_cons_self _ _, ?_⟩
      rw [quad_contains_iff, a1, a2, a3, a4]
      exact ⟨p1, hpx, p3, hpy⟩
    · refine ⟨QuadTree.childBottomLeft tree, by simp, ?_⟩
      rw [quad_contains_iff, d1, d2, d3, d4]
      exact ⟨p1, hpx, hpy, p4⟩
    · refine ⟨QuadTree.childTopRight tree, by simp, ?_⟩
      rw [quad_contains_iff, b1, b2, b3, b4]
      exact ⟨hpx, p2, p3, hpy⟩
    · refine ⟨QuadTree.childBottomRight tree, by simp, ?_⟩
      rw [quad_contains_iff, g1, g2, g3, g4]
      exact ⟨hpx, p2, hpy, p4⟩
  refine ⟨_, _, _, _, hs, f1, f2, f3, f4, r1, r2, r3, r4, ?_, ?_, hcover, ?_, ?_, ?_⟩
  · intro c hc
    refine ⟨?_, ?_, hpts c hc⟩ <;>
    · simp only [List.mem_cons, List.mem_singleton, List.not_mem_nil, or_false] at hc
      rcases hc with rfl | rfl | rfl | rfl
      · simp only [a1, a2, a3, a4]; ring
      · simp only [b1, b2, b3, b4]; ring
      · simp only [d1, d2, d3, d4]; ring
      · simp only [g1, g2, g3, g4]; ring
  · simp only [qarea, a1, a2, a3, a4, b1, b2, b3, b4, d1, d2, d3, d4, g1, g2, g3, g4]
    ring
  · intro hx hy p c hc hp
    simp only [List.mem_cons, List.mem_singleton, List.not_mem_nil, or_false] at hc
    rw [quad_contains_iff] at hp ⊢
    rcases hc with rfl | rfl | rfl | rfl
    · rw [a1, a2, a3, a4] at hp
      exact ⟨hp.1, by linarith [hp.2.1], hp.2.2.1, by linarith [hp.2.2.2]⟩
    · rw [b1, b2, b3, b4] at hp
      exact ⟨by linarith [hp.1], hp.2.1, hp.2.2.1, by linarith [hp.2.2.2]⟩
    · rw [d1, d2, d3, d4] at hp
      exact ⟨hp.1, by linarith [hp.2.1], by linarith [hp.2.2.1], hp.2.2.2⟩
    · rw [g1, g2, g3, g4] at hp
      exact ⟨by linarith [hp.1], hp.2.1, by linarith [hp.2.2.1], hp.2.2.2⟩
  · intro p a ha b hb hne hpa hpb
    simp only [List.mem_cons, List.mem_singleton, List.not_mem_nil, or_false] at ha hb
    rw [quad_contains_iff] at hpa hpb
    by_contra hcon
    push_neg at hcon
    obtain ⟨hnx, hny⟩ := hcon
    rcases ha with rfl | rfl | rfl | rfl <;> rcases hb with rfl | rfl | rfl | rfl <;>
      first
      | exact hne rfl
      | (simp only [a1, a2, a3, a4, b1, b2, b3, b4, d1, d2, d3, d4, g1, g2, g3, g4] at hpa hpb
         first
         | exact hnx (le_antisymm (by linarith [hpa.2.1, hpb.2.1]) (by linarith [hpa.1, hpb.1]))
         | exact hny (le_antisymm (by linarith [hpa.2.2.2, hpb.2.2.2]) (by linarith [hpa.2.2.1, hpb.2.2.1])))
  · intro p hp hin
    obtain ⟨c, hc, hcp⟩ := hcover p hin
    refine ⟨c, hc, ?_⟩
    rw [hpts c hc, List.mem_filter]
    exact ⟨hp, hcp⟩

/-! ## C22: ring tie-break -/

/-- C22 (ring tie-break), counterexample. In `ringGrid` the largest cell is `(2, 3)`, and
in the ring of radius 1 the left column 1 and the right column 3 each hold a cell above
the threshold `0.8`; the pass records `x = 3`, although column 1 is at distance 2 from
the centre index `7 / 2 = 3` and column 3 at distance 0. -/
theorem ring_records_nearer_column :
    scanMax ringGrid 7 = .ok (2, 3, 1) ∧
    at2 ringGrid (2 - 1) 3 = .ok (9 / 10) ∧ at2 ringGrid (2 + 1) 3 = .ok (9 / 10) ∧
    (9 / 10 : ℚ) > 1 * (4 / 5) ∧
    ringScan ringGrid 7 2 3 (1 * (4 / 5)) 1 = .ok ⟨true, 3, 2, [9/10, 9/10, 17/20, 17/20]⟩ ∧
    |(((2 - 1 : Int) - (ringGrid.length : Int) / 2 : Int) : ℚ)| >
      |(((2 + 1 : Int) - (ringGrid.length : Int) / 2 : Int) : ℚ)| := by
  refine ⟨by decide!, by decide!, by decide!, by decide!, by decide!, by decide!⟩

/-- C22 (ring tie-break), amended. In a rectangular grid, for the largest cell
`(maxX, maxY)` found by the search and every ring radius, the pass over the ring
returns; when the left ring column `maxX - counter` and the right ring column
`maxX + counter` each hold, inside the grid and inside the ring, a cell exceeding
`splitValue`, the `x` it records is the right column if the left one lies strictly
farther from the centre index `len(grid)/2`, and the left column otherwise: the column
nearer to the centre, the left one on a tie. Symmetrically the `y` it records from the
top row `maxY - counter` and the bottom row `maxY + counter` is the row nearer to
`len(grid[0])/2`, the top one on a tie. -/
theorem ring_tie_break (g : Grid) (w : Nat) (maxX maxY : Int) (maxValue splitValue : ℚ)
    (counter : Int) (hg : Rectangular g w) (hne : g ≠ [])
    (hmax : scanMax g w = .ok (maxX, maxY, maxValue)) (hc : 1 ≤ counter) :
    ∃ r, ringScan g w maxX maxY splitValue counter = .ok r ∧
      ((∃ j v, maxY - counter ≤ j ∧ j ≤ maxY + counter ∧
          at2 g (maxX - counter) j = .ok v ∧ v > splitValue) →
        (∃ j v, maxY - counter ≤ j ∧ j ≤ maxY + counter ∧
          at2 g (maxX + counter) j = .ok v ∧ v > splitValue) →
        r.x = (if |(((maxX - counter) - (g.length : Int) / 2 : Int) : ℚ)| >
                  |(((maxX + counter) - (g.length : Int) / 2 : Int) : ℚ)|
               then maxX + counter else maxX - counter)) ∧
      ((∃ j v, maxX - counter ≤ j ∧ j ≤ maxX + counter ∧
          at2 g j (maxY - counter) = .ok v ∧ v > splitValue) →
        (∃ j v, maxX - counter ≤ j ∧ j ≤ maxX + counter ∧
          at2 g j (maxY + counter) = .ok v ∧ v > splitValue) →
        r.y = (if |(((maxY - counter) - (w : Int) / 2 : Int) : ℚ)| >
                  |(((maxY + counter) - (w : Int) / 2 : Int) : ℚ)|
               then maxY + counter else maxY - counter)) := by
  have hp := scanMax_peak hg hne hmax
  obtain ⟨r, hr⟩ := ringScan_ok hg hp splitValue hc
  refine ⟨r, hr, ?_, ?_⟩
  · rintro ⟨jl, vl, hl1, hl2, hl, hvl⟩ ⟨jr, vr, hr1, hr2, hrr, hvr⟩
    exact ringScan_x (by omega) hr ⟨hl1, hl2⟩ (at2_bounds_rect hg hl).2.2.2 hl hvl ⟨hr1, hr2⟩
      (at2_bounds_rect hg hrr).2.2.2 hrr hvr
  · rintro ⟨jt, vt, ht1, ht2, ht, hvt⟩ ⟨jb, vb, hb1, hb2, hb, hvb⟩
    exact ringScan_y (by omega) hr ⟨ht1, ht2⟩ ht hvt ⟨hb1, hb2⟩
      (at2_bounds_rect hg hb).2.2.2 hb hvb

/-- Witness for C22: the amended statement at `ringGrid`, its largest cell `(2, 3)` and
the ring of radius 1. -/
theorem ring_tie_break_witness :
    Rectangular ringGrid 7 ∧ ringGrid ≠ [] ∧ scanMax ringGrid 7 = .ok (2, 3, 1) ∧
    ∃ r, ringScan ringGrid 7 2 3 (4 / 5) 1 = .ok r ∧
      ((∃ j v, 3 - 1 ≤ j ∧ j ≤ 3 + 1 ∧
          at2 ringGrid (2 - 1) j = .ok v ∧ v > 4 / 5) →
        (∃ j v, 3 - 1 ≤ j ∧ j ≤ 3 + 1 ∧
          at2 ringGrid (2 + 1) j = .ok v ∧ v > 4 / 5) →
        r.x = (if |(((2 - 1) - (ringGrid.length : Int) / 2 : Int) : ℚ)| >
                  |(((2 + 1) - (ringGrid.length : Int) / 2 : Int) : ℚ)|
               then 2 + 1 else 2 - 1)) ∧
      ((∃ j v, 2 - 1 ≤ j ∧ j ≤ 2 + 1 ∧
          at2 ringGrid j (3 - 1) = .ok v ∧ v > 4 / 5) →
        (∃ j v, 2 - 1 ≤ j ∧ j ≤ 2 + 1 ∧
          at2 ringGrid j (3 + 1) = .ok v ∧ v > 4 / 5) →
        r.y = (if |(((3 - 1) - ((7 : Nat) : Int) / 2 : Int) : ℚ)| >
                  |(((3 + 1) - ((7 : Nat) : Int) / 2 : Int) : ℚ)|
               then 3 + 1 else 3 - 1)) :=
  ⟨by unfold Rectangular; decide, by decide, by decide!,
    ring_tie_break ringGrid 7 2 3 1 (4 / 5) 1 (by unfold Rectangular; decide) (by decide)
      (by decide!) (by decide)⟩

/-! ## C24: termination of the split-point search -/

/-- C24 (termination of the split-point search). On a non-empty rectangular grid the
search for the largest cell returns, and the ring loop started at radius 1 returns
within `max(rows, columns)` iterations, with the same result under every larger budget,
so `getSplitPoint` returns; a pass whose radius has reached `max(rows, columns)` finds
no cell; a pass that finds a cell has a non-empty list of values to average; and the
indices `getSplitPoint` returns lie in `[-1, rows]` and `[-1, columns]`. -/
theorem ring_search_terminates (r0 : List ℚ) (rest : Grid)
    (hg : Rectangular (r0 :: rest) r0.length) :
    ∃ maxX maxY maxValue splitX splitY,
      scanMax (r0 :: rest) r0.length = .ok (maxX, maxY, maxValue) ∧
      (∀ fuel : Nat, max (r0 :: rest).length r0.length ≤ fuel →
        ringLoop (r0 :: rest) r0.length maxX maxY fuel (maxValue * (4 / 5)) 1 0 0 =
          .ok (splitX, splitY)) ∧
      getSplitPoint (r0 :: rest) =
        .ok (if splitX > maxX then splitX + 1 else splitX - 1,
             if splitY > maxY then splitY + 1 else splitY - 1) ∧
      (∀ (splitValue : ℚ) (counter : Int),
        ((max (r0 :: rest).length r0.length : Nat) : Int) ≤ counter →
        ringScan (r0 :: rest) r0.length maxX maxY splitValue counter =
          .ok ⟨false, 0, 0, []⟩) ∧
      (∀ (splitValue : ℚ) (counter : Int) (r : Ring), 1 ≤ counter →
        ringScan (r0 :: rest) r0.length maxX maxY splitValue counter = .ok r →
        r.itemFound = true → r.vals ≠ []) ∧
      (∀ x y, getSplitPoint (r0 :: rest) = .ok (x, y) →
        -1 ≤ x ∧ x ≤ ((r0 :: rest).length : Int) ∧ -1 ≤ y ∧ y ≤ (r0.length : Int)) := by
  have hne : (r0 :: rest) ≠ [] := by simp
  obtain ⟨⟨maxX, maxY, maxValue⟩, hm, hp⟩ := scanMax_ok hg hne
  replace hp : PeakInGrid (r0 :: rest) r0.length maxX maxY := hp
  have hpos : 1 ≤ max (r0 :: rest).length r0.length :=
    le_trans (by simp) (le_max_left _ _)
  have hle : max (r0 :: rest).length r0.length ≤ (r0 :: rest).length + r0.length + 1 := by
    apply max_le <;> omega
  obtain ⟨⟨splitX, splitY⟩, hl⟩ := ringLoop_ok_max hg hp
    (max (r0 :: rest).length r0.length) (maxValue * (4 / 5)) 1 0 0 le_rfl hpos (by omega)
  have hfuel : ∀ fuel : Nat, max (r0 :: rest).length r0.length ≤ fuel →
      ringLoop (r0 :: rest) r0.length maxX maxY fuel (maxValue * (4 / 5)) 1 0 0 =
        .ok (splitX, splitY) := by
    intro fuel hf
    rw [← hl]
    exact ringLoop_budget hp fuel _ _ 1 0 0 le_rfl (le_trans hpos hf) hpos
      (by push_cast; omega) (by omega)
  have hgsp := getSplitPoint_of_parts hm (hfuel _ hle)
  have hb0 : (0 : Int) ≤ 0 ∧ (0 : Int) < max (((r0 :: rest).length : Nat) : Int) 1 ∧
      (0 : Int) ≤ 0 ∧ (0 : Int) < max ((r0.length : Nat) : Int) 1 :=
    ⟨le_rfl, lt_of_lt_of_le one_pos (le_max_right _ _), le_rfl,
      lt_of_lt_of_le one_pos (le_max_right _ _)⟩
  have hsb := ringLoop_bounds hg _ _ _ _ _ splitX splitY hb0 hl
  refine ⟨maxX, maxY, maxValue, splitX, splitY, hm, hfuel, hgsp, ?_, ?_, ?_⟩
  · intro sv counter hc
    have h1 : (1 : Int) ≤ ((max (r0 :: rest).length r0.length : Nat) : Int) := by
      exact_mod_cast hpos
    exact ringScan_past hp sv (by omega) hc
  · intro sv counter r hc hr hf
    exact ringScan_vals hg (by omega) hr hf
  · intro x y hxy
    rw [hgsp] at hxy
    simp only [Except.ok.injEq, Prod.mk.injEq] at hxy
    obtain ⟨rfl, rfl⟩ := hxy
    obtain ⟨s1, s2, s3, s4⟩ := hsb
    obtain ⟨-, -, p3, -⟩ := hp
    have hrows : (1 : Int) ≤ (((r0 :: rest).length : Nat) : Int) := by
      simp only [List.length_cons]; push_cast; omega
    rw [max_eq_left hrows] at s2
    have hw0 : (0 : Int) ≤ ((r0.length : Nat) : Int) := Int.ofNat_nonneg _
    rcases le_total ((r0.length : Nat) : Int) 1 with hw1 | hw1
    · rw [max_eq_right hw1] at s4
      have hsy : splitY = 0 := by omega
      subst hsy
      refine ⟨?_, ?_, ?_, ?_⟩
      · split <;> omega
      · split <;> omega
      · split <;> omega
      · split <;> omega
    · rw [max_eq_left hw1] at s4
      refine ⟨?_, ?_, ?_, ?_⟩
      · split <;> omega
      · split <;> omega
      · split <;> omega
      · split <;> omega

/-- Witness for C24: the search on the 7x7 grid `ringGrid`. -/
theorem ring_search_terminates_witness :
    Rectangular ringGrid 7 ∧
    ∃ maxX maxY maxValue splitX splitY,
      scanMax ringGrid 7 = .ok (maxX, maxY, maxValue) ∧
      (∀ fuel : Nat, max ringGrid.length 7 ≤ fuel →
        ringLoop ringGrid 7 maxX maxY fuel (maxValue * (4 / 5)) 1 0 0 =
          .ok (splitX, splitY)) ∧
      getSplitPoint ringGrid =
        .ok (if splitX > maxX then splitX + 1 else splitX - 1,
             if splitY > maxY then splitY + 1 else splitY - 1) ∧
      (∀ (splitValue : ℚ) (counter : Int),
        ((max ringGrid.length 7 : Nat) : Int) ≤ counter →
        ringScan ringGrid 7 maxX maxY splitValue counter = .ok ⟨false, 0, 0, []⟩) ∧
      (∀ (splitValue : ℚ) (counter : Int) (r : Ring), 1 ≤ counter →
        ringScan ringGrid 7 maxX maxY splitValue counter = .ok r →
        r.itemFound = true → r.vals ≠ []) ∧
      (∀ x y, getSplitPoint ringGrid = .ok (x, y) →
        -1 ≤ x ∧ x ≤ (ringGrid.length : Int) ∧ -1 ≤ y ∧ y ≤ ((7 : Nat) : Int)) :=
  ⟨by unfold Rectangular; decide,
    ring_search_terminates [0, 0, 0, 0, 0, 0, 0] ringGrid.tail
      (by unfold Rectangular; decide)⟩

/-! ## C23: midpoint fallback -/

/-- C23 (midpoint fallback), counterexample. `oddRoot` passes `checkSplit()`, the search
on its smoothed 7x7 grid returns `(-1, -1)`, outside the accepted range on both axes,
and `split()` puts the cut at `(30, 30)`: the middle index `7 / 2 = 3` times the step
`70 / 7`, not the geometric midpoint `(35, 35)` of the rectangle `(0,0)-(70,70)`. -/
theorem fallback_off_midpoint :
    checkSplit oddRoot = true ∧
    (buildGrid oddRoot).toOption.bind (fun g =>
      (smoothGrid oddRoot.Kernel oddRoot.ConvNum g).toOption.bind (fun c =>
        (getSplitPoint c).toOption)) = some (-1, -1) ∧
    (split oddRoot).toOption.bind cut = some (30, 30) ∧
    (oddRoot.BottomLeft.X + oddRoot.TopRight.X) / 2 = 35 ∧
    (oddRoot.BottomLeft.Y + oddRoot.TopRight.Y) / 2 = 35 := by
  refine ⟨by decide!, by decide!, by decide!, by decide!, by decide!⟩

/-- C23 (midpoint fallback), amended. For every node for which `checkSplit()` is true,
with a grid size of at least 1 and a kernel whose rows reach its side, `split()`
returns; whenever the index `getSplitPoint` returns on an axis is below 1 or at least
`len - 1`, with `len` the side of the smoothed grid on that axis, `split()` takes the
middle index `len / 2` (integer division), so the cut lies at
`BottomLeft + (len / 2) * (TopRight - BottomLeft) / gridSize`, pulled to respect the
minimum length on both sides; this is the geometric midpoint `(BottomLeft + TopRight)/2`
when the smoothed grid has `gridSize` cells on that axis and `gridSize` is even, and the
smoothed grid has `gridSize` cells on both axes when the kernel is 3x3. -/
theorem midpoint_fallback (tree : ConvFields) (hc : checkSplit tree = true)
    (hgs : 1 ≤ tree.GridSize) (hk : KernelOK tree.Kernel) :
    ∃ grid convolved xr yr t xR yB,
      buildGrid tree = .ok grid ∧
      smoothGrid tree.Kernel tree.ConvNum grid = .ok convolved ∧
      getSplitPoint convolved = .ok (xr, yr) ∧
      split tree = .ok t ∧ cut t = some (xR, yB) ∧
      ((xr < 1 ∨ xr ≥ (convolved.length : Int) - 1) →
        xR = clampCut tree.BottomLeft.X tree.TopRight.X tree.MinXLength
          ((((convolved.length : Int) / 2 : Int) : ℚ) *
            ((tree.TopRight.X - tree.BottomLeft.X) / (tree.GridSize : ℚ))) ∧
        ((convolved.length : Int) = tree.GridSize → 2 ∣ tree.GridSize →
          xR = (tree.BottomLeft.X + tree.TopRight.X) / 2)) ∧
      ((yr < 1 ∨ yr ≥ (((convolved.head?).getD []).length : Int) - 1) →
        yB = clampCut tree.BottomLeft.Y tree.TopRight.Y tree.MinYLength
          (((((convolved.head?).getD []).length : Int) / 2 : Int) *
            ((tree.TopRight.Y - tree.BottomLeft.Y) / (tree.GridSize : ℚ))) ∧
        ((((convolved.head?).getD []).length : Int) = tree.GridSize → 2 ∣ tree.GridSize →
          yB = (tree.BottomLeft.Y + tree.TopRight.Y) / 2)) ∧
      (tree.Kernel.length = 3 →
        (convolved.length : Int) = tree.GridSize ∧
        (((convolved.head?).getD []).length : Int) = tree.GridSize) := by
  obtain ⟨hw, hh⟩ := checkSplit_cond1 hc
  obtain ⟨grid, hb, hsq⟩ := buildGrid_ok tree (by omega)
  obtain ⟨convolved, n', hsg, hsq', hn', h3⟩ :=
    smoothGrid_ok hk tree.ConvNum hsq (by omega)
  have hne : convolved ≠ [] := by
    intro h
    have := hsq'.1
    rw [h] at this
    simp at this
    omega
  obtain ⟨⟨xr, yr⟩, hp⟩ := getSplitPoint_ok hsq'.2 hne
  obtain ⟨t, ht⟩ := split_total tree hgs hk
  have hidx := smoothIndex_of_grid hsg hp
  have hidx' : splitIndex tree = .ok
      (if xr < 1 ∨ xr ≥ (convolved.length : Int) - 1 then (convolved.length : Int) / 2
       else xr,
       if yr < 1 ∨ yr ≥ (((convolved.head?).getD []).length : Int) - 1 then
         (((convolved.head?).getD []).length : Int) / 2
       else yr) := by
    unfold splitIndex
    rw [hb]
    exact hidx
  have hcut := split_cut ht hidx'
  refine ⟨grid, convolved, xr, yr, t, _, _, hb, hsg, hp, ht, hcut, ?_, ?_, ?_⟩
  · intro hx
    rw [if_pos hx]
    refine ⟨rfl, ?_⟩
    intro hlen heven
    unfold cutX
    dsimp only
    rw [hlen, half_offset hgs heven]
    exact clampCut_half hw
  · intro hy
    rw [if_pos hy]
    refine ⟨rfl, ?_⟩
    intro hlen heven
    unfold cutY
    dsimp only
    rw [hlen, half_offset hgs heven]
    exact clampCut_half hh
  · intro hk3
    have hn : n' = tree.GridSize.toNat := h3 hk3
    have h1 : (convolved.length : Int) = tree.GridSize := by
      rw [hsq'.1, hn]
      exact Int.toNat_of_nonneg (by omega)
    refine ⟨h1, ?_⟩
    cases convolved with
    | nil => exact absurd rfl hne
    | cons r0 rest =>
      have : r0.length = n' := hsq'.2 r0 (List.mem_cons_self _ _)
      simp only [List.head?_cons, Option.getD_some, this, hn]
      exact Int.toNat_of_nonneg (by omega)

/-- Witness for C23: the amended statement at `sampleRoot`, whose grid size 8 is even. -/
theorem midpoint_fallback_witness :
    checkSplit sampleRoot = true ∧ 1 ≤ sampleRoot.GridSize ∧ KernelOK sampleRoot.Kernel ∧
    ∃ grid convolved xr yr t xR yB,
      buildGrid sampleRoot = .ok grid ∧
      smoothGrid sampleRoot.Kernel sampleRoot.ConvNum grid = .ok convolved ∧
      getSplitPoint convolved = .ok (xr, yr) ∧
      split sampleRoot = .ok t ∧ cut t = some (xR, yB) ∧
      ((xr < 1 ∨ xr ≥ (convolved.length : Int) - 1) →
        xR = clampCut sampleRoot.BottomLeft.X sampleRoot.TopRight.X sampleRoot.MinXLength
          ((((convolved.length : Int) / 2 : Int) : ℚ) *
            ((sampleRoot.TopRight.X - sampleRoot.BottomLeft.X) /
              (sampleRoot.GridSize : ℚ))) ∧
        ((convolved.length : Int) = sampleRoot.GridSize → 2 ∣ sampleRoot.GridSize →
          xR = (sampleRoot.BottomLeft.X + sampleRoot.TopRight.X) / 2)) ∧
      ((yr < 1 ∨ yr ≥ (((convolved.head?).getD []).length : Int) - 1) →
        yB = clampCut sampleRoot.BottomLeft.Y sampleRoot.TopRight.Y sampleRoot.MinYLength
          (((((convolved.head?).getD []).length : Int) / 2 : Int) *
            ((sampleRoot.TopRight.Y - sampleRoot.BottomLeft.Y) /
              (sampleRoot.GridSize : ℚ))) ∧
        ((((convolved.head?).getD []).length : Int) = sampleRoot.GridSize →
          2 ∣ sampleRoot.GridSize →
          yB = (sampleRoot.BottomLeft.Y + sampleRoot.TopRight.Y) / 2)) ∧
      (sampleRoot.Kernel.length = 3 →
        (convolved.length : Int) = sampleRoot.GridSize ∧
        (((convolved.head?).getD []).length : Int) = sampleRoot.GridSize) :=
  ⟨by decide!, by decide, defaultKernel_ok,
    midpoint_fallback sampleRoot (by decide!) (by decide) defaultKernel_ok⟩

/-! ## C13: convolution equals its reference definition -/

/-- C13 (convolution equals its reference definition), counterexample. The empty grid is
a square 0x0 grid and the empty kernel a square 0x0 kernel, and `convolve` panics on
them at `len(grid[0])` (line 661) instead of returning a grid. -/
theorem convolve_empty_panics :
    Square ([] : Grid) 0 ∧ Square ([] : Grid) 0 ∧
    convolve [] [] 1 1 = .error .indexOutOfRange := by
  refine ⟨⟨rfl, ?_⟩, ⟨rfl, ?_⟩, by decide⟩
  · intro row hrow; cases hrow
  · intro row hrow; cases hrow

/-- C13 (convolution equals its reference definition), amended. For every square
`n x n` grid `G` with `n ≥ 1` and every square `k x k` kernel `K` with `k ≤ n`,
`convolve(G, K, 1, 1)` returns, without panic and without error, the grid of
`n - k + 3` rows and `n - k + 3` columns whose cell `(i, j)` is the sum over
`0 ≤ x, y < k` of `P[i+x][j+y] * K[x][y]`, where `P` is `G` surrounded by one ring of
zeros; the output has the size of the input when `k = 3`, and an all-zero grid is mapped
to an all-zero grid. -/
theorem convolve_reference (G K : Grid) (n k : Nat) (hG : Square G n) (hK : Square K k)
    (hn : 1 ≤ n) (hk : k ≤ n) :
    ∃ result, convolve G K 1 1 = .ok (.ok result) ∧
      Square result (n - k + 3) ∧
      (∀ i j, i < n - k + 3 → j < n - k + 3 →
        cellAt result i j =
          ((List.range k).map (fun x =>
            ((List.range k).map (fun y =>
              cellAt (padGrid G n) (i + x) (j + y) * cellAt K x y)).sum)).sum) ∧
      (k = 3 → Square result n) ∧
      ((∀ row ∈ G, ∀ v ∈ row, v = 0) → ∀ row ∈ result, ∀ v ∈ row, v = 0) := by
  have hsq : Square (refConvolve G K n k) (n - k + 3) := by
    refine ⟨by simp [refConvolve], ?_⟩
    intro row hrow
    simp only [refConvolve, List.mem_map, List.mem_range] at hrow
    obtain ⟨i, -, rfl⟩ := hrow
    simp
  refine ⟨refConvolve G K n k, convolve_eq hG hK hn hk, hsq, ?_, ?_, ?_⟩
  · intro i j hi hj
    unfold refConvolve
    rw [cellAt_table (fun i j => refCell G K n k i j) (n - k + 3) hi hj]
    rfl
  · intro h3
    have : n - k + 3 = n := by omega
    rw [this] at hsq
    exact hsq
  · intro hz row hrow v hv
    simp only [refConvolve, List.mem_map, List.mem_range] at hrow
    obtain ⟨i, -, rfl⟩ := hrow
    simp only [List.mem_map, List.mem_range] at hv
    obtain ⟨j, -, rfl⟩ := hv
    exact refCell_zero K n k i j hz

/-- Witness for C13: the amended statement at a 3x3 grid and the default kernel. -/
theorem convolve_reference_witness :
    Square ([[1, 0, 0], [0, 0, 0], [0, 0, 2]] : Grid) 3 ∧ Square defaultKernel 3 ∧
    ∃ result, convolve [[1, 0, 0], [0, 0, 0], [0, 0, 2]] defaultKernel 1 1 = .ok (.ok result) ∧
      Square result (3 - 3 + 3) ∧
      (∀ i j, i < 3 - 3 + 3 → j < 3 - 3 + 3 →
        cellAt result i j =
          ((List.range 3).map (fun x =>
            ((List.range 3).map (fun y =>
              cellAt (padGrid [[1, 0, 0], [0, 0, 0], [0, 0, 2]] 3) (i + x) (j + y) *
                cellAt defaultKernel x y)).sum)).sum) ∧
      (3 = 3 → Square result 3) ∧
      ((∀ row ∈ ([[1, 0, 0], [0, 0, 0], [0, 0, 2]] : Grid), ∀ v ∈ row, v = 0) →
        ∀ row ∈ result, ∀ v ∈ row, v = 0) :=
  ⟨⟨rfl, by unfold Rectangular; decide⟩, ⟨rfl, by unfold Rectangular; decide⟩,
    convolve_reference [[1, 0, 0], [0, 0, 0], [0, 0, 2]] defaultKernel 3 3
      ⟨rfl, by unfold Rectangular; decide⟩ ⟨rfl, by unfold Rectangular; decide⟩
      (by decide) (by decide)⟩

/-! ## C20: baseline tag set -/

/-- C20 (baseline tag set). For every node in which at least one point carries a tag,
after `getBaseline()` a string is in `Stats.BaselineTags` exactly when it is one of the
tags carried by the node's points and its occurrence count (the number of points whose
tag list contains it) is strictly greater than the exact arithmetic mean of the counts
over the distinct tags; the truncation of the mean to an integer in `filterTags` does
not change this set. -/
theorem baseline_tag_set (tree : ConvFields) (h : ∃ p ∈ tree.Points, tagsOf p ≠ []) :
    ∀ t, t ∈ (getBaseline tree).Stats.BaselineTags ↔
      (t ∈ distinctTags tree.Points ∧
        (tagCount tree.Points t : ℚ) > meanTagCount tree.Points) := by
  intro t
  obtain ⟨hnd, hval, hmem, hpos⟩ := tagValues_inv tree.Points
  have hne : (tree.Points.foldl tagStep []).length > 0 := by
    obtain ⟨p, hp, htags⟩ := h
    obtain ⟨s, hs⟩ := List.exists_mem_of_ne_nil _ htags
    have h1 : s ∈ distinctTags tree.Points := by
      unfold distinctTags
      rw [List.mem_dedup, mem_allTags]
      exact ⟨p, hp, hs⟩
    have h2 : s ∈ (tree.Points.foldl tagStep []).map Prod.fst := by
      rw [hmem s]
      exact Int.natCast_pos.2 ((mem_distinctTags _ _).1 h1)
    have h3 := List.length_pos_of_mem h2
    rw [List.length_map] at h3
    exact h3
  rw [getBaseline_eq, if_pos hne]
  show t ∈ filterTags (tree.Points.foldl tagStep []) ↔ _
  rw [mem_filterTags, tagValues_mean, truncToInt_nonneg (meanTagCount_nonneg _)]
  constructor
  · rintro ⟨kv, hkv, hgt, rfl⟩
    have hk : kv.1 ∈ (tree.Points.foldl tagStep []).map Prod.fst := List.mem_map_of_mem _ hkv
    refine ⟨(mem_distinctTags _ _).2 (Int.natCast_pos.1 ((hmem kv.1).1 hk)), ?_⟩
    rw [hval kv hkv] at hgt
    have := Int.floor_lt.1 hgt
    simpa using this
  · rintro ⟨hd, hgt⟩
    have hk : t ∈ (tree.Points.foldl tagStep []).map Prod.fst :=
      (hmem t).2 (Int.natCast_pos.2 ((mem_distinctTags _ _).1 hd))
    rw [List.mem_map] at hk
    obtain ⟨kv, hkv, rfl⟩ := hk
    refine ⟨kv, hkv, ?_, rfl⟩
    rw [hval kv hkv]
    apply Int.floor_lt.2
    simpa using hgt

/-- Witness for C20: the leaf `tagLeaf`, whose counts are 3, 2, 1 and 1 with mean `7/4`. -/
theorem baseline_tag_set_witness :
    (∃ p ∈ tagLeaf.Points, tagsOf p ≠ []) ∧
    ∀ t, t ∈ (getBaseline tagLeaf).Stats.BaselineTags ↔
      (t ∈ distinctTags tagLeaf.Points ∧
        (tagCount tagLeaf.Points t : ℚ) > meanTagCount tagLeaf.Points) :=
  ⟨⟨⟨1, 1, 1, some ["a", "b", "a"]⟩, by decide, by decide⟩,
    baseline_tag_set tagLeaf ⟨⟨1, 1, 1, some ["a", "b", "a"]⟩, by decide, by decide⟩⟩

end ConvTreeModel
